import Mathlib

/-!
# Field extraction engine of the identity-document parsers

A shallow embedding of `src/backend/parsers/aadhar-parser.js` and
`src/backend/parsers/passport-parser.js`, followed by theorems about the
two `parse` functions and about the decoder of the machine readable zone.

Modelling conventions

* A JavaScript string is a list of characters (`Str`), one `Char` per UTF-16
  code unit.  `String.prototype.toUpperCase` is the full case mapping of Unicode,
  read from a table (`ß` becomes `SS`, `ſ` becomes `S`).  The `i` flag of a
  pattern compares characters after the upper-casing of the ASCII letters only
  (`foldCase`): the letters of the patterns of the source are ASCII, and the
  canonicalization of ECMAScript leaves a character outside ASCII as it is when
  its upper case is in ASCII or is more than one character.
* A regular expression of the source is written as a term of `Re`, and is run by
  `Re.run`, a backtracking matcher that returns the successful continuations in
  the priority order of the JavaScript semantics (greedy before lazy, left
  alternative before right alternative).  The first element is the match that
  JavaScript reports.  What a pattern accepts is said once more without the
  matcher, by the relation `Re.Accepts`; `run_sound` and `run_complete` show
  that the matcher finds exactly the accepted words.
* Numbers that are confidences are rationals, so that the arithmetic is exact.
* `console.log` calls are diagnostic only and are left out.
-/

namespace IDP

/-! ## JavaScript strings -/

/-- A JavaScript string, as the list of its characters. -/
abbrev Str := List Char

/-- The line feed character, the separator of `split('\n')`. -/
def LF : Char := Char.ofNat 10

/-- The apostrophe character. -/
def APOSTROPHE : Char := Char.ofNat 39

/-- The backtick character. -/
def BACKTICK : Char := Char.ofNat 96

/-- The class `\s` of a JavaScript regular expression, which is also the set of
characters removed by `trim()`: white space and line terminators. -/
def isSpace (c : Char) : Bool :=
  let n := c.toNat
  n == 9 || n == 10 || n == 11 || n == 12 || n == 13 || n == 32 || n == 160 ||
  n == 5760 || (8192 ≤ n && n ≤ 8202) || n == 8232 || n == 8233 || n == 8239 ||
  n == 8287 || n == 12288 || n == 65279

/-- The class `\d`. -/
def isDigit (c : Char) : Bool :=
  48 ≤ c.toNat && c.toNat ≤ 57

/-- The class `[A-Z]`. -/
def isUpper (c : Char) : Bool :=
  65 ≤ c.toNat && c.toNat ≤ 90

/-- The class `[a-z]`. -/
def isLower (c : Char) : Bool :=
  97 ≤ c.toNat && c.toNat ≤ 122

/-- The class `[A-Za-z]`, which is also `[A-Z]` and `[a-z]` under the `i` flag. -/
def isLetter (c : Char) : Bool :=
  isUpper c || isLower c

/-- The class `\w`. -/
def isWordChar (c : Char) : Bool :=
  isLetter c || isDigit c || c == '_'

/-- The class `.` (without the `s` flag): anything but a line terminator. -/
def isDot (c : Char) : Bool :=
  !(c.toNat == 10 || c.toNat == 13 || c.toNat == 8232 || c.toNat == 8233)

/-- Upper-casing of one character (ASCII letters). -/
def upperChar (c : Char) : Char :=
  if isLower c then Char.ofNat (c.toNat - 32) else c

/-- Upper-casing of the ASCII letters, every other character unchanged: what the
`i` flag does to a text that is compared with the ASCII letters of a pattern,
and what `toUpperCase()` does to a text in ASCII. -/
def foldCase (s : Str) : Str :=
  s.map upperChar

/-! ### `String.prototype.toUpperCase`

The method maps every code point by the full case mapping of the Unicode
Character Database: the upper-case mappings of `UnicodeData.txt` and the
unconditional ones of `SpecialCasing.txt`.  The table below is that mapping at
version 14.0 for the code points outside ASCII, in increasing order and cut into
blocks of at most 64 entries; a code point that has no entry is left unchanged.
So `ß` (`0x00DF`) becomes `SS`, `ſ` (`0x017F`) becomes `S`, `ı` (`0x0131`)
becomes `I` and `é` (`0x00E9`) becomes `É` (`0x00C9`). -/

/-- The upper-case mappings of the code points `0x00B5` to `0x013E`. -/
def upperCaseBlock01 : List (Nat × List Nat) :=
  [(0x00B5, [0x039C]), (0x00DF, [0x0053, 0x0053]), (0x00E0, [0x00C0]), (0x00E1, [0x00C1]),
   (0x00E2, [0x00C2]), (0x00E3, [0x00C3]), (0x00E4, [0x00C4]), (0x00E5, [0x00C5]),
   (0x00E6, [0x00C6]), (0x00E7, [0x00C7]), (0x00E8, [0x00C8]), (0x00E9, [0x00C9]),
   (0x00EA, [0x00CA]), (0x00EB, [0x00CB]), (0x00EC, [0x00CC]), (0x00ED, [0x00CD]),
   (0x00EE, [0x00CE]), (0x00EF, [0x00CF]), (0x00F0, [0x00D0]), (0x00F1, [0x00D1]),
   (0x00F2, [0x00D2]), (0x00F3, [0x00D3]), (0x00F4, [0x00D4]), (0x00F5, [0x00D5]),
   (0x00F6, [0x00D6]), (0x00F8, [0x00D8]), (0x00F9, [0x00D9]), (0x00FA, [0x00DA]),
   (0x00FB, [0x00DB]), (0x00FC, [0x00DC]), (0x00FD, [0x00DD]), (0x00FE, [0x00DE]),
   (0x00FF, [0x0178]), (0x0101, [0x0100]), (0x0103, [0x0102]), (0x0105, [0x0104]),
   (0x0107, [0x0106]), (0x0109, [0x0108]), (0x010B, [0x010A]), (0x010D, [0x010C]),
   (0x010F, [0x010E]), (0x0111, [0x0110]), (0x0113, [0x0112]), (0x0115, [0x0114]),
   (0x0117, [0x0116]), (0x0119, [0x0118]), (0x011B, [0x011A]), (0x011D, [0x011C]),
   (0x011F, [0x011E]), (0x0121, [0x0120]), (0x0123, [0x0122]), (0x0125, [0x0124]),
   (0x0127, [0x0126]), (0x0129, [0x0128]), (0x012B, [0x012A]), (0x012D, [0x012C]),
   (0x012F, [0x012E]), (0x0131, [0x0049]), (0x0133, [0x0132]), (0x0135, [0x0134]),
   (0x0137, [0x0136]), (0x013A, [0x0139]), (0x013C, [0x013B]), (0x013E, [0x013D])]

/-- The upper-case mappings of the code points `0x0140` to `0x01D4`. -/
def upperCaseBlock02 : List (Nat × List Nat) :=
  [(0x0140, [0x013F]), (0x0142, [0x0141]), (0x0144, [0x0143]), (0x0146, [0x0145]),
   (0x0148, [0x0147]), (0x0149, [0x02BC, 0x004E]), (0x014B, [0x014A]), (0x014D, [0x014C]),
   (0x014F, [0x014E]), (0x0151, [0x0150]), (0x0153, [0x0152]), (0x0155, [0x0154]),
   (0x0157, [0x0156]), (0x0159, [0x0158]), (0x015B, [0x015A]), (0x015D, [0x015C]),
   (0x015F, [0x015E]), (0x0161, [0x0160]), (0x0163, [0x0162]), (0x0165, [0x0164]),
   (0x0167, [0x0166]), (0x0169, [0x0168]), (0x016B, [0x016A]), (0x016D, [0x016C]),
   (0x016F, [0x016E]), (0x0171, [0x0170]), (0x0173, [0x0172]), (0x0175, [0x0174]),
   (0x0177, [0x0176]), (0x017A, [0x0179]), (0x017C, [0x017B]), (0x017E, [0x017D]),
   (0x017F, [0x0053]), (0x0180, [0x0243]), (0x0183, [0x0182]), (0x0185, [0x0184]),
   (0x0188, [0x0187]), (0x018C, [0x018B]), (0x0192, [0x0191]), (0x0195, [0x01F6]),
   (0x0199, [0x0198]), (0x019A, [0x023D]), (0x019E, [0x0220]), (0x01A1, [0x01A0]),
   (0x01A3, [0x01A2]), (0x01A5, [0x01A4]), (0x01A8, [0x01A7]), (0x01AD, [0x01AC]),
   (0x01B0, [0x01AF]), (0x01B4, [0x01B3]), (0x01B6, [0x01B5]), (0x01B9, [0x01B8]),
   (0x01BD, [0x01BC]), (0x01BF, [0x01F7]), (0x01C5, [0x01C4]), (0x01C6, [0x01C4]),
   (0x01C8, [0x01C7]), (0x01C9, [0x01C7]), (0x01CB, [0x01CA]), (0x01CC, [0x01CA]),
   (0x01CE, [0x01CD]), (0x01D0, [0x01CF]), (0x01D2, [0x01D1]), (0x01D4, [0x01D3])]

/-- The upper-case mappings of the code points `0x01D6` to `0x0259`. -/
def upperCaseBlock03 : List (Nat × List Nat) :=
  [(0x01D6, [0x01D5]), (0x01D8, [0x01D7]), (0x01DA, [0x01D9]), (0x01DC, [0x01DB]),
   (0x01DD, [0x018E]), (0x01DF, [0x01DE]), (0x01E1, [0x01E0]), (0x01E3, [0x01E2]),
   (0x01E5, [0x01E4]), (0x01E7, [0x01E6]), (0x01E9, [0x01E8]), (0x01EB, [0x01EA]),
   (0x01ED, [0x01EC]), (0x01EF, [0x01EE]), (0x01F0, [0x004A, 0x030C]), (0x01F2, [0x01F1]),
   (0x01F3, [0x01F1]), (0x01F5, [0x01F4]), (0x01F9, [0x01F8]), (0x01FB, [0x01FA]),
   (0x01FD, [0x01FC]), (0x01FF, [0x01FE]), (0x0201, [0x0200]), (0x0203, [0x0202]),
   (0x0205, [0x0204]), (0x0207, [0x0206]), (0x0209, [0x0208]), (0x020B, [0x020A]),
   (0x020D, [0x020C]), (0x020F, [0x020E]), (0x0211, [0x0210]), (0x0213, [0x0212]),
   (0x0215, [0x0214]), (0x0217, [0x0216]), (0x0219, [0x0218]), (0x021B, [0x021A]),
   (0x021D, [0x021C]), (0x021F, [0x021E]), (0x0223, [0x0222]), (0x0225, [0x0224]),
   (0x0227, [0x0226]), (0x0229, [0x0228]), (0x022B, [0x022A]), (0x022D, [0x022C]),
   (0x022F, [0x022E]), (0x0231, [0x0230]), (0x0233, [0x0232]), (0x023C, [0x023B]),
   (0x023F, [0x2C7E]), (0x0240, [0x2C7F]), (0x0242, [0x0241]), (0x0247, [0x0246]),
   (0x0249, [0x0248]), (0x024B, [0x024A]), (0x024D, [0x024C]), (0x024F, [0x024E]),
   (0x0250, [0x2C6F]), (0x0251, [0x2C6D]), (0x0252, [0x2C70]), (0x0253, [0x0181]),
   (0x0254, [0x0186]), (0x0256, [0x0189]), (0x0257, [0x018A]), (0x0259, [0x018F])]

/-- The upper-case mappings of the code points `0x025B` to `0x03C6`. -/
def upperCaseBlock04 : List (Nat × List Nat) :=
  [(0x025B, [0x0190]), (0x025C, [0xA7AB]), (0x0260, [0x0193]), (0x0261, [0xA7AC]),
   (0x0263, [0x0194]), (0x0265, [0xA78D]), (0x0266, [0xA7AA]), (0x0268, [0x0197]),
   (0x0269, [0x0196]), (0x026A, [0xA7AE]), (0x026B, [0x2C62]), (0x026C, [0xA7AD]),
   (0x026F, [0x019C]), (0x0271, [0x2C6E]), (0x0272, [0x019D]), (0x0275, [0x019F]),
   (0x027D, [0x2C64]), (0x0280, [0x01A6]), (0x0282, [0xA7C5]), (0x0283, [0x01A9]),
   (0x0287, [0xA7B1]), (0x0288, [0x01AE]), (0x0289, [0x0244]), (0x028A, [0x01B1]),
   (0x028B, [0x01B2]), (0x028C, [0x0245]), (0x0292, [0x01B7]), (0x029D, [0xA7B2]),
   (0x029E, [0xA7B0]), (0x0345, [0x0399]), (0x0371, [0x0370]), (0x0373, [0x0372]),
   (0x0377, [0x0376]), (0x037B, [0x03FD]), (0x037C, [0x03FE]), (0x037D, [0x03FF]),
   (0x0390, [0x0399, 0x0308, 0x0301]), (0x03AC, [0x0386]), (0x03AD, [0x0388]), (0x03AE, [0x0389]),
   (0x03AF, [0x038A]), (0x03B0, [0x03A5, 0x0308, 0x0301]), (0x03B1, [0x0391]), (0x03B2, [0x0392]),
   (0x03B3, [0x0393]), (0x03B4, [0x0394]), (0x03B5, [0x0395]), (0x03B6, [0x0396]),
   (0x03B7, [0x0397]), (0x03B8, [0x0398]), (0x03B9, [0x0399]), (0x03BA, [0x039A]),
   (0x03BB, [0x039B]), (0x03BC, [0x039C]), (0x03BD, [0x039D]), (0x03BE, [0x039E]),
   (0x03BF, [0x039F]), (0x03C0, [0x03A0]), (0x03C1, [0x03A1]), (0x03C2, [0x03A3]),
   (0x03C3, [0x03A3]), (0x03C4, [0x03A4]), (0x03C5, [0x03A5]), (0x03C6, [0x03A6])]

/-- The upper-case mappings of the code points `0x03C7` to `0x044F`. -/
def upperCaseBlock05 : List (Nat × List Nat) :=
  [(0x03C7, [0x03A7]), (0x03C8, [0x03A8]), (0x03C9, [0x03A9]), (0x03CA, [0x03AA]),
   (0x03CB, [0x03AB]), (0x03CC, [0x038C]), (0x03CD, [0x038E]), (0x03CE, [0x038F]),
   (0x03D0, [0x0392]), (0x03D1, [0x0398]), (0x03D5, [0x03A6]), (0x03D6, [0x03A0]),
   (0x03D7, [0x03CF]), (0x03D9, [0x03D8]), (0x03DB, [0x03DA]), (0x03DD, [0x03DC]),
   (0x03DF, [0x03DE]), (0x03E1, [0x03E0]), (0x03E3, [0x03E2]), (0x03E5, [0x03E4]),
   (0x03E7, [0x03E6]), (0x03E9, [0x03E8]), (0x03EB, [0x03EA]), (0x03ED, [0x03EC]),
   (0x03EF, [0x03EE]), (0x03F0, [0x039A]), (0x03F1, [0x03A1]), (0x03F2, [0x03F9]),
   (0x03F3, [0x037F]), (0x03F5, [0x0395]), (0x03F8, [0x03F7]), (0x03FB, [0x03FA]),
   (0x0430, [0x0410]), (0x0431, [0x0411]), (0x0432, [0x0412]), (0x0433, [0x0413]),
   (0x0434, [0x0414]), (0x0435, [0x0415]), (0x0436, [0x0416]), (0x0437, [0x0417]),
   (0x0438, [0x0418]), (0x0439, [0x0419]), (0x043A, [0x041A]), (0x043B, [0x041B]),
   (0x043C, [0x041C]), (0x043D, [0x041D]), (0x043E, [0x041E]), (0x043F, [0x041F]),
   (0x0440, [0x0420]), (0x0441, [0x0421]), (0x0442, [0x0422]), (0x0443, [0x0423]),
   (0x0444, [0x0424]), (0x0445, [0x0425]), (0x0446, [0x0426]), (0x0447, [0x0427]),
   (0x0448, [0x0428]), (0x0449, [0x0429]), (0x044A, [0x042A]), (0x044B, [0x042B]),
   (0x044C, [0x042C]), (0x044D, [0x042D]), (0x044E, [0x042E]), (0x044F, [0x042F])]

/-- The upper-case mappings of the code points `0x0450` to `0x04C8`. -/
def upperCaseBlock06 : List (Nat × List Nat) :=
  [(0x0450, [0x0400]), (0x0451, [0x0401]), (0x0452, [0x0402]), (0x0453, [0x0403]),
   (0x0454, [0x0404]), (0x0455, [0x0405]), (0x0456, [0x0406]), (0x0457, [0x0407]),
   (0x0458, [0x0408]), (0x0459, [0x0409]), (0x045A, [0x040A]), (0x045B, [0x040B]),
   (0x045C, [0x040C]), (0x045D, [0x040D]), (0x045E, [0x040E]), (0x045F, [0x040F]),
   (0x0461, [0x0460]), (0x0463, [0x0462]), (0x0465, [0x0464]), (0x0467, [0x0466]),
   (0x0469, [0x0468]), (0x046B, [0x046A]), (0x046D, [0x046C]), (0x046F, [0x046E]),
   (0x0471, [0x0470]), (0x0473, [0x0472]), (0x0475, [0x0474]), (0x0477, [0x0476]),
   (0x0479, [0x0478]), (0x047B, [0x047A]), (0x047D, [0x047C]), (0x047F, [0x047E]),
   (0x0481, [0x0480]), (0x048B, [0x048A]), (0x048D, [0x048C]), (0x048F, [0x048E]),
   (0x0491, [0x0490]), (0x0493, [0x0492]), (0x0495, [0x0494]), (0x0497, [0x0496]),
   (0x0499, [0x0498]), (0x049B, [0x049A]), (0x049D, [0x049C]), (0x049F, [0x049E]),
   (0x04A1, [0x04A0]), (0x04A3, [0x04A2]), (0x04A5, [0x04A4]), (0x04A7, [0x04A6]),
   (0x04A9, [0x04A8]), (0x04AB, [0x04AA]), (0x04AD, [0x04AC]), (0x04AF, [0x04AE]),
   (0x04B1, [0x04B0]), (0x04B3, [0x04B2]), (0x04B5, [0x04B4]), (0x04B7, [0x04B6]),
   (0x04B9, [0x04B8]), (0x04BB, [0x04BA]), (0x04BD, [0x04BC]), (0x04BF, [0x04BE]),
   (0x04C2, [0x04C1]), (0x04C4, [0x04C3]), (0x04C6, [0x04C5]), (0x04C8, [0x04C7])]

/-- The upper-case mappings of the code points `0x04CA` to `0x056C`. -/
def upperCaseBlock07 : List (Nat × List Nat) :=
  [(0x04CA, [0x04C9]), (0x04CC, [0x04CB]), (0x04CE, [0x04CD]), (0x04CF, [0x04C0]),
   (0x04D1, [0x04D0]), (0x04D3, [0x04D2]), (0x04D5, [0x04D4]), (0x04D7, [0x04D6]),
   (0x04D9, [0x04D8]), (0x04DB, [0x04DA]), (0x04DD, [0x04DC]), (0x04DF, [0x04DE]),
   (0x04E1, [0x04E0]), (0x04E3, [0x04E2]), (0x04E5, [0x04E4]), (0x04E7, [0x04E6]),
   (0x04E9, [0x04E8]), (0x04EB, [0x04EA]), (0x04ED, [0x04EC]), (0x04EF, [0x04EE]),
   (0x04F1, [0x04F0]), (0x04F3, [0x04F2]), (0x04F5, [0x04F4]), (0x04F7, [0x04F6]),
   (0x04F9, [0x04F8]), (0x04FB, [0x04FA]), (0x04FD, [0x04FC]), (0x04FF, [0x04FE]),
   (0x0501, [0x0500]), (0x0503, [0x0502]), (0x0505, [0x0504]), (0x0507, [0x0506]),
   (0x0509, [0x0508]), (0x050B, [0x050A]), (0x050D, [0x050C]), (0x050F, [0x050E]),
   (0x0511, [0x0510]), (0x0513, [0x0512]), (0x0515, [0x0514]), (0x0517, [0x0516]),
   (0x0519, [0x0518]), (0x051B, [0x051A]), (0x051D, [0x051C]), (0x051F, [0x051E]),
   (0x0521, [0x0520]), (0x0523, [0x0522]), (0x0525, [0x0524]), (0x0527, [0x0526]),
   (0x0529, [0x0528]), (0x052B, [0x052A]), (0x052D, [0x052C]), (0x052F, [0x052E]),
   (0x0561, [0x0531]), (0x0562, [0x0532]), (0x0563, [0x0533]), (0x0564, [0x0534]),
   (0x0565, [0x0535]), (0x0566, [0x0536]), (0x0567, [0x0537]), (0x0568, [0x0538]),
   (0x0569, [0x0539]), (0x056A, [0x053A]), (0x056B, [0x053B]), (0x056C, [0x053C])]

/-- The upper-case mappings of the code points `0x056D` to `0x10F4`. -/
def upperCaseBlock08 : List (Nat × List Nat) :=
  [(0x056D, [0x053D]), (0x056E, [0x053E]), (0x056F, [0x053F]), (0x0570, [0x0540]),
   (0x0571, [0x0541]), (0x0572, [0x0542]), (0x0573, [0x0543]), (0x0574, [0x0544]),
   (0x0575, [0x0545]), (0x0576, [0x0546]), (0x0577, [0x0547]), (0x0578, [0x0548]),
   (0x0579, [0x0549]), (0x057A, [0x054A]), (0x057B, [0x054B]), (0x057C, [0x054C]),
   (0x057D, [0x054D]), (0x057E, [0x054E]), (0x057F, [0x054F]), (0x0580, [0x0550]),
   (0x0581, [0x0551]), (0x0582, [0x0552]), (0x0583, [0x0553]), (0x0584, [0x0554]),
   (0x0585, [0x0555]), (0x0586, [0x0556]), (0x0587, [0x0535, 0x0552]), (0x10D0, [0x1C90]),
   (0x10D1, [0x1C91]), (0x10D2, [0x1C92]), (0x10D3, [0x1C93]), (0x10D4, [0x1C94]),
   (0x10D5, [0x1C95]), (0x10D6, [0x1C96]), (0x10D7, [0x1C97]), (0x10D8, [0x1C98]),
   (0x10D9, [0x1C99]), (0x10DA, [0x1C9A]), (0x10DB, [0x1C9B]), (0x10DC, [0x1C9C]),
   (0x10DD, [0x1C9D]), (0x10DE, [0x1C9E]), (0x10DF, [0x1C9F]), (0x10E0, [0x1CA0]),
   (0x10E1, [0x1CA1]), (0x10E2, [0x1CA2]), (0x10E3, [0x1CA3]), (0x10E4, [0x1CA4]),
   (0x10E5, [0x1CA5]), (0x10E6, [0x1CA6]), (0x10E7, [0x1CA7]), (0x10E8, [0x1CA8]),
   (0x10E9, [0x1CA9]), (0x10EA, [0x1CAA]), (0x10EB, [0x1CAB]), (0x10EC, [0x1CAC]),
   (0x10ED, [0x1CAD]), (0x10EE, [0x1CAE]), (0x10EF, [0x1CAF]), (0x10F0, [0x1CB0]),
   (0x10F1, [0x1CB1]), (0x10F2, [0x1CB2]), (0x10F3, [0x1CB3]), (0x10F4, [0x1CB4])]

/-- The upper-case mappings of the code points `0x10F5` to `0x1E49`. -/
def upperCaseBlock09 : List (Nat × List Nat) :=
  [(0x10F5, [0x1CB5]), (0x10F6, [0x1CB6]), (0x10F7, [0x1CB7]), (0x10F8, [0x1CB8]),
   (0x10F9, [0x1CB9]), (0x10FA, [0x1CBA]), (0x10FD, [0x1CBD]), (0x10FE, [0x1CBE]),
   (0x10FF, [0x1CBF]), (0x13F8, [0x13F0]), (0x13F9, [0x13F1]), (0x13FA, [0x13F2]),
   (0x13FB, [0x13F3]), (0x13FC, [0x13F4]), (0x13FD, [0x13F5]), (0x1C80, [0x0412]),
   (0x1C81, [0x0414]), (0x1C82, [0x041E]), (0x1C83, [0x0421]), (0x1C84, [0x0422]),
   (0x1C85, [0x0422]), (0x1C86, [0x042A]), (0x1C87, [0x0462]), (0x1C88, [0xA64A]),
   (0x1D79, [0xA77D]), (0x1D7D, [0x2C63]), (0x1D8E, [0xA7C6]), (0x1E01, [0x1E00]),
   (0x1E03, [0x1E02]), (0x1E05, [0x1E04]), (0x1E07, [0x1E06]), (0x1E09, [0x1E08]),
   (0x1E0B, [0x1E0A]), (0x1E0D, [0x1E0C]), (0x1E0F, [0x1E0E]), (0x1E11, [0x1E10]),
   (0x1E13, [0x1E12]), (0x1E15, [0x1E14]), (0x1E17, [0x1E16]), (0x1E19, [0x1E18]),
   (0x1E1B, [0x1E1A]), (0x1E1D, [0x1E1C]), (0x1E1F, [0x1E1E]), (0x1E21, [0x1E20]),
   (0x1E23, [0x1E22]), (0x1E25, [0x1E24]), (0x1E27, [0x1E26]), (0x1E29, [0x1E28]),
   (0x1E2B, [0x1E2A]), (0x1E2D, [0x1E2C]), (0x1E2F, [0x1E2E]), (0x1E31, [0x1E30]),
   (0x1E33, [0x1E32]), (0x1E35, [0x1E34]), (0x1E37, [0x1E36]), (0x1E39, [0x1E38]),
   (0x1E3B, [0x1E3A]), (0x1E3D, [0x1E3C]), (0x1E3F, [0x1E3E]), (0x1E41, [0x1E40]),
   (0x1E43, [0x1E42]), (0x1E45, [0x1E44]), (0x1E47, [0x1E46]), (0x1E49, [0x1E48])]

/-- The upper-case mappings of the code points `0x1E4B` to `0x1EC7`. -/
def upperCaseBlock10 : List (Nat × List Nat) :=
  [(0x1E4B, [0x1E4A]), (0x1E4D, [0x1E4C]), (0x1E4F, [0x1E4E]), (0x1E51, [0x1E50]),
   (0x1E53, [0x1E52]), (0x1E55, [0x1E54]), (0x1E57, [0x1E56]), (0x1E59, [0x1E58]),
   (0x1E5B, [0x1E5A]), (0x1E5D, [0x1E5C]), (0x1E5F, [0x1E5E]), (0x1E61, [0x1E60]),
   (0x1E63, [0x1E62]), (0x1E65, [0x1E64]), (0x1E67, [0x1E66]), (0x1E69, [0x1E68]),
   (0x1E6B, [0x1E6A]), (0x1E6D, [0x1E6C]), (0x1E6F, [0x1E6E]), (0x1E71, [0x1E70]),
   (0x1E73, [0x1E72]), (0x1E75, [0x1E74]), (0x1E77, [0x1E76]), (0x1E79, [0x1E78]),
   (0x1E7B, [0x1E7A]), (0x1E7D, [0x1E7C]), (0x1E7F, [0x1E7E]), (0x1E81, [0x1E80]),
   (0x1E83, [0x1E82]), (0x1E85, [0x1E84]), (0x1E87, [0x1E86]), (0x1E89, [0x1E88]),
   (0x1E8B, [0x1E8A]), (0x1E8D, [0x1E8C]), (0x1E8F, [0x1E8E]), (0x1E91, [0x1E90]),
   (0x1E93, [0x1E92]), (0x1E95, [0x1E94]), (0x1E96, [0x0048, 0x0331]), (0x1E97, [0x0054, 0x0308]),
   (0x1E98, [0x0057, 0x030A]), (0x1E99, [0x0059, 0x030A]), (0x1E9A, [0x0041, 0x02BE]), (0x1E9B, [0x1E60]),
   (0x1EA1, [0x1EA0]), (0x1EA3, [0x1EA2]), (0x1EA5, [0x1EA4]), (0x1EA7, [0x1EA6]),
   (0x1EA9, [0x1EA8]), (0x1EAB, [0x1EAA]), (0x1EAD, [0x1EAC]), (0x1EAF, [0x1EAE]),
   (0x1EB1, [0x1EB0]), (0x1EB3, [0x1EB2]), (0x1EB5, [0x1EB4]), (0x1EB7, [0x1EB6]),
   (0x1EB9, [0x1EB8]), (0x1EBB, [0x1EBA]), (0x1EBD, [0x1EBC]), (0x1EBF, [0x1EBE]),
   (0x1EC1, [0x1EC0]), (0x1EC3, [0x1EC2]), (0x1EC5, [0x1EC4]), (0x1EC7, [0x1EC6])]

/-- The upper-case mappings of the code points `0x1EC9` to `0x1F45`. -/
def upperCaseBlock11 : List (Nat × List Nat) :=
  [(0x1EC9, [0x1EC8]), (0x1ECB, [0x1ECA]), (0x1ECD, [0x1ECC]), (0x1ECF, [0x1ECE]),
   (0x1ED1, [0x1ED0]), (0x1ED3, [0x1ED2]), (0x1ED5, [0x1ED4]), (0x1ED7, [0x1ED6]),
   (0x1ED9, [0x1ED8]), (0x1EDB, [0x1EDA]), (0x1EDD, [0x1EDC]), (0x1EDF, [0x1EDE]),
   (0x1EE1, [0x1EE0]), (0x1EE3, [0x1EE2]), (0x1EE5, [0x1EE4]), (0x1EE7, [0x1EE6]),
   (0x1EE9, [0x1EE8]), (0x1EEB, [0x1EEA]), (0x1EED, [0x1EEC]), (0x1EEF, [0x1EEE]),
   (0x1EF1, [0x1EF0]), (0x1EF3, [0x1EF2]), (0x1EF5, [0x1EF4]), (0x1EF7, [0x1EF6]),
   (0x1EF9, [0x1EF8]), (0x1EFB, [0x1EFA]), (0x1EFD, [0x1EFC]), (0x1EFF, [0x1EFE]),
   (0x1F00, [0x1F08]), (0x1F01, [0x1F09]), (0x1F02, [0x1F0A]), (0x1F03, [0x1F0B]),
   (0x1F04, [0x1F0C]), (0x1F05, [0x1F0D]), (0x1F06, [0x1F0E]), (0x1F07, [0x1F0F]),
   (0x1F10, [0x1F18]), (0x1F11, [0x1F19]), (0x1F12, [0x1F1A]), (0x1F13, [0x1F1B]),
   (0x1F14, [0x1F1C]), (0x1F15, [0x1F1D]), (0x1F20, [0x1F28]), (0x1F21, [0x1F29]),
   (0x1F22, [0x1F2A]), (0x1F23, [0x1F2B]), (0x1F24, [0x1F2C]), (0x1F25, [0x1F2D]),
   (0x1F26, [0x1F2E]), (0x1F27, [0x1F2F]), (0x1F30, [0x1F38]), (0x1F31, [0x1F39]),
   (0x1F32, [0x1F3A]), (0x1F33, [0x1F3B]), (0x1F34, [0x1F3C]), (0x1F35, [0x1F3D]),
   (0x1F36, [0x1F3E]), (0x1F37, [0x1F3F]), (0x1F40, [0x1F48]), (0x1F41, [0x1F49]),
   (0x1F42, [0x1F4A]), (0x1F43, [0x1F4B]), (0x1F44, [0x1F4C]), (0x1F45, [0x1F4D])]

/-- The upper-case mappings of the code points `0x1F50` to `0x1FA1`. -/
def upperCaseBlock12 : List (Nat × List Nat) :=
  [(0x1F50, [0x03A5, 0x0313]), (0x1F51, [0x1F59]), (0x1F52, [0x03A5, 0x0313, 0x0300]), (0x1F53, [0x1F5B]),
   (0x1F54, [0x03A5, 0x0313, 0x0301]), (0x1F55, [0x1F5D]), (0x1F56, [0x03A5, 0x0313, 0x0342]), (0x1F57, [0x1F5F]),
   (0x1F60, [0x1F68]), (0x1F61, [0x1F69]), (0x1F62, [0x1F6A]), (0x1F63, [0x1F6B]),
   (0x1F64, [0x1F6C]), (0x1F65, [0x1F6D]), (0x1F66, [0x1F6E]), (0x1F67, [0x1F6F]),
   (0x1F70, [0x1FBA]), (0x1F71, [0x1FBB]), (0x1F72, [0x1FC8]), (0x1F73, [0x1FC9]),
   (0x1F74, [0x1FCA]), (0x1F75, [0x1FCB]), (0x1F76, [0x1FDA]), (0x1F77, [0x1FDB]),
   (0x1F78, [0x1FF8]), (0x1F79, [0x1FF9]), (0x1F7A, [0x1FEA]), (0x1F7B, [0x1FEB]),
   (0x1F7C, [0x1FFA]), (0x1F7D, [0x1FFB]), (0x1F80, [0x1F08, 0x0399]), (0x1F81, [0x1F09, 0x0399]),
   (0x1F82, [0x1F0A, 0x0399]), (0x1F83, [0x1F0B, 0x0399]), (0x1F84, [0x1F0C, 0x0399]), (0x1F85, [0x1F0D, 0x0399]),
   (0x1F86, [0x1F0E, 0x0399]), (0x1F87, [0x1F0F, 0x0399]), (0x1F88, [0x1F08, 0x0399]), (0x1F89, [0x1F09, 0x0399]),
   (0x1F8A, [0x1F0A, 0x0399]), (0x1F8B, [0x1F0B, 0x0399]), (0x1F8C, [0x1F0C, 0x0399]), (0x1F8D, [0x1F0D, 0x0399]),
   (0x1F8E, [0x1F0E, 0x0399]), (0x1F8F, [0x1F0F, 0x0399]), (0x1F90, [0x1F28, 0x0399]), (0x1F91, [0x1F29, 0x0399]),
   (0x1F92, [0x1F2A, 0x0399]), (0x1F93, [0x1F2B, 0x0399]), (0x1F94, [0x1F2C, 0x0399]), (0x1F95, [0x1F2D, 0x0399]),
   (0x1F96, [0x1F2E, 0x0399]), (0x1F97, [0x1F2F, 0x0399]), (0x1F98, [0x1F28, 0x0399]), (0x1F99, [0x1F29, 0x0399]),
   (0x1F9A, [0x1F2A, 0x0399]), (0x1F9B, [0x1F2B, 0x0399]), (0x1F9C, [0x1F2C, 0x0399]), (0x1F9D, [0x1F2D, 0x0399]),
   (0x1F9E, [0x1F2E, 0x0399]), (0x1F9F, [0x1F2F, 0x0399]), (0x1FA0, [0x1F68, 0x0399]), (0x1FA1, [0x1F69, 0x0399])]

/-- The upper-case mappings of the code points `0x1FA2` to `0x217D`. -/
def upperCaseBlock13 : List (Nat × List Nat) :=
  [(0x1FA2, [0x1F6A, 0x0399]), (0x1FA3, [0x1F6B, 0x0399]), (0x1FA4, [0x1F6C, 0x0399]), (0x1FA5, [0x1F6D, 0x0399]),
   (0x1FA6, [0x1F6E, 0x0399]), (0x1FA7, [0x1F6F, 0x0399]), (0x1FA8, [0x1F68, 0x0399]), (0x1FA9, [0x1F69, 0x0399]),
   (0x1FAA, [0x1F6A, 0x0399]), (0x1FAB, [0x1F6B, 0x0399]), (0x1FAC, [0x1F6C, 0x0399]), (0x1FAD, [0x1F6D, 0x0399]),
   (0x1FAE, [0x1F6E, 0x0399]), (0x1FAF, [0x1F6F, 0x0399]), (0x1FB0, [0x1FB8]), (0x1FB1, [0x1FB9]),
   (0x1FB2, [0x1FBA, 0x0399]), (0x1FB3, [0x0391, 0x0399]), (0x1FB4, [0x0386, 0x0399]), (0x1FB6, [0x0391, 0x0342]),
   (0x1FB7, [0x0391, 0x0342, 0x0399]), (0x1FBC, [0x0391, 0x0399]), (0x1FBE, [0x0399]), (0x1FC2, [0x1FCA, 0x0399]),
   (0x1FC3, [0x0397, 0x0399]), (0x1FC4, [0x0389, 0x0399]), (0x1FC6, [0x0397, 0x0342]), (0x1FC7, [0x0397, 0x0342, 0x0399]),
   (0x1FCC, [0x0397, 0x0399]), (0x1FD0, [0x1FD8]), (0x1FD1, [0x1FD9]), (0x1FD2, [0x0399, 0x0308, 0x0300]),
   (0x1FD3, [0x0399, 0x0308, 0x0301]), (0x1FD6, [0x0399, 0x0342]), (0x1FD7, [0x0399, 0x0308, 0x0342]), (0x1FE0, [0x1FE8]),
   (0x1FE1, [0x1FE9]), (0x1FE2, [0x03A5, 0x0308, 0x0300]), (0x1FE3, [0x03A5, 0x0308, 0x0301]), (0x1FE4, [0x03A1, 0x0313]),
   (0x1FE5, [0x1FEC]), (0x1FE6, [0x03A5, 0x0342]), (0x1FE7, [0x03A5, 0x0308, 0x0342]), (0x1FF2, [0x1FFA, 0x0399]),
   (0x1FF3, [0x03A9, 0x0399]), (0x1FF4, [0x038F, 0x0399]), (0x1FF6, [0x03A9, 0x0342]), (0x1FF7, [0x03A9, 0x0342, 0x0399]),
   (0x1FFC, [0x03A9, 0x0399]), (0x214E, [0x2132]), (0x2170, [0x2160]), (0x2171, [0x2161]),
   (0x2172, [0x2162]), (0x2173, [0x2163]), (0x2174, [0x2164]), (0x2175, [0x2165]),
   (0x2176, [0x2166]), (0x2177, [0x2167]), (0x2178, [0x2168]), (0x2179, [0x2169]),
   (0x217A, [0x216A]), (0x217B, [0x216B]), (0x217C, [0x216C]), (0x217D, [0x216D])]

/-- The upper-case mappings of the code points `0x217E` to `0x2C52`. -/
def upperCaseBlock14 : List (Nat × List Nat) :=
  [(0x217E, [0x216E]), (0x217F, [0x216F]), (0x2184, [0x2183]), (0x24D0, [0x24B6]),
   (0x24D1, [0x24B7]), (0x24D2, [0x24B8]), (0x24D3, [0x24B9]), (0x24D4, [0x24BA]),
   (0x24D5, [0x24BB]), (0x24D6, [0x24BC]), (0x24D7, [0x24BD]), (0x24D8, [0x24BE]),
   (0x24D9, [0x24BF]), (0x24DA, [0x24C0]), (0x24DB, [0x24C1]), (0x24DC, [0x24C2]),
   (0x24DD, [0x24C3]), (0x24DE, [0x24C4]), (0x24DF, [0x24C5]), (0x24E0, [0x24C6]),
   (0x24E1, [0x24C7]), (0x24E2, [0x24C8]), (0x24E3, [0x24C9]), (0x24E4, [0x24CA]),
   (0x24E5, [0x24CB]), (0x24E6, [0x24CC]), (0x24E7, [0x24CD]), (0x24E8, [0x24CE]),
   (0x24E9, [0x24CF]), (0x2C30, [0x2C00]), (0x2C31, [0x2C01]), (0x2C32, [0x2C02]),
   (0x2C33, [0x2C03]), (0x2C34, [0x2C04]), (0x2C35, [0x2C05]), (0x2C36, [0x2C06]),
   (0x2C37, [0x2C07]), (0x2C38, [0x2C08]), (0x2C39, [0x2C09]), (0x2C3A, [0x2C0A]),
   (0x2C3B, [0x2C0B]), (0x2C3C, [0x2C0C]), (0x2C3D, [0x2C0D]), (0x2C3E, [0x2C0E]),
   (0x2C3F, [0x2C0F]), (0x2C40, [0x2C10]), (0x2C41, [0x2C11]), (0x2C42, [0x2C12]),
   (0x2C43, [0x2C13]), (0x2C44, [0x2C14]), (0x2C45, [0x2C15]), (0x2C46, [0x2C16]),
   (0x2C47, [0x2C17]), (0x2C48, [0x2C18]), (0x2C49, [0x2C19]), (0x2C4A, [0x2C1A]),
   (0x2C4B, [0x2C1B]), (0x2C4C, [0x2C1C]), (0x2C4D, [0x2C1D]), (0x2C4E, [0x2C1E]),
   (0x2C4F, [0x2C1F]), (0x2C50, [0x2C20]), (0x2C51, [0x2C21]), (0x2C52, [0x2C22])]

/-- The upper-case mappings of the code points `0x2C53` to `0x2CD5`. -/
def upperCaseBlock15 : List (Nat × List Nat) :=
  [(0x2C53, [0x2C23]), (0x2C54, [0x2C24]), (0x2C55, [0x2C25]), (0x2C56, [0x2C26]),
   (0x2C57, [0x2C27]), (0x2C58, [0x2C28]), (0x2C59, [0x2C29]), (0x2C5A, [0x2C2A]),
   (0x2C5B, [0x2C2B]), (0x2C5C, [0x2C2C]), (0x2C5D, [0x2C2D]), (0x2C5E, [0x2C2E]),
   (0x2C5F, [0x2C2F]), (0x2C61, [0x2C60]), (0x2C65, [0x023A]), (0x2C66, [0x023E]),
   (0x2C68, [0x2C67]), (0x2C6A, [0x2C69]), (0x2C6C, [0x2C6B]), (0x2C73, [0x2C72]),
   (0x2C76, [0x2C75]), (0x2C81, [0x2C80]), (0x2C83, [0x2C82]), (0x2C85, [0x2C84]),
   (0x2C87, [0x2C86]), (0x2C89, [0x2C88]), (0x2C8B, [0x2C8A]), (0x2C8D, [0x2C8C]),
   (0x2C8F, [0x2C8E]), (0x2C91, [0x2C90]), (0x2C93, [0x2C92]), (0x2C95, [0x2C94]),
   (0x2C97, [0x2C96]), (0x2C99, [0x2C98]), (0x2C9B, [0x2C9A]), (0x2C9D, [0x2C9C]),
   (0x2C9F, [0x2C9E]), (0x2CA1, [0x2CA0]), (0x2CA3, [0x2CA2]), (0x2CA5, [0x2CA4]),
   (0x2CA7, [0x2CA6]), (0x2CA9, [0x2CA8]), (0x2CAB, [0x2CAA]), (0x2CAD, [0x2CAC]),
   (0x2CAF, [0x2CAE]), (0x2CB1, [0x2CB0]), (0x2CB3, [0x2CB2]), (0x2CB5, [0x2CB4]),
   (0x2CB7, [0x2CB6]), (0x2CB9, [0x2CB8]), (0x2CBB, [0x2CBA]), (0x2CBD, [0x2CBC]),
   (0x2CBF, [0x2CBE]), (0x2CC1, [0x2CC0]), (0x2CC3, [0x2CC2]), (0x2CC5, [0x2CC4]),
   (0x2CC7, [0x2CC6]), (0x2CC9, [0x2CC8]), (0x2CCB, [0x2CCA]), (0x2CCD, [0x2CCC]),
   (0x2CCF, [0x2CCE]), (0x2CD1, [0x2CD0]), (0x2CD3, [0x2CD2]), (0x2CD5, [0x2CD4])]

/-- The upper-case mappings of the code points `0x2CD7` to `0xA65B`. -/
def upperCaseBlock16 : List (Nat × List Nat) :=
  [(0x2CD7, [0x2CD6]), (0x2CD9, [0x2CD8]), (0x2CDB, [0x2CDA]), (0x2CDD, [0x2CDC]),
   (0x2CDF, [0x2CDE]), (0x2CE1, [0x2CE0]), (0x2CE3, [0x2CE2]), (0x2CEC, [0x2CEB]),
   (0x2CEE, [0x2CED]), (0x2CF3, [0x2CF2]), (0x2D00, [0x10A0]), (0x2D01, [0x10A1]),
   (0x2D02, [0x10A2]), (0x2D03, [0x10A3]), (0x2D04, [0x10A4]), (0x2D05, [0x10A5]),
   (0x2D06, [0x10A6]), (0x2D07, [0x10A7]), (0x2D08, [0x10A8]), (0x2D09, [0x10A9]),
   (0x2D0A, [0x10AA]), (0x2D0B, [0x10AB]), (0x2D0C, [0x10AC]), (0x2D0D, [0x10AD]),
   (0x2D0E, [0x10AE]), (0x2D0F, [0x10AF]), (0x2D10, [0x10B0]), (0x2D11, [0x10B1]),
   (0x2D12, [0x10B2]), (0x2D13, [0x10B3]), (0x2D14, [0x10B4]), (0x2D15, [0x10B5]),
   (0x2D16, [0x10B6]), (0x2D17, [0x10B7]), (0x2D18, [0x10B8]), (0x2D19, [0x10B9]),
   (0x2D1A, [0x10BA]), (0x2D1B, [0x10BB]), (0x2D1C, [0x10BC]), (0x2D1D, [0x10BD]),
   (0x2D1E, [0x10BE]), (0x2D1F, [0x10BF]), (0x2D20, [0x10C0]), (0x2D21, [0x10C1]),
   (0x2D22, [0x10C2]), (0x2D23, [0x10C3]), (0x2D24, [0x10C4]), (0x2D25, [0x10C5]),
   (0x2D27, [0x10C7]), (0x2D2D, [0x10CD]), (0xA641, [0xA640]), (0xA643, [0xA642]),
   (0xA645, [0xA644]), (0xA647, [0xA646]), (0xA649, [0xA648]), (0xA64B, [0xA64A]),
   (0xA64D, [0xA64C]), (0xA64F, [0xA64E]), (0xA651, [0xA650]), (0xA653, [0xA652]),
   (0xA655, [0xA654]), (0xA657, [0xA656]), (0xA659, [0xA658]), (0xA65B, [0xA65A])]

/-- The upper-case mappings of the code points `0xA65D` to `0xA77F`. -/
def upperCaseBlock17 : List (Nat × List Nat) :=
  [(0xA65D, [0xA65C]), (0xA65F, [0xA65E]), (0xA661, [0xA660]), (0xA663, [0xA662]),
   (0xA665, [0xA664]), (0xA667, [0xA666]), (0xA669, [0xA668]), (0xA66B, [0xA66A]),
   (0xA66D, [0xA66C]), (0xA681, [0xA680]), (0xA683, [0xA682]), (0xA685, [0xA684]),
   (0xA687, [0xA686]), (0xA689, [0xA688]), (0xA68B, [0xA68A]), (0xA68D, [0xA68C]),
   (0xA68F, [0xA68E]), (0xA691, [0xA690]), (0xA693, [0xA692]), (0xA695, [0xA694]),
   (0xA697, [0xA696]), (0xA699, [0xA698]), (0xA69B, [0xA69A]), (0xA723, [0xA722]),
   (0xA725, [0xA724]), (0xA727, [0xA726]), (0xA729, [0xA728]), (0xA72B, [0xA72A]),
   (0xA72D, [0xA72C]), (0xA72F, [0xA72E]), (0xA733, [0xA732]), (0xA735, [0xA734]),
   (0xA737, [0xA736]), (0xA739, [0xA738]), (0xA73B, [0xA73A]), (0xA73D, [0xA73C]),
   (0xA73F, [0xA73E]), (0xA741, [0xA740]), (0xA743, [0xA742]), (0xA745, [0xA744]),
   (0xA747, [0xA746]), (0xA749, [0xA748]), (0xA74B, [0xA74A]), (0xA74D, [0xA74C]),
   (0xA74F, [0xA74E]), (0xA751, [0xA750]), (0xA753, [0xA752]), (0xA755, [0xA754]),
   (0xA757, [0xA756]), (0xA759, [0xA758]), (0xA75B, [0xA75A]), (0xA75D, [0xA75C]),
   (0xA75F, [0xA75E]), (0xA761, [0xA760]), (0xA763, [0xA762]), (0xA765, [0xA764]),
   (0xA767, [0xA766]), (0xA769, [0xA768]), (0xA76B, [0xA76A]), (0xA76D, [0xA76C]),
   (0xA76F, [0xA76E]), (0xA77A, [0xA779]), (0xA77C, [0xA77B]), (0xA77F, [0xA77E])]

/-- The upper-case mappings of the code points `0xA781` to `0xAB8E`. -/
def upperCaseBlock18 : List (Nat × List Nat) :=
  [(0xA781, [0xA780]), (0xA783, [0xA782]), (0xA785, [0xA784]), (0xA787, [0xA786]),
   (0xA78C, [0xA78B]), (0xA791, [0xA790]), (0xA793, [0xA792]), (0xA794, [0xA7C4]),
   (0xA797, [0xA796]), (0xA799, [0xA798]), (0xA79B, [0xA79A]), (0xA79D, [0xA79C]),
   (0xA79F, [0xA79E]), (0xA7A1, [0xA7A0]), (0xA7A3, [0xA7A2]), (0xA7A5, [0xA7A4]),
   (0xA7A7, [0xA7A6]), (0xA7A9, [0xA7A8]), (0xA7B5, [0xA7B4]), (0xA7B7, [0xA7B6]),
   (0xA7B9, [0xA7B8]), (0xA7BB, [0xA7BA]), (0xA7BD, [0xA7BC]), (0xA7BF, [0xA7BE]),
   (0xA7C1, [0xA7C0]), (0xA7C3, [0xA7C2]), (0xA7C8, [0xA7C7]), (0xA7CA, [0xA7C9]),
   (0xA7D1, [0xA7D0]), (0xA7D7, [0xA7D6]), (0xA7D9, [0xA7D8]), (0xA7F6, [0xA7F5]),
   (0xAB53, [0xA7B3]), (0xAB70, [0x13A0]), (0xAB71, [0x13A1]), (0xAB72, [0x13A2]),
   (0xAB73, [0x13A3]), (0xAB74, [0x13A4]), (0xAB75, [0x13A5]), (0xAB76, [0x13A6]),
   (0xAB77, [0x13A7]), (0xAB78, [0x13A8]), (0xAB79, [0x13A9]), (0xAB7A, [0x13AA]),
   (0xAB7B, [0x13AB]), (0xAB7C, [0x13AC]), (0xAB7D, [0x13AD]), (0xAB7E, [0x13AE]),
   (0xAB7F, [0x13AF]), (0xAB80, [0x13B0]), (0xAB81, [0x13B1]), (0xAB82, [0x13B2]),
   (0xAB83, [0x13B3]), (0xAB84, [0x13B4]), (0xAB85, [0x13B5]), (0xAB86, [0x13B6]),
   (0xAB87, [0x13B7]), (0xAB88, [0x13B8]), (0xAB89, [0x13B9]), (0xAB8A, [0x13BA]),
   (0xAB8B, [0x13BB]), (0xAB8C, [0x13BC]), (0xAB8D, [0x13BD]), (0xAB8E, [0x13BE])]

/-- The upper-case mappings of the code points `0xAB8F` to `0xFF43`. -/
def upperCaseBlock19 : List (Nat × List Nat) :=
  [(0xAB8F, [0x13BF]), (0xAB90, [0x13C0]), (0xAB91, [0x13C1]), (0xAB92, [0x13C2]),
   (0xAB93, [0x13C3]), (0xAB94, [0x13C4]), (0xAB95, [0x13C5]), (0xAB96, [0x13C6]),
   (0xAB97, [0x13C7]), (0xAB98, [0x13C8]), (0xAB99, [0x13C9]), (0xAB9A, [0x13CA]),
   (0xAB9B, [0x13CB]), (0xAB9C, [0x13CC]), (0xAB9D, [0x13CD]), (0xAB9E, [0x13CE]),
   (0xAB9F, [0x13CF]), (0xABA0, [0x13D0]), (0xABA1, [0x13D1]), (0xABA2, [0x13D2]),
   (0xABA3, [0x13D3]), (0xABA4, [0x13D4]), (0xABA5, [0x13D5]), (0xABA6, [0x13D6]),
   (0xABA7, [0x13D7]), (0xABA8, [0x13D8]), (0xABA9, [0x13D9]), (0xABAA, [0x13DA]),
   (0xABAB, [0x13DB]), (0xABAC, [0x13DC]), (0xABAD, [0x13DD]), (0xABAE, [0x13DE]),
   (0xABAF, [0x13DF]), (0xABB0, [0x13E0]), (0xABB1, [0x13E1]), (0xABB2, [0x13E2]),
   (0xABB3, [0x13E3]), (0xABB4, [0x13E4]), (0xABB5, [0x13E5]), (0xABB6, [0x13E6]),
   (0xABB7, [0x13E7]), (0xABB8, [0x13E8]), (0xABB9, [0x13E9]), (0xABBA, [0x13EA]),
   (0xABBB, [0x13EB]), (0xABBC, [0x13EC]), (0xABBD, [0x13ED]), (0xABBE, [0x13EE]),
   (0xABBF, [0x13EF]), (0xFB00, [0x0046, 0x0046]), (0xFB01, [0x0046, 0x0049]), (0xFB02, [0x0046, 0x004C]),
   (0xFB03, [0x0046, 0x0046, 0x0049]), (0xFB04, [0x0046, 0x0046, 0x004C]), (0xFB05, [0x0053, 0x0054]), (0xFB06, [0x0053, 0x0054]),
   (0xFB13, [0x0544, 0x0546]), (0xFB14, [0x0544, 0x0535]), (0xFB15, [0x0544, 0x053B]), (0xFB16, [0x054E, 0x0546]),
   (0xFB17, [0x0544, 0x053D]), (0xFF41, [0xFF21]), (0xFF42, [0xFF22]), (0xFF43, [0xFF23])]

/-- The upper-case mappings of the code points `0xFF44` to `0x104D8`. -/
def upperCaseBlock20 : List (Nat × List Nat) :=
  [(0xFF44, [0xFF24]), (0xFF45, [0xFF25]), (0xFF46, [0xFF26]), (0xFF47, [0xFF27]),
   (0xFF48, [0xFF28]), (0xFF49, [0xFF29]), (0xFF4A, [0xFF2A]), (0xFF4B, [0xFF2B]),
   (0xFF4C, [0xFF2C]), (0xFF4D, [0xFF2D]), (0xFF4E, [0xFF2E]), (0xFF4F, [0xFF2F]),
   (0xFF50, [0xFF30]), (0xFF51, [0xFF31]), (0xFF52, [0xFF32]), (0xFF53, [0xFF33]),
   (0xFF54, [0xFF34]), (0xFF55, [0xFF35]), (0xFF56, [0xFF36]), (0xFF57, [0xFF37]),
   (0xFF58, [0xFF38]), (0xFF59, [0xFF39]), (0xFF5A, [0xFF3A]), (0x10428, [0x10400]),
   (0x10429, [0x10401]), (0x1042A, [0x10402]), (0x1042B, [0x10403]), (0x1042C, [0x10404]),
   (0x1042D, [0x10405]), (0x1042E, [0x10406]), (0x1042F, [0x10407]), (0x10430, [0x10408]),
   (0x10431, [0x10409]), (0x10432, [0x1040A]), (0x10433, [0x1040B]), (0x10434, [0x1040C]),
   (0x10435, [0x1040D]), (0x10436, [0x1040E]), (0x10437, [0x1040F]), (0x10438, [0x10410]),
   (0x10439, [0x10411]), (0x1043A, [0x10412]), (0x1043B, [0x10413]), (0x1043C, [0x10414]),
   (0x1043D, [0x10415]), (0x1043E, [0x10416]), (0x1043F, [0x10417]), (0x10440, [0x10418]),
   (0x10441, [0x10419]), (0x10442, [0x1041A]), (0x10443, [0x1041B]), (0x10444, [0x1041C]),
   (0x10445, [0x1041D]), (0x10446, [0x1041E]), (0x10447, [0x1041F]), (0x10448, [0x10420]),
   (0x10449, [0x10421]), (0x1044A, [0x10422]), (0x1044B, [0x10423]), (0x1044C, [0x10424]),
   (0x1044D, [0x10425]), (0x1044E, [0x10426]), (0x1044F, [0x10427]), (0x104D8, [0x104B0])]

/-- The upper-case mappings of the code points `0x104D9` to `0x105B5`. -/
def upperCaseBlock21 : List (Nat × List Nat) :=
  [(0x104D9, [0x104B1]), (0x104DA, [0x104B2]), (0x104DB, [0x104B3]), (0x104DC, [0x104B4]),
   (0x104DD, [0x104B5]), (0x104DE, [0x104B6]), (0x104DF, [0x104B7]), (0x104E0, [0x104B8]),
   (0x104E1, [0x104B9]), (0x104E2, [0x104BA]), (0x104E3, [0x104BB]), (0x104E4, [0x104BC]),
   (0x104E5, [0x104BD]), (0x104E6, [0x104BE]), (0x104E7, [0x104BF]), (0x104E8, [0x104C0]),
   (0x104E9, [0x104C1]), (0x104EA, [0x104C2]), (0x104EB, [0x104C3]), (0x104EC, [0x104C4]),
   (0x104ED, [0x104C5]), (0x104EE, [0x104C6]), (0x104EF, [0x104C7]), (0x104F0, [0x104C8]),
   (0x104F1, [0x104C9]), (0x104F2, [0x104CA]), (0x104F3, [0x104CB]), (0x104F4, [0x104CC]),
   (0x104F5, [0x104CD]), (0x104F6, [0x104CE]), (0x104F7, [0x104CF]), (0x104F8, [0x104D0]),
   (0x104F9, [0x104D1]), (0x104FA, [0x104D2]), (0x104FB, [0x104D3]), (0x10597, [0x10570]),
   (0x10598, [0x10571]), (0x10599, [0x10572]), (0x1059A, [0x10573]), (0x1059B, [0x10574]),
   (0x1059C, [0x10575]), (0x1059D, [0x10576]), (0x1059E, [0x10577]), (0x1059F, [0x10578]),
   (0x105A0, [0x10579]), (0x105A1, [0x1057A]), (0x105A3, [0x1057C]), (0x105A4, [0x1057D]),
   (0x105A5, [0x1057E]), (0x105A6, [0x1057F]), (0x105A7, [0x10580]), (0x105A8, [0x10581]),
   (0x105A9, [0x10582]), (0x105AA, [0x10583]), (0x105AB, [0x10584]), (0x105AC, [0x10585]),
   (0x105AD, [0x10586]), (0x105AE, [0x10587]), (0x105AF, [0x10588]), (0x105B0, [0x10589]),
   (0x105B1, [0x1058A]), (0x105B3, [0x1058C]), (0x105B4, [0x1058D]), (0x105B5, [0x1058E])]

/-- The upper-case mappings of the code points `0x105B6` to `0x118C6`. -/
def upperCaseBlock22 : List (Nat × List Nat) :=
  [(0x105B6, [0x1058F]), (0x105B7, [0x10590]), (0x105B8, [0x10591]), (0x105B9, [0x10592]),
   (0x105BB, [0x10594]), (0x105BC, [0x10595]), (0x10CC0, [0x10C80]), (0x10CC1, [0x10C81]),
   (0x10CC2, [0x10C82]), (0x10CC3, [0x10C83]), (0x10CC4, [0x10C84]), (0x10CC5, [0x10C85]),
   (0x10CC6, [0x10C86]), (0x10CC7, [0x10C87]), (0x10CC8, [0x10C88]), (0x10CC9, [0x10C89]),
   (0x10CCA, [0x10C8A]), (0x10CCB, [0x10C8B]), (0x10CCC, [0x10C8C]), (0x10CCD, [0x10C8D]),
   (0x10CCE, [0x10C8E]), (0x10CCF, [0x10C8F]), (0x10CD0, [0x10C90]), (0x10CD1, [0x10C91]),
   (0x10CD2, [0x10C92]), (0x10CD3, [0x10C93]), (0x10CD4, [0x10C94]), (0x10CD5, [0x10C95]),
   (0x10CD6, [0x10C96]), (0x10CD7, [0x10C97]), (0x10CD8, [0x10C98]), (0x10CD9, [0x10C99]),
   (0x10CDA, [0x10C9A]), (0x10CDB, [0x10C9B]), (0x10CDC, [0x10C9C]), (0x10CDD, [0x10C9D]),
   (0x10CDE, [0x10C9E]), (0x10CDF, [0x10C9F]), (0x10CE0, [0x10CA0]), (0x10CE1, [0x10CA1]),
   (0x10CE2, [0x10CA2]), (0x10CE3, [0x10CA3]), (0x10CE4, [0x10CA4]), (0x10CE5, [0x10CA5]),
   (0x10CE6, [0x10CA6]), (0x10CE7, [0x10CA7]), (0x10CE8, [0x10CA8]), (0x10CE9, [0x10CA9]),
   (0x10CEA, [0x10CAA]), (0x10CEB, [0x10CAB]), (0x10CEC, [0x10CAC]), (0x10CED, [0x10CAD]),
   (0x10CEE, [0x10CAE]), (0x10CEF, [0x10CAF]), (0x10CF0, [0x10CB0]), (0x10CF1, [0x10CB1]),
   (0x10CF2, [0x10CB2]), (0x118C0, [0x118A0]), (0x118C1, [0x118A1]), (0x118C2, [0x118A2]),
   (0x118C3, [0x118A3]), (0x118C4, [0x118A4]), (0x118C5, [0x118A5]), (0x118C6, [0x118A6])]

/-- The upper-case mappings of the code points `0x118C7` to `0x1E928`. -/
def upperCaseBlock23 : List (Nat × List Nat) :=
  [(0x118C7, [0x118A7]), (0x118C8, [0x118A8]), (0x118C9, [0x118A9]), (0x118CA, [0x118AA]),
   (0x118CB, [0x118AB]), (0x118CC, [0x118AC]), (0x118CD, [0x118AD]), (0x118CE, [0x118AE]),
   (0x118CF, [0x118AF]), (0x118D0, [0x118B0]), (0x118D1, [0x118B1]), (0x118D2, [0x118B2]),
   (0x118D3, [0x118B3]), (0x118D4, [0x118B4]), (0x118D5, [0x118B5]), (0x118D6, [0x118B6]),
   (0x118D7, [0x118B7]), (0x118D8, [0x118B8]), (0x118D9, [0x118B9]), (0x118DA, [0x118BA]),
   (0x118DB, [0x118BB]), (0x118DC, [0x118BC]), (0x118DD, [0x118BD]), (0x118DE, [0x118BE]),
   (0x118DF, [0x118BF]), (0x16E60, [0x16E40]), (0x16E61, [0x16E41]), (0x16E62, [0x16E42]),
   (0x16E63, [0x16E43]), (0x16E64, [0x16E44]), (0x16E65, [0x16E45]), (0x16E66, [0x16E46]),
   (0x16E67, [0x16E47]), (0x16E68, [0x16E48]), (0x16E69, [0x16E49]), (0x16E6A, [0x16E4A]),
   (0x16E6B, [0x16E4B]), (0x16E6C, [0x16E4C]), (0x16E6D, [0x16E4D]), (0x16E6E, [0x16E4E]),
   (0x16E6F, [0x16E4F]), (0x16E70, [0x16E50]), (0x16E71, [0x16E51]), (0x16E72, [0x16E52]),
   (0x16E73, [0x16E53]), (0x16E74, [0x16E54]), (0x16E75, [0x16E55]), (0x16E76, [0x16E56]),
   (0x16E77, [0x16E57]), (0x16E78, [0x16E58]), (0x16E79, [0x16E59]), (0x16E7A, [0x16E5A]),
   (0x16E7B, [0x16E5B]), (0x16E7C, [0x16E5C]), (0x16E7D, [0x16E5D]), (0x16E7E, [0x16E5E]),
   (0x16E7F, [0x16E5F]), (0x1E922, [0x1E900]), (0x1E923, [0x1E901]), (0x1E924, [0x1E902]),
   (0x1E925, [0x1E903]), (0x1E926, [0x1E904]), (0x1E927, [0x1E905]), (0x1E928, [0x1E906])]

/-- The upper-case mappings of the code points `0x1E929` to `0x1E943`. -/
def upperCaseBlock24 : List (Nat × List Nat) :=
  [(0x1E929, [0x1E907]), (0x1E92A, [0x1E908]), (0x1E92B, [0x1E909]), (0x1E92C, [0x1E90A]),
   (0x1E92D, [0x1E90B]), (0x1E92E, [0x1E90C]), (0x1E92F, [0x1E90D]), (0x1E930, [0x1E90E]),
   (0x1E931, [0x1E90F]), (0x1E932, [0x1E910]), (0x1E933, [0x1E911]), (0x1E934, [0x1E912]),
   (0x1E935, [0x1E913]), (0x1E936, [0x1E914]), (0x1E937, [0x1E915]), (0x1E938, [0x1E916]),
   (0x1E939, [0x1E917]), (0x1E93A, [0x1E918]), (0x1E93B, [0x1E919]), (0x1E93C, [0x1E91A]),
   (0x1E93D, [0x1E91B]), (0x1E93E, [0x1E91C]), (0x1E93F, [0x1E91D]), (0x1E940, [0x1E91E]),
   (0x1E941, [0x1E91F]), (0x1E942, [0x1E920]), (0x1E943, [0x1E921])]

/-- The blocks of the table, each with its first and its last code point. -/
def upperCaseTable : List (Nat × Nat × List (Nat × List Nat)) :=
  [(0x00B5, 0x013E, upperCaseBlock01), (0x0140, 0x01D4, upperCaseBlock02),
   (0x01D6, 0x0259, upperCaseBlock03), (0x025B, 0x03C6, upperCaseBlock04),
   (0x03C7, 0x044F, upperCaseBlock05), (0x0450, 0x04C8, upperCaseBlock06),
   (0x04CA, 0x056C, upperCaseBlock07), (0x056D, 0x10F4, upperCaseBlock08),
   (0x10F5, 0x1E49, upperCaseBlock09), (0x1E4B, 0x1EC7, upperCaseBlock10),
   (0x1EC9, 0x1F45, upperCaseBlock11), (0x1F50, 0x1FA1, upperCaseBlock12),
   (0x1FA2, 0x217D, upperCaseBlock13), (0x217E, 0x2C52, upperCaseBlock14),
   (0x2C53, 0x2CD5, upperCaseBlock15), (0x2CD7, 0xA65B, upperCaseBlock16),
   (0xA65D, 0xA77F, upperCaseBlock17), (0xA781, 0xAB8E, upperCaseBlock18),
   (0xAB8F, 0xFF43, upperCaseBlock19), (0xFF44, 0x104D8, upperCaseBlock20),
   (0x104D9, 0x105B5, upperCaseBlock21), (0x105B6, 0x118C6, upperCaseBlock22),
   (0x118C7, 0x1E928, upperCaseBlock23), (0x1E929, 0x1E943, upperCaseBlock24)]

/-- The entry of a code point in the table.  The blocks are in increasing order,
so the search ends at the first block that starts after the code point. -/
def upperCaseEntry (n : Nat) : List (Nat × Nat × List (Nat × List Nat)) → Option (List Nat)
  | [] => none
  | (lo, hi, block) :: rest =>
    if n < lo then none
    else if n ≤ hi then List.lookup n block
    else upperCaseEntry n rest

/-- The characters that one character becomes under `toUpperCase`. -/
def upperString (c : Char) : Str :=
  if c.toNat < 128 then [upperChar c]
  else
    match upperCaseEntry c.toNat upperCaseTable with
    | some us => us.map Char.ofNat
    | none => [c]

/-- The method `toUpperCase()`. -/
def toUpperCase (s : Str) : Str :=
  s.flatMap upperString

/-! ### Trimming, searching and cutting -/

/-- The method `trimStart()`. -/
def trimStart (s : Str) : Str :=
  s.dropWhile isSpace

/-- The method `trimEnd()`. -/
def trimEnd (s : Str) : Str :=
  (s.reverse.dropWhile isSpace).reverse

/-- The method `trim()`. -/
def trim (s : Str) : Str :=
  trimEnd (trimStart s)

/-- The method `split(sep)` for a one-character separator. -/
def splitChar (sep : Char) : Str → List Str
  | [] => [[]]
  | c :: cs =>
    if c == sep then [] :: splitChar sep cs
    else
      match splitChar sep cs with
      | [] => [[c]]
      | l :: ls => (c :: l) :: ls

/-- The call `text.split('\n')`. -/
def splitLines (s : Str) : List Str :=
  splitChar LF s

/-- The method `startsWith(p)`. -/
def startsWith : Str → Str → Bool
  | _, [] => true
  | [], _ :: _ => false
  | c :: cs, p :: ps => c == p && startsWith cs ps

/-- The method `includes(sub)`. -/
def includes : Str → Str → Bool
  | [], sub => sub.isEmpty
  | c :: cs, sub => startsWith (c :: cs) sub || includes cs sub

/-- The method `endsWith(p)`. -/
def endsWith (s p : Str) : Bool :=
  startsWith s.reverse p.reverse

/-- The method `substring(a, b)` for `a ≤ b`. -/
def substring (s : Str) (a b : Nat) : Str :=
  (s.drop a).take (b - a)

/-- A global replacement of single characters: `replace(/[...]/g, r)`. -/
def replaceChars (p : Char → Bool) (r : Str) (s : Str) : Str :=
  s.flatMap (fun c => if p c then r else [c])

/-- The method `padStart(n, '0')`. -/
def padStart0 (n : Nat) (s : Str) : Str :=
  List.replicate (n - s.length) '0' ++ s

/-- The method `join(sep)`. -/
def joinWith (sep : Str) : List Str → Str
  | [] => []
  | [a] => a
  | a :: b :: rest => a ++ sep ++ joinWith sep (b :: rest)

/-- The value of a decimal digit character. -/
def digitVal (c : Char) : Nat :=
  c.toNat - 48

/-- The value of a hexadecimal digit character, if it is one. -/
def hexVal (c : Char) : Option Nat :=
  if isDigit c then some (c.toNat - 48)
  else if 97 ≤ c.toNat && c.toNat ≤ 102 then some (c.toNat - 87)
  else if 65 ≤ c.toNat && c.toNat ≤ 70 then some (c.toNat - 55)
  else none

/-- The longest prefix of hexadecimal digits, as a number (`none` when empty). -/
def hexPrefix : Str → Option Nat → Option Nat
  | [], acc => acc
  | c :: cs, acc =>
    match hexVal c with
    | some d => hexPrefix cs (some (acc.getD 0 * 16 + d))
    | none => acc

/-- The longest prefix of decimal digits, as a number (`none` when empty). -/
def decPrefix : Str → Option Nat → Option Nat
  | [], acc => acc
  | c :: cs, acc =>
    if isDigit c then decPrefix cs (some (acc.getD 0 * 10 + digitVal c)) else acc

/-- The global function `parseInt(s)` with no radix; `none` is `NaN`. -/
def parseInt (s : Str) : Option Int :=
  let body (t : Str) : Option Nat :=
    match t with
    | '0' :: 'x' :: u => hexPrefix u none
    | '0' :: 'X' :: u => hexPrefix u none
    | _ => decPrefix t none
  match trimStart s with
  | '-' :: t => (body t).map (fun n => - (n : Int))
  | '+' :: t => (body t).map (fun n => (n : Int))
  | t => (body t).map (fun n => (n : Int))

/-! ## Regular expressions -/

/-- The regular expressions used by the parsers. -/
inductive Re where
  | eps
  | chr (p : Char → Bool)
  | seq (a b : Re)
  | alt (a b : Re)
  | star (a : Re)
  | lazyStar (a : Re)
  | group (i : Nat) (a : Re)
  | bol
  | eol
  | wordB
  | look (a : Re)

/-- A position of the matcher: the input read so far (last character first),
the input still to read, and the capture groups set so far (latest first). -/
structure MState where
  pre : Str
  rest : Str
  caps : List (Nat × Str)

/-- Iteration of a quantified atom.  An iteration that reads nothing is not
taken; the fuel is the length of the remaining input, which bounds the number of
iterations that read something. -/
def iterate (step : MState → List MState) (greedy : Bool) : Nat → MState → List MState
  | 0, st => [st]
  | fuel + 1, st =>
    let more := ((step st).filter (fun s => s.rest.length < st.rest.length)).flatMap
      (iterate step greedy fuel)
    if greedy then more ++ [st] else st :: more

/-- All the ways `r` matches at a position, best first. -/
def Re.run : Re → MState → List MState
  | .eps, st => [st]
  | .chr p, st =>
    match st.rest with
    | [] => []
    | c :: cs => if p c then [{ st with pre := c :: st.pre, rest := cs }] else []
  | .seq a b, st => (a.run st).flatMap (fun s => b.run s)
  | .alt a b, st => a.run st ++ b.run st
  | .star a, st => iterate (fun s => a.run s) true st.rest.length st
  | .lazyStar a, st => iterate (fun s => a.run s) false st.rest.length st
  | .group i a, st =>
    (a.run st).map (fun s =>
      { s with caps := (i, st.rest.take (st.rest.length - s.rest.length)) :: s.caps })
  | .bol, st => if st.pre.isEmpty then [st] else []
  | .eol, st => if st.rest.isEmpty then [st] else []
  | .wordB, st =>
    let a := match st.pre with
      | [] => false
      | c :: _ => isWordChar c
    let b := match st.rest with
      | [] => false
      | c :: _ => isWordChar c
    if a != b then [st] else []
  | .look a, st => if (a.run st).isEmpty then [] else [st]

/-! ### Derived forms -/

/-- The pattern `a+`. -/
def Re.plus (a : Re) : Re :=
  .seq a (.star a)

/-- The pattern `a+?`. -/
def Re.lazyPlus (a : Re) : Re :=
  .seq a (.lazyStar a)

/-- The pattern `a?`. -/
def Re.opt (a : Re) : Re :=
  .alt a .eps

/-- The pattern `a{n}`. -/
def Re.times : Nat → Re → Re
  | 0, _ => .eps
  | n + 1, a => .seq a (Re.times n a)

/-- The pattern `a{0,n}`. -/
def Re.upTo : Nat → Re → Re
  | 0, _ => .eps
  | n + 1, a => .alt (.seq a (Re.upTo n a)) .eps

/-- The pattern `a{n,m}`. -/
def Re.range (n m : Nat) (a : Re) : Re :=
  .seq (Re.times n a) (Re.upTo (m - n) a)

/-- The pattern `a{n,}`. -/
def Re.atLeast (n : Nat) (a : Re) : Re :=
  .seq (Re.times n a) (.star a)

/-- A pattern that never matches (the empty alternation). -/
def Re.none : Re :=
  .chr (fun _ => false)

/-- The concatenation of a list of patterns. -/
def Re.seqs : List Re → Re
  | [] => .eps
  | [a] => a
  | a :: rest => .seq a (Re.seqs rest)

/-- The alternation `a|b|...` of a list of patterns. -/
def Re.alts : List Re → Re
  | [] => Re.none
  | [a] => a
  | a :: rest => .alt a (Re.alts rest)

/-- One given character. -/
def Re.char (c : Char) : Re :=
  .chr (fun x => x == c)

/-- One character of a given set: the class `[...]`. -/
def Re.oneOf (s : String) : Re :=
  .chr (fun x => s.toList.contains x)

/-- A literal word. -/
def Re.lit (s : String) : Re :=
  Re.seqs (s.toList.map Re.char)

/-- A literal word under the `i` flag. -/
def Re.litI (s : String) : Re :=
  Re.seqs (s.toList.map (fun c => Re.chr (fun x => upperChar x == upperChar c)))

/-- The class `\d`. -/
def Re.digit : Re := .chr isDigit

/-- The class `\s`. -/
def Re.space : Re := .chr isSpace

/-- The class `[A-Z]`. -/
def Re.upper : Re := .chr isUpper

/-- The class `[a-z]`. -/
def Re.lower : Re := .chr isLower

/-- The class `[A-Z]` or `[a-z]` under the `i` flag. -/
def Re.letter : Re := .chr isLetter

/-- The class `.`. -/
def Re.dot : Re := .chr isDot

/-! ### Matching, replacing, splitting -/

/-- A JavaScript value that is a string, `undefined` or `null`. -/
inductive JSValue where
  | undefined
  | null
  | str (s : Str)
  deriving DecidableEq, Repr

/-- Truthiness: a string is truthy when it is not empty. -/
def JSValue.truthy : JSValue → Bool
  | .str s => !s.isEmpty
  | _ => false

/-- The operator `a || b`. -/
def JSValue.or (a b : JSValue) : JSValue :=
  if a.truthy then a else b

/-- The string held by a value that is a string (the empty string otherwise). -/
def JSValue.strD : JSValue → Str
  | .str s => s
  | _ => []

/-- The result of a successful `match`: where it starts, where it ends. -/
structure Match where
  start : MState
  stop : MState

/-- The element `match[0]`: the matched text. -/
def Match.text (m : Match) : Str :=
  m.start.rest.take (m.start.rest.length - m.stop.rest.length)

/-- The element `match[i]` for a capture group `i ≥ 1`. -/
def Match.get (m : Match) (i : Nat) : JSValue :=
  match m.stop.caps.lookup i with
  | some s => .str s
  | Option.none => .undefined

/-- The leftmost match starting at the current position or later. -/
def Re.searchFrom (r : Re) : Nat → MState → Option Match
  | 0, st => ((r.run st).head?).map (fun e => ⟨st, e⟩)
  | n + 1, st =>
    match (r.run st).head? with
    | some e => some ⟨st, e⟩
    | Option.none =>
      match st.rest with
      | [] => Option.none
      | c :: cs => Re.searchFrom r n ⟨c :: st.pre, cs, []⟩

/-- The call `s.match(r)` for a pattern without the `g` flag. -/
def Re.exec (r : Re) (s : Str) : Option Match :=
  r.searchFrom s.length ⟨[], s, []⟩

/-- The call `r.test(s)`, which is also the truthiness of `s.match(r)`. -/
def Re.test (r : Re) (s : Str) : Bool :=
  (r.exec s).isSome

/-- The call `s.replace(r, rep)` for a pattern without the `g` flag. -/
def Re.replaceFirst (r : Re) (rep : Str) (s : Str) : Str :=
  match r.exec s with
  | some m => m.start.pre.reverse ++ rep ++ m.stop.rest
  | Option.none => s

/-- The loop of a global replacement, from a position on. -/
def Re.replaceAllFrom (r : Re) (rep : Str) : Nat → MState → Str
  | 0, st => st.rest
  | fuel + 1, st =>
    match (r.run st).head? with
    | some e =>
      if e.rest.length < st.rest.length then
        rep ++ Re.replaceAllFrom r rep fuel ⟨e.pre, e.rest, []⟩
      else
        match st.rest with
        | [] => rep
        | c :: cs => rep ++ c :: Re.replaceAllFrom r rep fuel ⟨c :: st.pre, cs, []⟩
    | Option.none =>
      match st.rest with
      | [] => []
      | c :: cs => c :: Re.replaceAllFrom r rep fuel ⟨c :: st.pre, cs, []⟩

/-- The call `s.replace(r, rep)` for a pattern with the `g` flag. -/
def Re.replaceAll (r : Re) (rep : Str) (s : Str) : Str :=
  r.replaceAllFrom rep (s.length + 1) ⟨[], s, []⟩

/-- The loop of `split`: `cur` is the piece being read, last character first. -/
def Re.splitFrom (r : Re) : Nat → MState → Str → List Str
  | 0, st, cur => [cur.reverse ++ st.rest]
  | fuel + 1, st, cur =>
    match st.rest with
    | [] => [cur.reverse]
    | c :: cs =>
      match (r.run st).head? with
      | some e =>
        if e.rest.length < st.rest.length then
          cur.reverse :: Re.splitFrom r fuel ⟨e.pre, e.rest, []⟩ []
        else Re.splitFrom r fuel ⟨c :: st.pre, cs, []⟩ (c :: cur)
      | Option.none => Re.splitFrom r fuel ⟨c :: st.pre, cs, []⟩ (c :: cur)

/-- The call `s.split(r)` for a pattern `r` that matches no empty text. -/
def Re.split (r : Re) (s : Str) : List Str :=
  r.splitFrom s.length ⟨[], s, []⟩ []

/-! ## The Aadhaar parser: `src/backend/parsers/aadhar-parser.js` -/

namespace Aadhar

/-- The function `normalizeText`: vertical bars become `I`, backticks and
apostrophes are removed, and the result is trimmed. -/
def normalizeText (text : Str) : Str :=
  if text.isEmpty then []
  else
    trim (replaceChars (fun c => c == BACKTICK || c == APOSTROPHE) []
      (replaceChars (fun c => c == '|') ['I'] text))

/-! ### `extractAadhaarNumber` -/

/-- The pattern `\d{4}\s+\d{4}\s+\d{4}`. -/
def reGroupedDigits : Re :=
  Re.seqs [Re.times 4 Re.digit, Re.plus Re.space, Re.times 4 Re.digit, Re.plus Re.space,
    Re.times 4 Re.digit]

/-- The pattern `(\d{4}\s+\d{4}\s+\d{4})`. -/
def reGrouped : Re :=
  .group 1 reGroupedDigits

/-- The pattern `(\d{12})`. -/
def reTwelve : Re :=
  .group 1 (Re.times 12 Re.digit)

/-- The pattern `aadhaar|aadhar|uidai|uid` with the `i` flag. -/
def reAadhaarKeyword : Re :=
  Re.alts [Re.litI "aadhaar", Re.litI "aadhar", Re.litI "uidai", Re.litI "uid"]

/-- The pattern `(\d{4}\s+\d{4}\s+\d{4})|(\d{12})`. -/
def reGroupedOrTwelve : Re :=
  .alt (.group 1 reGroupedDigits) (.group 2 (Re.times 12 Re.digit))

/-- The template that regroups twelve digits: `slice(0,4) slice(4,8) slice(8,12)`. -/
def formatGroups (num : Str) : Str :=
  substring num 0 4 ++ [' '] ++ substring num 4 8 ++ [' '] ++ substring num 8 12

/-- Pattern 3 of `extractAadhaarNumber`: digits within three lines from a keyword
line on.  The argument is the list of the lines from index `i` on. -/
def aadhaarNearKeyword : List Str → Option Str
  | [] => none
  | line :: rest =>
    if reAadhaarKeyword.test line then
      match ((line :: rest).take 3).findSome? (fun l => reGroupedOrTwelve.exec l) with
      | some m =>
        let num := ((m.get 1).or (m.get 2)).strD
        some (if includes num [' '] then num else formatGroups num)
      | none => aadhaarNearKeyword rest
    else aadhaarNearKeyword rest

/-- The function `extractAadhaarNumber`. -/
def extractAadhaarNumber (text : Str) : Str :=
  let lines := splitLines text
  match lines.findSome? (fun line => reGrouped.exec line) with
  | some m => (m.get 1).strD
  | none =>
    match lines.findSome? (fun line => reTwelve.exec line) with
    | some m => formatGroups (m.get 1).strD
    | none => (aadhaarNearKeyword lines).getD []

/-! ### `extractName` -/

/-- The pattern `skipPatterns` of `extractName`, with the `i` flag. -/
def reSkipHeader : Re :=
  Re.alts [Re.litI "government", Re.litI "india", Re.litI "uidai", Re.litI "भारत",
    Re.litI "आधार", Re.litI "aadhar", Re.litI "aadhaar", Re.litI "unique",
    Re.litI "identification", Re.litI "authority"]

/-- The pattern `^[A-Z][A-Z\s]{2,40}$`. -/
def reCapsName : Re :=
  Re.seqs [.bol, Re.upper, Re.range 2 40 (.chr (fun c => isUpper c || isSpace c)), .eol]

/-- The pattern `male|female|dob|birth|year` with the `i` flag. -/
def reAfterName : Re :=
  Re.alts [Re.litI "male", Re.litI "female", Re.litI "dob", Re.litI "birth", Re.litI "year"]

/-- The pattern `\d{2}\/\d{2}\/\d{4}`. -/
def reSlashDate : Re :=
  Re.seqs [Re.times 2 Re.digit, Re.char '/', Re.times 2 Re.digit, Re.char '/',
    Re.times 4 Re.digit]

/-- The loop of `extractName` over the trimmed lines from index `i` on. -/
def extractNameFrom : List Str → Str
  | [] => []
  | line :: rest =>
    if line.length < 3 || reSkipHeader.test line then extractNameFrom rest
    else if reCapsName.test line then
      let nextLine := rest.headD []
      if reCapsName.test nextLine && !Re.digit.test nextLine then line
      else if !rest.isEmpty && (reAfterName.test nextLine || reSlashDate.test nextLine) then line
      else extractNameFrom rest
    else extractNameFrom rest

/-- The function `extractName`. -/
def extractName (text : Str) : Str :=
  extractNameFrom ((splitLines text).map trim)

/-! ### `extractFatherName` -/

/-- The class `[:\s]`. -/
def isColonOrSpace (c : Char) : Bool :=
  c == ':' || isSpace c

/-- The pattern `(?:S\/O|D\/O|C\/O)[:\s]+(.+?)(?:,|$)` with the `i` flag. -/
def reRelation : Re :=
  Re.seqs [Re.alts [Re.litI "S/O", Re.litI "D/O", Re.litI "C/O"], Re.plus (.chr isColonOrSpace),
    .group 1 (Re.lazyPlus Re.dot), .alt (Re.char ',') .eol]

/-- The pattern `,\s*-\s*,`. -/
def reCommaDashComma : Re :=
  Re.seqs [Re.char ',', .star Re.space, Re.char '-', .star Re.space, Re.char ',']

/-- The pattern `(?:Sri|Shri)\s+([A-Z][A-Za-z\s]{5,50})` with the `i` flag. -/
def reSri : Re :=
  Re.seqs [.alt (Re.litI "Sri") (Re.litI "Shri"), Re.plus Re.space,
    .group 1 (.seq Re.letter (Re.range 5 50 (.chr (fun c => isLetter c || isSpace c))))]

/-- The pattern `,.*$`. -/
def reCommaToEnd : Re :=
  Re.seqs [Re.char ',', .star Re.dot, .eol]

/-- The pattern `father|पिता` with the `i` flag. -/
def reFatherKeyword : Re :=
  .alt (Re.litI "father") (Re.litI "पिता")

/-- The pattern `^[A-Z][A-Z\s]{5,40}$`. -/
def reCapsNameLong : Re :=
  Re.seqs [.bol, Re.upper, Re.range 5 40 (.chr (fun c => isUpper c || isSpace c)), .eol]

/-- The candidates that one line adds to `allFatherNames`. -/
def fatherCandidates (line : Str) : List Str :=
  let fromRelation : List Str :=
    match reRelation.exec line with
    | some m =>
      let potentialName := trim (m.get 1).strD
      let cleaned := trim ((Re.plus Re.space).replaceAll [' ']
        ((Re.plus (Re.char '-')).replaceAll [] (reCommaDashComma.replaceAll [] potentialName)))
      if cleaned.length > 3 then [cleaned] else []
    | none => []
  let fromSri : List Str :=
    match reSri.exec line with
    | some m =>
      let potentialName := trim (m.get 1).strD
      let cleaned := trim (reCommaToEnd.replaceFirst [] potentialName)
      if cleaned.length > 5 && ((Re.plus Re.space).split cleaned).length ≥ 2 then [cleaned]
      else []
    | none => []
  fromRelation ++ fromSri

/-- Insertion of a candidate in a list sorted by decreasing length, before the
candidates that are not longer. -/
def insertByLength (x : Str) : List Str → List Str
  | [] => [x]
  | y :: ys => if y.length ≤ x.length then x :: y :: ys else y :: insertByLength x ys

/-- The call `allFatherNames.sort((a, b) => b.length - a.length)`: a stable sort
by decreasing length. -/
def sortByLengthDesc (l : List Str) : List Str :=
  l.foldr insertByLength []

/-- The fallback loop of `extractFatherName`: the line after a `father` line. -/
def fatherAfterKeyword : List Str → Str
  | [] => []
  | line :: rest =>
    if reFatherKeyword.test line then
      let nextLine := rest.headD []
      if reCapsNameLong.test nextLine then nextLine else fatherAfterKeyword rest
    else fatherAfterKeyword rest

/-- The function `extractFatherName`. -/
def extractFatherName (text : Str) : Str :=
  let lines := (splitLines text).map trim
  let allFatherNames := lines.flatMap fatherCandidates
  match sortByLengthDesc allFatherNames with
  | bestName :: _ => bestName
  | [] => fatherAfterKeyword lines

/-! ### `extractDOB` -/

/-- The class `[\/\-]`. -/
def isSlashOrDash (c : Char) : Bool :=
  c == '/' || c == '-'

/-- The pattern `\d{2}[\/\-]\d{2}[\/\-]\d{4}`. -/
def reDateDigits : Re :=
  Re.seqs [Re.times 2 Re.digit, .chr isSlashOrDash, Re.times 2 Re.digit, .chr isSlashOrDash,
    Re.times 4 Re.digit]

/-- The pattern `Date\s+of\s+Birth` with the `i` flag. -/
def reDateOfBirthWords : Re :=
  Re.seqs [Re.litI "Date", Re.plus Re.space, Re.litI "of", Re.plus Re.space, Re.litI "Birth"]

/-- Pattern 1 of `extractDOB`: a label among `DOB`, `Date\s+of\s+Birth`,
`जन्म.*?तिथि`, `Birth`, then `[:\s]*`, then the date as group 1 (flag `i`). -/
def reLabelledDate : Re :=
  Re.seqs [Re.alts [Re.litI "DOB", reDateOfBirthWords,
      Re.seqs [Re.litI "जन्म", .lazyStar Re.dot, Re.litI "तिथि"], Re.litI "Birth"],
    .star (.chr isColonOrSpace), .group 1 reDateDigits]

/-- Pattern 2 of `extractDOB`: `(?:Year\s+of\s+Birth|YOB)[:\s]*(\d{4})`, flag `i`. -/
def reYearOfBirth : Re :=
  Re.seqs [.alt (Re.seqs [Re.litI "Year", Re.plus Re.space, Re.litI "of", Re.plus Re.space,
      Re.litI "Birth"]) (Re.litI "YOB"),
    .star (.chr isColonOrSpace), .group 1 (Re.times 4 Re.digit)]

/-- The label pattern of pattern 3: `DOB|Date\s+of\s+Birth|जन्म|Birth`, flag `i`. -/
def reBirthLabel : Re :=
  Re.alts [Re.litI "DOB", reDateOfBirthWords, Re.litI "जन्म", Re.litI "Birth"]

/-- The pattern `(\d{2}[\/\-]\d{2}[\/\-]\d{4})`. -/
def reDate : Re :=
  .group 1 reDateDigits

/-- The pattern `^(\d{4})$`. -/
def reYearOnly : Re :=
  Re.seqs [.bol, .group 1 (Re.times 4 Re.digit), .eol]

/-- The pattern `aadhaar|male|female|address|pin` with the `i` flag. -/
def reNotADateLine : Re :=
  Re.alts [Re.litI "aadhaar", Re.litI "male", Re.litI "female", Re.litI "address",
    Re.litI "pin"]

/-- The first loop of `extractDOB` (patterns 1 to 3) over the lines from index
`i` on; `none` when the loop ends without a `return`. -/
def dobLabelled : List Str → Option Str
  | [] => none
  | line :: rest =>
    match reLabelledDate.exec line with
    | some m => some (m.get 1).strD
    | none =>
      match reYearOfBirth.exec line with
      | some m => some (m.get 1).strD
      | none =>
        if reBirthLabel.test line then
          match reDate.exec line with
          | some m => some (m.get 1).strD
          | none =>
            match rest.head? with
            | some nextLine =>
              match reDate.exec nextLine with
              | some m => some (m.get 1).strD
              | none =>
                match reYearOnly.exec nextLine with
                | some m => some (m.get 1).strD
                | none => dobLabelled rest
            | none => dobLabelled rest
        else dobLabelled rest

/-- The function `extractDOB`. -/
def extractDOB (text : Str) : Str :=
  let lines := splitLines text
  match dobLabelled lines with
  | some d => d
  | none =>
    match lines.findSome? (fun line =>
        if !reNotADateLine.test line then reDate.exec line else none) with
    | some m => (m.get 1).strD
    | none => []

/-! ### `extractGender` -/

/-- The pattern `SEX|GENDER|लिंग` with the `i` flag. -/
def reGenderLabel : Re :=
  Re.alts [Re.litI "SEX", Re.litI "GENDER", Re.litI "लिंग"]

/-- The pattern `\bMALE\b`. -/
def reMaleWord : Re :=
  Re.seqs [.wordB, Re.lit "MALE", .wordB]

/-- The pattern `\bFEMALE\b`. -/
def reFemaleWord : Re :=
  Re.seqs [.wordB, Re.lit "FEMALE", .wordB]

/-- The loop of `extractGender` over the lines from index `i` on. -/
def extractGenderFrom : List Str → Str
  | [] => []
  | raw :: rest =>
    let line := toUpperCase (trim raw)
    let direct : Str :=
      if line == "MALE".toList || line == "M".toList then "Male".toList
      else if line == "FEMALE".toList || line == "F".toList then "Female".toList
      else if reMaleWord.test line && !(Re.lit "FEMALE").test line then "Male".toList
      else if reFemaleWord.test line then "Female".toList
      else extractGenderFrom rest
    if reGenderLabel.test line then
      if includes line " M".toList || includes line "M ".toList || includes line "/M".toList
          || endsWith line "M".toList then "Male".toList
      else if includes line " F".toList || includes line "F ".toList
          || includes line "/F".toList || endsWith line "F".toList then "Female".toList
      else
        match rest.head? with
        | some rawNext =>
          let nextLine := toUpperCase (trim rawNext)
          if nextLine == "M".toList || nextLine == "MALE".toList
              || includes nextLine "MALE".toList then "Male".toList
          else if nextLine == "F".toList || nextLine == "FEMALE".toList
              || includes nextLine "FEMALE".toList then "Female".toList
          else direct
        | none => direct
    else direct

/-- The function `extractGender`. -/
def extractGender (text : Str) : Str :=
  extractGenderFrom (splitLines text)

/-! ### `extractPIN` -/

/-- Pattern 1 of `extractPIN`: `(?:PIN|Pincode|Pin\s*Code)[:\s]*(\d{6})`, flag `i`. -/
def reLabelledPin : Re :=
  Re.seqs [Re.alts [Re.litI "PIN", Re.litI "Pincode",
      Re.seqs [Re.litI "Pin", .star Re.space, Re.litI "Code"]],
    .star (.chr isColonOrSpace), .group 1 (Re.times 6 Re.digit)]

/-- The pattern `\d{4}\s+\d{4}`. -/
def reTwoGroups : Re :=
  Re.seqs [Re.times 4 Re.digit, Re.plus Re.space, Re.times 4 Re.digit]

/-- The pattern `aadhaar|aadhar` with the `i` flag. -/
def reAadhaarWord : Re :=
  .alt (Re.litI "aadhaar") (Re.litI "aadhar")

/-- The pattern `\b(\d{6})\b`. -/
def reSixDigitToken : Re :=
  Re.seqs [.wordB, .group 1 (Re.times 6 Re.digit), .wordB]

/-- The pattern `address|पता` with the `i` flag. -/
def reAddressWord : Re :=
  .alt (Re.litI "address") (Re.litI "पता")

/-- The pattern `(\d{6})`. -/
def reSixDigits : Re :=
  .group 1 (Re.times 6 Re.digit)

/-- Pattern 3 of `extractPIN`: six digits within four lines after an address
line.  The argument is the list of the lines from index `i` on. -/
def pinNearAddress : List Str → Option Str
  | [] => none
  | line :: rest =>
    if reAddressWord.test line then
      match (rest.take 4).findSome? (fun checkLine =>
          match reSixDigits.exec checkLine with
          | some m => if !reTwoGroups.test checkLine then some m else none
          | none => none) with
      | some m => some (m.get 1).strD
      | none => pinNearAddress rest
    else pinNearAddress rest

/-- The function `extractPIN`. -/
def extractPIN (text : Str) : Str :=
  let lines := splitLines text
  match lines.findSome? (fun line => reLabelledPin.exec line) with
  | some m => (m.get 1).strD
  | none =>
    match lines.findSome? (fun line =>
        if reTwoGroups.test line || reAadhaarWord.test line then none
        else reSixDigitToken.exec line) with
    | some m => (m.get 1).strD
    | none => (pinNearAddress lines).getD []

/-! ### `extractState` -/

/-- The list `statePatterns`. -/
def statePatterns : List String :=
  ["Andhra Pradesh", "Arunachal Pradesh", "Assam", "Bihar", "Chhattisgarh",
   "Goa", "Gujarat", "Haryana", "Himachal Pradesh", "Jharkhand",
   "Karnataka", "Kerala", "Madhya Pradesh", "Maharashtra", "Manipur",
   "Meghalaya", "Mizoram", "Nagaland", "Odisha", "Punjab",
   "Rajasthan", "Sikkim", "Tamil Nadu", "Telangana", "Tripura",
   "Uttar Pradesh", "Uttarakhand", "West Bengal",
   "Delhi", "Jammu and Kashmir", "Ladakh", "Puducherry", "Chandigarh"]

/-- The function `extractState`. -/
def extractState (text : Str) : Str :=
  let textUpper := toUpperCase text
  match statePatterns.find? (fun state => includes textUpper (toUpperCase state.toList)) with
  | some state => state.toList
  | none => []

/-! ### `extractAddress` -/

/-- The pattern `^[^a-zA-Z0-9\s]{3,}`. -/
def reSymbolRun : Re :=
  .seq .bol (Re.atLeast 3 (.chr (fun c => !(isLetter c || isDigit c || isSpace c))))

/-- The pattern `[=][A-Z]|[0-9]%[A-Z]|[A-Z]{2}\)`. -/
def reOcrArtifact : Re :=
  Re.alts [.seq (Re.char '=') Re.upper, Re.seqs [Re.digit, Re.char '%', Re.upper],
    .seq (Re.times 2 Re.upper) (Re.char ')')]

/-- The pattern `[^\x00-\x7F]{3,}.*[,\s-]{3,}`. -/
def reScriptNoise : Re :=
  Re.seqs [Re.atLeast 3 (.chr (fun c => 127 < c.toNat)), .star Re.dot,
    Re.atLeast 3 (.chr (fun c => c == ',' || isSpace c || c == '-'))]

/-- The pattern `\b[a-z]{2,4}\s[a-z]{2,4}\s[a-z]{2,4}\b` with the `i` flag. -/
def reThreeShortWords : Re :=
  Re.seqs [.wordB, Re.range 2 4 Re.letter, Re.space, Re.range 2 4 Re.letter, Re.space,
    Re.range 2 4 Re.letter, .wordB]

/-- The pattern `\d+|ward|nagar|ganj|road|street|village|district|city|town` with
the `i` flag. -/
def reAddressIndicator : Re :=
  Re.alts [Re.plus Re.digit, Re.litI "ward", Re.litI "nagar", Re.litI "ganj", Re.litI "road",
    Re.litI "street", Re.litI "village", Re.litI "district", Re.litI "city", Re.litI "town"]

/-- The helper `isGarbageLine` of `extractAddress`. -/
def isGarbageLine (line : Str) : Bool :=
  if line.length < 5 then true
  else if reSymbolRun.test line then true
  else if reOcrArtifact.test line then true
  else if reScriptNoise.test line then true
  else if reThreeShortWords.test line then
    let hasValidAddress := reAddressIndicator.test line
    if !hasValidAddress then true else false
  else false

/-- The class `[,\s]`. -/
def isCommaOrSpace (c : Char) : Bool :=
  c == ',' || isSpace c

/-- The pattern `^([a-z]{3,8}\s+[a-z]{3,8}\s+[a-z]{3,8}[,\s]+){1,2}`, flag `i`. -/
def reLeadingGarbage : Re :=
  .seq .bol (Re.range 1 2 (.group 1 (Re.seqs [Re.range 3 8 Re.letter, Re.plus Re.space,
    Re.range 3 8 Re.letter, Re.plus Re.space, Re.range 3 8 Re.letter,
    Re.plus (.chr isCommaOrSpace)])))

/-- The pattern `\b[a-z]{2,4}\s+[a-z]{2,4}\s+[a-z]{2,4}\b[,\s]*`, flags `gi`. -/
def reShortWordRun : Re :=
  Re.seqs [.wordB, Re.range 2 4 Re.letter, Re.plus Re.space, Re.range 2 4 Re.letter,
    Re.plus Re.space, Re.range 2 4 Re.letter, .wordB, .star (.chr isCommaOrSpace)]

/-- The pattern `^[a-z]{2,4}\s+(?=[A-Z])` with the `i` flag. -/
def reLeadingShortWord : Re :=
  Re.seqs [.bol, Re.range 2 4 Re.letter, Re.plus Re.space, .look Re.letter]

/-- The pattern `\b[a-z]{2,4}\s+(?=[A-Z]{2,})` with the `g` flag. -/
def reShortWordBeforeCaps : Re :=
  Re.seqs [.wordB, Re.range 2 4 Re.lower, Re.plus Re.space, .look (Re.atLeast 2 Re.upper)]

/-- The pattern `,\s*,`. -/
def reCommaComma : Re :=
  Re.seqs [Re.char ',', .star Re.space, Re.char ',']

/-- The pattern `^[,\s]+|[,\s]+$`. -/
def reEdgeCommas : Re :=
  .alt (.seq .bol (Re.plus (.chr isCommaOrSpace))) (.seq (Re.plus (.chr isCommaOrSpace)) .eol)

/-- The helper `cleanAddressGarbage` of `extractAddress`. -/
def cleanAddressGarbage (address : Str) : Str :=
  let address := reLeadingGarbage.replaceFirst [] address
  let address := reShortWordRun.replaceAll [' '] address
  let address := reLeadingShortWord.replaceFirst [] address
  let address := reShortWordBeforeCaps.replaceAll [] address
  let address := trim (reCommaComma.replaceAll [','] ((Re.plus Re.space).replaceAll [' '] address))
  let address := reEdgeCommas.replaceAll [] address
  address

/-- The pattern `(?:gar:\s*)?(?:Address|पता)[:\s]*$` with the `i` flag. -/
def reAddressLabel : Re :=
  Re.seqs [Re.opt (.seq (Re.litI "gar:") (.star Re.space)),
    .alt (Re.litI "Address") (Re.litI "पता"), .star (.chr isColonOrSpace), .eol]

/-- The pattern `^\d{6}$`. -/
def rePinLine : Re :=
  Re.seqs [.bol, Re.times 6 Re.digit, .eol]

/-- The pattern `^(?:PIN|State|Help|VID)` with the `i` flag. -/
def reFieldMarker : Re :=
  .seq .bol (Re.alts [Re.litI "PIN", Re.litI "State", Re.litI "Help", Re.litI "VID"])

/-- The pattern `^(?:S\/O|D\/O|C\/O)[:\s]` with the `i` flag. -/
def reRelationLine : Re :=
  Re.seqs [.bol, Re.alts [Re.litI "S/O", Re.litI "D/O", Re.litI "C/O"], .chr isColonOrSpace]

/-- The pattern `^(?:Address|पता)[:\s]+(.+)$` with the `i` flag. -/
def reAddressInline : Re :=
  Re.seqs [.bol, .alt (Re.litI "Address") (Re.litI "पता"), Re.plus (.chr isColonOrSpace),
    .group 1 (Re.plus Re.dot), .eol]

/-- The pattern `^S\/O` with the `i` flag. -/
def reStartsWithSO : Re :=
  .seq .bol (Re.litI "S/O")

/-- The pattern `,?\s*\d{6}\s*[,\s]*` with the `g` flag. -/
def rePinInAddress : Re :=
  Re.seqs [Re.opt (Re.char ','), .star Re.space, Re.times 6 Re.digit, .star Re.space,
    .star (.chr isCommaOrSpace)]

/-- The pattern `\b\d{6}\b`. -/
def rePinToken : Re :=
  Re.seqs [.wordB, Re.times 6 Re.digit, .wordB]

/-- The pattern that stops the backward scan:
`government|india|uidai|aadhar|dob|birth|male|female|year|^address`, flag `i`. -/
def reStopBackward : Re :=
  Re.alts [Re.litI "government", Re.litI "india", Re.litI "uidai", Re.litI "aadhar",
    Re.litI "dob", Re.litI "birth", Re.litI "male", Re.litI "female", Re.litI "year",
    .seq .bol (Re.litI "address")]

/-- The inner loop after an address label: the lines collected in `addressLines`.
The argument is the list of the lines `j = i + 1, ...` still to visit. -/
def collectAfterLabel : List Str → List Str
  | [] => []
  | addrLine :: more =>
    if addrLine.isEmpty || rePinLine.test addrLine || reFieldMarker.test addrLine then []
    else if reRelationLine.test addrLine then collectAfterLabel more
    else if isGarbageLine addrLine then collectAfterLabel more
    else if addrLine.length > 5 && addrLine.length < 150 then
      addrLine :: collectAfterLabel more
    else collectAfterLabel more

/-- The inner loop of the backward scan: the argument is the list of the lines
`j = i - 1, i - 2, ...` still to visit; the result is in the order of the text,
as built by `unshift`. -/
def collectBackward : List Str → List Str
  | [] => []
  | addrLine :: more =>
    if reStopBackward.test addrLine then []
    else if reRelationLine.test addrLine then collectBackward more
    else if isGarbageLine addrLine then collectBackward more
    else if addrLine.length > 10 && addrLine.length < 150 then
      collectBackward more ++ [addrLine]
    else collectBackward more

/-- The assembly of the collected lines into one address. -/
def assembleAddress (addressLines : List Str) : Str :=
  let address := joinWith [',', ' '] addressLines
  let address := trim (reCommaComma.replaceAll [',', ' ']
    (rePinInAddress.replaceAll [',', ' '] address))
  let address := if endsWith address [','] then address.dropLast else address
  cleanAddressGarbage address

/-- Pattern 1 of `extractAddress`, over the lines from index `i` on. -/
def addressAfterLabel : List Str → Option Str
  | [] => none
  | line :: rest =>
    let inline : Option Str :=
      match reAddressInline.exec line with
      | some m =>
        if (m.get 1).strD.length > 10 && !reStartsWithSO.test (m.get 1).strD then
          some (m.get 1).strD
        else addressAfterLabel rest
      | none => addressAfterLabel rest
    if reAddressLabel.test line then
      let addressLines := collectAfterLabel (rest.take 7)
      if addressLines.length > 0 then some (assembleAddress addressLines) else inline
    else inline

/-- Pattern 2 of `extractAddress`: `before` is the list of the lines before
index `i`, nearest first, and the second argument the lines from index `i` on. -/
def addressBeforePin : List Str → List Str → Option Str
  | _, [] => none
  | before, line :: rest =>
    if rePinToken.test line && before.length > 2 then
      let addressLines := collectBackward (before.take 6)
      if addressLines.length > 0 then some (assembleAddress addressLines)
      else addressBeforePin (line :: before) rest
    else addressBeforePin (line :: before) rest

/-- The function `extractAddress`. -/
def extractAddress (text : Str) : Str :=
  let lines := (splitLines text).map trim
  match addressAfterLabel lines with
  | some a => a
  | none => (addressBeforePin [] lines).getD []

end Aadhar

/-! ## The data model of the results -/

/-- An entry of the `fields` array of a parse result. -/
structure ExtractedField where
  field_name : String
  field_value : JSValue
  confidence_score : ℚ

/-- The object returned by `parse`. -/
structure ParseResult where
  fields : List ExtractedField
  confidence_overall : ℚ
  threshold : ℚ

/-- Truthiness of a string: it is not empty. -/
def truthyStr (s : Str) : Bool :=
  !s.isEmpty

/-- The filter `f.field_value && f.field_value.length > 0`. -/
def hasValue (f : ExtractedField) : Bool :=
  match f.field_value with
  | .str s => !s.isEmpty && decide (s.length > 0)
  | _ => false

/-- The block `Calculate overall confidence` that ends both `parse` functions; the
two copies differ only in the bound `n` of `fields.slice(0, n)`, which is 5 in
the Aadhaar parser and 8 in the passport parser. -/
def overallConfidence (n : Nat) (fields : List ExtractedField) : ℚ :=
  let validFields := fields.filter hasValue
  let essentialFields := fields.take n
  let essentialCount := (essentialFields.filter hasValue).length
  let extractionRate : ℚ := (essentialCount : ℚ) / (essentialFields.length : ℚ)
  let avgConfidence : ℚ :=
    if validFields.length > 0 then
      validFields.foldl (fun sum f => sum + f.confidence_score) 0 / (validFields.length : ℚ)
    else 0
  avgConfidence * extractionRate

namespace Aadhar

/-- The function `parse` of the Aadhaar parser; the argument is `ocr.text`. -/
def parse (ocrText : JSValue) : ParseResult :=
  let text := normalizeText (ocrText.or (.str [])).strD
  let name := extractName text
  let fatherName := extractFatherName text
  let dob := extractDOB text
  let gender := extractGender text
  let aadhaarNumber := extractAadhaarNumber text
  let address := extractAddress text
  let pin := extractPIN text
  let state := extractState text
  let fields : List ExtractedField :=
    [{ field_name := "Name", field_value := .str name,
       confidence_score := if truthyStr name then 0.90 else 0 },
     { field_name := "Father Name", field_value := .str fatherName,
       confidence_score := if truthyStr fatherName then 0.85 else 0 },
     { field_name := "Date of Birth", field_value := .str dob,
       confidence_score := if truthyStr dob then 0.90 else 0 },
     { field_name := "Gender", field_value := .str gender,
       confidence_score := if truthyStr gender then 0.95 else 0 },
     { field_name := "Aadhaar Number", field_value := .str aadhaarNumber,
       confidence_score := if truthyStr aadhaarNumber then 0.98 else 0 },
     { field_name := "Address", field_value := .str address,
       confidence_score := if truthyStr address then 0.80 else 0 },
     { field_name := "PIN Code", field_value := .str pin,
       confidence_score := if truthyStr pin then 0.90 else 0 },
     { field_name := "State", field_value := .str state,
       confidence_score := if truthyStr state then 0.85 else 0 }]
  { fields := fields, confidence_overall := overallConfidence 5 fields, threshold := 0.70 }

end Aadhar

/-! ## The passport parser: `src/backend/parsers/passport-parser.js` -/

namespace Passport

/-- The function `normalizeText` of the passport parser. -/
def normalizeText (text : Str) : Str :=
  if text.isEmpty then []
  else
    trim (replaceChars (fun c => c == BACKTICK || c == APOSTROPHE) []
      (replaceChars (fun c => c == '|') ['I'] text))

/-! ### The machine readable zone -/

/-- The chain of corrections applied by `extractMRZ` to a candidate line. -/
def correctMRZ (cleaned : Str) : Str :=
  replaceChars (fun c => c == '|') ['1']
    (replaceChars (fun c => c == 'L') ['<']
      (replaceChars (fun c => c == 'I') ['1']
        (replaceChars (fun c => c == 'S') ['5']
          (replaceChars (fun c => c == 'Z') ['2']
            (replaceChars (fun c => c == 'B') ['8']
              (replaceChars (fun c => c == 'O') ['0'] cleaned))))))

/-- The function `extractMRZ`. -/
def extractMRZ (text : Str) : List Str :=
  let lines := (splitLines text).map trim
  lines.filterMap (fun line =>
    let cleaned := toUpperCase (replaceChars isSpace [] line)
    if includes cleaned ['<', '<'] && cleaned.length ≥ 40 && cleaned.length ≤ 50 then
      some (correctMRZ cleaned)
    else none)

/-- The object `data` built by `parseMRZ`; a property that was not set reads as
`undefined`. -/
structure MRZRecord where
  documentType : JSValue := .undefined
  issuingCountry : JSValue := .undefined
  surname : JSValue := .undefined
  givenNames : JSValue := .undefined
  passportNumber : JSValue := .undefined
  nationality : JSValue := .undefined
  dateOfBirth : JSValue := .undefined
  gender : JSValue := .undefined
  dateOfExpiry : JSValue := .undefined
  deriving DecidableEq, Repr

/-- The function `formatMRZDate`: `YYMMDD` to `DD/MM/YYYY`. -/
def formatMRZDate (mrzDate : Str) : Str :=
  if mrzDate.isEmpty || mrzDate.length != 6 then []
  else
    let yy := substring mrzDate 0 2
    let mm := substring mrzDate 2 4
    let dd := substring mrzDate 4 6
    let year :=
      match parseInt yy with
      | some n => if n > 50 then ['1', '9'] ++ yy else ['2', '0'] ++ yy
      | none => ['2', '0'] ++ yy
    dd ++ ['/'] ++ mm ++ ['/'] ++ year

/-- The call `namesSection.split('<<')`. -/
def splitFiller : Str → List Str
  | [] => [[]]
  | [c] => [[c]]
  | c :: d :: rest =>
    if c == '<' && d == '<' then [] :: splitFiller rest
    else
      match splitFiller (d :: rest) with
      | [] => [[c]]
      | l :: ls => (c :: l) :: ls

/-- The chain `replace(/</g, ' ').replace(/0/g, 'O').replace(/1/g, 'I').trim()`
applied to a part of the names section. -/
def decodeName (part : Str) : Str :=
  trim (replaceChars (fun c => c == '1') ['I']
    (replaceChars (fun c => c == '0') ['O'] (replaceChars (fun c => c == '<') [' '] part)))

/-- The pattern `^\d{6}$`. -/
def reSixDigitsOnly : Re :=
  Re.seqs [.bol, Re.times 6 Re.digit, .eol]

/-- The decoding of line 1 by `parseMRZ`. -/
def parseLine1 (line1 : Str) (data : MRZRecord) : MRZRecord :=
  if startsWith line1 ['P', '<'] || startsWith line1 ['P', '0'] then
    let data := { data with documentType := .str ['P'] }
    let data := { data with issuingCountry := .str (trim (replaceChars (fun c => c == '0') ['O']
      (replaceChars (fun c => c == '<') [] (substring line1 2 5)))) }
    let namesSection := line1.drop 5
    let nameParts := splitFiller namesSection
    let data :=
      if nameParts.length ≥ 1 then { data with surname := .str (decodeName (nameParts.getD 0 [])) }
      else data
    let data :=
      if nameParts.length ≥ 2 then
        { data with givenNames := .str (decodeName (nameParts.getD 1 [])) }
      else data
    data
  else data

/-- The decoding of line 2 by `parseMRZ`. -/
def parseLine2 (line2 : Str) (data : MRZRecord) : MRZRecord :=
  if line2.length ≥ 44 then
    let passportRaw := replaceChars (fun c => c == '<') [] (substring line2 0 9)
    let data := { data with passportNumber := .str (trim passportRaw) }
    let data := { data with nationality := .str (trim (replaceChars (fun c => c == '0') ['O']
      (replaceChars (fun c => c == '<') [] (substring line2 10 13)))) }
    let dobStr := substring line2 13 19
    let data :=
      if reSixDigitsOnly.test dobStr then { data with dateOfBirth := .str (formatMRZDate dobStr) }
      else data
    let genderChar := substring line2 20 21
    let data :=
      if genderChar == ['M'] || genderChar == ['F'] then
        { data with gender := .str (if genderChar == ['M'] then "Male".toList
                                     else "Female".toList) }
      else data
    let doeStr := substring line2 21 27
    let data :=
      if reSixDigitsOnly.test doeStr then { data with dateOfExpiry := .str (formatMRZDate doeStr) }
      else data
    data
  else data

/-- The function `parseMRZ`. -/
def parseMRZ (mrzLines : List Str) : MRZRecord :=
  let data : MRZRecord := {}
  if mrzLines.length < 2 then data
  else
    let line1 := mrzLines.getD 0 []
    let line2 := mrzLines.getD 1 []
    parseLine2 line2 (parseLine1 line1 data)

/-! ### Dates in the free text -/

/-- Words under the `i` flag, separated by `\s+`. -/
def phraseI : List String → Re
  | [] => .eps
  | [w] => Re.litI w
  | w :: rest => Re.seqs [Re.litI w, Re.plus Re.space, phraseI rest]

/-- The class `[\/\-]`. -/
def isSlashOrDash (c : Char) : Bool :=
  c == '/' || c == '-'

/-- The alternation `JAN|FEB|MAR|APR|MAY|JUN|JUL|AUG|SEP|OCT|NOV|DEC`, flag `i`. -/
def reMonth : Re :=
  Re.alts [Re.litI "JAN", Re.litI "FEB", Re.litI "MAR", Re.litI "APR", Re.litI "MAY",
    Re.litI "JUN", Re.litI "JUL", Re.litI "AUG", Re.litI "SEP", Re.litI "OCT", Re.litI "NOV",
    Re.litI "DEC"]

/-- The first of `datePatterns`:
`(\d{1,2}\s+(?:JAN|...|DEC)(?:\s*\/\s*[A-Z]{3})?\s+\d{2,4})` with the `i` flag. -/
def reDayMonthYear : Re :=
  .group 1 (Re.seqs [Re.range 1 2 Re.digit, Re.plus Re.space, reMonth,
    Re.opt (Re.seqs [.star Re.space, Re.char '/', .star Re.space, Re.times 3 Re.letter]),
    Re.plus Re.space, Re.range 2 4 Re.digit])

/-- The second of `datePatterns`: `(\d{2}[\/\-]\d{2}[\/\-]\d{4})`. -/
def reNumericDate : Re :=
  .group 1 (Re.seqs [Re.times 2 Re.digit, .chr isSlashOrDash, Re.times 2 Re.digit,
    .chr isSlashOrDash, Re.times 4 Re.digit])

/-- The third of `datePatterns`: `(\d{2}\-\d{2}\-\d{4})`. -/
def reDashDate : Re :=
  .group 1 (Re.seqs [Re.times 2 Re.digit, Re.char '-', Re.times 2 Re.digit, Re.char '-',
    Re.times 4 Re.digit])

/-- The array `datePatterns`. -/
def datePatterns : List Re :=
  [reDayMonthYear, reNumericDate, reDashDate]

/-- The object `fieldTerms`: the label pattern of a date field (flag `i`). -/
def fieldTerms (fieldName : String) : Option Re :=
  if fieldName = "dateOfBirth" then
    some (Re.alts [.seq (phraseI ["Date", "of"]) (.seq (Re.plus Re.space)
        (Re.alts [Re.litI "birth", Re.litI "Brih", Re.litI "BrihvDate"])),
      Re.litI "DOB", phraseI ["Oule", "of", "Brih"]])
  else if fieldName = "dateOfIssue" then
    some (Re.alts [.seq (phraseI ["Date", "of"]) (.seq (Re.plus Re.space)
        (Re.alts [Re.litI "issue", Re.litI "sues", Re.litI "dedvrance"])),
      phraseI ["Dute", "of", "sue"]])
  else if fieldName = "dateOfExpiry" then
    some (Re.alts [.seq (phraseI ["Date", "of"]) (.seq (Re.plus Re.space)
        (Re.alts [Re.litI "expiry", Re.litI "coping", Re.litI "expivation", Re.litI "opin"])),
      phraseI ["Valid", "until"], phraseI ["Dute", "of", "opin"]])
  else none

/-- The pattern `\s*\/\s*[A-Z]{3}\s*` with the `i` flag. -/
def reSecondLanguage : Re :=
  Re.seqs [.star Re.space, Re.char '/', .star Re.space, Re.times 3 Re.letter, .star Re.space]

/-- The pattern `(\d{1,2})\s+([A-Z]{3})\s+(\d{2,4})` with the `i` flag. -/
def reMonthMatch : Re :=
  Re.seqs [.group 1 (Re.range 1 2 Re.digit), Re.plus Re.space, .group 2 (Re.times 3 Re.letter),
    Re.plus Re.space, .group 3 (Re.range 2 4 Re.digit)]

/-- The pattern `^\d{2}[\/\-]\d{2}[\/\-]\d{4}$`. -/
def reNumericDateOnly : Re :=
  Re.seqs [.bol, Re.times 2 Re.digit, .chr isSlashOrDash, Re.times 2 Re.digit,
    .chr isSlashOrDash, Re.times 4 Re.digit, .eol]

/-- The object `monthMap`. -/
def monthMap : List (String × String) :=
  [("JAN", "01"), ("FEB", "02"), ("MAR", "03"), ("APR", "04"),
   ("MAY", "05"), ("JUN", "06"), ("JUL", "07"), ("AUG", "08"),
   ("SEP", "09"), ("OCT", "10"), ("NOV", "11"), ("DEC", "12")]

/-- The function `standardizeDate`. -/
def standardizeDate (dateStr : Str) : Str :=
  let dateStr := reSecondLanguage.replaceFirst [' '] dateStr
  match reMonthMatch.exec dateStr with
  | some monthMatch =>
    let day := padStart0 2 (monthMatch.get 1).strD
    let monthAbbr := substring (toUpperCase (monthMatch.get 2).strD) 0 3
    let month : Str :=
      match monthMap.find? (fun kv => kv.1.toList == monthAbbr) with
      | some kv => kv.2.toList
      | none => ['0', '1']
    let year := (monthMatch.get 3).strD
    let year :=
      if year.length == 2 then
        match parseInt year with
        | some n => if n > 50 then ['1', '9'] ++ year else ['2', '0'] ++ year
        | none => ['2', '0'] ++ year
      else year
    day ++ ['/'] ++ month ++ ['/'] ++ year
  | none =>
    if reNumericDateOnly.test dateStr then replaceChars (fun c => c == '-') ['/'] dateStr
    else dateStr

/-- The loop of `extractDateFromText` over the lines from index `i` on. -/
def dateAfterLabel (searchTerm : Re) : List Str → Str
  | [] => []
  | line :: rest =>
    if searchTerm.test line then
      match ((line :: rest).take 3).findSome? (fun searchLine =>
          datePatterns.findSome? (fun pattern => pattern.exec searchLine)) with
      | some m => standardizeDate (trim (m.get 1).strD)
      | none => dateAfterLabel searchTerm rest
    else dateAfterLabel searchTerm rest

/-- The function `extractDateFromText`. -/
def extractDateFromText (text : Str) (fieldName : String) : Str :=
  let lines := splitLines text
  match fieldTerms fieldName with
  | none => []
  | some searchTerm => dateAfterLabel searchTerm lines

/-! ### Gender and place of birth in the free text -/

/-- The pattern `(?:Sex|Gender|Sen\/Sene|Sen\/Sear)` with the `i` flag. -/
def reSexLabel : Re :=
  Re.alts [Re.litI "Sex", Re.litI "Gender", Re.litI "Sen/Sene", Re.litI "Sen/Sear"]

/-- The verdict of `extractGenderFromText` on one upper-cased line. -/
def genderOfLine (searchLine : Str) : Option Str :=
  if searchLine == ['M'] || (Re.seqs [.bol, Re.char 'M', Re.space]).test searchLine
      || (Re.seqs [Re.space, Re.char 'M', .eol]).test searchLine then some "Male".toList
  else if searchLine == ['F'] || (Re.seqs [.bol, Re.char 'F', Re.space]).test searchLine
      || (Re.seqs [Re.space, Re.char 'F', .eol]).test searchLine then some "Female".toList
  else if includes searchLine "MALE".toList && !includes searchLine "FEMALE".toList then
    some "Male".toList
  else if includes searchLine "FEMALE".toList then some "Female".toList
  else none

/-- The loop of `extractGenderFromText` over the lines from index `i` on. -/
def genderAfterLabel : List Str → Str
  | [] => []
  | raw :: rest =>
    if reSexLabel.test (trim raw) then
      match ((raw :: rest).take 3).findSome? (fun l => genderOfLine (toUpperCase (trim l))) with
      | some g => g
      | none => genderAfterLabel rest
    else genderAfterLabel rest

/-- The function `extractGenderFromText`. -/
def extractGenderFromText (text : Str) : Str :=
  genderAfterLabel (splitLines text)

/-- The label pattern of `extractPlaceOfBirth`, with the `i` flag:
`Place\s+of\s+birth|Pore\s+of\s+beth|Lioy\s+de\s+nadssance|Liew\s+de\s+nadtsacce`. -/
def rePlaceLabel : Re :=
  Re.alts [phraseI ["Place", "of", "birth"], phraseI ["Pore", "of", "beth"],
    phraseI ["Lioy", "de", "nadssance"], phraseI ["Liew", "de", "nadtsacce"]]

/-- The pattern `^[MF]\s+`. -/
def reGenderMarker : Re :=
  Re.seqs [.bol, .chr (fun c => c == 'M' || c == 'F'), Re.plus Re.space]

/-- The pattern `^[A-Z][A-Z\s,']{1,30}$` with the `i` flag. -/
def rePlaceName : Re :=
  Re.seqs [.bol, Re.letter,
    Re.range 1 30 (.chr (fun c => isLetter c || isSpace c || c == ',' || c == APOSTROPHE)), .eol]

/-- The loop of `extractPlaceOfBirth` over the lines from index `i` on. -/
def placeAfterLabel : List Str → Str
  | [] => []
  | raw :: rest =>
    if rePlaceLabel.test (trim raw) then
      match rest.head? with
      | some rawNext =>
        let nextLine := reGenderMarker.replaceFirst [] (trim rawNext)
        if rePlaceName.test nextLine && nextLine.length ≥ 2 then nextLine
        else placeAfterLabel rest
      | none => placeAfterLabel rest
    else placeAfterLabel rest

/-- The function `extractPlaceOfBirth`. -/
def extractPlaceOfBirth (text : Str) : Str :=
  placeAfterLabel (splitLines text)

/-! ### `extractFromText` -/

/-- The class `[:\s\/]`. -/
def isLabelTail (c : Char) : Bool :=
  c == ':' || isSpace c || c == '/'

/-- The letters `word`, then `\s*`, then the letters `next` (flag `i`). -/
def looseI (word next : String) : Re :=
  Re.seqs [Re.litI word, .star Re.space, Re.litI next]

/-- The pattern `BRITISH\s+CITIZEN|INDIAN|AMERICAN|CANADIAN|AUSTRALIAN`, flag `i`. -/
def reKnownNationality : Re :=
  Re.alts [phraseI ["BRITISH", "CITIZEN"], Re.litI "INDIAN", Re.litI "AMERICAN",
    Re.litI "CANADIAN", Re.litI "AUSTRALIAN"]

/-- The object `patterns` of `extractFromText` (all with the `i` flag but the
second pattern of `passportNumber`). -/
def patterns (fieldName : String) : Option (List Re) :=
  if fieldName = "surname" then
    some [.seq (Re.alts [Re.litI "Surname", looseI "Sur" "name", Re.litI "Serna",
      looseI "Family" "name", Re.litI "Nom"]) (.star (.chr isLabelTail))]
  else if fieldName = "givenNames" then
    some [.seq (Re.alts [Re.seqs [phraseI ["Given", "name"], Re.opt (Re.litI "s")],
      phraseI ["Geven", "nares"], phraseI ["First", "name"], Re.litI "Frome"])
      (.star (.chr isLabelTail))]
  else if fieldName = "passportNumber" then
    some [Re.seqs [Re.alts [Re.seqs [phraseI ["Passport", "No"], Re.opt (Re.char '.')],
        Re.seqs [phraseI ["Document", "No"], Re.opt (Re.char '.')], phraseI ["Passepart", "Ng"]],
        .star (.chr isLabelTail), .group 1 (Re.range 6 10 (.chr (fun c => isLetter c || isDigit c)))],
      Re.seqs [.bol, .group 1 (Re.alts [.seq Re.upper (Re.times 7 Re.digit),
        .seq (Re.times 2 Re.upper) (Re.range 6 8 Re.digit), Re.range 8 9 Re.digit]), .eol]]
  else if fieldName = "nationality" then
    some [.seq (Re.alts [Re.litI "Nationality", Re.litI "Nabonakty",
        .seq (Re.litI "Nation") (Re.opt (Re.litI "s")), Re.litI "Naan", Re.litI "Country"])
        (.star (.chr isLabelTail)),
      Re.seqs [.bol, .group 1 reKnownNationality, .eol],
      Re.seqs [.bol, .group 1 (Re.seqs [Re.range 3 20 Re.letter, Re.plus Re.space,
        Re.litI "CITIZEN"]), .eol]]
  else none

/-- The pattern `^[A-Z\s]{2,}$`. -/
def reCapsWords : Re :=
  Re.seqs [.bol, Re.atLeast 2 (.chr (fun c => isUpper c || isSpace c)), .eol]

/-- The pattern `CITIZEN|NATIONAL` with the `i` flag. -/
def reCitizenWord : Re :=
  .alt (Re.litI "CITIZEN") (Re.litI "NATIONAL")

/-- The pattern `^[A-Z\s]{3,30}$`. -/
def reCapsNationality : Re :=
  Re.seqs [.bol, Re.range 3 30 (.chr (fun c => isUpper c || isSpace c)), .eol]

/-- The pattern of the last loop of `extractFromText`, with the `i` flag:
`^(BRITISH\s+CITIZEN|INDIAN|AMERICAN|CANADIAN|AUSTRALIAN|FRENCH|GERMAN|ITALIAN|SPANISH|PORTUGUESE)$`. -/
def reNationalityLine : Re :=
  Re.seqs [.bol, .group 1 (Re.alts [phraseI ["BRITISH", "CITIZEN"], Re.litI "INDIAN",
    Re.litI "AMERICAN", Re.litI "CANADIAN", Re.litI "AUSTRALIAN", Re.litI "FRENCH",
    Re.litI "GERMAN", Re.litI "ITALIAN", Re.litI "SPANISH", Re.litI "PORTUGUESE"]), .eol]

/-- What `extractFromText` returns from the line after a label line, if anything. -/
def fromNextLine (fieldName : String) (nextLine : Str) : Option Str :=
  if (fieldName = "surname" || fieldName = "givenNames")
      && (reCapsWords.test nextLine && nextLine.length < 40 && nextLine.length > 1) then
    some nextLine
  else if fieldName = "nationality" && reCitizenWord.test nextLine then some nextLine
  else if fieldName = "nationality"
      && (reCapsNationality.test nextLine && nextLine.length ≥ 3) then some nextLine
  else if nextLine.length > 0 && nextLine.length < 30 then some nextLine
  else none

/-- The body of the loop over the patterns for the trimmed line `line`; `next` is
the following line of the text, when there is one. -/
def fromLine (fieldName : String) (pats : List Re) (line : Str) (next : Option Str) :
    Option Str :=
  pats.findSome? (fun pattern =>
    match pattern.exec line with
    | some m =>
      if (m.get 1).truthy then some (trim (m.get 1).strD)
      else
        match next with
        | some rawNext => fromNextLine fieldName (trim rawNext)
        | none => none
    | none => none)

/-- The main loop of `extractFromText` over the lines from index `i` on. -/
def fromLines (fieldName : String) (pats : List Re) : List Str → Option Str
  | [] => none
  | raw :: rest =>
    match fromLine fieldName pats (trim raw) rest.head? with
    | some v => some v
    | none => fromLines fieldName pats rest

/-- The function `extractFromText`. -/
def extractFromText (text : Str) (fieldName : String) : Str :=
  let lines := splitLines text
  match patterns fieldName with
  | none => []
  | some pats =>
    match fromLines fieldName pats lines with
    | some v => v
    | none =>
      if fieldName = "nationality" then
        match lines.find? (fun line => reNationalityLine.test line) with
        | some line => trim line
        | none => []
      else []

/-! ### `parse` -/

/-- The results of the text extractors, step 2 of `parse`. -/
structure TextExtraction where
  textSurname : Str
  textGivenNames : Str
  textPassportNumber : Str
  textNationality : Str
  textDOB : Str
  textDOI : Str
  textDOE : Str
  textGender : Str
  textPlaceOfBirth : Str

/-- Step 3 of `parse`: the array `fields` built from the decoded zone and from
the results of the text extractors. -/
def buildFields (mrzData : MRZRecord) (t : TextExtraction) : List ExtractedField :=
  let surname := mrzData.surname.or (.str t.textSurname)
  let givenNames := mrzData.givenNames.or (.str t.textGivenNames)
  let passportNumber := mrzData.passportNumber.or (.str t.textPassportNumber)
  let nationality :=
    if truthyStr t.textNationality
        && (includes t.textNationality "CITIZEN".toList || t.textNationality.length > 10) then
      JSValue.str t.textNationality
    else mrzData.nationality.or (.str t.textNationality)
  let dateOfBirth := (JSValue.str t.textDOB).or mrzData.dateOfBirth
  let gender := mrzData.gender.or (.str t.textGender)
  let dateOfExpiry := (JSValue.str t.textDOE).or mrzData.dateOfExpiry
  [{ field_name := "Surname", field_value := surname,
     confidence_score :=
       if mrzData.surname.truthy then 0.95 else (if truthyStr t.textSurname then 0.85 else 0) },
   { field_name := "Given Names", field_value := givenNames,
     confidence_score :=
       if mrzData.givenNames.truthy then 0.95
       else (if truthyStr t.textGivenNames then 0.85 else 0) },
   { field_name := "Passport Number", field_value := passportNumber,
     confidence_score :=
       if mrzData.passportNumber.truthy then 0.98
       else (if truthyStr t.textPassportNumber then 0.85 else 0) },
   { field_name := "Nationality", field_value := nationality,
     confidence_score :=
       if truthyStr t.textNationality && includes t.textNationality "CITIZEN".toList then 0.95
       else (if mrzData.nationality.truthy then 0.95
             else (if truthyStr t.textNationality then 0.80 else 0)) },
   { field_name := "Date of Birth", field_value := dateOfBirth,
     confidence_score :=
       if truthyStr t.textDOB then 0.90 else (if mrzData.dateOfBirth.truthy then 0.85 else 0) },
   { field_name := "Gender", field_value := gender,
     confidence_score :=
       if mrzData.gender.truthy then 0.98 else (if truthyStr t.textGender then 0.85 else 0) },
   { field_name := "Date of Issue", field_value := .str t.textDOI,
     confidence_score := if truthyStr t.textDOI then 0.85 else 0 },
   { field_name := "Date of Expiry", field_value := dateOfExpiry,
     confidence_score :=
       if truthyStr t.textDOE then 0.90 else (if mrzData.dateOfExpiry.truthy then 0.85 else 0) }]
  ++ (if truthyStr t.textPlaceOfBirth then
        [{ field_name := "Place of Birth", field_value := .str t.textPlaceOfBirth,
           confidence_score := 0.80 }]
      else [])

/-- Steps 1 and 2 of `parse`: the decoded zone and the text results for the
normalized text. -/
def extractText (text : Str) : TextExtraction :=
  { textSurname := extractFromText text "surname"
    textGivenNames := extractFromText text "givenNames"
    textPassportNumber := extractFromText text "passportNumber"
    textNationality := extractFromText text "nationality"
    textDOB := extractDateFromText text "dateOfBirth"
    textDOI := extractDateFromText text "dateOfIssue"
    textDOE := extractDateFromText text "dateOfExpiry"
    textGender := extractGenderFromText text
    textPlaceOfBirth := extractPlaceOfBirth text }

/-- The function `parse` of the passport parser; the argument is `ocr.text`. -/
def parse (ocrText : JSValue) : ParseResult :=
  let text := normalizeText (ocrText.or (.str [])).strD
  let mrzLines := extractMRZ text
  let mrzData := parseMRZ mrzLines
  let fields := buildFields mrzData (extractText text)
  { fields := fields, confidence_overall := overallConfidence 8 fields, threshold := 0.70 }

/-- For each of the eight fixed fields, in the order of `fields`: whether the
decoded zone or the free text yields a value for it (Date of Issue has no entry
in the zone). -/
def sourcesFound (mrzData : MRZRecord) (t : TextExtraction) : List Bool :=
  [mrzData.surname.truthy || truthyStr t.textSurname,
   mrzData.givenNames.truthy || truthyStr t.textGivenNames,
   mrzData.passportNumber.truthy || truthyStr t.textPassportNumber,
   mrzData.nationality.truthy || truthyStr t.textNationality,
   mrzData.dateOfBirth.truthy || truthyStr t.textDOB,
   mrzData.gender.truthy || truthyStr t.textGender,
   truthyStr t.textDOI,
   mrzData.dateOfExpiry.truthy || truthyStr t.textDOE]

end Passport

/-! ## The scoring rule in the words of the specification -/

/-- The specification's `valid`: a field whose value is a string that is not
empty. -/
def nonEmptyValue (f : ExtractedField) : Bool :=
  match f.field_value with
  | .str s => s != []
  | _ => false

/-- The specification's `avg_confidence`: the mean of `confidence_score` over the
fields with a non-empty value, and 0 when there is none. -/
def specAvgConfidence (fields : List ExtractedField) : ℚ :=
  let valid := fields.filter nonEmptyValue
  if valid.isEmpty then 0
  else (valid.map (fun f => f.confidence_score)).sum / (valid.length : ℚ)

/-- The specification's `extraction_rate`: the number of fields with a non-empty
value among the first `n`, the essential ones, divided by `n`. -/
def specExtractionRate (n : Nat) (fields : List ExtractedField) : ℚ :=
  (((fields.take n).filter nonEmptyValue).length : ℚ) / (n : ℚ)

/-! ## The machine readable zone in the words of the specification -/

namespace Passport

/-- The specification's correction table, character by character: `O` to `0`,
`B` to `8`, `Z` to `2`, `S` to `5`, `I` to `1`, `L` to `<`, the vertical bar to
`1`, and every other character unchanged. -/
def substMRZ (c : Char) : Char :=
  if c == 'O' then '0'
  else if c == 'B' then '8'
  else if c == 'Z' then '2'
  else if c == 'S' then '5'
  else if c == 'I' then '1'
  else if c == 'L' then '<'
  else if c == '|' then '1'
  else c

/-- The replacement of the character `a` by the character `r`, on one character. -/
def swapChar (a r : Char) (c : Char) : Char :=
  if c == a then r else c

/-- The specification's cleaning of a line: all white space stripped, then
upper-cased. -/
def cleanLine (line : Str) : Str :=
  toUpperCase (line.filter (fun c => !isSpace c))

/-- The specification's candidate test on a cleaned line: it contains the filler
sequence `<<` and its length is between 40 and 50 inclusive. -/
def isCandidate (cleaned : Str) : Bool :=
  includes cleaned ['<', '<'] && decide (40 ≤ cleaned.length) && decide (cleaned.length ≤ 50)

/-- The specification's decoding of one character of a name: `<` becomes a space,
`0` becomes `O`, `1` becomes `I`, and every other character is unchanged. -/
def decodeChar (c : Char) : Char :=
  if c == '<' then ' '
  else if c == '0' then 'O'
  else if c == '1' then 'I'
  else c

/-- The part of a string before its first `<<` (the whole string when it has
none). -/
def beforeFiller : Str → Str
  | [] => []
  | [c] => [c]
  | c :: d :: rest => if c == '<' && d == '<' then [] else c :: beforeFiller (d :: rest)

/-- The part of a string after its first `<<`, when it has one. -/
def afterFiller : Str → Option Str
  | [] => none
  | [_] => none
  | c :: d :: rest => if c == '<' && d == '<' then some rest else afterFiller (d :: rest)

/-- Where the final value of a field comes from. -/
inductive Source where
  | mrz
  | text
  | absent
  deriving DecidableEq, Repr

/-- The source chosen by `mrzValue || textValue`. -/
def mrzFirst (m : JSValue) (t : Str) : Source :=
  if m.truthy then .mrz else if truthyStr t then .text else .absent

/-- The source chosen by `textValue || mrzValue`. -/
def textFirst (t : Str) (m : JSValue) : Source :=
  if truthyStr t then .text else if m.truthy then .mrz else .absent

/-- For each of the eight fixed fields, in the order of `fields`: the source of
its final value, as chosen by step 3 of `parse`. -/
def fieldSources (mrzData : MRZRecord) (t : TextExtraction) : List Source :=
  [mrzFirst mrzData.surname t.textSurname,
   mrzFirst mrzData.givenNames t.textGivenNames,
   mrzFirst mrzData.passportNumber t.textPassportNumber,
   (if truthyStr t.textNationality
        && (includes t.textNationality "CITIZEN".toList || t.textNationality.length > 10) then
      Source.text
    else mrzFirst mrzData.nationality t.textNationality),
   textFirst t.textDOB mrzData.dateOfBirth,
   mrzFirst mrzData.gender t.textGender,
   textFirst t.textDOI .undefined,
   textFirst t.textDOE mrzData.dateOfExpiry]

/-- The values of the decoded zone, in the order of `fields` (Date of Issue has
none). -/
def mrzValues (mrzData : MRZRecord) : List JSValue :=
  [mrzData.surname, mrzData.givenNames, mrzData.passportNumber, mrzData.nationality,
   mrzData.dateOfBirth, mrzData.gender, .undefined, mrzData.dateOfExpiry]

/-- The values of the text extractors, in the order of `fields`. -/
def textValues (t : TextExtraction) : List Str :=
  [t.textSurname, t.textGivenNames, t.textPassportNumber, t.textNationality, t.textDOB,
   t.textGender, t.textDOI, t.textDOE]

end Passport

/-! ## The patterns, declaratively -/

/-- Whether a position is a word boundary: exactly one of the character before
it (the head of `pre`, which is kept last character first) and the character
after it is a word character. -/
def atWordBoundary (pre post : Str) : Bool :=
  (match pre with
    | [] => false
    | c :: _ => isWordChar c)
  != (match post with
    | [] => false
    | c :: _ => isWordChar c)

/-- The texts a pattern accepts: `Accepts r pre w post` says that `r` can read
the word `w` when `pre` (last character first) stands before it and `post`
after it. -/
inductive Re.Accepts : Re → Str → Str → Str → Prop
  | eps (pre post : Str) : Re.Accepts .eps pre [] post
  | chr (p : Char → Bool) (c : Char) (pre post : Str) (h : p c = true) :
      Re.Accepts (.chr p) pre [c] post
  | seq (a b : Re) (pre w1 w2 post : Str) (h1 : Re.Accepts a pre w1 (w2 ++ post))
      (h2 : Re.Accepts b (w1.reverse ++ pre) w2 post) :
      Re.Accepts (.seq a b) pre (w1 ++ w2) post
  | altL (a b : Re) (pre w post : Str) (h : Re.Accepts a pre w post) :
      Re.Accepts (.alt a b) pre w post
  | altR (a b : Re) (pre w post : Str) (h : Re.Accepts b pre w post) :
      Re.Accepts (.alt a b) pre w post
  | starNil (a : Re) (pre post : Str) : Re.Accepts (.star a) pre [] post
  | starCons (a : Re) (pre w1 w2 post : Str) (hne : w1 ≠ [])
      (h1 : Re.Accepts a pre w1 (w2 ++ post))
      (h2 : Re.Accepts (.star a) (w1.reverse ++ pre) w2 post) :
      Re.Accepts (.star a) pre (w1 ++ w2) post
  | lazyNil (a : Re) (pre post : Str) : Re.Accepts (.lazyStar a) pre [] post
  | lazyCons (a : Re) (pre w1 w2 post : Str) (hne : w1 ≠ [])
      (h1 : Re.Accepts a pre w1 (w2 ++ post))
      (h2 : Re.Accepts (.lazyStar a) (w1.reverse ++ pre) w2 post) :
      Re.Accepts (.lazyStar a) pre (w1 ++ w2) post
  | group (i : Nat) (a : Re) (pre w post : Str) (h : Re.Accepts a pre w post) :
      Re.Accepts (.group i a) pre w post
  | bol (post : Str) : Re.Accepts .bol [] [] post
  | eol (pre : Str) : Re.Accepts .eol pre [] []
  | wordB (pre post : Str) (h : atWordBoundary pre post = true) :
      Re.Accepts .wordB pre [] post
  | look (a : Re) (pre w post : Str) (h : Re.Accepts a pre w post) :
      Re.Accepts (.look a) pre [] (w ++ post)

/-- One success of a matcher read as a word: from the position `st` the position
`s` is reached by reading a word that `A` admits there. -/
def Reads (A : Str → Str → Str → Prop) (st s : MState) : Prop :=
  ∃ w, st.rest = w ++ s.rest ∧ s.pre = w.reverse ++ st.pre ∧ A st.pre w s.rest

/-- The pattern `r` accepts some word at the start of `rest`, with `pre` (last
character first) before it. -/
def Re.MatchesAt (r : Re) (pre rest : Str) : Prop :=
  ∃ w post, rest = w ++ post ∧ r.Accepts pre w post

/-! ## The Aadhaar number in the words of the specification -/

/-- A group of four decimal digits. -/
def Aadhar.FourDigits (d : Str) : Prop :=
  d.length = 4 ∧ ∀ c ∈ d, isDigit c = true

/-- A non-empty run of whitespace. -/
def Aadhar.Blank (s : Str) : Prop :=
  s ≠ [] ∧ ∀ c ∈ s, isSpace c = true

/-- Three groups of four digits separated by whitespace. -/
def Aadhar.GroupedNumber (w : Str) : Prop :=
  ∃ d1 s1 d2 s2 d3, w = d1 ++ s1 ++ d2 ++ s2 ++ d3 ∧ Aadhar.FourDigits d1 ∧ Aadhar.Blank s1
    ∧ Aadhar.FourDigits d2 ∧ Aadhar.Blank s2 ∧ Aadhar.FourDigits d3

/-- The line contains three groups of four digits separated by whitespace. -/
def Aadhar.ContainsGrouped (line : Str) : Prop :=
  ∃ a w b, line = a ++ w ++ b ∧ Aadhar.GroupedNumber w

/-- Twelve decimal digits. -/
def Aadhar.TwelveDigits (w : Str) : Prop :=
  w.length = 12 ∧ ∀ c ∈ w, isDigit c = true

/-- The line contains twelve consecutive digits. -/
def Aadhar.ContainsTwelve (line : Str) : Prop :=
  ∃ a w b, line = a ++ w ++ b ∧ Aadhar.TwelveDigits w

/-- Twelve characters regrouped as four, a space, four, a space, four. -/
def Aadhar.regroup (ds : Str) : Str :=
  ds.take 4 ++ [' '] ++ (ds.drop 4).take 4 ++ [' '] ++ (ds.drop 8).take 4

/-- The shape `XXXX XXXX XXXX`: three groups of four digits separated by single
space characters. -/
def Aadhar.CanonicalNumber (w : Str) : Prop :=
  ∃ d1 d2 d3, w = d1 ++ [' '] ++ d2 ++ [' '] ++ d3 ∧ Aadhar.FourDigits d1
    ∧ Aadhar.FourDigits d2 ∧ Aadhar.FourDigits d3

/-! ## `normalizeText` and `extractState` in the words of the specification -/

/-- The text with every vertical bar replaced by `I`, every backtick and
apostrophe removed, and then trimmed. -/
def specNormalizeText (s : Str) : Str :=
  trim ((s.map (fun c => if c == '|' then 'I' else c)).filter
    (fun c => !(c == BACKTICK || c == APOSTROPHE)))

/-- The text `p` is a substring of the text `s`. -/
def IsSubstring (p s : Str) : Prop :=
  ∃ a b, s = a ++ p ++ b

/-- The upper-cased name of a state is a substring of the upper-cased text. -/
def Aadhar.NamesState (text : Str) (state : String) : Prop :=
  IsSubstring (toUpperCase state.toList) (toUpperCase text)

/-! ## Whole words and short tokens, in the words of the specification -/

/-- The text `w` stands in `line` as a whole word: neither the character before
it nor the character after it, if any, is a word character. -/
def IsWholeWord (w line : Str) : Prop :=
  ∃ a b, line = a ++ w ++ b ∧ (∀ c ∈ a.getLast?, isWordChar c = false)
    ∧ (∀ c ∈ b.head?, isWordChar c = false)

/-- A token of 2 to 4 lowercase letters. -/
def Aadhar.ShortToken (t : Str) : Prop :=
  2 ≤ t.length ∧ t.length ≤ 4 ∧ ∀ c ∈ t, isLower c = true

/-- The words that `isGarbageLine` takes as signs of an address. -/
def Aadhar.addressIndicators : List String :=
  ["ward", "nagar", "ganj", "road", "street", "village", "district", "city", "town"]

/-! ## `extractAadhaarNumber` without its keyword strategy -/

/-- The function `extractAadhaarNumber` without its third loop: pattern 1 on
every line, then pattern 2 on every line, then the empty string. -/
def Aadhar.numberFromTwoPatterns (text : Str) : Str :=
  let lines := splitLines text
  match lines.findSome? (fun line => Aadhar.reGrouped.exec line) with
  | some m => (m.get 1).strD
  | none =>
    match lines.findSome? (fun line => Aadhar.reTwelve.exec line) with
    | some m => Aadhar.formatGroups (m.get 1).strD
    | none => []

/-! ## The Aadhaar name, date of birth and PIN in the words of the specification -/

/-- The text mentions the word `p`, in any letter case. -/
def MentionsI (p : String) (s : Str) : Prop :=
  IsSubstring (foldCase p.toList) (foldCase s)

/-- A run of `n` decimal digits. -/
def DigitRun (n : Nat) (w : Str) : Prop :=
  w.length = n ∧ ∀ c ∈ w, isDigit c = true

/-- A line in capitals with the shape of a name: a letter `A-Z` followed by 2 to
40 characters that are letters `A-Z` or whitespace. -/
def Aadhar.CapsLine (s : Str) : Prop :=
  ∃ c cs, s = c :: cs ∧ isUpper c = true ∧ 2 ≤ cs.length ∧ cs.length ≤ 40
    ∧ ∀ x ∈ cs, isUpper x = true ∨ isSpace x = true

/-- The words of `skipPatterns`, which mark a header line. -/
def Aadhar.headerKeywords : List String :=
  ["government", "india", "uidai", "भारत", "आधार", "aadhar", "aadhaar", "unique",
   "identification", "authority"]

/-- The words that mark the line after a name. -/
def Aadhar.afterNameKeywords : List String :=
  ["male", "female", "dob", "birth", "year"]

/-- A date of shape `DD/MM/YYYY`. -/
def Aadhar.SlashDate (w : Str) : Prop :=
  ∃ d m y, w = d ++ ['/'] ++ m ++ ['/'] ++ y ∧ DigitRun 2 d ∧ DigitRun 2 m ∧ DigitRun 4 y

/-- The line after a name, as `extractName` wants it: a line in capitals with the
shape of a name and without digits, or a line that mentions one of the words
male, female, dob, birth, year, or a line that contains a date `DD/MM/YYYY`. -/
def Aadhar.Corroborates (next : Str) : Prop :=
  (Aadhar.CapsLine next ∧ ∀ c ∈ next, isDigit c = false)
  ∨ (∃ p ∈ Aadhar.afterNameKeywords, MentionsI p next)
  ∨ (∃ a w b, next = a ++ w ++ b ∧ Aadhar.SlashDate w)

/-- A date as pattern 1 of `extractDOB` reads it: two digits, `/` or `-`, two
digits, `/` or `-`, four digits. -/
def Aadhar.DobDate (d : Str) : Prop :=
  ∃ dd s1 mm s2 yyyy, d = dd ++ [s1] ++ mm ++ [s2] ++ yyyy ∧ DigitRun 2 dd
    ∧ Aadhar.isSlashOrDash s1 = true ∧ DigitRun 2 mm ∧ Aadhar.isSlashOrDash s2 = true
    ∧ DigitRun 4 yyyy

/-- A label of the date of birth written in Latin letters, in any letter case:
`DOB`, `Birth`, or `Date of Birth` with whitespace between the words. -/
def Aadhar.BirthLabel (lab : Str) : Prop :=
  foldCase lab = "DOB".toList ∨ foldCase lab = "BIRTH".toList
  ∨ ∃ x s1 y s2 z, lab = x ++ s1 ++ y ++ s2 ++ z ∧ foldCase x = "DATE".toList
      ∧ Aadhar.Blank s1 ∧ foldCase y = "OF".toList ∧ Aadhar.Blank s2
      ∧ foldCase z = "BIRTH".toList

/-- The text `w` is a label of the date of birth directly followed, after
optional colons and whitespace, by the date `d`. -/
def Aadhar.LabelledDate (w d : Str) : Prop :=
  ∃ lab sep, w = lab ++ sep ++ d ∧ Aadhar.BirthLabel lab
    ∧ (∀ c ∈ sep, Aadhar.isColonOrSpace c = true) ∧ Aadhar.DobDate d

/-! ## Dates of the passport text in the words of the specification -/

/-- A pattern without capture groups. -/
def Re.groupFree : Re → Bool
  | .eps => true
  | .chr _ => true
  | .seq a b => a.groupFree && b.groupFree
  | .alt a b => a.groupFree && b.groupFree
  | .star a => a.groupFree
  | .lazyStar a => a.groupFree
  | .group _ _ => false
  | .bol => true
  | .eol => true
  | .wordB => true
  | .look _ => true

/-- The English month abbreviations, in the order of the year. -/
def Passport.monthNames : List String :=
  ["JAN", "FEB", "MAR", "APR", "MAY", "JUN", "JUL", "AUG", "SEP", "OCT", "NOV", "DEC"]

/-- A number below 100 written with two decimal digits. -/
def twoDigits (n : Nat) : Str :=
  [Char.ofNat (48 + n / 10), Char.ofNat (48 + n % 10)]

/-- The number written by a string of decimal digits. -/
def digitsValue (s : Str) : Nat :=
  s.foldl (fun n c => 10 * n + digitVal c) 0

/-- A secondary-language suffix of a month: optional whitespace, `/`, optional
whitespace, three letters. -/
def Passport.MonthSuffix (sfx : Str) : Prop :=
  ∃ s2 s3 x, sfx = s2 ++ ['/'] ++ s3 ++ x ∧ (∀ c ∈ s2, isSpace c = true)
    ∧ (∀ c ∈ s3, isSpace c = true) ∧ x.length = 3 ∧ ∀ c ∈ x, isLetter c = true

/-- The shape of a normalized date whose year has three or four digits: two
digits, `/`, two digits, `/`, and the year. -/
def Passport.DateShape (r : Str) : Prop :=
  ∃ dd mm yy, r = dd ++ ['/'] ++ mm ++ ['/'] ++ yy ∧ DigitRun 2 dd ∧ DigitRun 2 mm
    ∧ (DigitRun 3 yy ∨ DigitRun 4 yy)

/-! ## The surname of the passport text in the words of the specification -/

/-- The specification's all-caps token of plausible length: only letters `A`
to `Z` and whitespace, at least 2 and fewer than 40 characters. -/
def Passport.CapsToken (r : Str) : Prop :=
  (∀ c ∈ r, isUpper c = true ∨ isSpace c = true) ∧ 2 ≤ r.length ∧ r.length < 40

/-! ## Lemmas on values and on the scoring rule -/

theorem or_str_strD (text : Str) : ((JSValue.str text).or (.str [])).strD = text := by
  cases text <;> rfl

theorem truthyStr_iff (s : Str) : truthyStr s = true ↔ s ≠ [] := by
  cases s <;> simp [truthyStr]

theorem truthy_str (s : Str) : (JSValue.str s).truthy = truthyStr s := rfl

theorem hasValue_eq_nonEmptyValue (f : ExtractedField) : hasValue f = nonEmptyValue f := by
  unfold hasValue nonEmptyValue
  cases f.field_value with
  | undefined => rfl
  | null => rfl
  | str s => cases s <;> simp

theorem hasValue_eq_truthy (f : ExtractedField) : hasValue f = f.field_value.truthy := by
  unfold hasValue JSValue.truthy
  cases f.field_value with
  | undefined => rfl
  | null => rfl
  | str s => cases s <;> simp

theorem hasValue_fun_eq : hasValue = nonEmptyValue :=
  funext hasValue_eq_nonEmptyValue

theorem foldl_confidence (l : List ExtractedField) (a : ℚ) :
    l.foldl (fun sum f => sum + f.confidence_score) a
      = a + (l.map (fun f => f.confidence_score)).sum := by
  induction l generalizing a with
  | nil => simp
  | cons x xs ih => simp [List.foldl_cons, ih, add_assoc]

theorem sum_confidence_nonneg (l : List ExtractedField)
    (h : ∀ f ∈ l, 0 ≤ f.confidence_score) :
    0 ≤ (l.map (fun f => f.confidence_score)).sum := by
  induction l with
  | nil => simp
  | cons x xs ih =>
    simp only [List.map_cons, List.sum_cons]
    have h1 := h x (List.mem_cons_self x xs)
    have h2 := ih (fun f hf => h f (List.mem_cons_of_mem x hf))
    linarith

theorem sum_confidence_le (l : List ExtractedField) (c : ℚ)
    (h : ∀ f ∈ l, f.confidence_score ≤ c) :
    (l.map (fun f => f.confidence_score)).sum ≤ (l.length : ℚ) * c := by
  induction l with
  | nil => simp
  | cons x xs ih =>
    simp only [List.map_cons, List.sum_cons, List.length_cons, Nat.cast_add, Nat.cast_one]
    have h1 := h x (List.mem_cons_self x xs)
    have h2 := ih (fun f hf => h f (List.mem_cons_of_mem x hf))
    linarith

theorem sum_confidence_pos (l : List ExtractedField) (hne : l ≠ [])
    (h : ∀ f ∈ l, 0 < f.confidence_score) :
    0 < (l.map (fun f => f.confidence_score)).sum := by
  cases l with
  | nil => exact absurd rfl hne
  | cons x xs =>
    simp only [List.map_cons, List.sum_cons]
    have h1 := h x (List.mem_cons_self x xs)
    have h2 := sum_confidence_nonneg xs
      (fun f hf => le_of_lt (h f (List.mem_cons_of_mem x hf)))
    linarith

/-- The code's overall confidence is the product of the specification's two
factors, as soon as the array has at least `n` entries. -/
theorem overallConfidence_eq_spec (n : Nat) (fields : List ExtractedField)
    (hlen : n ≤ fields.length) :
    overallConfidence n fields = specAvgConfidence fields * specExtractionRate n fields := by
  unfold overallConfidence specAvgConfidence specExtractionRate
  simp only [hasValue_fun_eq, foldl_confidence, zero_add, List.length_take,
    Nat.min_eq_left hlen]
  cases hv : fields.filter nonEmptyValue with
  | nil => simp
  | cons x xs => simp

theorem specAvgConfidence_nonneg (fields : List ExtractedField)
    (h : ∀ f ∈ fields, 0 ≤ f.confidence_score) : 0 ≤ specAvgConfidence fields := by
  unfold specAvgConfidence
  simp only
  split
  · exact le_refl 0
  · apply div_nonneg
    · exact sum_confidence_nonneg _ (fun f hf => h f (List.mem_of_mem_filter hf))
    · exact Nat.cast_nonneg _

theorem specAvgConfidence_le (fields : List ExtractedField) (c : ℚ) (hc : 0 ≤ c)
    (h : ∀ f ∈ fields, f.confidence_score ≤ c) : specAvgConfidence fields ≤ c := by
  unfold specAvgConfidence
  simp only
  split
  · exact hc
  · rename_i hne
    have hpos : (0 : ℚ) < ((fields.filter nonEmptyValue).length : ℚ) := by
      have : 0 < (fields.filter nonEmptyValue).length := by
        cases hv : fields.filter nonEmptyValue with
        | nil => simp [hv] at hne
        | cons x xs => simp
      exact_mod_cast this
    rw [div_le_iff₀ hpos]
    have := sum_confidence_le (fields.filter nonEmptyValue) c
      (fun f hf => h f (List.mem_of_mem_filter hf))
    linarith

theorem specAvgConfidence_pos (fields : List ExtractedField)
    (hex : ∃ f ∈ fields, nonEmptyValue f = true)
    (h : ∀ f ∈ fields, nonEmptyValue f = true → 0 < f.confidence_score) :
    0 < specAvgConfidence fields := by
  obtain ⟨g, hg, hgv⟩ := hex
  have hmem : g ∈ fields.filter nonEmptyValue := List.mem_filter.mpr ⟨hg, hgv⟩
  have hne : fields.filter nonEmptyValue ≠ [] := List.ne_nil_of_mem hmem
  unfold specAvgConfidence
  simp only
  split
  · rename_i he
    exact absurd (List.isEmpty_iff.mp he) hne
  · apply div_pos
    · exact sum_confidence_pos _ hne
        (fun f hf => h f (List.mem_of_mem_filter hf) (List.mem_filter.mp hf).2)
    · have : 0 < (fields.filter nonEmptyValue).length := List.length_pos.mpr hne
      exact_mod_cast this

theorem specExtractionRate_nonneg (n : Nat) (fields : List ExtractedField) :
    0 ≤ specExtractionRate n fields := by
  unfold specExtractionRate
  exact div_nonneg (Nat.cast_nonneg _) (Nat.cast_nonneg _)

theorem specExtractionRate_le_one (n : Nat) (fields : List ExtractedField) :
    specExtractionRate n fields ≤ 1 := by
  unfold specExtractionRate
  apply div_le_one_of_le₀
  · have h1 : ((fields.take n).filter nonEmptyValue).length ≤ (fields.take n).length :=
      List.length_filter_le _ _
    have h2 : (fields.take n).length ≤ n := by
      rw [List.length_take]; exact Nat.min_le_left _ _
    exact_mod_cast le_trans h1 h2
  · exact Nat.cast_nonneg _

theorem specExtractionRate_eq_zero_iff (n : Nat) (fields : List ExtractedField) (hn : 0 < n) :
    specExtractionRate n fields = 0 ↔ ∀ f ∈ fields.take n, nonEmptyValue f = false := by
  unfold specExtractionRate
  have hn0 : (n : ℚ) ≠ 0 := by exact_mod_cast (Nat.pos_iff_ne_zero.mp hn)
  rw [div_eq_zero_iff]
  constructor
  · rintro (h | h)
    · have h0 : ((fields.take n).filter nonEmptyValue).length = 0 := by exact_mod_cast h
      have hnil := List.length_eq_zero.mp h0
      intro f hf
      by_contra hc
      have : f ∈ (fields.take n).filter nonEmptyValue :=
        List.mem_filter.mpr ⟨hf, by simpa using hc⟩
      rw [hnil] at this
      exact absurd this (List.not_mem_nil f)
    · exact absurd h hn0
  · intro h
    left
    have : (fields.take n).filter nonEmptyValue = [] := by
      rw [List.filter_eq_nil_iff]
      intro f hf
      simp [h f hf]
    rw [this]
    simp

theorem or_truthy (a b : JSValue) : (a.or b).truthy = (a.truthy || b.truthy) := by
  unfold JSValue.or
  cases h : a.truthy <;> simp [h]

theorem or_of_truthy (a b : JSValue) (h : a.truthy = true) : a.or b = a := by
  simp [JSValue.or, h]

theorem or_of_not_truthy (a b : JSValue) (h : a.truthy = false) : a.or b = b := by
  simp [JSValue.or, h]

theorem score_two (a b : Bool) (c1 c2 : ℚ) (h1 : 0 < c1) (h1' : c1 ≤ 1) (h2 : 0 < c2)
    (h2' : c2 ≤ 1) :
    (0 < (if a = true then c1 else (if b = true then c2 else 0)) ↔ (a || b) = true)
      ∧ 0 ≤ (if a = true then c1 else (if b = true then c2 else 0))
      ∧ (if a = true then c1 else (if b = true then c2 else 0)) ≤ 1 := by
  cases a <;> cases b <;> simp [h1, h2, h1', h2', le_of_lt h1, le_of_lt h2]

/-- Every entry built by the Aadhaar `parse` holds the string found by an
extractor, and scores a fixed positive constant when that string is not empty
and 0 when it is. -/
theorem aadhaar_parse_field_shape (ocrText : JSValue) (f : ExtractedField)
    (h : f ∈ (Aadhar.parse ocrText).fields) :
    ∃ (s : Str) (c : ℚ), 0 < c ∧ c ≤ 1 ∧ f.field_value = .str s
      ∧ f.confidence_score = if truthyStr s = true then c else 0 := by
  unfold Aadhar.parse at h
  simp only [List.mem_cons, List.mem_singleton, List.not_mem_nil, or_false] at h
  rcases h with rfl | rfl | rfl | rfl | rfl | rfl | rfl | rfl
  all_goals exact ⟨_, _, by norm_num, by norm_num, rfl, rfl⟩

/-- Every entry built by step 3 of the passport `parse` scores more than 0
exactly when its value is a non-empty string, and its score lies in `[0, 1]`. -/
theorem passport_buildFields_score (mrzData : Passport.MRZRecord)
    (t : Passport.TextExtraction) (f : ExtractedField)
    (h : f ∈ Passport.buildFields mrzData t) :
    (0 < f.confidence_score ↔ f.field_value.truthy = true)
      ∧ 0 ≤ f.confidence_score ∧ f.confidence_score ≤ 1 := by
  unfold Passport.buildFields at h
  simp only [List.mem_append, List.mem_cons, List.mem_singleton, List.not_mem_nil,
    or_false] at h
  rcases h with (rfl | rfl | rfl | rfl | rfl | rfl | rfl | rfl) | h
  · simpa [or_truthy, truthy_str] using
      score_two mrzData.surname.truthy (truthyStr t.textSurname) 0.95 0.85
        (by norm_num) (by norm_num) (by norm_num) (by norm_num)
  · simpa [or_truthy, truthy_str] using
      score_two mrzData.givenNames.truthy (truthyStr t.textGivenNames) 0.95 0.85
        (by norm_num) (by norm_num) (by norm_num) (by norm_num)
  · simpa [or_truthy, truthy_str] using
      score_two mrzData.passportNumber.truthy (truthyStr t.textPassportNumber) 0.98 0.85
        (by norm_num) (by norm_num) (by norm_num) (by norm_num)
  · dsimp only
    cases h1 : truthyStr t.textNationality <;> cases h2 : mrzData.nationality.truthy <;>
      cases h3 : includes t.textNationality "CITIZEN".toList <;>
      cases h4 : decide (t.textNationality.length > 10) <;>
      simp [h1, h2, h3, h4, or_truthy, truthy_str] <;> norm_num
  · simpa [or_truthy, truthy_str] using
      score_two (truthyStr t.textDOB) mrzData.dateOfBirth.truthy 0.90 0.85
        (by norm_num) (by norm_num) (by norm_num) (by norm_num)
  · simpa [or_truthy, truthy_str] using
      score_two mrzData.gender.truthy (truthyStr t.textGender) 0.98 0.85
        (by norm_num) (by norm_num) (by norm_num) (by norm_num)
  · dsimp only
    cases h1 : truthyStr t.textDOI <;> simp [h1, truthy_str]
    norm_num
  · simpa [or_truthy, truthy_str] using
      score_two (truthyStr t.textDOE) mrzData.dateOfExpiry.truthy 0.90 0.85
        (by norm_num) (by norm_num) (by norm_num) (by norm_num)
  · cases h1 : truthyStr t.textPlaceOfBirth
    · simp [h1] at h
    · simp only [h1, if_true, List.mem_singleton] at h
      subst h
      simp [truthy_str, h1]
      norm_num

theorem nonEmptyValue_eq_truthy (f : ExtractedField) :
    nonEmptyValue f = f.field_value.truthy := by
  rw [← hasValue_eq_nonEmptyValue, hasValue_eq_truthy]

theorem aadhaar_parse_overall (ocrText : JSValue) :
    (Aadhar.parse ocrText).confidence_overall
      = overallConfidence 5 (Aadhar.parse ocrText).fields := rfl

theorem aadhaar_parse_length (ocrText : JSValue) :
    (Aadhar.parse ocrText).fields.length = 8 := rfl

theorem passport_parse_fields (ocrText : JSValue) :
    (Passport.parse ocrText).fields
      = Passport.buildFields
          (Passport.parseMRZ
            (Passport.extractMRZ (Passport.normalizeText (ocrText.or (.str [])).strD)))
          (Passport.extractText (Passport.normalizeText (ocrText.or (.str [])).strD)) := rfl

theorem passport_parse_overall (ocrText : JSValue) :
    (Passport.parse ocrText).confidence_overall
      = overallConfidence 8 (Passport.parse ocrText).fields := rfl

theorem passport_buildFields_length (mrzData : Passport.MRZRecord)
    (t : Passport.TextExtraction) :
    (Passport.buildFields mrzData t).length
      = 8 + (if truthyStr t.textPlaceOfBirth = true then 1 else 0) := by
  unfold Passport.buildFields
  cases h : truthyStr t.textPlaceOfBirth <;> simp [h]

theorem passport_parse_length_ge (ocrText : JSValue) :
    8 ≤ (Passport.parse ocrText).fields.length := by
  rw [passport_parse_fields, passport_buildFields_length]
  exact Nat.le_add_right 8 _

/-- The bound on the overall confidence, for any array of at least `n` entries
whose scores lie in `[0, 1]`. -/
theorem overallConfidence_bounds (n : Nat) (fields : List ExtractedField)
    (hlen : n ≤ fields.length)
    (h : ∀ f ∈ fields, 0 ≤ f.confidence_score ∧ f.confidence_score ≤ 1) :
    0 ≤ overallConfidence n fields ∧ overallConfidence n fields ≤ 1 := by
  rw [overallConfidence_eq_spec n fields hlen]
  have a0 := specAvgConfidence_nonneg fields (fun f hf => (h f hf).1)
  have a1 := specAvgConfidence_le fields 1 (by norm_num) (fun f hf => (h f hf).2)
  have r0 := specExtractionRate_nonneg n fields
  have r1 := specExtractionRate_le_one n fields
  constructor
  · exact mul_nonneg a0 r0
  · calc specAvgConfidence fields * specExtractionRate n fields
        ≤ 1 * 1 := mul_le_mul a1 r1 r0 (by norm_num)
      _ = 1 := by norm_num

/-- The overall confidence vanishes exactly when no essential field has a value,
for any array of at least `n ≥ 1` entries in which a field with a value scores
more than 0. -/
theorem overallConfidence_eq_zero_iff (n : Nat) (fields : List ExtractedField)
    (hn : 0 < n) (hlen : n ≤ fields.length)
    (hpos : ∀ f ∈ fields, nonEmptyValue f = true → 0 < f.confidence_score) :
    overallConfidence n fields = 0 ↔ ∀ f ∈ fields.take n, nonEmptyValue f = false := by
  rw [overallConfidence_eq_spec n fields hlen, mul_eq_zero]
  constructor
  · rintro (ha | hr)
    · intro f hf
      by_contra hc
      have hv : nonEmptyValue f = true := by simpa using hc
      have := specAvgConfidence_pos fields ⟨f, List.mem_of_mem_take hf, hv⟩ hpos
      linarith
    · exact (specExtractionRate_eq_zero_iff n fields hn).mp hr
  · intro h
    right
    exact (specExtractionRate_eq_zero_iff n fields hn).mpr h

theorem ite_truthyStr (s : Str) (c : ℚ) :
    (if truthyStr s = true then c else 0) = if s ≠ [] then c else 0 := by
  cases s <;> simp [truthyStr]

theorem mrz_first_field (name : String) (m : JSValue) (tx : Str) (cm : ℚ) :
    (∀ s, m = JSValue.str s → s ≠ [] →
        (⟨name, m.or (.str tx),
          if m.truthy = true then cm else (if truthyStr tx = true then 0.85 else 0)⟩
            : ExtractedField) = ⟨name, JSValue.str s, cm⟩)
      ∧ (m.truthy = false →
        (⟨name, m.or (.str tx),
          if m.truthy = true then cm else (if truthyStr tx = true then 0.85 else 0)⟩
            : ExtractedField) = ⟨name, JSValue.str tx, if tx ≠ [] then 0.85 else 0⟩) := by
  constructor
  · intro s hm hs
    have ht : m.truthy = true := by
      rw [hm]
      cases s with
      | nil => exact absurd rfl hs
      | cons x xs => rfl
    rw [or_of_truthy _ _ ht, if_pos ht, hm]
  · intro hf
    rw [or_of_not_truthy _ _ hf, ite_truthyStr]
    simp [hf]

theorem includes_ne_nil (s p : Str) (h : includes s p = true) (hp : p ≠ []) : s ≠ [] := by
  intro hs
  subst hs
  cases p with
  | nil => exact hp rfl
  | cons x xs => simp [includes] at h

theorem isDigit_cases (c : Char) (h : isDigit c = true) :
    c ∈ ['0', '1', '2', '3', '4', '5', '6', '7', '8', '9'] := by
  have h1 : 48 ≤ c.toNat ∧ c.toNat ≤ 57 := by simpa [isDigit] using h
  have hc : c = Char.ofNat c.toNat := (Char.ofNat_toNat c).symm
  obtain ⟨h48, h57⟩ := h1
  generalize c.toNat = n at hc h48 h57
  subst hc
  interval_cases n <;> decide

theorem parseInt_two_digits (a b : Char) (ha : isDigit a = true) (hb : isDigit b = true) :
    parseInt [a, b] = some ((digitVal a * 10 + digitVal b : Nat) : Int) := by
  have ha' := isDigit_cases a ha
  have hb' := isDigit_cases b hb
  simp only [List.mem_cons, List.mem_singleton, List.not_mem_nil, or_false] at ha' hb'
  rcases ha' with rfl | rfl | rfl | rfl | rfl | rfl | rfl | rfl | rfl | rfl <;>
    rcases hb' with rfl | rfl | rfl | rfl | rfl | rfl | rfl | rfl | rfl | rfl <;> rfl

/-! ## Lemmas on strings -/

theorem replaceChars_nil (p : Char → Bool) (s : Str) :
    replaceChars p [] s = s.filter (fun c => !p c) := by
  induction s with
  | nil => rfl
  | cons x xs ih =>
    have hstep : replaceChars p [] (x :: xs)
        = (if p x = true then [] else [x]) ++ replaceChars p [] xs := by
      simp [replaceChars, List.flatMap_cons]
    rw [hstep, ih]
    cases h : p x <;> simp [h]

theorem replaceChars_single (p : Char → Bool) (r : Char) (s : Str) :
    replaceChars p [r] s = s.map (fun c => if p c = true then r else c) := by
  induction s with
  | nil => rfl
  | cons x xs ih =>
    have hstep : replaceChars p [r] (x :: xs)
        = (if p x = true then [r] else [x]) ++ replaceChars p [r] xs := by
      simp [replaceChars, List.flatMap_cons]
    rw [hstep, ih]
    cases h : p x <;> simp [h]

theorem dropWhile_of_no_space (s : Str) (h : ∀ c ∈ s, isSpace c = false) :
    s.dropWhile isSpace = s := by
  cases s with
  | nil => rfl
  | cons x xs =>
    have hx := h x (List.mem_cons_self x xs)
    simp [List.dropWhile, hx]

theorem trim_of_no_space (s : Str) (h : ∀ c ∈ s, isSpace c = false) : trim s = s := by
  unfold trim trimEnd trimStart
  rw [dropWhile_of_no_space s h, dropWhile_of_no_space s.reverse
    (fun c hc => h c (List.mem_reverse.mp hc)), List.reverse_reverse]

theorem filter_dropWhile_space (s : Str) :
    (s.dropWhile isSpace).filter (fun c => !isSpace c) = s.filter (fun c => !isSpace c) := by
  induction s with
  | nil => rfl
  | cons x xs ih =>
    cases h : isSpace x <;> simp [List.dropWhile, List.filter, h, ih]

theorem filter_trim (s : Str) :
    (trim s).filter (fun c => !isSpace c) = s.filter (fun c => !isSpace c) := by
  unfold trim trimEnd trimStart
  rw [List.filter_reverse, filter_dropWhile_space, ← List.filter_reverse, List.reverse_reverse,
    filter_dropWhile_space]

theorem substring_length (s : Str) (a b : Nat) (h : b ≤ s.length) :
    (substring s a b).length = b - a := by
  unfold substring
  rw [List.length_take, List.length_drop]
  omega

theorem substring_one (s : Str) (i : Nat) (c : Char) (h : s[i]? = some c) :
    substring s i (i + 1) = [c] := by
  obtain ⟨hi, hc⟩ := List.getElem?_eq_some_iff.mp h
  unfold substring
  rw [List.drop_eq_getElem_cons hi, hc]
  simp

theorem substring_take (s : Str) (a b n : Nat) (h : b ≤ n) :
    substring (s.take n) a b = substring s a b := by
  unfold substring
  rw [List.drop_take, List.take_take]
  congr 1
  omega

theorem substring_drop (s : Str) (a b n : Nat) :
    substring (s.drop n) a b = substring s (n + a) (n + b) := by
  unfold substring
  rw [List.drop_drop]
  congr 1
  omega

/-! ## Lemmas on the matcher -/

theorem run_digit (st : MState) :
    Re.digit.run st
      = match st.rest with
        | [] => []
        | c :: cs => if isDigit c = true then [⟨c :: st.pre, cs, st.caps⟩] else [] := rfl

/-- A run of `n` digits matches in one way at most: it reads the next `n`
characters when they are digits. -/
theorem run_times_digit (n : Nat) (st : MState) :
    (Re.times n Re.digit).run st
      = if n ≤ st.rest.length ∧ ∀ c ∈ st.rest.take n, isDigit c = true then
          [⟨(st.rest.take n).reverse ++ st.pre, st.rest.drop n, st.caps⟩]
        else [] := by
  induction n generalizing st with
  | zero => simp [Re.times, Re.run]
  | succ k ih =>
    obtain ⟨pre, rest, caps⟩ := st
    cases rest with
    | nil => simp [Re.times, Re.run, run_digit]
    | cons x xs =>
      by_cases hx : isDigit x = true
      · simp only [Re.times, Re.run, run_digit, hx, if_true, List.flatMap_cons,
          List.flatMap_nil, List.append_nil]
        have := ih ⟨x :: pre, xs, caps⟩
        simp only [Re.run] at this
        rw [this]
        simp [hx]
      · simp [Re.times, Re.run, run_digit, hx]

/-- A pattern that starts with `^` matches nowhere but at the start. -/
theorem searchFrom_bol (r : Re) (n : Nat) (st : MState) (h : st.pre ≠ []) :
    (Re.seq .bol r).searchFrom n st = none := by
  induction n generalizing st with
  | zero =>
    cases hp : st.pre with
    | nil => exact absurd hp h
    | cons a as => simp [Re.searchFrom, Re.run, hp]
  | succ k ih =>
    cases hp : st.pre with
    | nil => exact absurd hp h
    | cons a as =>
      cases hr : st.rest with
      | nil => simp [Re.searchFrom, Re.run, hp, hr]
      | cons c cs =>
        simp only [Re.searchFrom, Re.run, hp, hr, List.isEmpty_cons, Bool.false_eq_true,
          if_false, List.flatMap_nil, List.head?_nil]
        exact ih _ (by simp)

theorem test_bol (r : Re) (s : Str) :
    (Re.seq .bol r).test s = !(r.run ⟨[], s, []⟩).isEmpty := by
  unfold Re.test Re.exec
  cases hs : s with
  | nil =>
    cases hr : r.run ⟨[], [], []⟩ <;> simp [Re.searchFrom, Re.run, hr]
  | cons c cs =>
    cases hr : r.run ⟨[], c :: cs, []⟩ with
    | nil =>
      simp only [List.length_cons, Re.searchFrom, Re.run, List.isEmpty_nil, if_true,
        List.flatMap_cons, List.flatMap_nil, List.append_nil, hr, List.head?_nil]
      rw [searchFrom_bol r _ _ (by simp)]
      rfl
    | cons e es =>
      simp [Re.searchFrom, Re.run, hr]

/-- The pattern `^\d{6}$` matches exactly the strings of six decimal digits. -/
theorem test_reSixDigitsOnly (s : Str) :
    Passport.reSixDigitsOnly.test s = true ↔ s.length = 6 ∧ ∀ c ∈ s, isDigit c = true := by
  have hre : Passport.reSixDigitsOnly = Re.seq .bol (Re.seq (Re.times 6 Re.digit) .eol) := rfl
  rw [hre, test_bol]
  have hrun : (Re.seq (Re.times 6 Re.digit) Re.eol).run ⟨[], s, []⟩
      = ((Re.times 6 Re.digit).run ⟨[], s, []⟩).flatMap (fun st => Re.eol.run st) := rfl
  rw [hrun, run_times_digit]
  by_cases h : 6 ≤ s.length ∧ ∀ c ∈ s.take 6, isDigit c = true
  · rw [if_pos h]
    simp only [List.flatMap_cons, List.flatMap_nil, List.append_nil, Re.run]
    by_cases h6 : s.length = 6
    · have hd : s.drop 6 = [] := List.drop_eq_nil_of_le (le_of_eq h6)
      have ht : s.take 6 = s := List.take_of_length_le (le_of_eq h6)
      rw [ht] at h
      simp [hd, h6]
      exact h.2
    · have hd : s.drop 6 ≠ [] := by
        intro hnil
        have := List.drop_eq_nil_iff.mp hnil
        omega
      cases hdd : s.drop 6 with
      | nil => exact absurd hdd hd
      | cons a as => simp [h6]
  · rw [if_neg h]
    simp only [List.flatMap_nil, List.isEmpty_nil, Bool.not_true, Bool.false_eq_true, false_iff]
    rintro ⟨h6, hd⟩
    apply h
    refine ⟨le_of_eq h6.symm, ?_⟩
    rw [List.take_of_length_le (le_of_eq h6)]
    exact hd

/-! ## Lemmas on `toUpperCase` -/

theorem isLower_cases (c : Char) (h : isLower c = true) :
    c ∈ "abcdefghijklmnopqrstuvwxyz".toList := by
  have h1 : 97 ≤ c.toNat ∧ c.toNat ≤ 122 := by simpa [isLower] using h
  have hc : c = Char.ofNat c.toNat := (Char.ofNat_toNat c).symm
  obtain ⟨h97, h122⟩ := h1
  generalize c.toNat = n at hc h97 h122
  subst hc
  interval_cases n <;> decide

theorem upperChar_not_space (c : Char) (h : isSpace c = false) :
    isSpace (upperChar c) = false := by
  unfold upperChar
  by_cases hl : isLower c = true
  · rw [if_pos hl]
    have := isLower_cases c hl
    simp only [String.toList, List.mem_cons, List.mem_singleton, List.not_mem_nil,
      or_false] at this
    rcases this with rfl | rfl | rfl | rfl | rfl | rfl | rfl | rfl | rfl | rfl | rfl | rfl | rfl
      | rfl | rfl | rfl | rfl | rfl | rfl | rfl | rfl | rfl | rfl | rfl | rfl | rfl <;> rfl
  · rw [if_neg hl]
    exact h

theorem upperCaseBlock01_clean : ∀ e ∈ upperCaseBlock01, ∀ u ∈ e.2,
    isLower (Char.ofNat u) = false ∧ isSpace (Char.ofNat u) = false := by
  decide

theorem upperCaseBlock02_clean : ∀ e ∈ upperCaseBlock02, ∀ u ∈ e.2,
    isLower (Char.ofNat u) = false ∧ isSpace (Char.ofNat u) = false := by
  decide

theorem upperCaseBlock03_clean : ∀ e ∈ upperCaseBlock03, ∀ u ∈ e.2,
    isLower (Char.ofNat u) = false ∧ isSpace (Char.ofNat u) = false := by
  decide

theorem upperCaseBlock04_clean : ∀ e ∈ upperCaseBlock04, ∀ u ∈ e.2,
    isLower (Char.ofNat u) = false ∧ isSpace (Char.ofNat u) = false := by
  decide

theorem upperCaseBlock05_clean : ∀ e ∈ upperCaseBlock05, ∀ u ∈ e.2,
    isLower (Char.ofNat u) = false ∧ isSpace (Char.ofNat u) = false := by
  decide

theorem upperCaseBlock06_clean : ∀ e ∈ upperCaseBlock06, ∀ u ∈ e.2,
    isLower (Char.ofNat u) = false ∧ isSpace (Char.ofNat u) = false := by
  decide

theorem upperCaseBlock07_clean : ∀ e ∈ upperCaseBlock07, ∀ u ∈ e.2,
    isLower (Char.ofNat u) = false ∧ isSpace (Char.ofNat u) = false := by
  decide

theorem upperCaseBlock08_clean : ∀ e ∈ upperCaseBlock08, ∀ u ∈ e.2,
    isLower (Char.ofNat u) = false ∧ isSpace (Char.ofNat u) = false := by
  decide

theorem upperCaseBlock09_clean : ∀ e ∈ upperCaseBlock09, ∀ u ∈ e.2,
    isLower (Char.ofNat u) = false ∧ isSpace (Char.ofNat u) = false := by
  decide

theorem upperCaseBlock10_clean : ∀ e ∈ upperCaseBlock10, ∀ u ∈ e.2,
    isLower (Char.ofNat u) = false ∧ isSpace (Char.ofNat u) = false := by
  decide

theorem upperCaseBlock11_clean : ∀ e ∈ upperCaseBlock11, ∀ u ∈ e.2,
    isLower (Char.ofNat u) = false ∧ isSpace (Char.ofNat u) = false := by
  decide

theorem upperCaseBlock12_clean : ∀ e ∈ upperCaseBlock12, ∀ u ∈ e.2,
    isLower (Char.ofNat u) = false ∧ isSpace (Char.ofNat u) = false := by
  decide

theorem upperCaseBlock13_clean : ∀ e ∈ upperCaseBlock13, ∀ u ∈ e.2,
    isLower (Char.ofNat u) = false ∧ isSpace (Char.ofNat u) = false := by
  decide

theorem upperCaseBlock14_clean : ∀ e ∈ upperCaseBlock14, ∀ u ∈ e.2,
    isLower (Char.ofNat u) = false ∧ isSpace (Char.ofNat u) = false := by
  decide

theorem upperCaseBlock15_clean : ∀ e ∈ upperCaseBlock15, ∀ u ∈ e.2,
    isLower (Char.ofNat u) = false ∧ isSpace (Char.ofNat u) = false := by
  decide

theorem upperCaseBlock16_clean : ∀ e ∈ upperCaseBlock16, ∀ u ∈ e.2,
    isLower (Char.ofNat u) = false ∧ isSpace (Char.ofNat u) = false := by
  decide

theorem upperCaseBlock17_clean : ∀ e ∈ upperCaseBlock17, ∀ u ∈ e.2,
    isLower (Char.ofNat u) = false ∧ isSpace (Char.ofNat u) = false := by
  decide

theorem upperCaseBlock18_clean : ∀ e ∈ upperCaseBlock18, ∀ u ∈ e.2,
    isLower (Char.ofNat u) = false ∧ isSpace (Char.ofNat u) = false := by
  decide

theorem upperCaseBlock19_clean : ∀ e ∈ upperCaseBlock19, ∀ u ∈ e.2,
    isLower (Char.ofNat u) = false ∧ isSpace (Char.ofNat u) = false := by
  decide

theorem upperCaseBlock20_clean : ∀ e ∈ upperCaseBlock20, ∀ u ∈ e.2,
    isLower (Char.ofNat u) = false ∧ isSpace (Char.ofNat u) = false := by
  decide

theorem upperCaseBlock21_clean : ∀ e ∈ upperCaseBlock21, ∀ u ∈ e.2,
    isLower (Char.ofNat u) = false ∧ isSpace (Char.ofNat u) = false := by
  decide

theorem upperCaseBlock22_clean : ∀ e ∈ upperCaseBlock22, ∀ u ∈ e.2,
    isLower (Char.ofNat u) = false ∧ isSpace (Char.ofNat u) = false := by
  decide

theorem upperCaseBlock23_clean : ∀ e ∈ upperCaseBlock23, ∀ u ∈ e.2,
    isLower (Char.ofNat u) = false ∧ isSpace (Char.ofNat u) = false := by
  decide

theorem upperCaseBlock24_clean : ∀ e ∈ upperCaseBlock24, ∀ u ∈ e.2,
    isLower (Char.ofNat u) = false ∧ isSpace (Char.ofNat u) = false := by
  decide

/-- No character of the table becomes a letter `a` to `z` or white space. -/
theorem upperCaseTable_clean : ∀ b ∈ upperCaseTable, ∀ e ∈ b.2.2, ∀ u ∈ e.2,
    isLower (Char.ofNat u) = false ∧ isSpace (Char.ofNat u) = false := by
  intro b hb
  simp only [upperCaseTable, List.mem_cons, List.mem_singleton, List.not_mem_nil,
    or_false] at hb
  rcases hb with rfl | rfl | rfl | rfl | rfl | rfl | rfl | rfl | rfl | rfl | rfl | rfl | rfl | rfl | rfl | rfl | rfl | rfl | rfl | rfl | rfl | rfl | rfl | rfl
  · exact upperCaseBlock01_clean
  · exact upperCaseBlock02_clean
  · exact upperCaseBlock03_clean
  · exact upperCaseBlock04_clean
  · exact upperCaseBlock05_clean
  · exact upperCaseBlock06_clean
  · exact upperCaseBlock07_clean
  · exact upperCaseBlock08_clean
  · exact upperCaseBlock09_clean
  · exact upperCaseBlock10_clean
  · exact upperCaseBlock11_clean
  · exact upperCaseBlock12_clean
  · exact upperCaseBlock13_clean
  · exact upperCaseBlock14_clean
  · exact upperCaseBlock15_clean
  · exact upperCaseBlock16_clean
  · exact upperCaseBlock17_clean
  · exact upperCaseBlock18_clean
  · exact upperCaseBlock19_clean
  · exact upperCaseBlock20_clean
  · exact upperCaseBlock21_clean
  · exact upperCaseBlock22_clean
  · exact upperCaseBlock23_clean
  · exact upperCaseBlock24_clean

theorem lookup_mem {α β : Type} [BEq α] [LawfulBEq α] (a : α) (b : β) :
    ∀ l : List (α × β), List.lookup a l = some b → (a, b) ∈ l := by
  intro l
  induction l with
  | nil => intro h; simp at h
  | cons x xs ih =>
    intro h
    obtain ⟨k, v⟩ := x
    by_cases hk : a == k
    · rw [List.lookup_cons, hk] at h
      simp only [Option.some.injEq] at h
      have := eq_of_beq hk
      subst this; subst h
      simp
    · rw [List.lookup_cons] at h
      simp only [hk] at h
      exact List.mem_cons_of_mem _ (ih h)

theorem upperCaseEntry_mem (n : Nat) (us : List Nat) :
    ∀ t : List (Nat × Nat × List (Nat × List Nat)), upperCaseEntry n t = some us →
      ∃ b ∈ t, (n, us) ∈ b.2.2 := by
  intro t
  induction t with
  | nil => intro h; simp [upperCaseEntry] at h
  | cons b bs ih =>
    intro h
    obtain ⟨lo, hi, block⟩ := b
    unfold upperCaseEntry at h
    split_ifs at h
    · exact ⟨(lo, hi, block), by simp, lookup_mem n us block h⟩
    · obtain ⟨b, hb, hm⟩ := ih h
      exact ⟨b, List.mem_cons_of_mem _ hb, hm⟩

/-- What a character becomes under `toUpperCase` holds no letter `a` to `z`. -/
theorem upperString_not_lower (c : Char) : ∀ u ∈ upperString c, isLower u = false := by
  intro u hu
  unfold upperString at hu
  split_ifs at hu with h
  · simp only [List.mem_singleton] at hu
    subst hu
    unfold upperChar
    by_cases hl : isLower c = true
    · rw [if_pos hl]
      have key : ∀ x ∈ "abcdefghijklmnopqrstuvwxyz".toList,
          isLower (Char.ofNat (x.toNat - 32)) = false := by decide
      exact key c (isLower_cases c hl)
    · rw [if_neg hl]
      simpa using hl
  · split at hu
    · rename_i us he
      obtain ⟨b, hb, hm⟩ := upperCaseEntry_mem _ _ _ he
      obtain ⟨n, hn, rfl⟩ := List.mem_map.mp hu
      exact (upperCaseTable_clean b hb _ hm n hn).1
    · simp only [List.mem_singleton] at hu
      subst hu
      simp only [isLower, Bool.and_eq_false_imp, decide_eq_true_eq, decide_eq_false_iff_not]
      omega

/-- What a character that is not white space becomes under `toUpperCase` holds
no white space. -/
theorem upperString_not_space (c : Char) (h : isSpace c = false) :
    ∀ u ∈ upperString c, isSpace u = false := by
  intro u hu
  unfold upperString at hu
  split_ifs at hu with h1
  · simp only [List.mem_singleton] at hu
    subst hu
    exact upperChar_not_space c h
  · split at hu
    · rename_i us he
      obtain ⟨b, hb, hm⟩ := upperCaseEntry_mem _ _ _ he
      obtain ⟨n, hn, rfl⟩ := List.mem_map.mp hu
      exact (upperCaseTable_clean b hb _ hm n hn).2
    · simp only [List.mem_singleton] at hu
      subst hu
      exact h

theorem toUpperCase_nil : toUpperCase [] = [] := rfl

theorem toUpperCase_cons (c : Char) (s : Str) :
    toUpperCase (c :: s) = upperString c ++ toUpperCase s := by
  simp [toUpperCase]

theorem toUpperCase_append (s t : Str) :
    toUpperCase (s ++ t) = toUpperCase s ++ toUpperCase t := by
  simp [toUpperCase]

theorem mem_toUpperCase (s : Str) (u : Char) :
    u ∈ toUpperCase s ↔ ∃ c ∈ s, u ∈ upperString c := by
  simp [toUpperCase]

/-- An upper-cased text holds no letter `a` to `z`, so the upper-casing of the
ASCII letters leaves it as it is. -/
theorem foldCase_toUpperCase (s : Str) : foldCase (toUpperCase s) = toUpperCase s := by
  unfold foldCase
  conv_rhs => rw [← List.map_id (toUpperCase s)]
  apply List.map_congr_left
  intro u hu
  obtain ⟨c, _, hc⟩ := (mem_toUpperCase s u).mp hu
  have := upperString_not_lower c u hc
  simp [upperChar, this]

/-- On a text in ASCII, `toUpperCase` is the upper-casing of the ASCII letters. -/
theorem toUpperCase_ascii (s : Str) (h : ∀ c ∈ s, c.toNat < 128) :
    toUpperCase s = foldCase s := by
  induction s with
  | nil => rfl
  | cons c t ih =>
    rw [toUpperCase_cons, ih (fun x hx => h x (List.mem_cons_of_mem _ hx))]
    have hc := h c (by simp)
    simp [upperString, hc, foldCase]

/-- A letter `A` to `Z` or `a` to `z` is a character of ASCII. -/
theorem isLetter_ascii (c : Char) (h : isLetter c = true) : c.toNat < 128 := by
  simp only [isLetter, isUpper, isLower, Bool.or_eq_true, Bool.and_eq_true,
    decide_eq_true_eq] at h
  omega

/-! ## Lemmas on `parseMRZ` -/

theorem parseMRZ_cons_cons (l1 l2 : Str) (rest : List Str) :
    Passport.parseMRZ (l1 :: l2 :: rest)
      = Passport.parseLine2 l2 (Passport.parseLine1 l1 {}) := rfl

theorem parseLine2_short (l2 : Str) (d : Passport.MRZRecord) (h : l2.length < 44) :
    Passport.parseLine2 l2 d = d := by
  unfold Passport.parseLine2
  rw [if_neg (by omega)]

/-- The record built from a line 2 of at least 44 characters, field by field. -/
theorem parseLine2_long (l2 : Str) (d : Passport.MRZRecord) (h : 44 ≤ l2.length) :
    Passport.parseLine2 l2 d
      = { documentType := d.documentType
          issuingCountry := d.issuingCountry
          surname := d.surname
          givenNames := d.givenNames
          passportNumber :=
            .str (trim (replaceChars (fun c => c == '<') [] (substring l2 0 9)))
          nationality :=
            .str (trim (replaceChars (fun c => c == '0') ['O']
              (replaceChars (fun c => c == '<') [] (substring l2 10 13))))
          dateOfBirth :=
            if Passport.reSixDigitsOnly.test (substring l2 13 19) = true then
              .str (Passport.formatMRZDate (substring l2 13 19))
            else d.dateOfBirth
          gender :=
            if substring l2 20 21 = ['M'] then .str "Male".toList
            else if substring l2 20 21 = ['F'] then .str "Female".toList
            else d.gender
          dateOfExpiry :=
            if Passport.reSixDigitsOnly.test (substring l2 21 27) = true then
              .str (Passport.formatMRZDate (substring l2 21 27))
            else d.dateOfExpiry } := by
  unfold Passport.parseLine2
  rw [if_pos h]
  by_cases h1 : Passport.reSixDigitsOnly.test (substring l2 13 19) = true <;>
    by_cases h2 : Passport.reSixDigitsOnly.test (substring l2 21 27) = true <;>
    by_cases h3 : substring l2 20 21 = ['M'] <;>
    by_cases h4 : substring l2 20 21 = ['F'] <;>
    simp [h1, h2, h3, h4]

/-- The decoding of line 1 sets no field of line 2. -/
theorem parseLine1_line2_fields (l1 : Str) :
    (Passport.parseLine1 l1 {}).passportNumber = .undefined
      ∧ (Passport.parseLine1 l1 {}).nationality = .undefined
      ∧ (Passport.parseLine1 l1 {}).dateOfBirth = .undefined
      ∧ (Passport.parseLine1 l1 {}).gender = .undefined
      ∧ (Passport.parseLine1 l1 {}).dateOfExpiry = .undefined := by
  unfold Passport.parseLine1
  split
  · dsimp only
    split <;> split <;> exact ⟨rfl, rfl, rfl, rfl, rfl⟩
  · exact ⟨rfl, rfl, rfl, rfl, rfl⟩

theorem substMRZ_not_space (c : Char) (h : isSpace c = false) :
    isSpace (Passport.substMRZ c) = false := by
  unfold Passport.substMRZ
  split_ifs <;> first | rfl | exact h

theorem substMRZ_not_letter (c : Char) :
    Passport.substMRZ c ∉ ['O', 'B', 'Z', 'S', 'I', 'L', '|'] := by
  unfold Passport.substMRZ
  simp only [List.mem_cons, List.mem_singleton, List.not_mem_nil, or_false, beq_iff_eq]
  split_ifs <;> simp_all

theorem replaceChars_swap (a r : Char) (s : Str) :
    replaceChars (fun c => c == a) [r] s = s.map (Passport.swapChar a r) := by
  rw [replaceChars_single]
  rfl

theorem swapChar_ne (a r c : Char) (h : c ≠ a) : Passport.swapChar a r c = c := by
  simp [Passport.swapChar, h]

theorem correctMRZ_eq_map (cleaned : Str) :
    Passport.correctMRZ cleaned = cleaned.map Passport.substMRZ := by
  unfold Passport.correctMRZ
  simp only [replaceChars_swap, List.map_map]
  apply List.map_congr_left
  intro c _
  simp only [Function.comp_apply]
  by_cases hO : c = 'O'
  · subst hO
    decide
  by_cases hB : c = 'B'
  · subst hB
    decide
  by_cases hZ : c = 'Z'
  · subst hZ
    decide
  by_cases hS : c = 'S'
  · subst hS
    decide
  by_cases hI : c = 'I'
  · subst hI
    decide
  by_cases hL : c = 'L'
  · subst hL
    decide
  by_cases hP : c = '|'
  · subst hP
    decide
  simp only [swapChar_ne _ _ _ hO, swapChar_ne _ _ _ hB, swapChar_ne _ _ _ hZ,
    swapChar_ne _ _ _ hS, swapChar_ne _ _ _ hI, swapChar_ne _ _ _ hL, swapChar_ne _ _ _ hP,
    Passport.substMRZ, beq_iff_eq, hO, hB, hZ, hS, hI, hL, hP, if_false]

theorem filterMap_candidates (ls : List Str) :
    ls.filterMap (fun line =>
        if Passport.isCandidate (Passport.cleanLine line) = true then
          some ((Passport.cleanLine line).map Passport.substMRZ)
        else none)
      = ((ls.map Passport.cleanLine).filter Passport.isCandidate).map
          (fun l => l.map Passport.substMRZ) := by
  induction ls with
  | nil => rfl
  | cons x xs ih =>
    by_cases h : Passport.isCandidate (Passport.cleanLine x) = true
    · simp [List.filterMap_cons, h, ih]
    · simp [List.filterMap_cons, h, ih]

/-- The function `extractMRZ`, as the specification words it. -/
theorem extractMRZ_eq (text : Str) :
    Passport.extractMRZ text
      = (((splitLines text).map Passport.cleanLine).filter Passport.isCandidate).map
          (fun l => l.map Passport.substMRZ) := by
  rw [← filterMap_candidates]
  unfold Passport.extractMRZ
  simp only [List.filterMap_map]
  apply List.filterMap_congr
  intro line _
  simp only [Function.comp_apply, replaceChars_nil, filter_trim, correctMRZ_eq_map,
    Passport.cleanLine, Passport.isCandidate, ge_iff_le, Bool.and_eq_true, decide_eq_true_eq]

theorem cleanLine_no_space (line : Str) (c : Char) (h : c ∈ Passport.cleanLine line) :
    isSpace c = false := by
  unfold Passport.cleanLine at h
  obtain ⟨x, hx, hc⟩ := (mem_toUpperCase _ c).mp h
  have hx2 := (List.mem_filter.mp hx).2
  exact upperString_not_space x (by simpa using hx2) c hc

/-- A line returned by `extractMRZ` has between 40 and 50 characters, none of
which is white space or one of the corrected characters. -/
theorem extractMRZ_line_shape (text : Str) (l : Str) (h : l ∈ Passport.extractMRZ text) :
    40 ≤ l.length ∧ l.length ≤ 50
      ∧ ∀ c ∈ l, isSpace c = false ∧ c ∉ ['O', 'B', 'Z', 'S', 'I', 'L', '|'] := by
  rw [extractMRZ_eq] at h
  obtain ⟨cl, hcl, rfl⟩ := List.mem_map.mp h
  obtain ⟨hmem, hcand⟩ := List.mem_filter.mp hcl
  obtain ⟨line, _, rfl⟩ := List.mem_map.mp hmem
  unfold Passport.isCandidate at hcand
  simp only [Bool.and_eq_true, decide_eq_true_eq] at hcand
  refine ⟨by rw [List.length_map]; exact hcand.1.2, by rw [List.length_map]; exact hcand.2,
    ?_⟩
  intro c hc
  obtain ⟨x, hx, rfl⟩ := List.mem_map.mp hc
  exact ⟨substMRZ_not_space x (cleanLine_no_space line x hx), substMRZ_not_letter x⟩

theorem no_space_of_substring (s : Str) (a b : Nat) (h : ∀ c ∈ s, isSpace c = false) :
    ∀ c ∈ substring s a b, isSpace c = false := by
  intro c hc
  unfold substring at hc
  exact h c (List.mem_of_mem_drop (List.mem_of_mem_take hc))

theorem substring_congr_take (s s' : Str) (a b n : Nat) (hb : b ≤ n)
    (h : s'.take n = s.take n) : substring s' a b = substring s a b := by
  rw [← substring_take s' a b n hb, h, substring_take s a b n hb]

theorem substring_congr_drop (s s' : Str) (a b n : Nat) (h : s'.drop n = s.drop n) :
    substring s' (n + a) (n + b) = substring s (n + a) (n + b) := by
  rw [← substring_drop s' a b n, h, substring_drop s a b n]

theorem length_of_drop_eq (s s' : Str) (n : Nat) (hn : n < s.length)
    (h : s'.drop n = s.drop n) : s'.length = s.length := by
  have h1 : (s'.drop n).length = (s.drop n).length := by rw [h]
  rw [List.length_drop, List.length_drop] at h1
  omega

/-! ## Lemmas on the names section -/

theorem splitFiller_eq (s : Str) :
    Passport.splitFiller s
      = Passport.beforeFiller s
          :: (match Passport.afterFiller s with
              | none => []
              | some r => Passport.splitFiller r) := by
  induction s using Passport.splitFiller.induct with
  | case1 => rfl
  | case2 c => rfl
  | case3 c d rest h ih =>
    simp only [Passport.splitFiller, Passport.beforeFiller, Passport.afterFiller, h, if_true]
  | case4 c d rest h hs ih =>
    rw [Passport.splitFiller, if_neg h, hs] at *
    simp at ih
  | case5 c d rest h l ls hs ih =>
    rw [Passport.splitFiller, if_neg h, hs]
    rw [hs] at ih
    simp only [Passport.beforeFiller, Passport.afterFiller, h, if_false]
    simp only [List.cons.injEq] at ih
    rw [ih.1, ih.2]
    simp

theorem decodeName_eq (part : Str) :
    Passport.decodeName part = trim (part.map Passport.decodeChar) := by
  unfold Passport.decodeName
  simp only [replaceChars_swap, List.map_map]
  congr 1
  apply List.map_congr_left
  intro c _
  simp only [Function.comp_apply]
  by_cases h1 : c = '<'
  · subst h1
    decide
  by_cases h2 : c = '0'
  · subst h2
    decide
  by_cases h3 : c = '1'
  · subst h3
    decide
  simp only [swapChar_ne _ _ _ h1, swapChar_ne _ _ _ h2, swapChar_ne _ _ _ h3,
    Passport.decodeChar, beq_iff_eq, h1, h2, h3, if_false]

theorem parseMRZ_names (l1 l2 : Str) (rest : List Str) :
    (Passport.parseMRZ (l1 :: l2 :: rest)).surname = (Passport.parseLine1 l1 {}).surname
      ∧ (Passport.parseMRZ (l1 :: l2 :: rest)).givenNames
          = (Passport.parseLine1 l1 {}).givenNames := by
  rw [parseMRZ_cons_cons]
  by_cases h : 44 ≤ l2.length
  · rw [parseLine2_long _ _ h]
    exact ⟨rfl, rfl⟩
  · rw [parseLine2_short _ _ (by omega)]
    exact ⟨rfl, rfl⟩

/-- The names decoded from a line 1 that starts with `P<` or `P0`. -/
theorem parseLine1_names (l1 : Str)
    (hP : startsWith l1 ['P', '<'] = true ∨ startsWith l1 ['P', '0'] = true) :
    (Passport.parseLine1 l1 {}).surname
        = .str (Passport.decodeName (Passport.beforeFiller (l1.drop 5)))
      ∧ (Passport.parseLine1 l1 {}).givenNames
        = (match Passport.afterFiller (l1.drop 5) with
           | none => .undefined
           | some r => .str (Passport.decodeName (Passport.beforeFiller r))) := by
  have hc : (startsWith l1 ['P', '<'] || startsWith l1 ['P', '0']) = true := by
    rcases hP with h | h <;> simp [h]
  unfold Passport.parseLine1
  rw [if_pos hc]
  dsimp only
  have hsplit := splitFiller_eq (l1.drop 5)
  cases ha : Passport.afterFiller (l1.drop 5) with
  | none =>
    rw [ha] at hsplit
    rw [hsplit]
    simp
  | some r =>
    rw [ha] at hsplit
    simp only [] at hsplit
    rw [splitFiller_eq r] at hsplit
    rw [hsplit]
    simp

theorem isUpper_cases (c : Char) (h : isUpper c = true) :
    c ∈ "ABCDEFGHIJKLMNOPQRSTUVWXYZ".toList := by
  have h1 : 65 ≤ c.toNat ∧ c.toNat ≤ 90 := by simpa [isUpper] using h
  have hc : c = Char.ofNat c.toNat := (Char.ofNat_toNat c).symm
  obtain ⟨h65, h90⟩ := h1
  generalize c.toNat = n at hc h65 h90
  subst hc
  interval_cases n <;> decide

/-- A capital letter other than `B`, `Z`, `S`, `L` survives the correction followed
by the decoding of a name; its correction is not a filler, and it is not white
space. -/
theorem letter_roundtrip (c : Char) (hu : isUpper c = true)
    (hn : c ∉ ['B', 'Z', 'S', 'L']) :
    Passport.decodeChar (Passport.substMRZ c) = c ∧ Passport.substMRZ c ≠ '<'
      ∧ isSpace c = false := by
  have := isUpper_cases c hu
  simp only [String.toList, List.mem_cons, List.mem_singleton, List.not_mem_nil,
    or_false] at this
  rcases this with rfl | rfl | rfl | rfl | rfl | rfl | rfl | rfl | rfl | rfl | rfl | rfl | rfl
    | rfl | rfl | rfl | rfl | rfl | rfl | rfl | rfl | rfl | rfl | rfl | rfl | rfl
  all_goals first
    | exact ⟨by decide, by decide, by decide⟩
    | exact absurd (by decide) hn

theorem beforeFiller_append (w x : Str) (hw : ∀ c ∈ w, c ≠ '<') :
    Passport.beforeFiller (w ++ '<' :: '<' :: x) = w
      ∧ Passport.afterFiller (w ++ '<' :: '<' :: x) = some x := by
  induction w with
  | nil => simp [Passport.beforeFiller, Passport.afterFiller]
  | cons c cs ih =>
    have hc : c ≠ '<' := hw c (List.mem_cons_self c cs)
    have ih' := ih (fun d hd => hw d (List.mem_cons_of_mem c hd))
    cases cs with
    | nil =>
      simp only [List.cons_append, List.nil_append] at ih' ⊢
      simp [Passport.beforeFiller, Passport.afterFiller, hc]
    | cons d ds =>
      simp only [List.cons_append] at ih' ⊢
      simp only [Passport.beforeFiller, Passport.afterFiller, beq_iff_eq, hc, false_and,
        Bool.false_eq_true, if_false, Bool.and_eq_true]
      exact ⟨by rw [ih'.1], ih'.2⟩

theorem beforeFiller_no_filler (w : Str) (hw : ∀ c ∈ w, c ≠ '<') :
    Passport.beforeFiller w = w ∧ Passport.beforeFiller (w ++ ['<']) = w ++ ['<'] := by
  induction w with
  | nil => exact ⟨rfl, rfl⟩
  | cons c cs ih =>
    have hc : c ≠ '<' := hw c (List.mem_cons_self c cs)
    have ih' := ih (fun d hd => hw d (List.mem_cons_of_mem c hd))
    cases cs with
    | nil => simp [Passport.beforeFiller, hc]
    | cons d ds =>
      simp only [List.cons_append] at ih' ⊢
      simp only [Passport.beforeFiller, beq_iff_eq, hc, false_and, Bool.false_eq_true,
        if_false, Bool.and_eq_true]
      exact ⟨by rw [ih'.1], by rw [ih'.2]⟩

/-- The part before the first `<<` of a word followed by fillers only. -/
theorem beforeFiller_pad (w : Str) (n : Nat) (hw : ∀ c ∈ w, c ≠ '<') :
    Passport.beforeFiller (w ++ List.replicate n '<') = w
      ∨ Passport.beforeFiller (w ++ List.replicate n '<') = w ++ ['<'] := by
  match n with
  | 0 =>
    left
    simpa using (beforeFiller_no_filler w hw).1
  | 1 =>
    right
    simpa using (beforeFiller_no_filler w hw).2
  | k + 2 =>
    left
    exact (beforeFiller_append w (List.replicate k '<') hw).1

theorem trim_append_space (w : Str) (hw : ∀ c ∈ w, isSpace c = false) :
    trim (w ++ [' ']) = w := by
  unfold trim trimEnd trimStart
  cases w with
  | nil => rfl
  | cons c cs =>
    have hc := hw c (List.mem_cons_self c cs)
    have h1 : (c :: cs ++ [' ']).dropWhile isSpace = c :: cs ++ [' '] := by
      simp [List.dropWhile, hc]
    rw [h1]
    have h2 : (c :: cs ++ [' ']).reverse = ' ' :: (c :: cs).reverse := by simp
    rw [h2]
    have h3 : (' ' :: (c :: cs).reverse).dropWhile isSpace
        = ((c :: cs).reverse).dropWhile isSpace := by
      rw [List.dropWhile_cons]
      rfl
    rw [h3, dropWhile_of_no_space _ (fun d hd => hw d (List.mem_reverse.mp hd)),
      List.reverse_reverse]

/-- The decoding of the correction of a word of capital letters other than `B`,
`Z`, `S`, `L`, followed by one filler at most, is the word. -/
theorem decodeName_word (w : Str)
    (hw : ∀ c ∈ w, isUpper c = true ∧ c ∉ ['B', 'Z', 'S', 'L']) :
    Passport.decodeName (w.map Passport.substMRZ) = w
      ∧ Passport.decodeName (w.map Passport.substMRZ ++ ['<']) = w := by
  have hmap : (w.map Passport.substMRZ).map Passport.decodeChar = w := by
    rw [List.map_map]
    conv_rhs => rw [← List.map_id w]
    apply List.map_congr_left
    intro c hc
    exact (letter_roundtrip c (hw c hc).1 (hw c hc).2).1
  have hsp : ∀ c ∈ w, isSpace c = false :=
    fun c hc => (letter_roundtrip c (hw c hc).1 (hw c hc).2).2.2
  constructor
  · rw [decodeName_eq, hmap, trim_of_no_space w hsp]
  · rw [decodeName_eq, List.map_append, hmap]
    exact trim_append_space w hsp

/-! ## Lemmas on the sources of the passport fields -/

theorem mrzFirst_cases (m : JSValue) (tx : Str) :
    (Passport.mrzFirst m tx = .mrz ↔ m.truthy = true)
      ∧ (Passport.mrzFirst m tx = .text ↔ m.truthy = false ∧ truthyStr tx = true) := by
  unfold Passport.mrzFirst
  cases h1 : m.truthy <;> cases h2 : truthyStr tx <;> simp

theorem textFirst_cases (tx : Str) (m : JSValue) :
    (Passport.textFirst tx m = .text ↔ truthyStr tx = true)
      ∧ (Passport.textFirst tx m = .mrz ↔ truthyStr tx = false ∧ m.truthy = true) := by
  unfold Passport.textFirst
  cases h1 : m.truthy <;> cases h2 : truthyStr tx <;> simp

/-- The score of a field filled by `mrz || text`, by source. -/
theorem mrzFirst_score (m : JSValue) (tx : Str) (cm : ℚ) :
    (Passport.mrzFirst m tx = .mrz →
        (if m.truthy = true then cm else (if truthyStr tx = true then 0.85 else 0)) = cm)
      ∧ (Passport.mrzFirst m tx = .text →
        (if m.truthy = true then cm else (if truthyStr tx = true then 0.85 else 0))
          = (0.85 : ℚ)) := by
  constructor
  · intro h
    rw [if_pos ((mrzFirst_cases m tx).1.mp h)]
  · intro h
    obtain ⟨h1, h2⟩ := (mrzFirst_cases m tx).2.mp h
    rw [if_neg (by simp [h1]), if_pos h2]

/-- The score of a field filled by `text || mrz`, by source. -/
theorem textFirst_score (tx : Str) (m : JSValue) :
    (Passport.textFirst tx m = .text →
        (if truthyStr tx = true then 0.90 else (if m.truthy = true then 0.85 else 0))
          = (0.90 : ℚ))
      ∧ (Passport.textFirst tx m = .mrz →
        (if truthyStr tx = true then 0.90 else (if m.truthy = true then 0.85 else 0))
          = (0.85 : ℚ)) := by
  constructor
  · intro h
    rw [if_pos ((textFirst_cases tx m).1.mp h)]
  · intro h
    obtain ⟨h1, h2⟩ := (textFirst_cases tx m).2.mp h
    rw [if_neg (by simp [h1]), if_pos h2]

/-- The score of the Nationality field, by source. -/
theorem nationality_score (m : JSValue) (tn : Str) :
    ((if (truthyStr tn && (includes tn "CITIZEN".toList || decide (tn.length > 10))) = true
        then Passport.Source.text else Passport.mrzFirst m tn) = .mrz →
        (if (truthyStr tn && includes tn "CITIZEN".toList) = true then 0.95
          else (if m.truthy = true then 0.95 else (if truthyStr tn = true then 0.80 else 0)))
          = (0.95 : ℚ))
      ∧ (if (truthyStr tn && includes tn "CITIZEN".toList) = true then 0.95
          else (if m.truthy = true then 0.95 else (if truthyStr tn = true then 0.80 else 0)))
          ≤ (0.95 : ℚ) := by
  constructor
  · intro h
    by_cases hc : (truthyStr tn && (includes tn "CITIZEN".toList
        || decide (tn.length > 10))) = true
    · rw [if_pos hc] at h
      exact absurd h (by decide)
    · rw [if_neg hc] at h
      have hm := (mrzFirst_cases m tn).1.mp h
      rw [if_pos hm]
      split <;> rfl
  · split
    · exact le_refl _
    · split
      · exact le_refl _
      · split <;> norm_num

/-- The entries of `fields`, of `fieldSources`, of `mrzValues` and of `textValues`
at the indices of the eight fixed fields. -/
theorem sources_sound (mrzData : Passport.MRZRecord) (t : Passport.TextExtraction) :
    List.Forall₂ (fun (fs : ExtractedField × Passport.Source) (vs : JSValue × Str) =>
        (fs.2 = .mrz → fs.1.field_value = vs.1 ∧ vs.1.truthy = true)
          ∧ (fs.2 = .text → fs.1.field_value = .str vs.2 ∧ truthyStr vs.2 = true))
      (((Passport.buildFields mrzData t).take 8).zip (Passport.fieldSources mrzData t))
      ((Passport.mrzValues mrzData).zip (Passport.textValues t)) := by
  unfold Passport.buildFields Passport.fieldSources Passport.mrzValues Passport.textValues
  simp only [List.cons_append, List.take_succ_cons, List.take_zero, List.zip_cons_cons,
    List.zip_nil_right, List.forall₂_cons, List.Forall₂.nil, and_true]
  have hm : ∀ (m : JSValue) (tx : Str),
      (Passport.mrzFirst m tx = .mrz → m.or (.str tx) = m ∧ m.truthy = true)
        ∧ (Passport.mrzFirst m tx = .text →
            m.or (.str tx) = .str tx ∧ truthyStr tx = true) := by
    intro m tx
    constructor
    · intro h
      have := (mrzFirst_cases m tx).1.mp h
      exact ⟨or_of_truthy _ _ this, this⟩
    · intro h
      obtain ⟨h1, h2⟩ := (mrzFirst_cases m tx).2.mp h
      exact ⟨or_of_not_truthy _ _ h1, h2⟩
  have ht : ∀ (tx : Str) (m : JSValue),
      (Passport.textFirst tx m = .mrz → (JSValue.str tx).or m = m ∧ m.truthy = true)
        ∧ (Passport.textFirst tx m = .text →
            (JSValue.str tx).or m = .str tx ∧ truthyStr tx = true) := by
    intro tx m
    constructor
    · intro h
      obtain ⟨h1, h2⟩ := (textFirst_cases tx m).2.mp h
      exact ⟨or_of_not_truthy _ _ (by rw [truthy_str]; exact h1), h2⟩
    · intro h
      have := (textFirst_cases tx m).1.mp h
      exact ⟨or_of_truthy _ _ (by rw [truthy_str]; exact this), this⟩
  refine ⟨hm _ _, hm _ _, hm _ _, ?_, ht _ _, hm _ _, ?_, ht _ _⟩
  · dsimp only
    by_cases hc : (truthyStr t.textNationality && (includes t.textNationality "CITIZEN".toList
        || decide (t.textNationality.length > 10))) = true
    · rw [if_pos hc, if_pos hc]
      refine ⟨fun h => absurd h (by decide), fun _ => ⟨rfl, ?_⟩⟩
      simp only [Bool.and_eq_true] at hc
      exact hc.1
    · rw [if_neg hc, if_neg hc]
      exact hm _ _
  · dsimp only
    constructor
    · intro h
      have := (textFirst_cases t.textDOI .undefined).2.mp h
      exact absurd this.2 (by decide)
    · intro h
      exact ⟨trivial, (textFirst_cases t.textDOI .undefined).1.mp h⟩

theorem text_first_field (name : String) (tx : Str) (m : JSValue) :
    (tx ≠ [] →
        (⟨name, (JSValue.str tx).or m,
          if truthyStr tx = true then 0.90 else (if m.truthy = true then 0.85 else 0)⟩
            : ExtractedField) = ⟨name, JSValue.str tx, 0.90⟩)
      ∧ (tx = [] → ∀ s, m = JSValue.str s → s ≠ [] →
        (⟨name, (JSValue.str tx).or m,
          if truthyStr tx = true then 0.90 else (if m.truthy = true then 0.85 else 0)⟩
            : ExtractedField) = ⟨name, JSValue.str s, 0.85⟩) := by
  constructor
  · intro ht
    have h : truthyStr tx = true := (truthyStr_iff tx).mpr ht
    rw [or_of_truthy _ _ (by rw [truthy_str]; exact h), if_pos h]
  · intro ht s hm hs
    subst ht
    have h : m.truthy = true := by
      rw [hm, truthy_str]
      exact (truthyStr_iff s).mpr hs
    rw [or_of_not_truthy _ _ (by rfl), if_neg (by simp [truthyStr]), if_pos h, hm]

/-! ## The matcher against the declarative reading of the patterns -/

theorem mem_iterate_self (step : MState → List MState) (g : Bool) (fuel : Nat) (st : MState) :
    st ∈ iterate step g fuel st := by
  cases fuel with
  | zero => simp [iterate]
  | succ n => cases g <;> simp [iterate]

theorem mem_iterate_succ (step : MState → List MState) (g : Bool) (fuel : Nat)
    (st s : MState) :
    s ∈ iterate step g (fuel + 1) st ↔
      s = st ∨ ∃ s1 ∈ step st, s1.rest.length < st.rest.length ∧ s ∈ iterate step g fuel s1 := by
  cases g <;> simp [iterate, List.mem_flatMap, List.mem_filter, and_assoc, or_comm]

theorem mem_iterate_mono (step : MState → List MState) (g : Bool) :
    ∀ (f1 f2 : Nat) (st s : MState), st.rest.length ≤ f1 → f1 ≤ f2 →
      s ∈ iterate step g f1 st → s ∈ iterate step g f2 st := by
  intro f1
  induction f1 with
  | zero =>
    intro f2 st s _ _ h
    simp [iterate] at h
    subst h
    exact mem_iterate_self step g f2 s
  | succ k ih =>
    intro f2 st s hlen hle h
    obtain ⟨m, rfl⟩ : ∃ m, f2 = m + 1 := ⟨f2 - 1, by omega⟩
    rw [mem_iterate_succ] at h ⊢
    rcases h with h | ⟨s1, hs1, hlt, hmem⟩
    · exact Or.inl h
    · exact Or.inr ⟨s1, hs1, hlt, ih m s1 s (by omega) (by omega) hmem⟩

theorem run_wordB (st : MState) :
    Re.wordB.run st = if atWordBoundary st.pre st.rest = true then [st] else [] := rfl

theorem iterate_sound (step : MState → List MState) (g : Bool)
    (A S : Str → Str → Str → Prop)
    (hstep : ∀ st s, s ∈ step st → Reads A st s)
    (hnil : ∀ pre post, S pre [] post)
    (hcons : ∀ pre w1 w2 post, w1 ≠ [] → A pre w1 (w2 ++ post) →
      S (w1.reverse ++ pre) w2 post → S pre (w1 ++ w2) post) :
    ∀ (fuel : Nat) (st s : MState), s ∈ iterate step g fuel st → Reads S st s := by
  intro fuel
  induction fuel with
  | zero =>
    intro st s h
    simp [iterate] at h
    subst h
    exact ⟨[], rfl, rfl, hnil _ _⟩
  | succ k ih =>
    intro st s h
    rw [mem_iterate_succ] at h
    rcases h with h | ⟨s1, hs1, hlt, hmem⟩
    · subst h
      exact ⟨[], rfl, rfl, hnil _ _⟩
    · obtain ⟨w1, e1, p1, a1⟩ := hstep st s1 hs1
      obtain ⟨w2, e2, p2, a2⟩ := ih s1 s hmem
      refine ⟨w1 ++ w2, ?_, ?_, ?_⟩
      · rw [e1, e2, List.append_assoc]
      · rw [p2, p1]; simp
      · apply hcons
        · intro h0
          subst h0
          simp at e1
          rw [e1] at hlt
          exact absurd hlt (lt_irrefl _)
        · rw [← e2]; exact a1
        · rw [← p1]; exact a2

/-- Soundness of the matcher: each success of `r` from a position reads a word
that `r` accepts there. -/
theorem run_sound (r : Re) : ∀ (st s : MState), s ∈ r.run st →
    ∃ w, st.rest = w ++ s.rest ∧ s.pre = w.reverse ++ st.pre ∧ r.Accepts st.pre w s.rest := by
  induction r with
  | eps =>
    intro st s h
    simp [Re.run] at h
    subst h
    exact ⟨[], rfl, rfl, .eps _ _⟩
  | chr p =>
    intro st s h
    unfold Re.run at h
    split at h
    · simp at h
    · rename_i c cs hrest
      by_cases hp : p c = true
      · simp [hp] at h
        subst h
        exact ⟨[c], by simp [hrest], by simp, .chr p c _ _ hp⟩
      · simp [hp] at h
  | seq a b iha ihb =>
    intro st s h
    simp only [Re.run, List.mem_flatMap] at h
    obtain ⟨s1, hs1, hs⟩ := h
    obtain ⟨w1, e1, p1, a1⟩ := iha st s1 hs1
    obtain ⟨w2, e2, p2, a2⟩ := ihb s1 s hs
    refine ⟨w1 ++ w2, ?_, ?_, ?_⟩
    · rw [e1, e2, List.append_assoc]
    · rw [p2, p1]; simp
    · apply Re.Accepts.seq
      · rw [← e2]; exact a1
      · rw [← p1]; exact a2
  | alt a b iha ihb =>
    intro st s h
    simp only [Re.run, List.mem_append] at h
    rcases h with h | h
    · obtain ⟨w, e, p, a1⟩ := iha st s h
      exact ⟨w, e, p, .altL _ _ _ _ _ a1⟩
    · obtain ⟨w, e, p, a1⟩ := ihb st s h
      exact ⟨w, e, p, .altR _ _ _ _ _ a1⟩
  | star a iha =>
    intro st s h
    exact iterate_sound (fun s => a.run s) true a.Accepts (Re.star a).Accepts iha
      (fun pre post => .starNil a pre post)
      (fun pre w1 w2 post hne h1 h2 => .starCons a pre w1 w2 post hne h1 h2) _ st s h
  | lazyStar a iha =>
    intro st s h
    exact iterate_sound (fun s => a.run s) false a.Accepts (Re.lazyStar a).Accepts iha
      (fun pre post => .lazyNil a pre post)
      (fun pre w1 w2 post hne h1 h2 => .lazyCons a pre w1 w2 post hne h1 h2) _ st s h
  | group i a iha =>
    intro st s h
    simp only [Re.run, List.mem_map] at h
    obtain ⟨s0, hs0, rfl⟩ := h
    obtain ⟨w, e, p, a1⟩ := iha st s0 hs0
    exact ⟨w, e, p, .group _ _ _ _ _ a1⟩
  | bol =>
    intro st s h
    unfold Re.run at h
    by_cases hp : st.pre.isEmpty = true
    · simp [hp] at h
      subst h
      have : s.pre = [] := by simpa using hp
      refine ⟨[], rfl, rfl, ?_⟩
      rw [this]
      exact .bol _
    · simp [hp] at h
  | eol =>
    intro st s h
    unfold Re.run at h
    by_cases hp : st.rest.isEmpty = true
    · simp [hp] at h
      subst h
      have : s.rest = [] := by simpa using hp
      refine ⟨[], rfl, rfl, ?_⟩
      rw [this]
      exact .eol _
    · simp [hp] at h
  | wordB =>
    intro st s h
    rw [run_wordB] at h
    by_cases hb : atWordBoundary st.pre st.rest = true
    · rw [if_pos hb] at h
      have h2 : s = st := by simpa using h
      subst h2
      exact ⟨[], rfl, rfl, .wordB _ _ hb⟩
    · rw [if_neg hb] at h
      simp at h
  | look a iha =>
    intro st s h
    unfold Re.run at h
    by_cases he : (a.run st).isEmpty = true
    · simp [he] at h
    · simp [he] at h
      subst h
      obtain ⟨s1, hs1⟩ : ∃ s1, s1 ∈ a.run s := by
        cases hr : a.run s with
        | nil => simp [hr] at he
        | cons x _ => exact ⟨x, by simp⟩
      obtain ⟨w, e, _, a1⟩ := iha s s1 hs1
      refine ⟨[], rfl, rfl, ?_⟩
      rw [e]
      exact .look _ _ _ _ a1

/-- Completeness of the matcher: a word that `r` accepts at a position is among
the successes of `r` from there. -/
theorem run_complete {r : Re} {pre w post : Str} (h : r.Accepts pre w post) :
    ∀ caps, ∃ caps2, (⟨w.reverse ++ pre, post, caps2⟩ : MState) ∈ r.run ⟨pre, w ++ post, caps⟩ := by
  induction h with
  | eps pre post => intro caps; exact ⟨caps, by simp [Re.run]⟩
  | chr p c pre post h => intro caps; exact ⟨caps, by simp [Re.run, h]⟩
  | seq a b pre w1 w2 post _ _ ih1 ih2 =>
    intro caps
    obtain ⟨c1, m1⟩ := ih1 caps
    obtain ⟨c2, m2⟩ := ih2 c1
    refine ⟨c2, ?_⟩
    simp only [Re.run, List.mem_flatMap]
    refine ⟨_, by simpa using m1, by simpa using m2⟩
  | altL a b pre w post _ ih =>
    intro caps
    obtain ⟨c, m⟩ := ih caps
    exact ⟨c, by simp only [Re.run, List.mem_append]; exact Or.inl m⟩
  | altR a b pre w post _ ih =>
    intro caps
    obtain ⟨c, m⟩ := ih caps
    exact ⟨c, by simp only [Re.run, List.mem_append]; exact Or.inr m⟩
  | starNil a pre post =>
    intro caps
    exact ⟨caps, by simpa [Re.run] using mem_iterate_self _ _ _ _⟩
  | starCons a pre w1 w2 post hne _ _ ih1 ih2 =>
    intro caps
    obtain ⟨c1, m1⟩ := ih1 caps
    obtain ⟨c2, m2⟩ := ih2 c1
    refine ⟨c2, ?_⟩
    have hpos : 0 < w1.length := List.length_pos.mpr hne
    simp only [Re.run] at m2 ⊢
    obtain ⟨k, hk⟩ : ∃ k, (w1 ++ w2 ++ post).length = k + 1 :=
      ⟨(w1 ++ w2 ++ post).length - 1, by simp; omega⟩
    rw [hk, mem_iterate_succ]
    refine Or.inr ⟨_, by simpa using m1, by simp; omega, ?_⟩
    have := mem_iterate_mono (fun s => a.run s) true (w2 ++ post).length k
      ⟨w1.reverse ++ pre, w2 ++ post, c1⟩ _ (le_refl _) (by simp at hk ⊢; omega) m2
    simpa using this
  | lazyNil a pre post =>
    intro caps
    exact ⟨caps, by simpa [Re.run] using mem_iterate_self _ _ _ _⟩
  | lazyCons a pre w1 w2 post hne _ _ ih1 ih2 =>
    intro caps
    obtain ⟨c1, m1⟩ := ih1 caps
    obtain ⟨c2, m2⟩ := ih2 c1
    refine ⟨c2, ?_⟩
    have hpos : 0 < w1.length := List.length_pos.mpr hne
    simp only [Re.run] at m2 ⊢
    obtain ⟨k, hk⟩ : ∃ k, (w1 ++ w2 ++ post).length = k + 1 :=
      ⟨(w1 ++ w2 ++ post).length - 1, by simp; omega⟩
    rw [hk, mem_iterate_succ]
    refine Or.inr ⟨_, by simpa using m1, by simp; omega, ?_⟩
    have := mem_iterate_mono (fun s => a.run s) false (w2 ++ post).length k
      ⟨w1.reverse ++ pre, w2 ++ post, c1⟩ _ (le_refl _) (by simp at hk ⊢; omega) m2
    simpa using this
  | group i a pre w post _ ih =>
    intro caps
    obtain ⟨c, m⟩ := ih caps
    refine ⟨(i, (w ++ post).take ((w ++ post).length - post.length)) :: c, ?_⟩
    simp only [Re.run, List.mem_map]
    exact ⟨_, m, rfl⟩
  | bol post => intro caps; exact ⟨caps, by simp [Re.run]⟩
  | eol pre => intro caps; exact ⟨caps, by simp [Re.run]⟩
  | wordB pre post h =>
    intro caps
    refine ⟨caps, ?_⟩
    rw [run_wordB]
    simp [h]
  | look a pre w post _ ih =>
    intro caps
    obtain ⟨c, m⟩ := ih caps
    refine ⟨caps, ?_⟩
    simp only [Re.run, List.nil_append, List.reverse_nil]
    have : (a.run ⟨pre, w ++ post, caps⟩).isEmpty = false := by
      cases hr : a.run ⟨pre, w ++ post, caps⟩ with
      | nil => rw [hr] at m; simp at m
      | cons _ _ => rfl
    simp [this]

theorem run_ne_nil_iff (r : Re) (pre rest : Str) (caps : List (Nat × Str)) :
    r.run ⟨pre, rest, caps⟩ ≠ [] ↔ r.MatchesAt pre rest := by
  constructor
  · intro h
    obtain ⟨s, hs⟩ := List.exists_mem_of_ne_nil _ h
    obtain ⟨w, e, _, a⟩ := run_sound r _ s hs
    exact ⟨w, s.rest, e, a⟩
  · rintro ⟨w, post, rfl, a⟩
    obtain ⟨c, m⟩ := run_complete a caps
    exact List.ne_nil_of_mem m

theorem run_eq_nil_iff (r : Re) (pre rest : Str) (caps : List (Nat × Str)) :
    r.run ⟨pre, rest, caps⟩ = [] ↔ ¬ r.MatchesAt pre rest := by
  rw [← run_ne_nil_iff r pre rest caps, not_not]

theorem head?_eq_none_iff_nil {α : Type} (l : List α) : l.head? = none ↔ l = [] := by
  cases l <;> simp

/-- The search finds nothing exactly when the pattern matches at no position. -/
theorem searchFrom_none_iff (r : Re) : ∀ (n : Nat) (st : MState), st.rest.length ≤ n →
    (r.searchFrom n st = none ↔
      ∀ a b, st.rest = a ++ b → ¬ r.MatchesAt (a.reverse ++ st.pre) b) := by
  intro n
  induction n with
  | zero =>
    intro st hlen
    have hrest : st.rest = [] := List.length_eq_zero.mp (Nat.le_zero.mp hlen)
    simp only [Re.searchFrom, Option.map_eq_none', head?_eq_none_iff_nil]
    obtain ⟨pre, rest, caps⟩ := st
    simp only at hrest
    subst hrest
    rw [run_eq_nil_iff]
    constructor
    · intro h a b hab
      have : a = [] ∧ b = [] := by simpa using hab.symm
      rw [this.1, this.2]
      simpa using h
    · intro h
      simpa using h [] [] rfl
  | succ k ih =>
    intro st hlen
    obtain ⟨pre, rest, caps⟩ := st
    simp only at hlen
    unfold Re.searchFrom
    cases hh : (r.run ⟨pre, rest, caps⟩).head? with
    | some e =>
      simp only [reduceCtorEq, false_iff]
      intro h
      have h0 := h [] rest rfl
      rw [List.reverse_nil, List.nil_append, ← run_eq_nil_iff r pre rest caps] at h0
      rw [h0] at hh
      simp at hh
    | none =>
      have hnil : ¬ r.MatchesAt pre rest := by
        rw [← run_eq_nil_iff r pre rest caps]
        exact (head?_eq_none_iff_nil _).mp hh
      cases rest with
      | nil =>
        simp only [true_iff]
        intro a b hab
        have : a = [] ∧ b = [] := by simpa using hab.symm
        rw [this.1, this.2]
        simpa using hnil
      | cons c cs =>
        simp only
        rw [ih ⟨c :: pre, cs, []⟩ (by simpa using hlen)]
        constructor
        · intro h a b hab
          cases a with
          | nil =>
            simp at hab
            subst hab
            simpa using hnil
          | cons x xs =>
            simp at hab
            obtain ⟨rfl, rfl⟩ := hab
            have := h xs b rfl
            simpa using this
        · intro h a b hab
          have hab2 : cs = a ++ b := hab
          have := h (c :: a) b (by simp [hab2])
          simpa using this

/-- What the search returns: the leftmost position at which the pattern matches,
and the first success of the pattern there. -/
theorem searchFrom_some (r : Re) : ∀ (n : Nat) (st : MState) (m : Match),
    r.searchFrom n st = some m →
      ∃ a, st.rest = a ++ m.start.rest ∧ m.start.pre = a.reverse ++ st.pre
        ∧ (r.run m.start).head? = some m.stop
        ∧ ∀ a1 a2, a = a1 ++ a2 → a2 ≠ [] →
            ¬ r.MatchesAt (a1.reverse ++ st.pre) (a2 ++ m.start.rest) := by
  intro n
  induction n with
  | zero =>
    intro st m h
    simp only [Re.searchFrom, Option.map_eq_some'] at h
    obtain ⟨e, he, rfl⟩ := h
    exact ⟨[], rfl, rfl, he, by intro a1 a2 h1 h2; simp at h1; exact absurd h1.2 h2⟩
  | succ k ih =>
    intro st m h
    obtain ⟨pre, rest, caps⟩ := st
    unfold Re.searchFrom at h
    cases hh : (r.run ⟨pre, rest, caps⟩).head? with
    | some e =>
      rw [hh] at h
      simp only [Option.some.injEq] at h
      subst h
      exact ⟨[], rfl, rfl, hh, by intro a1 a2 h1 h2; simp at h1; exact absurd h1.2 h2⟩
    | none =>
      rw [hh] at h
      have hnil : ¬ r.MatchesAt pre rest := by
        rw [← run_eq_nil_iff r pre rest caps]
        exact (head?_eq_none_iff_nil _).mp hh
      cases rest with
      | nil => simp at h
      | cons c cs =>
        simp only at h
        obtain ⟨a, e1, e2, e3, e4⟩ := ih _ m h
        simp only at e1 e2 e4
        refine ⟨c :: a, by simp [e1], by simp [e2], e3, ?_⟩
        intro a1 a2 h1 h2
        cases a1 with
        | nil =>
          simp only [List.nil_append] at h1
          subst h1
          simp only [List.reverse_nil, List.nil_append, List.cons_append, ← e1]
          exact hnil
        | cons x xs =>
          simp only [List.cons_append, List.cons.injEq] at h1
          obtain ⟨rfl, rfl⟩ := h1
          have := e4 xs a2 rfl h2
          simpa using this

/-- The call `s.match(r)` fails exactly when `r` accepts no word anywhere in `s`. -/
theorem exec_none_iff (r : Re) (s : Str) :
    r.exec s = none ↔ ∀ a w b, s = a ++ w ++ b → ¬ r.Accepts a.reverse w b := by
  unfold Re.exec
  rw [searchFrom_none_iff r s.length ⟨[], s, []⟩ (le_refl _)]
  simp only [List.append_nil]
  constructor
  · intro h a w b hs hacc
    exact h a (w ++ b) (by simp [hs]) ⟨w, b, rfl, hacc⟩
  · rintro h a b hs ⟨w, post, rfl, hacc⟩
    exact h a w post (by simp [hs]) hacc

/-- The call `r.test(s)` succeeds exactly when `r` accepts a word somewhere in `s`. -/
theorem test_iff (r : Re) (s : Str) :
    r.test s = true ↔ ∃ a w b, s = a ++ w ++ b ∧ r.Accepts a.reverse w b := by
  unfold Re.test
  rw [Option.isSome_iff_ne_none, Ne, exec_none_iff]
  push_neg
  rfl

theorem test_eq_false_iff (r : Re) (s : Str) :
    r.test s = false ↔ ∀ a w b, s = a ++ w ++ b → ¬ r.Accepts a.reverse w b := by
  rw [← exec_none_iff]
  unfold Re.test
  cases r.exec s <;> simp

/-- What `s.match(r)` returns: the leftmost place `a` of `s` at which `r` accepts a
word, the word `w` of the first success there, and the rest `b`. -/
theorem exec_some (r : Re) (s : Str) (m : Match) (h : r.exec s = some m) :
    ∃ a w b, s = a ++ w ++ b ∧ m.start.pre = a.reverse ∧ m.start.rest = w ++ b
      ∧ m.stop.rest = b ∧ m.stop ∈ r.run m.start ∧ r.Accepts a.reverse w b
      ∧ m.text = w
      ∧ ∀ a1 a2, a = a1 ++ a2 → a2 ≠ [] → ¬ r.MatchesAt a1.reverse (a2 ++ w ++ b) := by
  obtain ⟨a, e1, e2, e3, e4⟩ := searchFrom_some r _ _ m h
  simp only [List.append_nil] at e1 e2 e4
  have hmem : m.stop ∈ r.run m.start := List.mem_of_mem_head? e3
  obtain ⟨w, f1, _, f3⟩ := run_sound r _ _ hmem
  refine ⟨a, w, m.stop.rest, by rw [e1, f1]; simp, e2, f1, rfl, hmem, ?_, ?_, ?_⟩
  · rw [e2] at f3
    exact f3
  · unfold Match.text
    rw [f1]
    simp
  · intro a1 a2 h1 h2
    have := e4 a1 a2 h1 h2
    rw [f1] at this
    simpa using this

theorem group_lookup (i : Nat) (r : Re) (st s : MState) (h : s ∈ (Re.group i r).run st) :
    s.caps.lookup i = some (st.rest.take (st.rest.length - s.rest.length)) := by
  simp only [Re.run, List.mem_map] at h
  obtain ⟨s0, _, rfl⟩ := h
  simp [List.lookup]

/-- For a pattern that is one capture group, `match[i]` is the matched text. -/
theorem exec_group_get (i : Nat) (r : Re) (s : Str) (m : Match)
    (h : (Re.group i r).exec s = some m) : m.get i = .str m.text := by
  obtain ⟨a, w, b, _, _, _, _, hmem, _, _, _⟩ := exec_some _ s m h
  unfold Match.get Match.text
  rw [group_lookup i r _ _ hmem]

/-! ## What the derived forms accept -/

theorem accepts_eps (pre w post : Str) : Re.eps.Accepts pre w post ↔ w = [] := by
  constructor
  · intro h; cases h; rfl
  · rintro rfl; exact .eps _ _

theorem accepts_chr (p : Char → Bool) (pre w post : Str) :
    (Re.chr p).Accepts pre w post ↔ ∃ c, w = [c] ∧ p c = true := by
  constructor
  · intro h; cases h with | chr _ c _ _ hp => exact ⟨c, rfl, hp⟩
  · rintro ⟨c, rfl, hp⟩; exact .chr p c _ _ hp

theorem accepts_seq (a b : Re) (pre w post : Str) :
    (Re.seq a b).Accepts pre w post ↔
      ∃ w1 w2, w = w1 ++ w2 ∧ a.Accepts pre w1 (w2 ++ post)
        ∧ b.Accepts (w1.reverse ++ pre) w2 post := by
  constructor
  · intro h; cases h with | seq _ _ _ w1 w2 _ h1 h2 => exact ⟨w1, w2, rfl, h1, h2⟩
  · rintro ⟨w1, w2, rfl, h1, h2⟩; exact .seq _ _ _ _ _ _ h1 h2

theorem accepts_alt (a b : Re) (pre w post : Str) :
    (Re.alt a b).Accepts pre w post ↔ a.Accepts pre w post ∨ b.Accepts pre w post := by
  constructor
  · intro h
    cases h with
    | altL _ _ _ _ _ h => exact Or.inl h
    | altR _ _ _ _ _ h => exact Or.inr h
  · rintro (h | h)
    · exact .altL _ _ _ _ _ h
    · exact .altR _ _ _ _ _ h

theorem accepts_group (i : Nat) (a : Re) (pre w post : Str) :
    (Re.group i a).Accepts pre w post ↔ a.Accepts pre w post := by
  constructor
  · intro h; cases h with | group _ _ _ _ _ h => exact h
  · intro h; exact .group _ _ _ _ _ h

theorem accepts_bol (pre w post : Str) : Re.bol.Accepts pre w post ↔ w = [] ∧ pre = [] := by
  constructor
  · intro h; cases h; exact ⟨rfl, rfl⟩
  · rintro ⟨rfl, rfl⟩; exact .bol _

theorem accepts_eol (pre w post : Str) : Re.eol.Accepts pre w post ↔ w = [] ∧ post = [] := by
  constructor
  · intro h; cases h; exact ⟨rfl, rfl⟩
  · rintro ⟨rfl, rfl⟩; exact .eol _

theorem accepts_wordB (pre w post : Str) :
    Re.wordB.Accepts pre w post ↔ w = [] ∧ atWordBoundary pre post = true := by
  constructor
  · intro h; cases h with | wordB _ _ h => exact ⟨rfl, h⟩
  · rintro ⟨rfl, h⟩; exact .wordB _ _ h

theorem accepts_look (a : Re) (pre w post : Str) :
    (Re.look a).Accepts pre w post ↔ w = [] ∧ a.MatchesAt pre post := by
  constructor
  · intro h; cases h with | look _ _ w1 p1 h => exact ⟨rfl, w1, p1, rfl, h⟩
  · rintro ⟨rfl, w1, p1, rfl, h⟩; exact .look _ _ _ _ h

theorem accepts_star_chr (p : Char → Bool) (pre w post : Str) :
    (Re.star (.chr p)).Accepts pre w post ↔ ∀ c ∈ w, p c = true := by
  constructor
  · intro h
    generalize hr : Re.star (.chr p) = r at h
    induction h with
    | starNil => simp
    | starCons a pre w1 w2 post _ h1 _ _ ih2 =>
      cases hr
      obtain ⟨c, rfl, hp⟩ := (accepts_chr p _ _ _).mp h1
      intro x hx
      simp only [List.singleton_append, List.mem_cons] at hx
      rcases hx with rfl | hx
      · exact hp
      · exact ih2 rfl x hx
    | _ => cases hr
  · intro h
    induction w generalizing pre with
    | nil => exact .starNil _ _ _
    | cons c cs ih =>
      exact .starCons _ pre [c] cs post (by simp)
        (.chr p c _ _ (h c (by simp))) (ih _ (fun x hx => h x (by simp [hx])))

theorem accepts_plus_chr (p : Char → Bool) (pre w post : Str) :
    (Re.plus (.chr p)).Accepts pre w post ↔ w ≠ [] ∧ ∀ c ∈ w, p c = true := by
  unfold Re.plus
  rw [accepts_seq]
  constructor
  · rintro ⟨w1, w2, rfl, h1, h2⟩
    obtain ⟨c, rfl, hp⟩ := (accepts_chr p _ _ _).mp h1
    rw [accepts_star_chr] at h2
    refine ⟨by simp, ?_⟩
    intro x hx
    simp only [List.singleton_append, List.mem_cons] at hx
    rcases hx with rfl | hx
    · exact hp
    · exact h2 x hx
  · rintro ⟨hne, h⟩
    cases w with
    | nil => exact absurd rfl hne
    | cons c cs =>
      exact ⟨[c], cs, rfl, .chr p c _ _ (h c (by simp)),
        (accepts_star_chr p _ _ _).mpr (fun x hx => h x (by simp [hx]))⟩

theorem accepts_times_chr (p : Char → Bool) (n : Nat) (pre w post : Str) :
    (Re.times n (.chr p)).Accepts pre w post ↔ w.length = n ∧ ∀ c ∈ w, p c = true := by
  induction n generalizing pre w with
  | zero =>
    simp only [Re.times, accepts_eps]
    constructor
    · rintro rfl; simp
    · rintro ⟨h, _⟩; exact List.length_eq_zero.mp h
  | succ k ih =>
    simp only [Re.times, accepts_seq, accepts_chr]
    constructor
    · rintro ⟨w1, w2, rfl, ⟨c, rfl, hp⟩, h2⟩
      obtain ⟨hl, ha⟩ := (ih _ _).mp h2
      refine ⟨by simp [hl], ?_⟩
      intro x hx
      simp only [List.singleton_append, List.mem_cons] at hx
      rcases hx with rfl | hx
      · exact hp
      · exact ha x hx
    · rintro ⟨hl, ha⟩
      cases w with
      | nil => simp at hl
      | cons c cs =>
        exact ⟨[c], cs, rfl, ⟨c, rfl, ha c (by simp)⟩,
          (ih _ _).mpr ⟨by simpa using hl, fun x hx => ha x (by simp [hx])⟩⟩

theorem accepts_upTo_chr (p : Char → Bool) (n : Nat) (pre w post : Str) :
    (Re.upTo n (.chr p)).Accepts pre w post ↔ w.length ≤ n ∧ ∀ c ∈ w, p c = true := by
  induction n generalizing pre w with
  | zero =>
    simp only [Re.upTo, accepts_eps]
    constructor
    · rintro rfl; simp
    · rintro ⟨h, _⟩; exact List.length_eq_zero.mp (Nat.le_zero.mp h)
  | succ k ih =>
    simp only [Re.upTo, accepts_alt, accepts_seq, accepts_chr, accepts_eps]
    constructor
    · rintro (⟨w1, w2, rfl, ⟨c, rfl, hp⟩, h2⟩ | rfl)
      · obtain ⟨hl, ha⟩ := (ih _ _).mp h2
        refine ⟨by simpa using hl, ?_⟩
        intro x hx
        simp only [List.singleton_append, List.mem_cons] at hx
        rcases hx with rfl | hx
        · exact hp
        · exact ha x hx
      · simp
    · rintro ⟨hl, ha⟩
      cases w with
      | nil => exact Or.inr rfl
      | cons c cs =>
        exact Or.inl ⟨[c], cs, rfl, ⟨c, rfl, ha c (by simp)⟩,
          (ih _ _).mpr ⟨by simpa using hl, fun x hx => ha x (by simp [hx])⟩⟩

theorem accepts_range_chr (p : Char → Bool) (n m : Nat) (hnm : n ≤ m) (pre w post : Str) :
    (Re.range n m (.chr p)).Accepts pre w post ↔
      (n ≤ w.length ∧ w.length ≤ m) ∧ ∀ c ∈ w, p c = true := by
  unfold Re.range
  simp only [accepts_seq, accepts_times_chr, accepts_upTo_chr]
  constructor
  · rintro ⟨w1, w2, rfl, ⟨h1, a1⟩, h2, a2⟩
    refine ⟨by simp; omega, ?_⟩
    intro x hx
    rcases List.mem_append.mp hx with hx | hx
    · exact a1 x hx
    · exact a2 x hx
  · rintro ⟨⟨h1, h2⟩, ha⟩
    refine ⟨w.take n, w.drop n, (List.take_append_drop n w).symm,
      ⟨by simp [h1], fun x hx => ha x (List.mem_of_mem_take hx)⟩,
      by simp; omega, fun x hx => ha x (List.mem_of_mem_drop hx)⟩

theorem accepts_atLeast_chr (p : Char → Bool) (n : Nat) (pre w post : Str) :
    (Re.atLeast n (.chr p)).Accepts pre w post ↔ n ≤ w.length ∧ ∀ c ∈ w, p c = true := by
  unfold Re.atLeast
  simp only [accepts_seq, accepts_times_chr, accepts_star_chr]
  constructor
  · rintro ⟨w1, w2, rfl, ⟨h1, a1⟩, a2⟩
    refine ⟨by simp; omega, ?_⟩
    intro x hx
    rcases List.mem_append.mp hx with hx | hx
    · exact a1 x hx
    · exact a2 x hx
  · rintro ⟨h1, ha⟩
    exact ⟨w.take n, w.drop n, (List.take_append_drop n w).symm,
      ⟨by simp [h1], fun x hx => ha x (List.mem_of_mem_take hx)⟩,
      fun x hx => ha x (List.mem_of_mem_drop hx)⟩

/-- A sequence of single characters, each tested against the character of a
given word at the same place, accepts the words of the same length whose
characters pass the tests. -/
theorem accepts_seqs_chr (f : Char → Char → Bool) (l : Str) (pre w post : Str) :
    (Re.seqs (l.map (fun c => Re.chr (f c)))).Accepts pre w post ↔
      List.Forall₂ (fun c x => f c x = true) l w := by
  induction l generalizing pre w with
  | nil =>
    simp only [List.map_nil, Re.seqs, accepts_eps]
    constructor
    · rintro rfl; exact .nil
    · intro h; cases h; rfl
  | cons c cs ih =>
    cases cs with
    | nil =>
      simp only [List.map_cons, List.map_nil, Re.seqs, accepts_chr]
      constructor
      · rintro ⟨x, rfl, hx⟩; exact .cons hx .nil
      · intro h
        cases h with
        | cons hx ht => cases ht; exact ⟨_, rfl, hx⟩
    | cons d ds =>
      simp only [List.map_cons, Re.seqs, accepts_seq, accepts_chr]
      simp only [List.map_cons] at ih
      constructor
      · rintro ⟨w1, w2, rfl, ⟨x, rfl, hx⟩, h2⟩
        exact .cons hx ((ih _ _).mp h2)
      · intro h
        cases h with
        | cons hx ht => exact ⟨[_], _, rfl, ⟨_, rfl, hx⟩, (ih _ _).mpr ht⟩

theorem forall₂_beq_iff (l w : Str) :
    List.Forall₂ (fun c x => (x == c) = true) l w ↔ w = l := by
  constructor
  · intro h
    induction h with
    | nil => rfl
    | cons hx _ ih => simp at hx; rw [hx, ih]
  · rintro rfl
    induction w with
    | nil => exact .nil
    | cons c cs ih => exact .cons (by simp) ih

/-- A literal accepts its own text only. -/
theorem accepts_lit (s : String) (pre w post : Str) :
    (Re.lit s).Accepts pre w post ↔ w = s.toList := by
  unfold Re.lit Re.char
  rw [accepts_seqs_chr (fun c x => x == c), forall₂_beq_iff]

/-- A literal under the `i` flag accepts the texts that equal its own after
upper-casing. -/
theorem accepts_litI (s : String) (pre w post : Str) :
    (Re.litI s).Accepts pre w post ↔ foldCase w = foldCase s.toList := by
  unfold Re.litI
  rw [accepts_seqs_chr (fun c x => upperChar x == upperChar c)]
  unfold foldCase
  generalize s.toList = l
  constructor
  · intro h
    induction h with
    | nil => rfl
    | cons hx _ ih => simp at hx; simp [hx, ih]
  · intro h
    induction l generalizing w with
    | nil =>
      have : w = [] := by simpa using h
      subst this; exact .nil
    | cons c cs ih =>
      cases w with
      | nil => simp at h
      | cons x xs =>
        simp only [List.map_cons, List.cons.injEq] at h
        exact .cons (by simp [h.1]) (ih _ h.2)

/-- The place found by `s.match(r)` is the leftmost one at which `r` accepts. -/
theorem exec_some_leftmost (r : Re) (s : Str) (m : Match) (h : r.exec s = some m) :
    ∃ a w b, s = a ++ w ++ b ∧ m.text = w ∧ m.stop ∈ r.run m.start ∧ r.Accepts a.reverse w b
      ∧ ∀ a2 w2 b2, s = a2 ++ w2 ++ b2 → r.Accepts a2.reverse w2 b2 → a.length ≤ a2.length := by
  obtain ⟨a, w, b, hs, _, _, _, hmem, hacc, htext, hleft⟩ := exec_some r s m h
  refine ⟨a, w, b, hs, htext, hmem, hacc, ?_⟩
  intro a2 w2 b2 hs2 hacc2
  by_contra hlt
  have hlt2 : a2.length < a.length := Nat.lt_of_not_le hlt
  have heq : a ++ (w ++ b) = a2 ++ (w2 ++ b2) := by
    rw [← List.append_assoc, ← List.append_assoc, ← hs, ← hs2]
  rcases List.append_eq_append_iff.mp heq with ⟨x, hx, _⟩ | ⟨x, hx, hx2⟩
  · rw [hx] at hlt2
    simp at hlt2
  · have hne : x ≠ [] := by
      rintro rfl
      simp at hx
      rw [hx] at hlt2
      exact absurd hlt2 (lt_irrefl _)
    apply hleft a2 x hx hne
    refine ⟨w2, b2, ?_, hacc2⟩
    rw [List.append_assoc, ← hx2]

theorem isDigit_not_space (c : Char) (h : isDigit c = true) : isSpace c = false := by
  have h1 : 48 ≤ c.toNat ∧ c.toNat ≤ 57 := by simpa [isDigit] using h
  simp only [isSpace, Bool.or_eq_false_iff, Bool.and_eq_false_iff, beq_eq_false_iff_ne,
    decide_eq_false_iff_not]
  omega

theorem accepts_reGroupedDigits (pre w post : Str) :
    Aadhar.reGroupedDigits.Accepts pre w post ↔ Aadhar.GroupedNumber w := by
  simp only [Aadhar.reGroupedDigits, Re.seqs, Re.digit, Re.space, accepts_seq,
    accepts_times_chr, accepts_plus_chr, Aadhar.GroupedNumber, Aadhar.FourDigits, Aadhar.Blank]
  constructor
  · rintro ⟨d1, x1, rfl, h1, s1, x2, rfl, h2, d2, x3, rfl, h3, s2, d3, rfl, h4, h5⟩
    exact ⟨d1, s1, d2, s2, d3, by simp, h1, h2, h3, h4, h5⟩
  · rintro ⟨d1, s1, d2, s2, d3, rfl, h1, h2, h3, h4, h5⟩
    exact ⟨d1, _, by simp, h1, s1, _, rfl, h2, d2, _, rfl, h3, s2, d3, rfl, h4, h5⟩

theorem test_reGrouped_iff (line : Str) :
    Aadhar.reGrouped.test line = true ↔ Aadhar.ContainsGrouped line := by
  rw [test_iff]
  simp only [Aadhar.reGrouped, accepts_group, accepts_reGroupedDigits, Aadhar.ContainsGrouped]

theorem accepts_twelve (pre w post : Str) :
    (Re.times 12 Re.digit).Accepts pre w post ↔ Aadhar.TwelveDigits w := by
  simp only [Re.digit, accepts_times_chr, Aadhar.TwelveDigits]

theorem test_reTwelve_iff (line : Str) :
    Aadhar.reTwelve.test line = true ↔ Aadhar.ContainsTwelve line := by
  rw [test_iff]
  simp only [Aadhar.reTwelve, accepts_group, accepts_twelve, Aadhar.ContainsTwelve]

theorem exec_reGrouped_none_iff (line : Str) :
    Aadhar.reGrouped.exec line = none ↔ ¬ Aadhar.ContainsGrouped line := by
  rw [← test_reGrouped_iff]
  unfold Re.test
  cases Aadhar.reGrouped.exec line <;> simp

theorem exec_reTwelve_none_iff (line : Str) :
    Aadhar.reTwelve.exec line = none ↔ ¬ Aadhar.ContainsTwelve line := by
  rw [← test_reTwelve_iff]
  unfold Re.test
  cases Aadhar.reTwelve.exec line <;> simp

/-- What pattern 1 returns on a line: the grouped number at the leftmost place
of the line where one starts. -/
theorem exec_reGrouped_some (line : Str) (m : Match) (h : Aadhar.reGrouped.exec line = some m) :
    ∃ a w b, line = a ++ w ++ b ∧ (m.get 1).strD = w ∧ Aadhar.GroupedNumber w
      ∧ ∀ a2 w2 b2, line = a2 ++ w2 ++ b2 → Aadhar.GroupedNumber w2 → a.length ≤ a2.length := by
  obtain ⟨a, w, b, hs, htext, _, hacc, hleft⟩ := exec_some_leftmost _ line m h
  have hget := exec_group_get 1 Aadhar.reGroupedDigits line m h
  refine ⟨a, w, b, hs, by rw [hget, htext]; rfl, ?_, ?_⟩
  · exact (accepts_reGroupedDigits _ _ _).mp ((accepts_group _ _ _ _ _).mp hacc)
  · intro a2 w2 b2 h2 g2
    exact hleft a2 w2 b2 h2
      ((accepts_group _ _ _ _ _).mpr ((accepts_reGroupedDigits _ _ _).mpr g2))

/-- What pattern 2 returns on a line: the leftmost twelve consecutive digits. -/
theorem exec_reTwelve_some (line : Str) (m : Match) (h : Aadhar.reTwelve.exec line = some m) :
    ∃ a w b, line = a ++ w ++ b ∧ (m.get 1).strD = w ∧ Aadhar.TwelveDigits w
      ∧ ∀ a2 w2 b2, line = a2 ++ w2 ++ b2 → Aadhar.TwelveDigits w2 → a.length ≤ a2.length := by
  obtain ⟨a, w, b, hs, htext, _, hacc, hleft⟩ := exec_some_leftmost _ line m h
  have hget := exec_group_get 1 (Re.times 12 Re.digit) line m h
  refine ⟨a, w, b, hs, by rw [hget, htext]; rfl, ?_, ?_⟩
  · exact (accepts_twelve _ _ _).mp ((accepts_group _ _ _ _ _).mp hacc)
  · intro a2 w2 b2 h2 g2
    exact hleft a2 w2 b2 h2 ((accepts_group _ _ _ _ _).mpr ((accepts_twelve _ _ _).mpr g2))

theorem exec_reGroupedOrTwelve_none (line : Str) (h1 : ¬ Aadhar.ContainsGrouped line)
    (h2 : ¬ Aadhar.ContainsTwelve line) : Aadhar.reGroupedOrTwelve.exec line = none := by
  rw [exec_none_iff]
  intro a w b hs hacc
  simp only [Aadhar.reGroupedOrTwelve, accepts_alt, accepts_group, accepts_reGroupedDigits,
    accepts_twelve] at hacc
  rcases hacc with g | g
  · exact h1 ⟨a, w, b, hs, g⟩
  · exact h2 ⟨a, w, b, hs, g⟩

/-- Pattern 3 finds nothing on lines on which patterns 1 and 2 find nothing. -/
theorem aadhaarNearKeyword_none (lines : List Str)
    (h : ∀ l ∈ lines, ¬ Aadhar.ContainsGrouped l ∧ ¬ Aadhar.ContainsTwelve l) :
    Aadhar.aadhaarNearKeyword lines = none := by
  induction lines with
  | nil => rfl
  | cons line rest ih =>
    have ih2 := ih (fun l hl => h l (List.mem_cons_of_mem _ hl))
    have hfind : ((line :: rest).take 3).findSome?
        (fun l => Aadhar.reGroupedOrTwelve.exec l) = none := by
      rw [List.findSome?_eq_none_iff]
      intro l hl
      have hl2 := h l (List.mem_of_mem_take hl)
      exact exec_reGroupedOrTwelve_none l hl2.1 hl2.2
    unfold Aadhar.aadhaarNearKeyword
    rw [hfind]
    simp [ih2]

theorem formatGroups_eq_regroup (ds : Str) : Aadhar.formatGroups ds = Aadhar.regroup ds := by
  simp [Aadhar.formatGroups, Aadhar.regroup, substring]

theorem regroup_canonical (ds : Str) (h : Aadhar.TwelveDigits ds) :
    Aadhar.CanonicalNumber (Aadhar.regroup ds) := by
  obtain ⟨hl, hd⟩ := h
  refine ⟨ds.take 4, (ds.drop 4).take 4, (ds.drop 8).take 4, rfl, ?_, ?_, ?_⟩
  · exact ⟨by simp [hl], fun c hc => hd c (List.mem_of_mem_take hc)⟩
  · exact ⟨by simp [hl], fun c hc => hd c (List.mem_of_mem_drop (List.mem_of_mem_take hc))⟩
  · exact ⟨by simp [hl], fun c hc => hd c (List.mem_of_mem_drop (List.mem_of_mem_take hc))⟩

theorem canonical_grouped (w : Str) (h : Aadhar.CanonicalNumber w) : Aadhar.GroupedNumber w := by
  obtain ⟨d1, d2, d3, rfl, h1, h2, h3⟩ := h
  have hb : Aadhar.Blank [' '] := ⟨by simp, by intro c hc; simp at hc; subst hc; decide⟩
  exact ⟨d1, [' '], d2, [' '], d3, rfl, h1, hb, h2, hb, h3⟩

theorem canonical_length (w : Str) (h : Aadhar.CanonicalNumber w) : w.length = 14 := by
  obtain ⟨d1, d2, d3, rfl, h1, h2, h3⟩ := h
  simp [h1.1, h2.1, h3.1]

/-- The three patterns of `extractAadhaarNumber` in one case distinction on the
lines: a first line with a grouped number, else a first line with twelve
consecutive digits, else nothing. -/
theorem extractAadhaarNumber_cases (text : Str) :
    (∃ pre line post a w b, splitLines text = pre ++ line :: post
        ∧ (∀ l ∈ pre, ¬ Aadhar.ContainsGrouped l)
        ∧ line = a ++ w ++ b ∧ Aadhar.GroupedNumber w
        ∧ (∀ a2 w2 b2, line = a2 ++ w2 ++ b2 → Aadhar.GroupedNumber w2 → a.length ≤ a2.length)
        ∧ Aadhar.extractAadhaarNumber text = w)
    ∨ ((∀ l ∈ splitLines text, ¬ Aadhar.ContainsGrouped l)
        ∧ ∃ pre line post a w b, splitLines text = pre ++ line :: post
        ∧ (∀ l ∈ pre, ¬ Aadhar.ContainsTwelve l)
        ∧ line = a ++ w ++ b ∧ Aadhar.TwelveDigits w
        ∧ (∀ a2 w2 b2, line = a2 ++ w2 ++ b2 → Aadhar.TwelveDigits w2 → a.length ≤ a2.length)
        ∧ Aadhar.extractAadhaarNumber text = Aadhar.regroup w)
    ∨ ((∀ l ∈ splitLines text, ¬ Aadhar.ContainsGrouped l)
        ∧ (∀ l ∈ splitLines text, ¬ Aadhar.ContainsTwelve l)
        ∧ Aadhar.extractAadhaarNumber text = []) := by
  unfold Aadhar.extractAadhaarNumber
  simp only
  cases h1 : (splitLines text).findSome? (fun line => Aadhar.reGrouped.exec line) with
  | some m =>
    left
    obtain ⟨pre, line, post, hsplit, hm, hpre⟩ := List.findSome?_eq_some_iff.mp h1
    obtain ⟨a, w, b, hl, hget, hg, hleft⟩ := exec_reGrouped_some line m hm
    exact ⟨pre, line, post, a, w, b, hsplit,
      fun l hl => (exec_reGrouped_none_iff l).mp (hpre l hl), hl, hg, hleft, hget⟩
  | none =>
    right
    have hno1 : ∀ l ∈ splitLines text, ¬ Aadhar.ContainsGrouped l :=
      fun l hl => (exec_reGrouped_none_iff l).mp (List.findSome?_eq_none_iff.mp h1 l hl)
    cases h2 : (splitLines text).findSome? (fun line => Aadhar.reTwelve.exec line) with
    | some m =>
      left
      obtain ⟨pre, line, post, hsplit, hm, hpre⟩ := List.findSome?_eq_some_iff.mp h2
      obtain ⟨a, w, b, hl, hget, hg, hleft⟩ := exec_reTwelve_some line m hm
      refine ⟨hno1, pre, line, post, a, w, b, hsplit,
        fun l hl => (exec_reTwelve_none_iff l).mp (hpre l hl), hl, hg, hleft, ?_⟩
      simp only [hget, formatGroups_eq_regroup]
    | none =>
      right
      have hno2 : ∀ l ∈ splitLines text, ¬ Aadhar.ContainsTwelve l :=
        fun l hl => (exec_reTwelve_none_iff l).mp (List.findSome?_eq_none_iff.mp h2 l hl)
      refine ⟨hno1, hno2, ?_⟩
      simp only [aadhaarNearKeyword_none _ (fun l hl => ⟨hno1 l hl, hno2 l hl⟩)]
      rfl

theorem blank_start_unique (s s2 x x2 : Str) (hs : ∀ c ∈ s, isSpace c = true)
    (hs2 : ∀ c ∈ s2, isSpace c = true) (hx : ∀ c ∈ x.head?, isSpace c = false)
    (hx2 : ∀ c ∈ x2.head?, isSpace c = false)
    (e : s ++ x = s2 ++ x2) : s = s2 ∧ x = x2 := by
  induction s generalizing s2 with
  | nil =>
    cases s2 with
    | nil => exact ⟨rfl, by simpa using e⟩
    | cons c cs =>
      exfalso
      simp only [List.nil_append, List.cons_append] at e
      have h1 := hs2 c (by simp)
      have h2 := hx c (by simp [e])
      rw [h1] at h2
      exact absurd h2 (by decide)
  | cons c cs ih =>
    cases s2 with
    | nil =>
      exfalso
      simp only [List.nil_append, List.cons_append] at e
      have h1 := hs c (by simp)
      have h2 := hx2 c (by simp [← e])
      rw [h1] at h2
      exact absurd h2 (by decide)
    | cons c2 cs2 =>
      simp only [List.cons_append, List.cons.injEq] at e
      obtain ⟨rfl, e2⟩ := e
      obtain ⟨r1, r2⟩ := ih cs2 (fun y hy => hs y (by simp [hy]))
        (fun y hy => hs2 y (by simp [hy])) e2
      exact ⟨by rw [r1], r2⟩

theorem fourDigits_head (d x : Str) (h : Aadhar.FourDigits d) :
    ∀ c ∈ (d ++ x).head?, isSpace c = false := by
  obtain ⟨hl, hd⟩ := h
  cases d with
  | nil => simp at hl
  | cons c cs =>
    intro y hy
    simp only [List.cons_append, List.head?_cons, Option.mem_def, Option.some.injEq] at hy
    subst hy
    exact isDigit_not_space _ (hd _ (by simp))

/-- At a given place at most one grouped number starts. -/
theorem groupedNumber_start_unique (w w2 b b2 : Str) (h : Aadhar.GroupedNumber w)
    (h2 : Aadhar.GroupedNumber w2) (e : w ++ b = w2 ++ b2) : w = w2 := by
  obtain ⟨d1, s1, d2, s2, d3, rfl, hd1, hs1, hd2, hs2, hd3⟩ := h
  obtain ⟨e1, t1, e2, t2, e3, rfl, he1, ht1, he2, ht2, he3⟩ := h2
  simp only [List.append_assoc] at e ⊢
  obtain ⟨r1, e⟩ := List.append_inj e (by rw [hd1.1, he1.1])
  obtain ⟨r2, e⟩ := blank_start_unique _ _ _ _ hs1.2 ht1.2 (fourDigits_head d2 _ hd2)
    (fourDigits_head e2 _ he2) e
  obtain ⟨r3, e⟩ := List.append_inj e (by rw [hd2.1, he2.1])
  obtain ⟨r4, e⟩ := blank_start_unique _ _ _ _ hs2.2 ht2.2 (fourDigits_head d3 _ hd3)
    (fourDigits_head e3 _ he3) e
  obtain ⟨r5, _⟩ := List.append_inj e (by rw [hd3.1, he3.1])
  rw [r1, r2, r3, r4, r5]

/-! ## Lemmas on `includes`, `trim` and the sort by length -/

theorem startsWith_iff (s p : Str) : startsWith s p = true ↔ ∃ b, s = p ++ b := by
  induction p generalizing s with
  | nil => cases s <;> simp [startsWith]
  | cons x xs ih =>
    cases s with
    | nil => simp [startsWith]
    | cons c cs =>
      simp only [startsWith, Bool.and_eq_true, beq_iff_eq, ih, List.cons_append, List.cons.injEq]
      constructor
      · rintro ⟨rfl, b, rfl⟩; exact ⟨b, rfl, rfl⟩
      · rintro ⟨b, rfl, rfl⟩; exact ⟨rfl, b, rfl⟩

/-- The method `includes` finds exactly the substrings. -/
theorem includes_iff (s p : Str) : includes s p = true ↔ ∃ a b, s = a ++ p ++ b := by
  induction s with
  | nil =>
    simp only [includes, List.isEmpty_iff]
    constructor
    · rintro rfl; exact ⟨[], [], rfl⟩
    · rintro ⟨a, b, h⟩
      have := congrArg List.length h
      simp at this
      exact List.length_eq_zero.mp (by omega)
  | cons c cs ih =>
    simp only [includes, Bool.or_eq_true, startsWith_iff, ih]
    constructor
    · rintro (⟨b, h⟩ | ⟨a, b, h⟩)
      · exact ⟨[], b, by simpa using h⟩
      · exact ⟨c :: a, b, by simp [h]⟩
    · rintro ⟨a, b, h⟩
      cases a with
      | nil => exact Or.inl ⟨b, by simpa using h⟩
      | cons x xs =>
        simp only [List.cons_append, List.cons.injEq] at h
        exact Or.inr ⟨xs, b, by simpa using h.2⟩

theorem head_dropWhile_not (p : Char → Bool) (s : Str) :
    ∀ c ∈ (s.dropWhile p).head?, p c = false := by
  induction s with
  | nil => simp
  | cons x xs ih =>
    cases h : p x
    · intro c hc
      simp [List.dropWhile, h] at hc
      subst hc
      exact h
    · simpa [List.dropWhile, h] using ih

theorem dropWhile_of_head (p : Char → Bool) (s : Str) (h : ∀ c ∈ s.head?, p c = false) :
    s.dropWhile p = s := by
  cases s with
  | nil => rfl
  | cons x xs =>
    have hx := h x (by simp)
    simp [List.dropWhile, hx]

theorem trimEnd_last (s : Str) : ∀ c ∈ (trimEnd s).getLast?, isSpace c = false := by
  unfold trimEnd
  rw [List.getLast?_reverse]
  exact head_dropWhile_not isSpace s.reverse

theorem trimEnd_append (s : Str) : ∃ t, s = trimEnd s ++ t := by
  refine ⟨(s.reverse.takeWhile isSpace).reverse, ?_⟩
  unfold trimEnd
  rw [← List.reverse_append, List.takeWhile_append_dropWhile, List.reverse_reverse]

theorem trimEnd_head (s : Str) (h : ∀ c ∈ s.head?, isSpace c = false) :
    ∀ c ∈ (trimEnd s).head?, isSpace c = false := by
  obtain ⟨t, ht⟩ := trimEnd_append s
  intro c hc
  apply h c
  rw [ht]
  cases hte : trimEnd s with
  | nil => rw [hte] at hc; simp at hc
  | cons x xs => rw [hte] at hc; simpa using hc

/-- The result of `trim()` does not start with whitespace. -/
theorem trim_head (s : Str) : ∀ c ∈ (trim s).head?, isSpace c = false :=
  trimEnd_head _ (head_dropWhile_not isSpace s)

/-- The result of `trim()` does not end with whitespace. -/
theorem trim_last (s : Str) : ∀ c ∈ (trim s).getLast?, isSpace c = false :=
  trimEnd_last _

theorem trim_of_ends (s : Str) (h1 : ∀ c ∈ s.head?, isSpace c = false)
    (h2 : ∀ c ∈ s.getLast?, isSpace c = false) : trim s = s := by
  unfold trim trimStart
  rw [dropWhile_of_head isSpace s h1]
  unfold trimEnd
  rw [dropWhile_of_head isSpace s.reverse (by rw [List.head?_reverse]; exact h2),
    List.reverse_reverse]

theorem trim_idem (s : Str) : trim (trim s) = trim s :=
  trim_of_ends _ (trim_head s) (trim_last s)

theorem mem_of_mem_trim (s : Str) (c : Char) (h : c ∈ trim s) : c ∈ s := by
  unfold trim trimEnd trimStart at h
  exact (List.dropWhile_sublist _).subset
    (List.mem_reverse.mp ((List.dropWhile_sublist _).subset (List.mem_reverse.mp h)))

theorem sortByLengthDesc_cons (x : Str) (xs : List Str) :
    Aadhar.sortByLengthDesc (x :: xs) = Aadhar.insertByLength x (Aadhar.sortByLengthDesc xs) :=
  rfl

/-- The head of the stable sort by decreasing length: the earliest element of
maximal length. -/
theorem sortByLengthDesc_head (l : List Str) (hl : l ≠ []) :
    ∃ pre best post, l = pre ++ best :: post ∧ (∀ c ∈ pre, c.length < best.length)
      ∧ (∀ c ∈ post, c.length ≤ best.length)
      ∧ ∃ t, Aadhar.sortByLengthDesc l = best :: t := by
  induction l with
  | nil => exact absurd rfl hl
  | cons x xs ih =>
    cases xs with
    | nil => exact ⟨[], x, [], rfl, by simp, by simp, [], rfl⟩
    | cons y ys =>
      obtain ⟨pre, best, post, hdec, hpre, hpost, t, ht⟩ := ih (by simp)
      rw [sortByLengthDesc_cons, ht]
      by_cases hle : best.length ≤ x.length
      · refine ⟨[], x, y :: ys, rfl, by simp, ?_, best :: t, by simp [Aadhar.insertByLength, hle]⟩
        intro c hc
        rw [hdec] at hc
        rcases List.mem_append.mp hc with h | h
        · exact le_of_lt (lt_of_lt_of_le (hpre c h) hle)
        · rcases List.mem_cons.mp h with rfl | h
          · exact hle
          · exact le_trans (hpost c h) hle
      · refine ⟨x :: pre, best, post, by simp [hdec], ?_, hpost,
          Aadhar.insertByLength x t, by simp [Aadhar.insertByLength, hle]⟩
        intro c hc
        rcases List.mem_cons.mp hc with rfl | h
        · exact Nat.lt_of_not_le hle
        · exact hpre c h

theorem normalizeText_eq_spec (s : Str) : Aadhar.normalizeText s = specNormalizeText s := by
  unfold Aadhar.normalizeText specNormalizeText
  cases s with
  | nil => rfl
  | cons c cs =>
    rw [replaceChars_nil, replaceChars_single]
    simp

theorem mem_specNormalizeText (s : Str) (c : Char) (h : c ∈ specNormalizeText s) :
    c ≠ '|' ∧ c ≠ BACKTICK ∧ c ≠ APOSTROPHE := by
  have h1 := mem_of_mem_trim _ c h
  rw [List.mem_filter, List.mem_map] at h1
  obtain ⟨⟨x, _, hx⟩, hk⟩ := h1
  refine ⟨?_, ?_, ?_⟩
  · rintro rfl
    by_cases hb : x = '|'
    · subst hb
      simp at hx
    · simp [hb] at hx
  · rintro rfl
    simp at hk
  · rintro rfl
    simp at hk

theorem specNormalizeText_idem (s : Str) :
    specNormalizeText (specNormalizeText s) = specNormalizeText s := by
  have hmem := mem_specNormalizeText s
  generalize hy : specNormalizeText s = y at hmem
  have htrim : trim y = y := by rw [← hy]; exact trim_idem _
  unfold specNormalizeText
  have hmap : y.map (fun c => if c == '|' then 'I' else c) = y := by
    conv_rhs => rw [← List.map_id y]
    apply List.map_congr_left
    intro c hc
    simp [(hmem c hc).1]
  rw [hmap]
  have hfil : y.filter (fun c => !(c == BACKTICK || c == APOSTROPHE)) = y := by
    rw [List.filter_eq_self]
    intro c hc
    simp [(hmem c hc).2.1, (hmem c hc).2.2]
  rw [hfil, htrim]

theorem find?_decomp {α : Type} (p : α → Bool) (l : List α) (x : α) (h : l.find? p = some x) :
    ∃ pre post, l = pre ++ x :: post ∧ p x = true ∧ ∀ y ∈ pre, p y = false := by
  induction l with
  | nil => simp at h
  | cons a as ih =>
    by_cases ha : p a = true
    · simp [List.find?, ha] at h
      subst h
      exact ⟨[], as, rfl, ha, by simp⟩
    · simp [List.find?, ha] at h
      obtain ⟨pre, post, h1, h2, h3⟩ := ih h
      refine ⟨a :: pre, post, by simp [h1], h2, ?_⟩
      intro y hy
      rcases List.mem_cons.mp hy with rfl | hy
      · simpa using ha
      · exact h3 y hy

theorem namesState_iff (text : Str) (state : String) :
    includes (toUpperCase text) (toUpperCase state.toList) = true ↔ Aadhar.NamesState text state :=
  includes_iff _ _

theorem overallConfidence_zero_of_none (n : Nat) (fields : List ExtractedField) (hn : 0 < n)
    (hlen : n ≤ fields.length) (h : ∀ f ∈ fields.take n, nonEmptyValue f = false) :
    overallConfidence n fields = 0 := by
  rw [overallConfidence_eq_spec n fields hlen, (specExtractionRate_eq_zero_iff n fields hn).mpr h,
    mul_zero]

theorem aadhaar_parse_empty_overall : (Aadhar.parse (.str [])).confidence_overall = 0 := by
  rw [aadhaar_parse_overall]
  exact overallConfidence_zero_of_none 5 _ (by decide) (by decide) (by decide)

theorem passport_parse_empty_overall : (Passport.parse (.str [])).confidence_overall = 0 := by
  rw [passport_parse_overall]
  exact overallConfidence_zero_of_none 8 _ (by decide) (by decide) (by decide)

/-! ## Lemmas on letter case, whole words and the tests of single lines -/

theorem upperChar_idem (c : Char) : upperChar (upperChar c) = upperChar c := by
  by_cases hl : isLower c = true
  · have := isLower_cases c hl
    simp only [String.toList, List.mem_cons, List.mem_singleton, List.not_mem_nil,
      or_false] at this
    rcases this with rfl | rfl | rfl | rfl | rfl | rfl | rfl | rfl | rfl | rfl | rfl | rfl | rfl
      | rfl | rfl | rfl | rfl | rfl | rfl | rfl | rfl | rfl | rfl | rfl | rfl | rfl <;> rfl
  · have h1 : upperChar c = c := by simp [upperChar, hl]
    rw [h1, h1]

theorem foldCase_idem (s : Str) : foldCase (foldCase s) = foldCase s := by
  unfold foldCase
  rw [List.map_map]
  apply List.map_congr_left
  intro c _
  exact upperChar_idem c

theorem foldCase_append (s t : Str) : foldCase (s ++ t) = foldCase s ++ foldCase t := by
  simp [foldCase]

/-- A piece of an upper-cased text is upper-cased. -/
theorem upper_piece (line a w b : Str) (hu : foldCase line = line) (h : line = a ++ w ++ b) :
    foldCase w = w := by
  rw [h, foldCase_append, foldCase_append] at hu
  have h1 := List.append_inj hu (by simp [foldCase])
  exact (List.append_inj h1.1 (by simp [foldCase])).2

theorem test_alt (a b : Re) (s : Str) :
    (Re.alt a b).test s = (a.test s || b.test s) := by
  rw [Bool.eq_iff_iff, Bool.or_eq_true, test_iff, test_iff, test_iff]
  simp only [accepts_alt]
  constructor
  · rintro ⟨x, w, y, h, h1 | h1⟩
    · exact Or.inl ⟨x, w, y, h, h1⟩
    · exact Or.inr ⟨x, w, y, h, h1⟩
  · rintro (⟨x, w, y, h, h1⟩ | ⟨x, w, y, h, h1⟩)
    · exact ⟨x, w, y, h, Or.inl h1⟩
    · exact ⟨x, w, y, h, Or.inr h1⟩

/-- A literal is found exactly in the texts that contain it. -/
theorem test_lit (p : String) (s : Str) : (Re.lit p).test s = true ↔ IsSubstring p.toList s := by
  rw [test_iff]
  simp only [accepts_lit, IsSubstring]
  constructor
  · rintro ⟨a, w, b, h, rfl⟩; exact ⟨a, b, h⟩
  · rintro ⟨a, b, h⟩; exact ⟨a, _, b, h, rfl⟩

/-- In an upper-cased text a literal under the `i` flag, written in capitals, is
found exactly when the text contains it. -/
theorem test_litI_upper (p : String) (s : Str) (hs : foldCase s = s)
    (hp : foldCase p.toList = p.toList) :
    (Re.litI p).test s = true ↔ IsSubstring p.toList s := by
  rw [test_iff]
  simp only [accepts_litI, IsSubstring]
  constructor
  · rintro ⟨a, w, b, h, hw⟩
    rw [upper_piece s a w b hs h, hp] at hw
    subst hw
    exact ⟨a, b, h⟩
  · rintro ⟨a, b, h⟩; exact ⟨a, _, b, h, rfl⟩

theorem atWordBoundary_left (pre post : Str) (c : Char)
    (h1 : ∀ x ∈ pre.head?, isWordChar x = false) (h2 : post.head? = some c)
    (hc : isWordChar c = true) : atWordBoundary pre post = true := by
  unfold atWordBoundary
  cases post with
  | nil => simp at h2
  | cons y ys =>
    simp only [List.head?_cons, Option.some.injEq] at h2
    subst h2
    cases pre with
    | nil => simp [hc]
    | cons x xs => simp [hc, h1 x (by simp)]

theorem atWordBoundary_right (pre post : Str) (c : Char) (h1 : pre.head? = some c)
    (hc : isWordChar c = true) (h2 : ∀ x ∈ post.head?, isWordChar x = false) :
    atWordBoundary pre post = true := by
  unfold atWordBoundary
  cases pre with
  | nil => simp at h1
  | cons y ys =>
    simp only [List.head?_cons, Option.some.injEq] at h1
    subst h1
    cases post with
    | nil => simp [hc]
    | cons x xs => simp [hc, h2 x (by simp)]

/-- The pattern `\bFEMALE\b` finds the whole word FEMALE. -/
theorem test_reFemaleWord (line : Str) (h : IsWholeWord "FEMALE".toList line) :
    Aadhar.reFemaleWord.test line = true := by
  obtain ⟨a, b, hl, ha, hb⟩ := h
  rw [test_iff]
  refine ⟨a, "FEMALE".toList, b, hl, ?_⟩
  simp only [Aadhar.reFemaleWord, Re.seqs, accepts_seq, accepts_wordB, accepts_lit]
  refine ⟨[], "FEMALE".toList, rfl, ⟨rfl, ?_⟩, "FEMALE".toList, [], rfl, rfl, rfl, ?_⟩
  · exact atWordBoundary_left _ _ 'F' (by rw [List.head?_reverse]; exact ha) rfl (by decide)
  · exact atWordBoundary_right _ _ 'E' rfl (by decide) hb

/-- The label test of `extractGender` on an upper-cased line. -/
theorem test_reGenderLabel (line : Str) (hu : foldCase line = line) :
    Aadhar.reGenderLabel.test line = true ↔
      IsSubstring "SEX".toList line ∨ IsSubstring "GENDER".toList line
        ∨ IsSubstring "लिंग".toList line := by
  simp only [Aadhar.reGenderLabel, Re.alts, test_alt, Bool.or_eq_true]
  rw [test_litI_upper "SEX" line hu (by decide), test_litI_upper "GENDER" line hu (by decide),
    test_litI_upper "लिंग" line hu (by decide)]

theorem upperChar_inj_lower (c d : Char) (hc : isLower c = true ∨ c = ' ')
    (hd : isLower d = true) (h : upperChar c = upperChar d) : c = d := by
  have hd2 := isLower_cases d hd
  revert d
  have key : ∀ d ∈ "abcdefghijklmnopqrstuvwxyz".toList, upperChar c = upperChar d → c = d := by
    rcases hc with hc | rfl
    · have := isLower_cases c hc
      simp only [String.toList, List.mem_cons, List.mem_singleton, List.not_mem_nil,
        or_false] at this
      rcases this with rfl | rfl | rfl | rfl | rfl | rfl | rfl | rfl | rfl | rfl | rfl | rfl
        | rfl | rfl | rfl | rfl | rfl | rfl | rfl | rfl | rfl | rfl | rfl | rfl | rfl | rfl
        <;> decide
    · decide
  intro d _ h hd2
  exact key d hd2 h

theorem foldCase_inj_lower (w p : Str) (hw : ∀ c ∈ w, isLower c = true ∨ c = ' ')
    (hp : ∀ d ∈ p, isLower d = true) (h : foldCase w = foldCase p) : w = p := by
  induction w generalizing p with
  | nil =>
    cases p with
    | nil => rfl
    | cons d ds => simp [foldCase] at h
  | cons c cs ih =>
    cases p with
    | nil => simp [foldCase] at h
    | cons d ds =>
      simp only [foldCase, List.map_cons, List.cons.injEq] at h
      rw [upperChar_inj_lower c d (hw c (by simp)) (hp d (by simp)) h.1,
        ih ds (fun x hx => hw x (by simp [hx])) (fun x hx => hp x (by simp [hx])) h.2]

theorem isLower_wordChar (c : Char) (h : isLower c = true) : isWordChar c = true := by
  simp [isWordChar, isLetter, h]

theorem isLower_not_digit (c : Char) (h : isLower c = true) : isDigit c = false := by
  have h1 : 97 ≤ c.toNat ∧ c.toNat ≤ 122 := by simpa [isLower] using h
  simp only [isDigit, Bool.and_eq_false_iff, decide_eq_false_iff_not]
  omega

/-- A line that `isGarbageLine` flags is never collected. -/
theorem collectAfterLabel_not_garbage (ls : List Str) :
    ∀ l ∈ Aadhar.collectAfterLabel ls, Aadhar.isGarbageLine l = false := by
  induction ls with
  | nil => simp [Aadhar.collectAfterLabel]
  | cons x xs ih =>
    intro l hl
    unfold Aadhar.collectAfterLabel at hl
    split_ifs at hl with h1 h2 h3 h4
    · simp at hl
    · exact ih l hl
    · exact ih l hl
    · rcases List.mem_cons.mp hl with rfl | hl
      · simpa using h3
      · exact ih l hl
    · exact ih l hl

theorem collectBackward_not_garbage (ls : List Str) :
    ∀ l ∈ Aadhar.collectBackward ls, Aadhar.isGarbageLine l = false := by
  induction ls with
  | nil => simp [Aadhar.collectBackward]
  | cons x xs ih =>
    intro l hl
    unfold Aadhar.collectBackward at hl
    split_ifs at hl with h1 h2 h3 h4
    · simp at hl
    · exact ih l hl
    · exact ih l hl
    · rcases List.mem_append.mp hl with hl | hl
      · exact ih l hl
      · simp only [List.mem_singleton] at hl
        subst hl
        simpa using h3
    · exact ih l hl

/-- The pattern of three short words finds a line made of three tokens of 2 to 4
lowercase letters separated by single spaces. -/
theorem test_reThreeShortWords (t1 t2 t3 : Str) (h1 : Aadhar.ShortToken t1)
    (h2 : Aadhar.ShortToken t2) (h3 : Aadhar.ShortToken t3) :
    Aadhar.reThreeShortWords.test (t1 ++ [' '] ++ t2 ++ [' '] ++ t3) = true := by
  have hletter : ∀ t, Aadhar.ShortToken t → ∀ pre post, (Re.range 2 4 Re.letter).Accepts pre t post := by
    intro t ht pre post
    exact (accepts_range_chr isLetter 2 4 (by decide) pre t post).mpr
      ⟨⟨ht.1, ht.2.1⟩, fun c hc => by simp [isLetter, ht.2.2 c hc]⟩
  have hA : Aadhar.reThreeShortWords.Accepts [] ([] ++ (t1 ++ ([' '] ++ (t2 ++ ([' '] ++ (t3 ++ []))))))
      [] := by
    unfold Aadhar.reThreeShortWords
    simp only [Re.seqs]
    refine .seq _ _ _ _ _ _ (.wordB _ _ ?_) (.seq _ _ _ _ _ _ (hletter t1 h1 _ _)
      (.seq _ _ _ _ _ _ (.chr isSpace ' ' _ _ (by decide)) (.seq _ _ _ _ _ _ (hletter t2 h2 _ _)
        (.seq _ _ _ _ _ _ (.chr isSpace ' ' _ _ (by decide))
          (.seq _ _ _ _ _ _ (hletter t3 h3 _ _) (.wordB _ _ ?_))))))
    · cases t1 with
      | nil => have := h1.1; simp at this
      | cons c cs =>
        exact atWordBoundary_left _ _ c (by simp) (by simp)
          (isLower_wordChar c (h1.2.2 c (by simp)))
    · cases hr : t3.reverse with
      | nil =>
        have h0 : t3 = [] := by simpa using hr
        have := h3.1
        rw [h0] at this
        simp at this
      | cons c cs =>
        have hc : c ∈ t3 := by
          rw [← List.mem_reverse, hr]
          simp
        exact atWordBoundary_right _ _ c (by simp) (isLower_wordChar c (h3.2.2 c hc)) (by simp)
  rw [test_iff]
  exact ⟨[], _, [], by simp, hA⟩

/-- The test for a digit or an address word fails on a line of lowercase
letters and spaces that contains none of the address words. -/
theorem test_reAddressIndicator_false (line : Str)
    (hchars : ∀ c ∈ line, isLower c = true ∨ c = ' ')
    (hind : ∀ p ∈ Aadhar.addressIndicators, ¬ IsSubstring p.toList line) :
    Aadhar.reAddressIndicator.test line = false := by
  rw [test_eq_false_iff]
  intro a w b hl hacc
  have hw : ∀ c ∈ w, isLower c = true ∨ c = ' ' := by
    intro c hc
    exact hchars c (by rw [hl]; simp [hc])
  have hlow : ∀ p ∈ Aadhar.addressIndicators, ∀ d ∈ p.toList, isLower d = true := by decide
  have key : ∀ p ∈ Aadhar.addressIndicators, foldCase w = foldCase p.toList → False := by
    intro p hp h
    apply hind p hp
    rw [← foldCase_inj_lower w p.toList hw (hlow p hp) h]
    exact ⟨a, b, hl⟩
  simp only [Aadhar.reAddressIndicator, Re.alts, Re.digit, accepts_alt, accepts_plus_chr,
    accepts_litI] at hacc
  rcases hacc with ⟨hne, hd⟩ | h | h | h | h | h | h | h | h | h
  · cases w with
    | nil => exact hne rfl
    | cons c cs =>
      have h1 := hd c (by simp)
      rcases hw c (by simp) with h2 | h2
      · rw [isLower_not_digit c h2] at h1
        exact absurd h1 (by decide)
      · subst h2
        exact absurd h1 (by decide)
  · exact key "ward" (by decide) h
  · exact key "nagar" (by decide) h
  · exact key "ganj" (by decide) h
  · exact key "road" (by decide) h
  · exact key "street" (by decide) h
  · exact key "village" (by decide) h
  · exact key "district" (by decide) h
  · exact key "city" (by decide) h
  · exact key "town" (by decide) h

theorem isGarbageLine_of_tests (line : Str) (h1 : Aadhar.reThreeShortWords.test line = true)
    (h2 : Aadhar.reAddressIndicator.test line = false) : Aadhar.isGarbageLine line = true := by
  unfold Aadhar.isGarbageLine
  split_ifs <;> simp_all

/-! ## Lemmas on the names of the zone and on the threshold -/

theorem mem_beforeFiller (s : Str) (c : Char) (h : c ∈ Passport.beforeFiller s) : c ∈ s := by
  induction s using Passport.beforeFiller.induct with
  | case1 => simp [Passport.beforeFiller] at h
  | case2 d => simpa [Passport.beforeFiller] using h
  | case3 x y rest hxy =>
    rw [Passport.beforeFiller, if_pos hxy] at h
    simp at h
  | case4 x y rest hxy ih =>
    rw [Passport.beforeFiller, if_neg hxy] at h
    rcases List.mem_cons.mp h with rfl | h
    · simp
    · exact List.mem_cons_of_mem _ (ih h)

theorem mem_afterFiller (s r : Str) (h : Passport.afterFiller s = some r) (c : Char)
    (hc : c ∈ r) : c ∈ s := by
  induction s using Passport.afterFiller.induct with
  | case1 => simp [Passport.afterFiller] at h
  | case2 d => simp [Passport.afterFiller] at h
  | case3 x y rest hxy =>
    rw [Passport.afterFiller, if_pos hxy] at h
    simp only [Option.some.injEq] at h
    subst h
    simp [hc]
  | case4 x y rest hxy ih =>
    rw [Passport.afterFiller, if_neg hxy] at h
    exact List.mem_cons_of_mem _ (ih h)

/-- The decoding of a part of a corrected line holds none of the characters
`B`, `Z`, `S`, `L`, `0`, `1`, `<`. -/
theorem decodeName_clean (part : Str)
    (hpart : ∀ x ∈ part, x ∉ ['O', 'B', 'Z', 'S', 'I', 'L', '|']) (c : Char)
    (hc : c ∈ ['B', 'Z', 'S', 'L', '0', '1', '<']) : c ∉ Passport.decodeName part := by
  intro hmem
  rw [decodeName_eq] at hmem
  obtain ⟨x, hx, rfl⟩ := List.mem_map.mp (mem_of_mem_trim _ _ hmem)
  have hx2 := hpart x hx
  simp only [List.mem_cons, List.mem_singleton, List.not_mem_nil, or_false, not_or] at hx2
  unfold Passport.decodeChar at hc
  simp only [List.mem_cons, List.mem_singleton, List.not_mem_nil, or_false, beq_iff_eq] at hc
  split_ifs at hc with h1 h2 h3
  · revert hc; decide
  · revert hc; decide
  · revert hc; decide
  · rcases hc with h | h | h | h | h | h | h
    · exact hx2.2.1 h
    · exact hx2.2.2.1 h
    · exact hx2.2.2.2.1 h
    · exact hx2.2.2.2.2.2.1 h
    · exact h2 h
    · exact h3 h
    · exact h1 h

theorem parseLine1_other (l1 : Str)
    (hP : (startsWith l1 ['P', '<'] || startsWith l1 ['P', '0']) = false) :
    Passport.parseLine1 l1 {} = {} := by
  unfold Passport.parseLine1
  rw [hP]
  rfl

/-- Every score of the passport `parse` is at most 0.98. -/
theorem passport_buildFields_le (mrzData : Passport.MRZRecord) (t : Passport.TextExtraction)
    (f : ExtractedField) (h : f ∈ Passport.buildFields mrzData t) :
    f.confidence_score ≤ 0.98 := by
  unfold Passport.buildFields at h
  simp only [List.mem_append, List.mem_cons, List.mem_singleton, List.not_mem_nil,
    or_false] at h
  rcases h with (rfl | rfl | rfl | rfl | rfl | rfl | rfl | rfl) | h
  all_goals try (dsimp only; split_ifs <;> norm_num)
  split_ifs at h
  · simp only [List.mem_singleton] at h
    subst h
    norm_num
  · simp at h

/-- Every score of the Aadhaar `parse` is at most 0.98. -/
theorem aadhaar_parse_le (ocrText : JSValue) (f : ExtractedField)
    (h : f ∈ (Aadhar.parse ocrText).fields) : f.confidence_score ≤ 0.98 := by
  unfold Aadhar.parse at h
  simp only [List.mem_cons, List.mem_singleton, List.not_mem_nil, or_false] at h
  rcases h with rfl | rfl | rfl | rfl | rfl | rfl | rfl | rfl
  all_goals (dsimp only; split_ifs <;> norm_num)

/-- With scores of at most 0.98, an overall confidence of at least 0.70 needs
more than `k` essential fields with a value whenever `0.98 * k < 0.70 * n`. -/
theorem overallConfidence_coverage (n k : Nat) (fields : List ExtractedField)
    (hn : 0 < n) (hlen : n ≤ fields.length)
    (hle : ∀ f ∈ fields, f.confidence_score ≤ 0.98)
    (hk : (0.98 : ℚ) * k < 0.70 * n)
    (h : 0.70 ≤ overallConfidence n fields) :
    k < ((fields.take n).filter nonEmptyValue).length := by
  rw [overallConfidence_eq_spec n fields hlen] at h
  have a1 := specAvgConfidence_le fields 0.98 (by norm_num) hle
  have r0 := specExtractionRate_nonneg n fields
  by_contra hcon
  have hcount : (((fields.take n).filter nonEmptyValue).length : ℚ) ≤ k := by
    exact_mod_cast Nat.le_of_not_lt hcon
  have hn0 : (0 : ℚ) < n := by exact_mod_cast hn
  have hrate : specExtractionRate n fields ≤ (k : ℚ) / n := by
    unfold specExtractionRate
    exact div_le_div_of_nonneg_right hcount (le_of_lt hn0)
  have h1 : specAvgConfidence fields * specExtractionRate n fields
      ≤ 0.98 * ((k : ℚ) / n) := by
    calc specAvgConfidence fields * specExtractionRate n fields
        ≤ 0.98 * specExtractionRate n fields := mul_le_mul_of_nonneg_right a1 r0
      _ ≤ 0.98 * ((k : ℚ) / n) := mul_le_mul_of_nonneg_left hrate (by norm_num)
  have h2 : (0.98 : ℚ) * ((k : ℚ) / n) < 0.70 := by
    rw [← mul_div_assoc, div_lt_iff₀ hn0]
    exact hk
  linarith

/-! ## Lemmas on alternations of words and on `extractName` -/

theorem foldCase_length (s : Str) : (foldCase s).length = s.length := by
  simp [foldCase]

/-- A word under the `i` flag is found exactly in the texts that mention it. -/
theorem test_litI_iff (p : String) (s : Str) : (Re.litI p).test s = true ↔ MentionsI p s := by
  rw [test_iff]
  simp only [accepts_litI, MentionsI, IsSubstring]
  constructor
  · rintro ⟨a, w, b, rfl, hw⟩
    exact ⟨foldCase a, foldCase b, by rw [foldCase_append, foldCase_append, hw]⟩
  · rintro ⟨a, b, h⟩
    refine ⟨s.take a.length, (s.drop a.length).take p.toList.length,
      (s.drop a.length).drop p.toList.length, ?_, ?_⟩
    · rw [List.append_assoc, List.take_append_drop, List.take_append_drop]
    · unfold foldCase at h ⊢
      rw [List.map_take, List.map_drop, h]
      simp

theorem test_none (s : Str) : Re.none.test s = false := by
  rw [test_eq_false_iff]
  intro a w b _ hacc
  unfold Re.none at hacc
  obtain ⟨c, _, hc⟩ := (accepts_chr _ _ _ _).mp hacc
  simp at hc

theorem test_alts (l : List Re) (s : Str) :
    (Re.alts l).test s = l.any (fun r => r.test s) := by
  induction l with
  | nil => simp [Re.alts, test_none]
  | cons a t ih =>
    cases t with
    | nil => simp [Re.alts]
    | cons b u =>
      show (Re.alt a (Re.alts (b :: u))).test s = _
      rw [test_alt, ih]
      simp

/-- An alternation of words under the `i` flag is found exactly in the texts
that mention one of the words. -/
theorem test_alts_litI (ps : List String) (s : Str) :
    (Re.alts (ps.map Re.litI)).test s = true ↔ ∃ p ∈ ps, MentionsI p s := by
  rw [test_alts, List.any_eq_true]
  constructor
  · rintro ⟨r, hr, ht⟩
    obtain ⟨p, hp, rfl⟩ := List.mem_map.mp hr
    exact ⟨p, hp, (test_litI_iff p s).mp ht⟩
  · rintro ⟨p, hp, hm⟩
    exact ⟨Re.litI p, List.mem_map.mpr ⟨p, hp, rfl⟩, (test_litI_iff p s).mpr hm⟩

/-- A pattern that starts with `^` is found exactly when its rest matches at the
start of the text. -/
theorem test_bol_iff (r : Re) (s : Str) : (Re.seq .bol r).test s = true ↔ r.MatchesAt [] s := by
  rw [test_bol, ← run_ne_nil_iff r [] s []]
  cases r.run ⟨[], s, []⟩ <;> simp

theorem test_digit_false_iff (s : Str) :
    Re.digit.test s = false ↔ ∀ c ∈ s, isDigit c = false := by
  rw [test_eq_false_iff]
  simp only [Re.digit, accepts_chr]
  constructor
  · intro h c hc
    obtain ⟨a, b, rfl⟩ := List.append_of_mem hc
    by_contra hd
    exact h a [c] b (by simp) ⟨c, rfl, by simpa using hd⟩
  · rintro h a w b rfl ⟨c, rfl, hc⟩
    rw [h c (by simp)] at hc
    exact absurd hc (by decide)

/-- The pattern `^[A-Z][A-Z\s]{2,40}$` accepts exactly the lines in capitals
with the shape of a name. -/
theorem test_reCapsName (s : Str) : Aadhar.reCapsName.test s = true ↔ Aadhar.CapsLine s := by
  unfold Aadhar.reCapsName
  simp only [Re.seqs]
  rw [test_bol_iff]
  unfold Re.MatchesAt
  simp only [Re.upper, accepts_seq, accepts_chr, accepts_range_chr _ 2 40 (by decide),
    accepts_eol, Aadhar.CapsLine]
  constructor
  · rintro ⟨w, post, rfl, w1, w2, rfl, ⟨c, rfl, hc⟩, w3, w4, rfl, ⟨hlen, hall⟩, rfl, rfl⟩
    exact ⟨c, w3, by simp, hc, hlen.1, hlen.2, fun x hx => by simpa using hall x hx⟩
  · rintro ⟨c, cs, rfl, hc, h2, h40, hall⟩
    exact ⟨c :: cs, [], by simp, [c], cs, rfl, ⟨c, rfl, hc⟩, cs, [], by simp,
      ⟨⟨h2, h40⟩, fun x hx => by simpa using hall x hx⟩, rfl, rfl⟩

theorem accepts_reSlashDate (pre w post : Str) :
    Aadhar.reSlashDate.Accepts pre w post ↔ Aadhar.SlashDate w := by
  simp only [Aadhar.reSlashDate, Re.seqs, Re.digit, Re.char, accepts_seq, accepts_times_chr,
    accepts_chr, Aadhar.SlashDate, DigitRun]
  constructor
  · rintro ⟨d, x1, rfl, h1, s1, x2, rfl, ⟨c1, rfl, hc1⟩, m, x3, rfl, h2, s2, y, rfl,
      ⟨c2, rfl, hc2⟩, h3⟩
    simp only [beq_iff_eq] at hc1 hc2
    subst hc1
    subst hc2
    exact ⟨d, m, y, by simp, h1, h2, h3⟩
  · rintro ⟨d, m, y, rfl, h1, h2, h3⟩
    exact ⟨d, _, by simp, h1, ['/'], _, rfl, ⟨'/', rfl, by simp⟩, m, _, rfl, h2, ['/'], y, rfl,
      ⟨'/', rfl, by simp⟩, h3⟩

theorem test_reSlashDate (s : Str) :
    Aadhar.reSlashDate.test s = true ↔ ∃ a w b, s = a ++ w ++ b ∧ Aadhar.SlashDate w := by
  rw [test_iff]
  simp only [accepts_reSlashDate]

theorem test_reSkipHeader (s : Str) :
    Aadhar.reSkipHeader.test s = true ↔ ∃ p ∈ Aadhar.headerKeywords, MentionsI p s :=
  test_alts_litI Aadhar.headerKeywords s

theorem test_reAfterName (s : Str) :
    Aadhar.reAfterName.test s = true ↔ ∃ p ∈ Aadhar.afterNameKeywords, MentionsI p s :=
  test_alts_litI Aadhar.afterNameKeywords s

theorem extractNameFrom_cons (line : Str) (rest : List Str) :
    Aadhar.extractNameFrom (line :: rest) = Aadhar.extractNameFrom rest
    ∨ (Aadhar.extractNameFrom (line :: rest) = line
      ∧ Aadhar.reSkipHeader.test line = false ∧ Aadhar.reCapsName.test line = true
      ∧ ∃ next post, rest = next :: post
        ∧ ((Aadhar.reCapsName.test next = true ∧ Re.digit.test next = false)
          ∨ Aadhar.reAfterName.test next = true ∨ Aadhar.reSlashDate.test next = true)) := by
  rw [Aadhar.extractNameFrom]
  by_cases hskip : (decide (line.length < 3) || Aadhar.reSkipHeader.test line) = true
  · rw [if_pos hskip]
    exact Or.inl rfl
  · rw [if_neg hskip]
    have hsk : Aadhar.reSkipHeader.test line = false := by
      simp only [Bool.or_eq_true, not_or, Bool.not_eq_true] at hskip
      exact hskip.2
    by_cases hcaps : Aadhar.reCapsName.test line = true
    · rw [if_pos hcaps]
      simp only
      by_cases hc1 : (Aadhar.reCapsName.test (rest.headD []) && !Re.digit.test (rest.headD []))
          = true
      · rw [if_pos hc1]
        cases rest with
        | nil =>
          exfalso
          revert hc1
          decide
        | cons next post =>
          simp only [List.headD_cons, Bool.and_eq_true, Bool.not_eq_true'] at hc1
          exact Or.inr ⟨rfl, hsk, hcaps, next, post, rfl, Or.inl hc1⟩
      · rw [if_neg hc1]
        by_cases hc2 : (!rest.isEmpty && (Aadhar.reAfterName.test (rest.headD [])
            || Aadhar.reSlashDate.test (rest.headD []))) = true
        · rw [if_pos hc2]
          cases rest with
          | nil => simp at hc2
          | cons next post =>
            simp only [List.isEmpty_cons, Bool.not_false, List.headD_cons, Bool.true_and,
              Bool.or_eq_true] at hc2
            exact Or.inr ⟨rfl, hsk, hcaps, next, post, rfl, Or.inr hc2⟩
        · rw [if_neg hc2]
          exact Or.inl rfl
    · rw [if_neg hcaps]
      exact Or.inl rfl

/-- What the loop of `extractName` returns when it returns a name. -/
theorem extractNameFrom_some (lines : List Str) (h : Aadhar.extractNameFrom lines ≠ []) :
    ∃ pre line next post, lines = pre ++ line :: next :: post
      ∧ Aadhar.extractNameFrom lines = line
      ∧ Aadhar.reSkipHeader.test line = false ∧ Aadhar.reCapsName.test line = true
      ∧ ((Aadhar.reCapsName.test next = true ∧ Re.digit.test next = false)
        ∨ Aadhar.reAfterName.test next = true ∨ Aadhar.reSlashDate.test next = true) := by
  induction lines with
  | nil => exact absurd rfl h
  | cons line rest ih =>
    rcases extractNameFrom_cons line rest with heq | ⟨heq, hsk, hcaps, next, post, hrest, hc⟩
    · rw [heq] at h
      obtain ⟨pre, l, next, post, h1, h2, h3⟩ := ih h
      exact ⟨line :: pre, l, next, post, by rw [h1]; rfl, by rw [heq, h2], h3⟩
    · exact ⟨[], line, next, post, by rw [hrest]; rfl, heq, hsk, hcaps, hc⟩

/-! ## Lemmas on sequences with capture groups and on `extractPIN` -/

theorem mem_run_seq (a b : Re) (st s : MState) :
    s ∈ (Re.seq a b).run st ↔ ∃ s1 ∈ a.run st, s ∈ b.run s1 := by
  simp only [Re.run, List.mem_flatMap]

/-- A success of a capture group: the word it read, which it also records. -/
theorem run_group_sound (i : Nat) (r : Re) (st s : MState) (h : s ∈ (Re.group i r).run st) :
    ∃ w, st.rest = w ++ s.rest ∧ s.pre = w.reverse ++ st.pre ∧ r.Accepts st.pre w s.rest
      ∧ s.caps.lookup i = some w := by
  obtain ⟨w, e, p, a⟩ := run_sound _ st s h
  refine ⟨w, e, p, (accepts_group _ _ _ _ _).mp a, ?_⟩
  rw [group_lookup i r st s h, e]
  simp

/-- A piece of a line whose start reads as the word `p` in some letter case makes
the line mention `p`. -/
theorem mentions_of_piece (p : String) (line a x y : Str) (h : line = a ++ x ++ y)
    (hx : foldCase x = foldCase p.toList) : MentionsI p line :=
  ⟨foldCase a, foldCase y, by rw [h, foldCase_append, foldCase_append, hx]⟩

theorem foldCase_take (s : Str) (n : Nat) : foldCase (s.take n) = (foldCase s).take n := by
  simp [foldCase, List.map_take]

/-- The label of pattern 1 of `extractPIN` starts with the letters of `PIN`. -/
theorem pinLabel_starts (pre w post : Str)
    (h : (Re.alts [Re.litI "PIN", Re.litI "Pincode",
      Re.seqs [Re.litI "Pin", .star Re.space, Re.litI "Code"]]).Accepts pre w post) :
    foldCase (w.take 3) = foldCase "PIN".toList := by
  simp only [Re.alts, Re.seqs, accepts_alt, accepts_seq, accepts_litI] at h
  rcases h with h | h | ⟨x, y, rfl, hx, _⟩
  · rw [foldCase_take, h]
    decide
  · rw [foldCase_take, h]
    decide
  · have hlen : x.length = 3 := by
      have := congrArg List.length hx
      simpa [foldCase] using this
    rw [List.take_append_of_le_length (by omega), List.take_of_length_le (by omega), hx]
    decide

/-- What pattern 1 of `extractPIN` returns on a line: six digits of the line,
and the line mentions `PIN`. -/
theorem exec_reLabelledPin (line : Str) (m : Match)
    (h : Aadhar.reLabelledPin.exec line = some m) :
    ∃ a b, line = a ++ (m.get 1).strD ++ b ∧ DigitRun 6 (m.get 1).strD ∧ MentionsI "PIN" line := by
  obtain ⟨a, w, b, hs, hpre, hrest, hstop, hmem, _, _, _⟩ := exec_some _ line m h
  unfold Aadhar.reLabelledPin at hmem
  simp only [Re.seqs] at hmem
  rw [mem_run_seq] at hmem
  obtain ⟨s1, hs1, hmem⟩ := hmem
  rw [mem_run_seq] at hmem
  obtain ⟨s2, hs2, hmem⟩ := hmem
  obtain ⟨w1, e1, _, a1⟩ := run_sound _ _ _ hs1
  obtain ⟨w2, e2, _, _⟩ := run_sound _ _ _ hs2
  obtain ⟨w3, e3, _, a3, hcap⟩ := run_group_sound _ _ _ _ hmem
  have hget : (m.get 1).strD = w3 := by
    unfold Match.get
    rw [hcap]
    rfl
  have hline : line = a ++ w1 ++ w2 ++ w3 ++ b := by
    rw [hs]
    have : w ++ b = w1 ++ (w2 ++ (w3 ++ b)) := by
      rw [← hrest, e1, e2, e3, hstop]
    simp only [List.append_assoc, this]
  rw [hget]
  refine ⟨a ++ w1 ++ w2, b, hline, ?_, ?_⟩
  · simpa [Re.digit, accepts_times_chr, DigitRun] using a3
  · apply mentions_of_piece "PIN" line a (w1.take 3) (w1.drop 3 ++ w2 ++ w3 ++ b)
    · rw [hline]
      simp only [List.append_assoc]
      rw [← List.append_assoc (w1.take 3), List.take_append_drop]
    · exact pinLabel_starts _ _ _ a1

/-- What pattern 2 of `extractPIN` returns on a line: six digits that stand in
the line as a whole word. -/
theorem exec_reSixDigitToken (line : Str) (m : Match)
    (h : Aadhar.reSixDigitToken.exec line = some m) :
    DigitRun 6 (m.get 1).strD ∧ IsWholeWord (m.get 1).strD line := by
  obtain ⟨a, w, b, hs, hpre, hrest, hstop, hmem, _, _, _⟩ := exec_some _ line m h
  unfold Aadhar.reSixDigitToken at hmem
  simp only [Re.seqs] at hmem
  rw [mem_run_seq] at hmem
  obtain ⟨s1, hs1, hmem⟩ := hmem
  rw [mem_run_seq] at hmem
  obtain ⟨s2, hs2, hmem⟩ := hmem
  obtain ⟨w1, e1, p1, a1⟩ := run_sound _ _ _ hs1
  obtain ⟨w2, e2, p2, a2, hcap⟩ := run_group_sound _ _ _ _ hs2
  obtain ⟨w3, e3, p3, a3⟩ := run_sound _ _ _ hmem
  obtain ⟨rfl, hb1⟩ := (accepts_wordB _ _ _).mp a1
  obtain ⟨rfl, hb3⟩ := (accepts_wordB _ _ _).mp a3
  simp only [List.nil_append, List.reverse_nil] at e1 p1 e3 p3
  have hcaps : m.stop.caps = s2.caps := by
    rw [run_wordB] at hmem
    split_ifs at hmem
    · simp only [List.mem_singleton] at hmem
      rw [hmem]
    · simp at hmem
  have hget : (m.get 1).strD = w2 := by
    unfold Match.get
    rw [hcaps, hcap]
    rfl
  have hdig : DigitRun 6 w2 := by
    simpa [Re.digit, accepts_times_chr, DigitRun] using a2
  rw [hget]
  refine ⟨hdig, a, b, ?_, ?_, ?_⟩
  · rw [hs]
    have : w ++ b = w2 ++ b := by
      rw [← hrest, e1, e2, e3, hstop]
    simp only [List.append_assoc, this]
  · intro c hc
    rw [hpre, e2] at hb1
    cases w2 with
    | nil => have := hdig.1; simp at this
    | cons d ds =>
      have hd : isWordChar d = true := by simp [isWordChar, hdig.2 d (by simp)]
      rw [← List.head?_reverse] at hc
      unfold atWordBoundary at hb1
      cases hr : a.reverse with
      | nil => rw [hr] at hc; simp at hc
      | cons x xs =>
        rw [hr] at hc hb1
        simp only [List.head?_cons, Option.mem_def, Option.some.injEq] at hc
        subst hc
        simpa [hd] using hb1
  · intro c hc
    rw [p2, hstop] at hb3
    cases hr : w2.reverse with
    | nil =>
      have h0 : w2 = [] := by simpa using hr
      have := hdig.1
      rw [h0] at this
      simp at this
    | cons d ds =>
      have hdm : d ∈ w2 := by rw [← List.mem_reverse, hr]; simp
      have hd : isWordChar d = true := by simp [isWordChar, hdig.2 d hdm]
      rw [hr] at hb3
      unfold atWordBoundary at hb3
      cases b with
      | nil => simp at hc
      | cons x xs =>
        simp only [List.head?_cons, Option.mem_def, Option.some.injEq] at hc
        subst hc
        simpa [hd] using hb3

/-- What the pattern `(\d{6})` returns on a line: six digits of the line. -/
theorem exec_reSixDigits (line : Str) (m : Match) (h : Aadhar.reSixDigits.exec line = some m) :
    ∃ a b, line = a ++ (m.get 1).strD ++ b ∧ DigitRun 6 (m.get 1).strD := by
  obtain ⟨a, w, b, hs, htext, _, hacc, _⟩ := exec_some_leftmost _ line m h
  have hget := exec_group_get 1 (Re.times 6 Re.digit) line m h
  rw [hget, htext]
  refine ⟨a, b, hs, ?_⟩
  simpa [Re.digit, accepts_times_chr, DigitRun] using (accepts_group _ _ _ _ _).mp hacc

theorem test_reAddressWord (s : Str) :
    Aadhar.reAddressWord.test s = true ↔ MentionsI "address" s ∨ MentionsI "पता" s := by
  unfold Aadhar.reAddressWord
  rw [test_alt, Bool.or_eq_true, test_litI_iff, test_litI_iff]

/-- What pattern 3 of `extractPIN` returns: six digits of a line of the text, and
some line mentions `address` or `पता`. -/
theorem pinNearAddress_some (lines : List Str) (r : Str)
    (h : Aadhar.pinNearAddress lines = some r) :
    (∃ l ∈ lines, MentionsI "address" l ∨ MentionsI "पता" l)
    ∧ ∃ l ∈ lines, ∃ a b, l = a ++ r ++ b ∧ DigitRun 6 r := by
  induction lines with
  | nil => simp [Aadhar.pinNearAddress] at h
  | cons line rest ih =>
    have lift : Aadhar.pinNearAddress rest = some r →
        (∃ l ∈ line :: rest, MentionsI "address" l ∨ MentionsI "पता" l)
        ∧ ∃ l ∈ line :: rest, ∃ a b, l = a ++ r ++ b ∧ DigitRun 6 r := by
      intro h2
      obtain ⟨⟨l1, hl1, h1⟩, l2, hl2, h3⟩ := ih h2
      exact ⟨⟨l1, List.mem_cons_of_mem _ hl1, h1⟩, l2, List.mem_cons_of_mem _ hl2, h3⟩
    unfold Aadhar.pinNearAddress at h
    by_cases ha : Aadhar.reAddressWord.test line = true
    · rw [if_pos ha] at h
      split at h
      · rename_i m hf
        simp only [Option.some.injEq] at h
        obtain ⟨pre, cl, post, hsplit, hcl, _⟩ := List.findSome?_eq_some_iff.mp hf
        have hmem : cl ∈ rest := List.mem_of_mem_take (by rw [hsplit]; simp)
        cases he : Aadhar.reSixDigits.exec cl with
        | none => rw [he] at hcl; simp at hcl
        | some m2 =>
          rw [he] at hcl
          simp only at hcl
          split_ifs at hcl
          simp only [Option.some.injEq] at hcl
          subst hcl
          obtain ⟨a, b, h1, h2⟩ := exec_reSixDigits cl m2 he
          rw [h] at h1 h2
          exact ⟨⟨line, by simp, (test_reAddressWord line).mp ha⟩,
            cl, List.mem_cons_of_mem _ hmem, a, b, h1, h2⟩
      · exact lift h
    · rw [if_neg ha] at h
      exact lift h

/-! ## Lemmas on `extractDOB` -/

/-- The match returned by `s.match(r)`, with its place in `s` and the fact that
no accepted word starts further left. -/
theorem exec_some_full (r : Re) (s : Str) (m : Match) (h : r.exec s = some m) :
    ∃ a w b, s = a ++ w ++ b ∧ m.start.pre = a.reverse ∧ m.start.rest = w ++ b
      ∧ m.stop.rest = b ∧ m.stop ∈ r.run m.start
      ∧ ∀ a2 w2 b2, s = a2 ++ w2 ++ b2 → r.Accepts a2.reverse w2 b2 → a.length ≤ a2.length := by
  obtain ⟨a, w, b, hs, hpre, hrest, hstop, hmem, _, _, hleft⟩ := exec_some r s m h
  refine ⟨a, w, b, hs, hpre, hrest, hstop, hmem, ?_⟩
  intro a2 w2 b2 hs2 hacc2
  by_contra hlt
  have hlt2 : a2.length < a.length := Nat.lt_of_not_le hlt
  have heq : a ++ (w ++ b) = a2 ++ (w2 ++ b2) := by
    rw [← List.append_assoc, ← List.append_assoc, ← hs, ← hs2]
  rcases List.append_eq_append_iff.mp heq with ⟨x, hx, _⟩ | ⟨x, hx, hx2⟩
  · rw [hx] at hlt2
    simp at hlt2
  · have hne : x ≠ [] := by
      rintro rfl
      simp at hx
      rw [hx] at hlt2
      exact absurd hlt2 (lt_irrefl _)
    apply hleft a2 x hx hne
    refine ⟨w2, b2, ?_, hacc2⟩
    rw [List.append_assoc, ← hx2]

theorem accepts_reDateDigits (pre w post : Str) :
    Aadhar.reDateDigits.Accepts pre w post ↔ Aadhar.DobDate w := by
  simp only [Aadhar.reDateDigits, Re.seqs, Re.digit, accepts_seq, accepts_times_chr,
    accepts_chr, Aadhar.DobDate, DigitRun]
  constructor
  · rintro ⟨d, x1, rfl, h1, s1, x2, rfl, ⟨c1, rfl, hc1⟩, m, x3, rfl, h2, s2, y, rfl,
      ⟨c2, rfl, hc2⟩, h3⟩
    exact ⟨d, c1, m, c2, y, by simp, h1, hc1, h2, hc2, h3⟩
  · rintro ⟨d, c1, m, c2, y, rfl, h1, hc1, h2, hc2, h3⟩
    exact ⟨d, _, by simp, h1, [c1], _, rfl, ⟨c1, rfl, hc1⟩, m, _, rfl, h2, [c2], y, rfl,
      ⟨c2, rfl, hc2⟩, h3⟩

theorem accepts_reDateOfBirthWords (pre w post : Str) :
    Aadhar.reDateOfBirthWords.Accepts pre w post ↔
      ∃ x s1 y s2 z, w = x ++ s1 ++ y ++ s2 ++ z ∧ foldCase x = "DATE".toList
        ∧ Aadhar.Blank s1 ∧ foldCase y = "OF".toList ∧ Aadhar.Blank s2
        ∧ foldCase z = "BIRTH".toList := by
  have e1 : foldCase "Date".toList = "DATE".toList := by decide
  have e2 : foldCase "of".toList = "OF".toList := by decide
  have e3 : foldCase "Birth".toList = "BIRTH".toList := by decide
  simp only [Aadhar.reDateOfBirthWords, Re.seqs, Re.space, accepts_seq, accepts_litI,
    accepts_plus_chr, Aadhar.Blank, e1, e2, e3]
  constructor
  · rintro ⟨x, r1, rfl, hx, s1, r2, rfl, hs1, y, r3, rfl, hy, s2, z, rfl, hs2, hz⟩
    exact ⟨x, s1, y, s2, z, by simp, hx, hs1, hy, hs2, hz⟩
  · rintro ⟨x, s1, y, s2, z, rfl, hx, hs1, hy, hs2, hz⟩
    exact ⟨x, _, by simp, hx, s1, _, rfl, hs1, y, _, rfl, hy, s2, z, rfl, hs2, hz⟩

/-- The label alternation of pattern 1 accepts the labels in Latin letters, and
what else it accepts starts with the word `जन्म`. -/
theorem dobLabel_sound (pre w post : Str)
    (h : (Re.alts [Re.litI "DOB", Aadhar.reDateOfBirthWords,
      Re.seqs [Re.litI "जन्म", .lazyStar Re.dot, Re.litI "तिथि"], Re.litI "Birth"]).Accepts
        pre w post) :
    Aadhar.BirthLabel w
      ∨ ∃ x y, w = x ++ y ∧ foldCase x = foldCase "जन्म".toList := by
  have e0 : foldCase "DOB".toList = "DOB".toList := by decide
  have e3 : foldCase "Birth".toList = "BIRTH".toList := by decide
  simp only [Re.alts, accepts_alt, accepts_litI, accepts_reDateOfBirthWords, e0, e3] at h
  rcases h with h | h | h | h
  · exact Or.inl (Or.inl h)
  · exact Or.inl (Or.inr (Or.inr h))
  · simp only [Re.seqs, accepts_seq, accepts_litI] at h
    obtain ⟨x, y, rfl, hx, _⟩ := h
    exact Or.inr ⟨x, y, rfl, hx⟩
  · exact Or.inl (Or.inr (Or.inl h))

theorem dobLabel_complete (pre w post : Str) (h : Aadhar.BirthLabel w) :
    (Re.alts [Re.litI "DOB", Aadhar.reDateOfBirthWords,
      Re.seqs [Re.litI "जन्म", .lazyStar Re.dot, Re.litI "तिथि"], Re.litI "Birth"]).Accepts
        pre w post := by
  have e0 : foldCase "DOB".toList = "DOB".toList := by decide
  have e3 : foldCase "Birth".toList = "BIRTH".toList := by decide
  simp only [Re.alts, accepts_alt, accepts_litI, accepts_reDateOfBirthWords, e0, e3]
  rcases h with h | h | h
  · exact Or.inl h
  · exact Or.inr (Or.inr (Or.inr h))
  · exact Or.inr (Or.inl h)

/-- A line that holds a label in Latin letters mentions `DOB` or `Birth`. -/
theorem birthLabel_mentions (line a lab b : Str) (hl : line = a ++ lab ++ b)
    (h : Aadhar.BirthLabel lab) : MentionsI "DOB" line ∨ MentionsI "Birth" line := by
  rcases h with h | h | ⟨x, s1, y, s2, z, rfl, _, _, _, _, hz⟩
  · exact Or.inl (mentions_of_piece "DOB" line a lab b hl (by rw [h]; decide))
  · exact Or.inr (mentions_of_piece "Birth" line a lab b hl (by rw [h]; decide))
  · exact Or.inr (mentions_of_piece "Birth" line (a ++ x ++ s1 ++ y ++ s2) z b
      (by rw [hl]; simp) (by rw [hz]; decide))

/-- Pattern 1 of `extractDOB` accepts a label in Latin letters followed by
colons and whitespace and a date. -/
theorem accepts_reLabelledDate (pre w d post : Str) (h : Aadhar.LabelledDate w d) :
    Aadhar.reLabelledDate.Accepts pre w post := by
  obtain ⟨lab, sep, rfl, hlab, hsep, hd⟩ := h
  unfold Aadhar.reLabelledDate
  simp only [Re.seqs]
  rw [List.append_assoc]
  refine .seq _ _ _ _ _ _ (dobLabel_complete _ _ _ hlab) (.seq _ _ _ _ _ _ ?_ ?_)
  · exact (accepts_star_chr _ _ _ _).mpr hsep
  · exact (accepts_group _ _ _ _ _).mpr ((accepts_reDateDigits _ _ _).mpr hd)

/-- What pattern 1 of `extractDOB` returns on a line that does not mention
`जन्म`: the date of the leftmost labelled date of the line. -/
theorem exec_reLabelledDate (line : Str) (m : Match)
    (h : Aadhar.reLabelledDate.exec line = some m) (hh : ¬ MentionsI "जन्म" line) :
    ∃ a w b, line = a ++ w ++ b ∧ Aadhar.LabelledDate w (m.get 1).strD
      ∧ ∀ a2 w2 d2 b2, line = a2 ++ w2 ++ b2 → Aadhar.LabelledDate w2 d2 →
          a.length ≤ a2.length := by
  obtain ⟨a0, w0, b0, hs0, hpre, hrest, hstop, hmem, hleft⟩ := exec_some_full _ line m h
  unfold Aadhar.reLabelledDate at hmem
  simp only [Re.seqs] at hmem
  rw [mem_run_seq] at hmem
  obtain ⟨s1, hs1, hmem⟩ := hmem
  rw [mem_run_seq] at hmem
  obtain ⟨s2, hs2, hmem⟩ := hmem
  obtain ⟨w1, e1, _, a1⟩ := run_sound _ _ _ hs1
  obtain ⟨w2, e2, _, a2⟩ := run_sound _ _ _ hs2
  obtain ⟨w3, e3, _, a3, hcap⟩ := run_group_sound _ _ _ _ hmem
  have hget : (m.get 1).strD = w3 := by
    unfold Match.get
    rw [hcap]
    rfl
  have hline : line = a0 ++ (w1 ++ w2 ++ w3) ++ b0 := by
    rw [hs0]
    have : w0 ++ b0 = w1 ++ (w2 ++ (w3 ++ b0)) := by
      rw [← hrest, e1, e2, e3, hstop]
    simp only [List.append_assoc, this]
  have hlab : Aadhar.BirthLabel w1 := by
    rcases dobLabel_sound _ _ _ a1 with h1 | ⟨x, y, rfl, hx⟩
    · exact h1
    · exact absurd (mentions_of_piece "जन्म" line a0 x (y ++ w2 ++ w3 ++ b0)
        (by rw [hline]; simp) hx) hh
  rw [hget]
  refine ⟨a0, w1 ++ w2 ++ w3, b0, hline, ⟨w1, w2, rfl, hlab,
    (accepts_star_chr _ _ _ _).mp a2, (accepts_reDateDigits _ _ _).mp a3⟩, ?_⟩
  intro a2' w2' d2 b2 hl2 hld
  exact hleft a2' w2' b2 hl2 (accepts_reLabelledDate _ _ _ _ hld)

/-- A line that mentions none of `DOB`, `Birth`, `जन्म` and `YOB` is passed over
by the first loop of `extractDOB`. -/
theorem dobLabelled_skip (l : Str) (rest : List Str) (h1 : ¬ MentionsI "DOB" l)
    (h2 : ¬ MentionsI "Birth" l) (h3 : ¬ MentionsI "जन्म" l) (h4 : ¬ MentionsI "YOB" l) :
    Aadhar.dobLabelled (l :: rest) = Aadhar.dobLabelled rest := by
  have nolabel : ∀ a lab b, l = a ++ lab ++ b → ¬ Aadhar.BirthLabel lab := by
    intro a lab b hl hlab
    rcases birthLabel_mentions l a lab b hl hlab with h | h
    · exact h1 h
    · exact h2 h
  have e1 : Aadhar.reLabelledDate.exec l = none := by
    rw [exec_none_iff]
    intro a w b hs hacc
    simp only [Aadhar.reLabelledDate, Re.seqs, accepts_seq] at hacc
    obtain ⟨w1, r, rfl, a1, _⟩ := hacc
    rcases dobLabel_sound _ _ _ a1 with hl | ⟨x, y, rfl, hx⟩
    · exact nolabel a w1 (r ++ b) (by rw [hs]; simp) hl
    · exact h3 (mentions_of_piece "जन्म" l a x (y ++ r ++ b) (by rw [hs]; simp) hx)
  have e2 : Aadhar.reYearOfBirth.exec l = none := by
    rw [exec_none_iff]
    intro a w b hs hacc
    simp only [Aadhar.reYearOfBirth, Re.seqs, accepts_seq, accepts_alt, accepts_litI] at hacc
    obtain ⟨w1, r, rfl, a1, _⟩ := hacc
    rcases a1 with ⟨x, r1, rfl, _, s1, r2, rfl, _, y, r3, rfl, _, s2, z, rfl, _, hz⟩ | hy
    · exact h2 (mentions_of_piece "Birth" l (a ++ x ++ s1 ++ y ++ s2) z (r ++ b)
        (by rw [hs]; simp) hz)
    · exact h4 (mentions_of_piece "YOB" l a w1 (r ++ b) (by rw [hs]; simp) hy)
  have e3 : Aadhar.reBirthLabel.test l = false := by
    rw [test_eq_false_iff]
    intro a w b hs hacc
    have e0 : foldCase "DOB".toList = "DOB".toList := by decide
    have e5 : foldCase "Birth".toList = "BIRTH".toList := by decide
    simp only [Aadhar.reBirthLabel, Re.alts, accepts_alt, accepts_litI,
      accepts_reDateOfBirthWords, e0, e5] at hacc
    rcases hacc with h | h | h | h
    · exact nolabel a w b hs (Or.inl h)
    · exact nolabel a w b hs (Or.inr (Or.inr h))
    · exact h3 (mentions_of_piece "जन्म" l a w b hs h)
    · exact nolabel a w b hs (Or.inr (Or.inl h))
  rw [Aadhar.dobLabelled]
  simp only [e1, e2, e3]
  simp

theorem dobLabelled_skip_all (pre rest : List Str)
    (h : ∀ l ∈ pre, ¬ MentionsI "DOB" l ∧ ¬ MentionsI "Birth" l ∧ ¬ MentionsI "जन्म" l
      ∧ ¬ MentionsI "YOB" l) :
    Aadhar.dobLabelled (pre ++ rest) = Aadhar.dobLabelled rest := by
  induction pre with
  | nil => rfl
  | cons l t ih =>
    have hl := h l (by simp)
    rw [List.cons_append, dobLabelled_skip l _ hl.1 hl.2.1 hl.2.2.1 hl.2.2.2]
    exact ih (fun x hx => h x (by simp [hx]))

/-! ## Lemmas on capture groups in a sequence and on runs of characters -/

theorem iterate_caps (step : MState → List MState) (g : Bool)
    (hstep : ∀ st s, s ∈ step st → s.caps = st.caps) :
    ∀ (fuel : Nat) (st s : MState), s ∈ iterate step g fuel st → s.caps = st.caps := by
  intro fuel
  induction fuel with
  | zero =>
    intro st s h
    simp [iterate] at h
    rw [h]
  | succ k ih =>
    intro st s h
    rw [mem_iterate_succ] at h
    rcases h with h | ⟨s1, hs1, _, hmem⟩
    · rw [h]
    · rw [ih s1 s hmem, hstep st s1 hs1]

/-- A pattern without capture groups leaves the captures as they are. -/
theorem run_groupFree (r : Re) (h : r.groupFree = true) :
    ∀ st s, s ∈ r.run st → s.caps = st.caps := by
  induction r with
  | eps =>
    intro st s hs
    simp [Re.run] at hs
    rw [hs]
  | chr p =>
    intro st s hs
    unfold Re.run at hs
    split at hs
    · simp at hs
    · split_ifs at hs
      · simp only [List.mem_singleton] at hs
        rw [hs]
      · simp at hs
  | seq a b iha ihb =>
    intro st s hs
    simp only [Re.groupFree, Bool.and_eq_true] at h
    rw [mem_run_seq] at hs
    obtain ⟨s1, hs1, hs2⟩ := hs
    rw [ihb h.2 s1 s hs2, iha h.1 st s1 hs1]
  | alt a b iha ihb =>
    intro st s hs
    simp only [Re.groupFree, Bool.and_eq_true] at h
    simp only [Re.run, List.mem_append] at hs
    rcases hs with hs | hs
    · exact iha h.1 st s hs
    · exact ihb h.2 st s hs
  | star a iha =>
    intro st s hs
    exact iterate_caps _ true (iha h) _ st s hs
  | lazyStar a iha =>
    intro st s hs
    exact iterate_caps _ false (iha h) _ st s hs
  | group i a _ => simp [Re.groupFree] at h
  | bol =>
    intro st s hs
    unfold Re.run at hs
    split_ifs at hs
    · simp only [List.mem_singleton] at hs
      rw [hs]
    · simp at hs
  | eol =>
    intro st s hs
    unfold Re.run at hs
    split_ifs at hs
    · simp only [List.mem_singleton] at hs
      rw [hs]
    · simp at hs
  | wordB =>
    intro st s hs
    rw [run_wordB] at hs
    split_ifs at hs
    · simp only [List.mem_singleton] at hs
      rw [hs]
    · simp at hs
  | look a _ =>
    intro st s hs
    unfold Re.run at hs
    split_ifs at hs
    · simp at hs
    · simp only [List.mem_singleton] at hs
      rw [hs]

/-- A success of a capture group around a pattern without groups: the word it
read is put in front of the captures. -/
theorem run_group_caps (i : Nat) (r : Re) (hr : r.groupFree = true) (st s : MState)
    (h : s ∈ (Re.group i r).run st) :
    ∃ w, st.rest = w ++ s.rest ∧ s.pre = w.reverse ++ st.pre ∧ r.Accepts st.pre w s.rest
      ∧ s.caps = (i, w) :: st.caps := by
  obtain ⟨w, e, p, a⟩ := run_sound _ st s h
  refine ⟨w, e, p, (accepts_group _ _ _ _ _).mp a, ?_⟩
  simp only [Re.run, List.mem_map] at h
  obtain ⟨s0, hs0, rfl⟩ := h
  simp only at e ⊢
  rw [run_groupFree r hr st s0 hs0, e]
  simp

/-- In a text cut in two ways, a first part made of characters of a class is
the start of the other first part when the other second part does not start
with a character of the class. -/
theorem span_start (p : Char → Bool) (x y x2 y2 : Str) (hx : ∀ c ∈ x, p c = true)
    (hy2 : ∀ c ∈ y2.head?, p c = false) (e : x ++ y = x2 ++ y2) :
    ∃ z, x2 = x ++ z ∧ y = z ++ y2 := by
  rcases List.append_eq_append_iff.mp e with ⟨z, h1, h2⟩ | ⟨z, h1, h2⟩
  · exact ⟨z, h1, h2⟩
  · cases z with
    | nil => exact ⟨[], by simpa using h1.symm, by simpa using h2.symm⟩
    | cons c cs =>
      exfalso
      have h3 := hy2 c (by rw [h2]; simp)
      have h4 := hx c (by rw [h1]; simp)
      rw [h3] at h4
      exact absurd h4 (by decide)

/-- A run of characters of a class that is followed by a character outside the
class (or by nothing) is cut off in one way only. -/
theorem span_unique (p : Char → Bool) (x y x2 y2 : Str) (hx : ∀ c ∈ x, p c = true)
    (hx2 : ∀ c ∈ x2, p c = true) (hy : ∀ c ∈ y.head?, p c = false)
    (hy2 : ∀ c ∈ y2.head?, p c = false) (e : x ++ y = x2 ++ y2) : x = x2 ∧ y = y2 := by
  obtain ⟨z, h1, h2⟩ := span_start p x y x2 y2 hx hy2 e
  obtain ⟨z2, h3, _⟩ := span_start p x2 y2 x y hx2 hy e.symm
  have hz : z = [] := by
    have := congrArg List.length h1
    have := congrArg List.length h3
    simp only [List.length_append] at *
    exact List.length_eq_zero.mp (by omega)
  subst hz
  exact ⟨by simpa using h1.symm, by simpa using h2⟩

theorem head_of_all (p q : Char → Bool) (x y : Str) (hne : x ≠ [])
    (hx : ∀ c ∈ x, q c = true) (hpq : ∀ c, q c = true → p c = false) :
    ∀ c ∈ (x ++ y).head?, p c = false := by
  cases x with
  | nil => exact absurd rfl hne
  | cons a as =>
    intro c hc
    simp only [List.cons_append, List.head?_cons, Option.mem_def, Option.some.injEq] at hc
    subst hc
    exact hpq _ (hx _ (by simp))

theorem isLetter_not_space (c : Char) (h : isLetter c = true) : isSpace c = false := by
  have h1 : (65 ≤ c.toNat ∧ c.toNat ≤ 90) ∨ (97 ≤ c.toNat ∧ c.toNat ≤ 122) := by
    simpa [isLetter, isUpper, isLower] using h
  simp only [isSpace, Bool.or_eq_false_iff, Bool.and_eq_false_iff, beq_eq_false_iff_ne,
    decide_eq_false_iff_not]
  omega

theorem isLetter_not_digit (c : Char) (h : isLetter c = true) : isDigit c = false := by
  have h1 : (65 ≤ c.toNat ∧ c.toNat ≤ 90) ∨ (97 ≤ c.toNat ∧ c.toNat ≤ 122) := by
    simpa [isLetter, isUpper, isLower] using h
  simp only [isDigit, Bool.and_eq_false_iff, decide_eq_false_iff_not]
  omega

theorem isSpace_not_digit (c : Char) (h : isSpace c = true) : isDigit c = false := by
  by_contra hd
  have := isDigit_not_space c (by simpa using hd)
  rw [h] at this
  exact absurd this (by decide)

/-! ## Lemmas on `standardizeDate` -/

theorem accepts_reMonthMatch (pre w post : Str) :
    Passport.reMonthMatch.Accepts pre w post ↔
      ∃ w1 w2 w3 w4 w5, w = w1 ++ w2 ++ w3 ++ w4 ++ w5
        ∧ ((1 ≤ w1.length ∧ w1.length ≤ 2) ∧ ∀ c ∈ w1, isDigit c = true)
        ∧ Aadhar.Blank w2 ∧ (w3.length = 3 ∧ ∀ c ∈ w3, isLetter c = true)
        ∧ Aadhar.Blank w4
        ∧ ((2 ≤ w5.length ∧ w5.length ≤ 4) ∧ ∀ c ∈ w5, isDigit c = true) := by
  simp only [Passport.reMonthMatch, Re.seqs, Re.digit, Re.space, Re.letter, accepts_seq,
    accepts_group, accepts_range_chr _ 1 2 (by decide), accepts_range_chr _ 2 4 (by decide),
    accepts_plus_chr, accepts_times_chr, Aadhar.Blank]
  constructor
  · rintro ⟨w1, r1, rfl, h1, w2, r2, rfl, h2, w3, r3, rfl, h3, w4, w5, rfl, h4, h5⟩
    exact ⟨w1, w2, w3, w4, w5, by simp, h1, h2, h3, h4, h5⟩
  · rintro ⟨w1, w2, w3, w4, w5, rfl, h1, h2, h3, h4, h5⟩
    exact ⟨w1, _, by simp, h1, w2, _, rfl, h2, w3, _, rfl, h3, w4, w5, rfl, h4, h5⟩

/-- What the pattern `(\d{1,2})\s+([A-Z]{3})\s+(\d{2,4})` returns: the three
groups of a leftmost accepted word. -/
theorem exec_reMonthMatch (t : Str) (m : Match) (h : Passport.reMonthMatch.exec t = some m) :
    ∃ a w1 w2 w3 w4 w5 b, t = a ++ (w1 ++ w2 ++ w3 ++ w4 ++ w5) ++ b
      ∧ ((1 ≤ w1.length ∧ w1.length ≤ 2) ∧ ∀ c ∈ w1, isDigit c = true)
      ∧ Aadhar.Blank w2 ∧ (w3.length = 3 ∧ ∀ c ∈ w3, isLetter c = true)
      ∧ Aadhar.Blank w4
      ∧ ((2 ≤ w5.length ∧ w5.length ≤ 4) ∧ ∀ c ∈ w5, isDigit c = true)
      ∧ (m.get 1).strD = w1 ∧ (m.get 2).strD = w3 ∧ (m.get 3).strD = w5
      ∧ ∀ a2 w b2, t = a2 ++ w ++ b2 → Passport.reMonthMatch.Accepts a2.reverse w b2 →
          a.length ≤ a2.length := by
  obtain ⟨a, w, b, hs, hpre, hrest, hstop, hmem, hleft⟩ := exec_some_full _ t m h
  unfold Passport.reMonthMatch at hmem
  simp only [Re.seqs] at hmem
  rw [mem_run_seq] at hmem
  obtain ⟨s1, hs1, hmem⟩ := hmem
  rw [mem_run_seq] at hmem
  obtain ⟨s2, hs2, hmem⟩ := hmem
  rw [mem_run_seq] at hmem
  obtain ⟨s3, hs3, hmem⟩ := hmem
  rw [mem_run_seq] at hmem
  obtain ⟨s4, hs4, hmem⟩ := hmem
  obtain ⟨w1, e1, _, a1, c1⟩ := run_group_caps 1 _ (by decide) _ _ hs1
  obtain ⟨w2, e2, _, a2⟩ := run_sound _ _ _ hs2
  have c2 := run_groupFree _ (by decide) _ _ hs2
  obtain ⟨w3, e3, _, a3, c3⟩ := run_group_caps 2 _ (by decide) _ _ hs3
  obtain ⟨w4, e4, _, a4⟩ := run_sound _ _ _ hs4
  have c4 := run_groupFree _ (by decide) _ _ hs4
  obtain ⟨w5, e5, _, a5, c5⟩ := run_group_caps 3 _ (by decide) _ _ hmem
  have hcaps : m.stop.caps = (3, w5) :: (2, w3) :: (1, w1) :: m.start.caps := by
    rw [c5, c4, c3, c2, c1]
  have hline : t = a ++ (w1 ++ w2 ++ w3 ++ w4 ++ w5) ++ b := by
    rw [hs]
    have : w ++ b = w1 ++ (w2 ++ (w3 ++ (w4 ++ (w5 ++ b)))) := by
      rw [← hrest, e1, e2, e3, e4, e5, hstop]
    simp only [List.append_assoc, this]
  refine ⟨a, w1, w2, w3, w4, w5, b, hline, ?_, ?_, ?_, ?_, ?_, ?_, ?_, ?_, hleft⟩
  · simpa [Re.digit, accepts_range_chr _ 1 2 (by decide)] using a1
  · simpa [Re.space, accepts_plus_chr, Aadhar.Blank] using a2
  · simpa [Re.letter, accepts_times_chr] using a3
  · simpa [Re.space, accepts_plus_chr, Aadhar.Blank] using a4
  · simpa [Re.digit, accepts_range_chr _ 2 4 (by decide)] using a5
  · unfold Match.get
    rw [hcaps]
    simp [List.lookup, JSValue.strD]
  · unfold Match.get
    rw [hcaps]
    simp [List.lookup, JSValue.strD]
  · unfold Match.get
    rw [hcaps]
    simp [List.lookup, JSValue.strD]

/-- On a day, whitespace, three letters, whitespace and a year of two digits,
the pattern `(\d{1,2})\s+([A-Z]{3})\s+(\d{2,4})` returns the day, the letters
and the year. -/
theorem exec_reMonthMatch_exact (d S1 mo B y : Str)
    (hd : (1 ≤ d.length ∧ d.length ≤ 2) ∧ ∀ c ∈ d, isDigit c = true) (hS1 : Aadhar.Blank S1)
    (hmo : mo.length = 3 ∧ ∀ c ∈ mo, isLetter c = true) (hB : Aadhar.Blank B)
    (hy : y.length = 2 ∧ ∀ c ∈ y, isDigit c = true) :
    ∃ m, Passport.reMonthMatch.exec (d ++ S1 ++ mo ++ B ++ y) = some m
      ∧ (m.get 1).strD = d ∧ (m.get 2).strD = mo ∧ (m.get 3).strD = y := by
  have hacc : Passport.reMonthMatch.Accepts [] (d ++ S1 ++ mo ++ B ++ y) [] :=
    (accepts_reMonthMatch _ _ _).mpr
      ⟨d, S1, mo, B, y, rfl, hd, hS1, hmo, hB, ⟨by omega, by omega⟩, hy.2⟩
  cases he : Passport.reMonthMatch.exec (d ++ S1 ++ mo ++ B ++ y) with
  | none =>
    exact absurd hacc ((exec_none_iff _ _).mp he [] _ [] (by simp))
  | some m =>
    obtain ⟨a, w1, w2, w3, w4, w5, b, hl, h1, h2, h3, h4, h5, g1, g2, g3, hleft⟩ :=
      exec_reMonthMatch _ m he
    have ha : a = [] := by
      have := hleft [] _ [] (by simp) hacc
      exact List.length_eq_zero.mp (Nat.le_zero.mp this)
    subst ha
    have hmo_ne : mo ≠ [] := by
      intro h0
      rw [h0] at hmo
      simp at hmo
    have hw3_ne : w3 ≠ [] := by
      intro h0
      rw [h0] at h3
      simp at h3
    have hy_ne : y ≠ [] := by
      intro h0
      rw [h0] at hy
      simp at hy
    have hw5_ne : w5 ≠ [] := by
      intro h0
      rw [h0] at h5
      simp at h5
    have e0 : d ++ (S1 ++ (mo ++ (B ++ y))) = w1 ++ (w2 ++ (w3 ++ (w4 ++ (w5 ++ b)))) := by
      simpa [List.append_assoc] using hl
    obtain ⟨r1, e1⟩ := span_unique isDigit _ _ _ _ hd.2 h1.2
      (head_of_all isDigit isSpace S1 _ hS1.1 hS1.2 isSpace_not_digit)
      (head_of_all isDigit isSpace w2 _ h2.1 h2.2 isSpace_not_digit) e0
    obtain ⟨r2, e2⟩ := span_unique isSpace _ _ _ _ hS1.2 h2.2
      (head_of_all isSpace isLetter mo _ hmo_ne hmo.2 isLetter_not_space)
      (head_of_all isSpace isLetter w3 _ hw3_ne h3.2 isLetter_not_space) e1
    obtain ⟨r3, e3⟩ := List.append_inj e2 (by rw [hmo.1, h3.1])
    obtain ⟨r4, e4⟩ := span_unique isSpace _ _ _ _ hB.2 h4.2
      (head_of_all isSpace isDigit y _ hy_ne hy.2 isDigit_not_space)
      (head_of_all isSpace isDigit w5 _ hw5_ne h5.2 isDigit_not_space)
      (by simpa using e3 : B ++ (y ++ []) = w4 ++ (w5 ++ b))
    have r5 : w5 = y := by
      have hlen := congrArg List.length e4
      simp only [List.length_append, List.length_nil] at hlen
      have hb : b = [] := List.length_eq_zero.mp (by omega)
      rw [hb] at e4
      simpa using e4.symm
    exact ⟨m, rfl, by rw [g1, r1], by rw [g2, r3], by rw [g3, r5]⟩

theorem accepts_reSecondLanguage (pre w post : Str) :
    Passport.reSecondLanguage.Accepts pre w post ↔
      ∃ u1 u2 l u3, w = u1 ++ ['/'] ++ u2 ++ l ++ u3 ∧ (∀ c ∈ u1, isSpace c = true)
        ∧ (∀ c ∈ u2, isSpace c = true) ∧ (l.length = 3 ∧ ∀ c ∈ l, isLetter c = true)
        ∧ (∀ c ∈ u3, isSpace c = true) := by
  simp only [Passport.reSecondLanguage, Re.seqs, Re.space, Re.letter, Re.char, accepts_seq,
    accepts_star_chr, accepts_times_chr, accepts_chr]
  constructor
  · rintro ⟨u1, r1, rfl, h1, x, r2, rfl, ⟨c, rfl, hc⟩, u2, r3, rfl, h2, l, u3, rfl, h3, h4⟩
    simp only [beq_iff_eq] at hc
    subst hc
    exact ⟨u1, u2, l, u3, by simp, h1, h2, h3, h4⟩
  · rintro ⟨u1, u2, l, u3, rfl, h1, h2, h3, h4⟩
    exact ⟨u1, _, by simp, h1, ['/'], _, rfl, ⟨'/', rfl, by simp⟩, u2, _, rfl, h2, l, u3, rfl,
      h3, h4⟩

/-- The removal of the second language leaves a text without `/` as it is. -/
theorem secondLanguage_no_slash (s : Str) (h : '/' ∉ s) :
    Passport.reSecondLanguage.replaceFirst [' '] s = s := by
  have he : Passport.reSecondLanguage.exec s = none := by
    rw [exec_none_iff]
    intro a w b hs hacc
    obtain ⟨u1, u2, l, u3, rfl, _⟩ := (accepts_reSecondLanguage _ _ _).mp hacc
    exact h (by rw [hs]; simp)
  unfold Re.replaceFirst
  rw [he]

/-- The removal of the second language leaves a text without letters as it is. -/
theorem secondLanguage_no_letter (s : Str) (h : ∀ c ∈ s, isLetter c = false) :
    Passport.reSecondLanguage.replaceFirst [' '] s = s := by
  have he : Passport.reSecondLanguage.exec s = none := by
    rw [exec_none_iff]
    intro a w b hs hacc
    obtain ⟨u1, u2, l, u3, rfl, _, _, hl, _⟩ := (accepts_reSecondLanguage _ _ _).mp hacc
    cases l with
    | nil => simp at hl
    | cons c cs =>
      have h1 := hl.2 c (by simp)
      rw [h c (by rw [hs]; simp)] at h1
      exact absurd h1 (by decide)
  unfold Re.replaceFirst
  rw [he]

/-- A text with one occurrence of a character is cut at it in one way only. -/
theorem split_at_unique (c : Char) (l0 r0 l1 r1 : Str) (hl : c ∉ l0) (hr : c ∉ r0)
    (e : l0 ++ c :: r0 = l1 ++ c :: r1) : l0 = l1 ∧ r0 = r1 := by
  induction l0 generalizing l1 with
  | nil =>
    cases l1 with
    | nil => exact ⟨rfl, by simpa using e⟩
    | cons x xs =>
      exfalso
      simp only [List.nil_append, List.cons_append, List.cons.injEq] at e
      exact hr (by rw [e.2]; simp)
  | cons y ys ih =>
    cases l1 with
    | nil =>
      exfalso
      simp only [List.nil_append, List.cons_append, List.cons.injEq] at e
      exact hl (by rw [e.1]; simp)
    | cons x xs =>
      simp only [List.cons_append, List.cons.injEq] at e
      obtain ⟨h1, h2⟩ := ih xs (fun hc => hl (by simp [hc])) e.2
      exact ⟨by rw [e.1, h1], h2⟩

theorem not_slash_of_space (c : Char) (h : isSpace c = true) : c ≠ '/' := by
  rintro rfl
  exact absurd h (by decide)

theorem not_slash_of_letter (c : Char) (h : isLetter c = true) : c ≠ '/' := by
  rintro rfl
  exact absurd h (by decide)

theorem not_slash_of_digit (c : Char) (h : isDigit c = true) : c ≠ '/' := by
  rintro rfl
  exact absurd h (by decide)

/-- The removal of the second language from a text that holds one: what stands
before the suffix, whitespace, and what stands after the whitespace that follows
the suffix. -/
theorem secondLanguage_removed (head sfx S4 y : Str) (hhead : '/' ∉ head)
    (hlast : ∀ c ∈ head.getLast?, isSpace c = false) (hsfx : Passport.MonthSuffix sfx)
    (hS4 : ∀ c ∈ S4, isSpace c = true) (hy : ∀ c ∈ y, isDigit c = true) :
    ∃ B, Aadhar.Blank B
      ∧ Passport.reSecondLanguage.replaceFirst [' '] (head ++ sfx ++ S4 ++ y)
          = head ++ B ++ y := by
  obtain ⟨S2, S3, X, rfl, hS2, hS3, hXlen, hX⟩ := hsfx
  have hacc0 : Passport.reSecondLanguage.Accepts head.reverse (S2 ++ ['/'] ++ S3 ++ X ++ [])
      (S4 ++ y) :=
    (accepts_reSecondLanguage _ _ _).mpr ⟨S2, S3, X, [], rfl, hS2, hS3, ⟨hXlen, hX⟩, by simp⟩
  cases he : Passport.reSecondLanguage.exec (head ++ (S2 ++ ['/'] ++ S3 ++ X) ++ S4 ++ y) with
  | none =>
    exact absurd hacc0 ((exec_none_iff _ _).mp he head _ (S4 ++ y) (by simp))
  | some m =>
    obtain ⟨a, w, b, hs, hpre, _, hstop, _, hacc, _, _⟩ := exec_some _ _ m he
    obtain ⟨u1, u2, l, u3, rfl, hu1, hu2, hl, hu3⟩ := (accepts_reSecondLanguage _ _ _).mp hacc
    have hr0 : '/' ∉ S3 ++ X ++ S4 ++ y := by
      intro hmem
      simp only [List.mem_append] at hmem
      rcases hmem with ((h | h) | h) | h
      · exact not_slash_of_space _ (hS3 _ h) rfl
      · exact not_slash_of_letter _ (hX _ h) rfl
      · exact not_slash_of_space _ (hS4 _ h) rfl
      · exact not_slash_of_digit _ (hy _ h) rfl
    have hl0 : '/' ∉ head ++ S2 := by
      intro hmem
      rcases List.mem_append.mp hmem with h | h
      · exact hhead h
      · exact not_slash_of_space _ (hS2 _ h) rfl
    have e : (head ++ S2) ++ '/' :: (S3 ++ X ++ S4 ++ y)
        = (a ++ u1) ++ '/' :: (u2 ++ l ++ u3 ++ b) := by
      simpa [List.append_assoc] using hs
    obtain ⟨eL, eR⟩ := split_at_unique '/' _ _ _ _ hl0 hr0 e
    have eL2 : u1.reverse ++ a.reverse = S2.reverse ++ head.reverse := by
      rw [← List.reverse_append, ← List.reverse_append, eL]
    obtain ⟨z, hz1, hz2⟩ := span_start isSpace u1.reverse a.reverse S2.reverse head.reverse
      (fun c hc => hu1 c (List.mem_reverse.mp hc))
      (by rw [List.head?_reverse]; exact hlast) eL2
    have ha : a = head ++ z.reverse := by
      have := congrArg List.reverse hz2
      simpa using this
    have hz : ∀ c ∈ z, isSpace c = true := by
      intro c hc
      apply hS2 c
      rw [← List.mem_reverse, hz1]
      simp [hc]
    have hXne : X ≠ [] := by
      intro h0
      rw [h0] at hXlen
      simp at hXlen
    have hlne : l ≠ [] := by
      intro h0
      rw [h0] at hl
      simp at hl
    have eR2 : S3 ++ (X ++ (S4 ++ y)) = u2 ++ (l ++ (u3 ++ b)) := by
      simpa [List.append_assoc] using eR
    obtain ⟨_, eR3⟩ := span_unique isSpace _ _ _ _ hS3 hu2
      (head_of_all isSpace isLetter X _ hXne hX isLetter_not_space)
      (head_of_all isSpace isLetter l _ hlne hl.2 isLetter_not_space) eR2
    obtain ⟨_, eR4⟩ := List.append_inj eR3 (by rw [hXlen, hl.1])
    have hyhead : ∀ c ∈ y.head?, isSpace c = false := by
      intro c hc
      cases y with
      | nil => simp at hc
      | cons d ds =>
        simp only [List.head?_cons, Option.mem_def, Option.some.injEq] at hc
        subst hc
        exact isDigit_not_space _ (hy _ (by simp))
    obtain ⟨z2, hz3, hz4⟩ := span_start isSpace u3 b S4 y hu3 hyhead eR4.symm
    have hz2s : ∀ c ∈ z2, isSpace c = true := by
      intro c hc
      apply hS4 c
      rw [hz3]
      simp [hc]
    refine ⟨z.reverse ++ [' '] ++ z2, ⟨by simp, ?_⟩, ?_⟩
    · intro c hc
      simp only [List.mem_append, List.mem_reverse, List.mem_singleton] at hc
      rcases hc with (h | h) | h
      · exact hz c h
      · subst h
        decide
      · exact hz2s c h
    · unfold Re.replaceFirst
      rw [he]
      simp only
      rw [hpre, hstop, List.reverse_reverse, ha, hz4]
      simp

theorem isLetter_of_upperChar (c : Char) (h : isLetter (upperChar c) = true) :
    isLetter c = true := by
  by_cases hl : isLower c = true
  · simp [isLetter, hl]
  · have h1 : upperChar c = c := by simp [upperChar, hl]
    rw [h1] at h
    exact h

theorem month_letters (mo : Str) (i : Nat) (hi : i < 12)
    (hmo : foldCase mo = (Passport.monthNames.getD i "").toList) :
    mo.length = 3 ∧ ∀ c ∈ mo, isLetter c = true := by
  have hall : ∀ c ∈ (Passport.monthNames.getD i "").toList, isLetter c = true := by
    interval_cases i <;> decide
  have hlen : (Passport.monthNames.getD i "").toList.length = 3 := by
    interval_cases i <;> rfl
  constructor
  · rw [← hlen, ← hmo, foldCase_length]
  · intro c hc
    apply isLetter_of_upperChar
    apply hall
    rw [← hmo]
    exact List.mem_map.mpr ⟨c, hc, rfl⟩

theorem monthMap_lookup (i : Nat) (hi : i < 12) :
    ∃ kv, Passport.monthMap.find?
        (fun kv => kv.1.toList == (Passport.monthNames.getD i "").toList) = some kv
      ∧ kv.2.toList = twoDigits (i + 1) := by
  interval_cases i <;> exact ⟨_, rfl, by decide⟩

theorem digitsValue_two (a b : Char) : digitsValue [a, b] = digitVal a * 10 + digitVal b := by
  simp [digitsValue]
  ring

/-- The function `standardizeDate` on a day, a month abbreviation, an optional
second-language suffix and a year of two digits, separated by whitespace. -/
theorem standardizeDate_month (d S1 mo sfx S4 y : Str) (i : Nat)
    (hd : (1 ≤ d.length ∧ d.length ≤ 2) ∧ ∀ c ∈ d, isDigit c = true) (hS1 : Aadhar.Blank S1)
    (hi : i < 12) (hmo : foldCase mo = (Passport.monthNames.getD i "").toList)
    (hsfx : sfx = [] ∨ Passport.MonthSuffix sfx) (hS4 : Aadhar.Blank S4)
    (hy : DigitRun 2 y) :
    Passport.standardizeDate (d ++ S1 ++ mo ++ sfx ++ S4 ++ y)
      = padStart0 2 d ++ ['/'] ++ twoDigits (i + 1) ++ ['/']
          ++ ((if 50 < digitsValue y then ['1', '9'] else ['2', '0']) ++ y) := by
  have hmo3 := month_letters mo i hi hmo
  have hmo_ne : mo ≠ [] := by
    intro h0
    rw [h0] at hmo3
    simp at hmo3
  have hhead : '/' ∉ d ++ S1 ++ mo := by
    intro hmem
    simp only [List.mem_append] at hmem
    rcases hmem with (h | h) | h
    · exact not_slash_of_digit _ (hd.2 _ h) rfl
    · exact not_slash_of_space _ (hS1.2 _ h) rfl
    · exact not_slash_of_letter _ (hmo3.2 _ h) rfl
  obtain ⟨B, hB, hrep⟩ : ∃ B, Aadhar.Blank B
      ∧ Passport.reSecondLanguage.replaceFirst [' '] (d ++ S1 ++ mo ++ sfx ++ S4 ++ y)
          = d ++ S1 ++ mo ++ B ++ y := by
    rcases hsfx with rfl | hsfx
    · refine ⟨S4, hS4, ?_⟩
      rw [List.append_nil]
      apply secondLanguage_no_slash
      intro hmem
      simp only [List.mem_append] at hmem
      rcases hmem with (h | h) | h
      · exact hhead (by simp only [List.mem_append]; exact h)
      · exact not_slash_of_space _ (hS4.2 _ h) rfl
      · exact not_slash_of_digit _ (hy.2 _ h) rfl
    · apply secondLanguage_removed (d ++ S1 ++ mo) sfx S4 y hhead ?_ hsfx hS4.2 hy.2
      intro c hc
      rw [List.getLast?_append_of_ne_nil _ hmo_ne] at hc
      rw [← List.head?_reverse] at hc
      exact isLetter_not_space c (hmo3.2 c (List.mem_reverse.mp (List.mem_of_mem_head? hc)))
  obtain ⟨m, hexec, g1, g2, g3⟩ := exec_reMonthMatch_exact d S1 mo B y hd hS1 hmo3 hB hy
  have hsub : substring (toUpperCase mo) 0 3 = (Passport.monthNames.getD i "").toList := by
    rw [toUpperCase_ascii mo (fun c hc => isLetter_ascii c (hmo3.2 c hc)), ← hmo]
    unfold substring
    simp only [List.drop_zero, Nat.sub_zero]
    apply List.take_of_length_le
    rw [foldCase_length, hmo3.1]
  obtain ⟨kv, hk, hk2⟩ := monthMap_lookup i hi
  unfold Passport.standardizeDate
  simp only [hrep, hexec, g1, g2, g3, hsub, hk, hk2]
  obtain ⟨hlen, hdig⟩ := hy
  match y, hlen, hdig with
  | [a, b], _, hdig =>
    rw [parseInt_two_digits a b (hdig a (by simp)) (hdig b (by simp)), digitsValue_two]
    simp only [List.length_cons, List.length_nil, beq_self_eq_true, if_true]
    by_cases h50 : 50 < digitVal a * 10 + digitVal b
    · have : ((digitVal a * 10 + digitVal b : Nat) : Int) > 50 := by exact_mod_cast h50
      simp only [this, h50, if_true]
    · have : ¬ ((digitVal a * 10 + digitVal b : Nat) : Int) > 50 := by
        intro h
        exact h50 (by exact_mod_cast h)
      simp only [this, h50, if_false]

theorem isDigit_not_letter (c : Char) (h : isDigit c = true) : isLetter c = false := by
  by_contra hl
  have := isLetter_not_digit c (by simpa using hl)
  rw [h] at this
  exact absurd this (by decide)

theorem slashOrDash_not_letter (c : Char) (h : Passport.isSlashOrDash c = true) :
    isLetter c = false := by
  have : c = '/' ∨ c = '-' := by simpa [Passport.isSlashOrDash] using h
  rcases this with rfl | rfl <;> decide

theorem map_dash_digits (w : Str) (h : ∀ c ∈ w, isDigit c = true) :
    w.map (fun c => if (c == '-') = true then '/' else c) = w := by
  conv_rhs => rw [← List.map_id w]
  apply List.map_congr_left
  intro c hc
  have : c ≠ '-' := by
    rintro rfl
    exact absurd (h _ hc) (by decide)
  simp [this]

theorem map_dash_sep (c : Char) (h : Passport.isSlashOrDash c = true) :
    (if (c == '-') = true then '/' else c) = '/' := by
  have : c = '/' ∨ c = '-' := by simpa [Passport.isSlashOrDash] using h
  rcases this with rfl | rfl <;> decide

/-- The function `standardizeDate` on two digits, `/` or `-`, two digits, `/` or
`-`, four digits. -/
theorem standardizeDate_numeric (dd mm yyyy : Str) (s1 s2 : Char) (hdd : DigitRun 2 dd)
    (hmm : DigitRun 2 mm) (hyyyy : DigitRun 4 yyyy) (h1 : Passport.isSlashOrDash s1 = true)
    (h2 : Passport.isSlashOrDash s2 = true) :
    Passport.standardizeDate (dd ++ [s1] ++ mm ++ [s2] ++ yyyy)
      = dd ++ ['/'] ++ mm ++ ['/'] ++ yyyy := by
  have hnl : ∀ c ∈ dd ++ [s1] ++ mm ++ [s2] ++ yyyy, isLetter c = false := by
    intro c hc
    simp only [List.mem_append, List.mem_singleton] at hc
    rcases hc with (((h | h) | h) | h) | h
    · exact isDigit_not_letter c (hdd.2 c h)
    · rw [h]; exact slashOrDash_not_letter _ h1
    · exact isDigit_not_letter c (hmm.2 c h)
    · rw [h]; exact slashOrDash_not_letter _ h2
    · exact isDigit_not_letter c (hyyyy.2 c h)
  have hrep := secondLanguage_no_letter _ hnl
  have hexec : Passport.reMonthMatch.exec (dd ++ [s1] ++ mm ++ [s2] ++ yyyy) = none := by
    rw [exec_none_iff]
    intro a w b hs hacc
    obtain ⟨w1, w2, w3, w4, w5, rfl, _, _, h3, _⟩ := (accepts_reMonthMatch _ _ _).mp hacc
    cases w3 with
    | nil => simp at h3
    | cons c cs =>
      have hc := h3.2 c (by simp)
      rw [hnl c (by rw [hs]; simp)] at hc
      exact absurd hc (by decide)
  have htest : Passport.reNumericDateOnly.test (dd ++ [s1] ++ mm ++ [s2] ++ yyyy) = true := by
    unfold Passport.reNumericDateOnly
    simp only [Re.seqs]
    rw [test_bol_iff]
    refine ⟨dd ++ ([s1] ++ (mm ++ ([s2] ++ (yyyy ++ [])))), [], by simp, ?_⟩
    refine .seq _ _ _ _ _ _ ((accepts_times_chr _ _ _ _ _).mpr hdd)
      (.seq _ _ _ _ _ _ (.chr _ s1 _ _ h1) (.seq _ _ _ _ _ _ ((accepts_times_chr _ _ _ _ _).mpr hmm)
        (.seq _ _ _ _ _ _ (.chr _ s2 _ _ h2)
          (.seq _ _ _ _ _ _ ((accepts_times_chr _ _ _ _ _).mpr hyyyy) (.eol _)))))
  unfold Passport.standardizeDate
  simp only [hrep, hexec, htest, if_true]
  rw [replaceChars_single]
  simp only [List.map_append, List.map_cons, List.map_nil, map_dash_digits dd hdd.2,
    map_dash_digits mm hmm.2, map_dash_digits yyyy hyyyy.2, map_dash_sep s1 h1,
    map_dash_sep s2 h2]

/-! ## Lemmas on `extractDateFromText` -/

theorem accepts_none (pre w post : Str) : ¬ Re.none.Accepts pre w post := by
  intro h
  unfold Re.none at h
  obtain ⟨c, _, hc⟩ := (accepts_chr _ _ _ _).mp h
  simp at hc

theorem accepts_alts (l : List Re) (pre w post : Str) :
    (Re.alts l).Accepts pre w post ↔ ∃ r ∈ l, r.Accepts pre w post := by
  induction l with
  | nil => simp [Re.alts, accepts_none]
  | cons a t ih =>
    cases t with
    | nil => simp [Re.alts]
    | cons b u =>
      show (Re.alt a (Re.alts (b :: u))).Accepts pre w post ↔ _
      rw [accepts_alt, ih]
      simp

/-- What the first of `datePatterns` accepts. -/
theorem accepts_dayMonthYear (pre w post : Str)
    (h : Passport.reDayMonthYear.Accepts pre w post) :
    ∃ d S1 mo sfx S4 y, w = d ++ S1 ++ mo ++ sfx ++ S4 ++ y
      ∧ ((1 ≤ d.length ∧ d.length ≤ 2) ∧ ∀ c ∈ d, isDigit c = true) ∧ Aadhar.Blank S1
      ∧ (mo.length = 3 ∧ ∀ c ∈ mo, isLetter c = true)
      ∧ (sfx = [] ∨ Passport.MonthSuffix sfx) ∧ Aadhar.Blank S4
      ∧ ((2 ≤ y.length ∧ y.length ≤ 4) ∧ ∀ c ∈ y, isDigit c = true) := by
  unfold Passport.reDayMonthYear at h
  simp only [Re.seqs, Re.opt, Re.digit, Re.space, Re.letter, Re.char, accepts_group, accepts_seq,
    accepts_alt, accepts_eps, accepts_range_chr _ 1 2 (by decide),
    accepts_range_chr _ 2 4 (by decide), accepts_plus_chr, accepts_star_chr, accepts_times_chr,
    accepts_chr] at h
  obtain ⟨d, r1, rfl, hd, S1, r2, rfl, hS1, mo, r3, rfl, hmo, sfx, r4, rfl, hsfx, S4, y, rfl,
    hS4, hy⟩ := h
  refine ⟨d, S1, mo, sfx, S4, y, by simp, hd, hS1, ?_, ?_, hS4, hy⟩
  · have hm : ∃ r ∈ Passport.monthNames.map Re.litI, r.Accepts (S1.reverse ++ (d.reverse ++ pre))
        mo (sfx ++ (S4 ++ y) ++ post) := (accepts_alts _ _ _ _).mp hmo
    obtain ⟨r, hr, hacc⟩ := hm
    obtain ⟨name, hname, rfl⟩ := List.mem_map.mp hr
    rw [accepts_litI] at hacc
    have hall : ∀ n ∈ Passport.monthNames, (foldCase n.toList).length = 3
        ∧ ∀ c ∈ foldCase n.toList, isLetter c = true := by decide
    obtain ⟨h3, hl⟩ := hall name hname
    constructor
    · rw [← foldCase_length, hacc, h3]
    · intro c hc
      apply isLetter_of_upperChar
      apply hl
      rw [← hacc]
      exact List.mem_map.mpr ⟨c, hc, rfl⟩
  · rcases hsfx with ⟨s2, r5, rfl, hs2, x, r6, rfl, ⟨c, rfl, hc⟩, s3, l, rfl, hs3, hl⟩ | h0
    · simp only [beq_iff_eq] at hc
      subst hc
      exact Or.inr ⟨s2, s3, l, by simp, hs2, hs3, hl.1, hl.2⟩
    · exact Or.inl h0

/-- What the second and the third of `datePatterns` accept. -/
theorem accepts_numericDate (pre w post : Str)
    (h : Passport.reNumericDate.Accepts pre w post ∨ Passport.reDashDate.Accepts pre w post) :
    ∃ dd s1 mm s2 yyyy, w = dd ++ [s1] ++ mm ++ [s2] ++ yyyy ∧ DigitRun 2 dd
      ∧ Passport.isSlashOrDash s1 = true ∧ DigitRun 2 mm ∧ Passport.isSlashOrDash s2 = true
      ∧ DigitRun 4 yyyy := by
  rcases h with h | h
  · unfold Passport.reNumericDate at h
    simp only [Re.seqs, Re.digit, accepts_group, accepts_seq, accepts_times_chr,
      accepts_chr] at h
    obtain ⟨dd, r1, rfl, hdd, x1, r2, rfl, ⟨c1, rfl, hc1⟩, mm, r3, rfl, hmm, x2, yyyy, rfl,
      ⟨c2, rfl, hc2⟩, hy⟩ := h
    exact ⟨dd, c1, mm, c2, yyyy, by simp, hdd, hc1, hmm, hc2, hy⟩
  · unfold Passport.reDashDate at h
    simp only [Re.seqs, Re.digit, Re.char, accepts_group, accepts_seq, accepts_times_chr,
      accepts_chr] at h
    obtain ⟨dd, r1, rfl, hdd, x1, r2, rfl, ⟨c1, rfl, hc1⟩, mm, r3, rfl, hmm, x2, yyyy, rfl,
      ⟨c2, rfl, hc2⟩, hy⟩ := h
    simp only [beq_iff_eq] at hc1 hc2
    subst hc1
    subst hc2
    exact ⟨dd, '-', mm, '-', yyyy, by simp, hdd, by decide, hmm, by decide, hy⟩

/-- The removal of the second language from a day, a month and a year keeps the
day, the month and the year, with whitespace before the year. -/
theorem secondLanguage_month_form (d S1 mo sfx S4 y : Str)
    (hd : ∀ c ∈ d, isDigit c = true) (hS1 : Aadhar.Blank S1)
    (hmo : mo.length = 3 ∧ ∀ c ∈ mo, isLetter c = true)
    (hsfx : sfx = [] ∨ Passport.MonthSuffix sfx) (hS4 : Aadhar.Blank S4)
    (hy : ∀ c ∈ y, isDigit c = true) :
    ∃ B, Aadhar.Blank B
      ∧ Passport.reSecondLanguage.replaceFirst [' '] (d ++ S1 ++ mo ++ sfx ++ S4 ++ y)
          = d ++ S1 ++ mo ++ B ++ y := by
  have hmo_ne : mo ≠ [] := by
    intro h0
    rw [h0] at hmo
    simp at hmo
  have hhead : '/' ∉ d ++ S1 ++ mo := by
    intro hmem
    simp only [List.mem_append] at hmem
    rcases hmem with (h | h) | h
    · exact not_slash_of_digit _ (hd _ h) rfl
    · exact not_slash_of_space _ (hS1.2 _ h) rfl
    · exact not_slash_of_letter _ (hmo.2 _ h) rfl
  rcases hsfx with rfl | hsfx
  · refine ⟨S4, hS4, ?_⟩
    rw [List.append_nil]
    apply secondLanguage_no_slash
    intro hmem
    simp only [List.mem_append] at hmem
    rcases hmem with (h | h) | h
    · exact hhead (by simp only [List.mem_append]; exact h)
    · exact not_slash_of_space _ (hS4.2 _ h) rfl
    · exact not_slash_of_digit _ (hy _ h) rfl
  · apply secondLanguage_removed (d ++ S1 ++ mo) sfx S4 y hhead ?_ hsfx hS4.2 hy
    intro c hc
    rw [List.getLast?_append_of_ne_nil _ hmo_ne, ← List.head?_reverse] at hc
    exact isLetter_not_space c (hmo.2 c (List.mem_reverse.mp (List.mem_of_mem_head? hc)))

theorem padStart0_day (w : Str) (h : (1 ≤ w.length ∧ w.length ≤ 2) ∧ ∀ c ∈ w, isDigit c = true) :
    DigitRun 2 (padStart0 2 w) := by
  unfold padStart0
  constructor
  · simp
    omega
  · intro c hc
    rcases List.mem_append.mp hc with h1 | h1
    · rw [(List.mem_replicate.mp h1).2]
      decide
    · exact h.2 c h1

/-- The result of `standardizeDate` on a text that the first of `datePatterns`
accepts. -/
theorem standardizeDate_month_shape (d S1 mo sfx S4 y : Str)
    (hd : (1 ≤ d.length ∧ d.length ≤ 2) ∧ ∀ c ∈ d, isDigit c = true) (hS1 : Aadhar.Blank S1)
    (hmo : mo.length = 3 ∧ ∀ c ∈ mo, isLetter c = true)
    (hsfx : sfx = [] ∨ Passport.MonthSuffix sfx) (hS4 : Aadhar.Blank S4)
    (hy : (2 ≤ y.length ∧ y.length ≤ 4) ∧ ∀ c ∈ y, isDigit c = true) :
    Passport.DateShape (Passport.standardizeDate (d ++ S1 ++ mo ++ sfx ++ S4 ++ y)) := by
  obtain ⟨B, hB, hrep⟩ := secondLanguage_month_form d S1 mo sfx S4 y hd.2 hS1 hmo hsfx hS4 hy.2
  have hacc : Passport.reMonthMatch.Accepts [] (d ++ S1 ++ mo ++ B ++ y) [] :=
    (accepts_reMonthMatch _ _ _).mpr ⟨d, S1, mo, B, y, rfl, hd, hS1, hmo, hB, hy⟩
  cases he : Passport.reMonthMatch.exec (d ++ S1 ++ mo ++ B ++ y) with
  | none => exact absurd hacc ((exec_none_iff _ _).mp he [] _ [] (by simp))
  | some m =>
    obtain ⟨a, w1, w2, w3, w4, w5, b, _, h1, _, _, _, h5, g1, g2, g3, _⟩ :=
      exec_reMonthMatch _ m he
    unfold Passport.standardizeDate
    simp only [hrep, he, g1, g2, g3]
    have hmonth : ∀ kv ∈ Passport.monthMap,
        kv.2.toList.length = 2 ∧ ∀ c ∈ kv.2.toList, isDigit c = true := by decide
    have d19 : ∀ c ∈ ['1', '9'], isDigit c = true := by decide
    have d20 : ∀ c ∈ ['2', '0'], isDigit c = true := by decide
    refine ⟨padStart0 2 w1, _, _, rfl, padStart0_day w1 h1, ?_, ?_⟩
    · split
      · rename_i kv hk
        exact hmonth kv (List.mem_of_find?_eq_some hk)
      · exact ⟨by decide, by decide⟩
    · by_cases h2 : w5.length = 2
      · right
        have hb : (w5.length == 2) = true := by simp [h2]
        rw [if_pos hb]
        have h19 : DigitRun 4 (['1', '9'] ++ w5) :=
          ⟨by simp [h2], fun c hc => by
            rcases List.mem_append.mp hc with h | h
            · exact d19 c h
            · exact h5.2 c h⟩
        have h20 : DigitRun 4 (['2', '0'] ++ w5) :=
          ⟨by simp [h2], fun c hc => by
            rcases List.mem_append.mp hc with h | h
            · exact d20 c h
            · exact h5.2 c h⟩
        split
        · split_ifs
          · exact h19
          · exact h20
        · exact h20
      · have hb : ¬ (w5.length == 2) = true := by simp [h2]
        rw [if_neg hb]
        by_cases h3 : w5.length = 3
        · exact Or.inl ⟨h3, h5.2⟩
        · exact Or.inr ⟨by omega, h5.2⟩

theorem trim_of_digits_ends (w : Str) (h1 : ∀ c ∈ w.head?, isDigit c = true)
    (h2 : ∀ c ∈ w.getLast?, isDigit c = true) : trim w = w :=
  trim_of_ends w (fun c hc => isDigit_not_space c (h1 c hc))
    (fun c hc => isDigit_not_space c (h2 c hc))

/-- The result of `standardizeDate` on the trimmed text of a match of one of
`datePatterns`. -/
theorem standardizeDate_of_pattern (pattern : Re) (hp : pattern ∈ Passport.datePatterns)
    (line : Str) (m : Match) (h : pattern.exec line = some m) :
    Passport.DateShape (Passport.standardizeDate (trim (m.get 1).strD)) := by
  obtain ⟨a, w, b, _, _, _, _, _, hacc, htext, _⟩ := exec_some _ line m h
  have hget : (m.get 1).strD = w := by
    simp only [Passport.datePatterns, List.mem_cons, List.mem_singleton, List.not_mem_nil,
      or_false] at hp
    rcases hp with rfl | rfl | rfl
    · rw [exec_group_get 1 _ line m h, htext]; rfl
    · rw [exec_group_get 1 _ line m h, htext]; rfl
    · rw [exec_group_get 1 _ line m h, htext]; rfl
  rw [hget]
  simp only [Passport.datePatterns, List.mem_cons, List.mem_singleton, List.not_mem_nil,
    or_false] at hp
  rcases hp with rfl | rfl | rfl
  · obtain ⟨d, S1, mo, sfx, S4, y, rfl, hd, hS1, hmo, hsfx, hS4, hy⟩ :=
      accepts_dayMonthYear _ _ _ hacc
    have hdne : d ≠ [] := by
      intro h0
      rw [h0] at hd
      simp at hd
    have hyne : y ≠ [] := by
      intro h0
      rw [h0] at hy
      simp at hy
    rw [trim_of_digits_ends]
    · exact standardizeDate_month_shape d S1 mo sfx S4 y hd hS1 hmo hsfx hS4 hy
    · intro c hc
      apply hd.2 c
      cases d with
      | nil => exact absurd rfl hdne
      | cons x xs =>
        simp only [List.cons_append, List.head?_cons, Option.mem_def, Option.some.injEq] at hc
        rw [← hc]
        simp
    · intro c hc
      rw [List.getLast?_append_of_ne_nil _ hyne, ← List.head?_reverse] at hc
      exact hy.2 c (List.mem_reverse.mp (List.mem_of_mem_head? hc))
  all_goals
    obtain ⟨dd, s1, mm, s2, yyyy, rfl, hdd, h1, hmm, h2, hy⟩ :=
      accepts_numericDate _ _ _ (by first | exact Or.inl hacc | exact Or.inr hacc)
    have hddne : dd ≠ [] := by
      intro h0
      have := hdd.1
      rw [h0] at this
      simp at this
    have hyne : yyyy ≠ [] := by
      intro h0
      have := hy.1
      rw [h0] at this
      simp at this
    rw [trim_of_digits_ends, standardizeDate_numeric dd mm yyyy s1 s2 hdd hmm hy h1 h2]
    · exact ⟨dd, mm, yyyy, rfl, hdd, hmm, Or.inr hy⟩
    · intro c hc
      apply hdd.2 c
      cases dd with
      | nil => exact absurd rfl hddne
      | cons x xs =>
        simp only [List.cons_append, List.head?_cons, Option.mem_def, Option.some.injEq] at hc
        rw [← hc]
        simp
    · intro c hc
      rw [List.getLast?_append_of_ne_nil _ hyne, ← List.head?_reverse] at hc
      exact hy.2 c (List.mem_reverse.mp (List.mem_of_mem_head? hc))

/-- The loop of `extractDateFromText` returns nothing or a date in the shape
that `standardizeDate` gives to a match of `datePatterns`. -/
theorem dateAfterLabel_shape (searchTerm : Re) (lines : List Str) :
    Passport.dateAfterLabel searchTerm lines = []
      ∨ Passport.DateShape (Passport.dateAfterLabel searchTerm lines) := by
  induction lines with
  | nil => exact Or.inl rfl
  | cons line rest ih =>
    rw [Passport.dateAfterLabel]
    split_ifs
    · split
      · rename_i m hf
        right
        obtain ⟨_, sl, _, _, hsl, _⟩ := List.findSome?_eq_some_iff.mp hf
        obtain ⟨p1, pattern, p2, hpat, hm, _⟩ := List.findSome?_eq_some_iff.mp hsl
        exact standardizeDate_of_pattern pattern (by rw [hpat]; simp) sl m hm
      · exact ih
    · exact ih

/-! ## Lemmas on the text fallback for the surname -/

theorem searchFrom_start_caps (r : Re) : ∀ (n : Nat) (st : MState) (m : Match),
    st.caps = [] → r.searchFrom n st = some m → m.start.caps = [] := by
  intro n
  induction n with
  | zero =>
    intro st m hc h
    simp only [Re.searchFrom, Option.map_eq_some'] at h
    obtain ⟨e, _, rfl⟩ := h
    exact hc
  | succ k ih =>
    intro st m hc h
    unfold Re.searchFrom at h
    split at h
    · simp only [Option.some.injEq] at h
      subst h
      exact hc
    · split at h
      · simp at h
      · exact ih _ m rfl h

/-- A match of a pattern without capture groups has no group 1. -/
theorem exec_groupFree_get (r : Re) (hr : r.groupFree = true) (s : Str) (m : Match)
    (h : r.exec s = some m) (i : Nat) : m.get i = .undefined := by
  have hstart : m.start.caps = [] := searchFrom_start_caps r _ _ m rfl h
  obtain ⟨_, _, _, _, _, _, _, hmem, _⟩ := exec_some r s m h
  unfold Match.get
  rw [run_groupFree r hr _ _ hmem, hstart]
  rfl

/-- What the line after a surname label must be to be returned: a line in
capitals and whitespace of 2 to 39 characters, or any line of 1 to 29
characters. -/
theorem fromNextLine_surname (next v : Str)
    (h : Passport.fromNextLine "surname" next = some v) :
    v = next ∧ ((Passport.reCapsWords.test next = true ∧ 1 < next.length ∧ next.length < 40)
      ∨ (0 < next.length ∧ next.length < 30)) := by
  unfold Passport.fromNextLine at h
  split_ifs at h with h1 h2 h3 h4
  · simp only [Option.some.injEq] at h
    simp only [Bool.and_eq_true, decide_eq_true_eq] at h1
    exact ⟨h.symm, Or.inl ⟨h1.2.1.1, h1.2.2, h1.2.1.2⟩⟩
  · simp at h2
  · simp at h3
  · simp only [Option.some.injEq] at h
    simp only [Bool.and_eq_true, decide_eq_true_eq] at h4
    exact ⟨h.symm, Or.inr h4⟩

theorem test_reCapsWords (s : Str) (h : Passport.reCapsWords.test s = true) :
    ∀ c ∈ s, isUpper c = true ∨ isSpace c = true := by
  unfold Passport.reCapsWords at h
  simp only [Re.seqs] at h
  rw [test_bol_iff] at h
  obtain ⟨w, post, rfl, hacc⟩ := h
  simp only [accepts_seq, accepts_atLeast_chr, accepts_eol] at hacc
  obtain ⟨w1, w2, rfl, ⟨_, hall⟩, rfl, rfl⟩ := hacc
  intro c hc
  simp only [List.append_nil] at hc
  simpa using hall c hc

/-- A non-empty text fallback for the surname is the trimmed line after a line
in which the label pattern is found. -/
theorem extractFromText_surname (text : Str)
    (h : Passport.extractFromText text "surname" ≠ []) :
    ∃ pre line next post pats pattern, splitLines text = pre ++ line :: next :: post
      ∧ Passport.patterns "surname" = some pats ∧ pattern ∈ pats
      ∧ pattern.test (trim line) = true
      ∧ Passport.extractFromText text "surname" = trim next
      ∧ ((Passport.reCapsWords.test (trim next) = true ∧ 1 < (trim next).length
            ∧ (trim next).length < 40)
        ∨ (0 < (trim next).length ∧ (trim next).length < 30)) := by
  have hpat : ∃ p, Passport.patterns "surname" = some [p] ∧ p.groupFree = true :=
    ⟨_, rfl, by decide⟩
  obtain ⟨p, hp, hgf⟩ := hpat
  have key : ∀ lines v, Passport.fromLines "surname" [p] lines = some v →
      ∃ pre line next post, lines = pre ++ line :: next :: post
        ∧ p.test (trim line) = true ∧ v = trim next
        ∧ ((Passport.reCapsWords.test (trim next) = true ∧ 1 < (trim next).length
              ∧ (trim next).length < 40)
          ∨ (0 < (trim next).length ∧ (trim next).length < 30)) := by
    intro lines
    induction lines with
    | nil =>
      intro v hv
      simp [Passport.fromLines] at hv
    | cons raw rest ih =>
      intro v hv
      rw [Passport.fromLines] at hv
      cases hl : Passport.fromLine "surname" [p] (trim raw) rest.head? with
      | none =>
        rw [hl] at hv
        obtain ⟨pre, line, next, post, h1, h2⟩ := ih v hv
        exact ⟨raw :: pre, line, next, post, by rw [h1]; rfl, h2⟩
      | some v2 =>
        rw [hl] at hv
        simp only [Option.some.injEq] at hv
        subst hv
        unfold Passport.fromLine at hl
        simp only [List.findSome?_cons, List.findSome?_nil] at hl
        cases he : p.exec (trim raw) with
        | none => rw [he] at hl; simp at hl
        | some m =>
          rw [he] at hl
          simp only [exec_groupFree_get p hgf _ m he 1, JSValue.truthy] at hl
          cases rest with
          | nil => simp at hl
          | cons next post =>
            simp only [List.head?_cons] at hl
            cases hn : Passport.fromNextLine "surname" (trim next) with
            | none => rw [hn] at hl; simp at hl
            | some v3 =>
              rw [hn] at hl
              simp only [Bool.false_eq_true, if_false, Option.some.injEq] at hl
              obtain ⟨hv3, hshape⟩ := fromNextLine_surname _ _ hn
              refine ⟨[], raw, next, post, rfl, ?_, ?_, hshape⟩
              · unfold Re.test
                rw [he]
                rfl
              · rw [← hl, hv3]
  unfold Passport.extractFromText at h ⊢
  simp only [hp] at h ⊢
  cases hf : Passport.fromLines "surname" [p] (splitLines text) with
  | none =>
    rw [hf] at h
    simp at h
  | some v =>
    obtain ⟨pre, line, next, post, h1, h2, h3, h4⟩ := key _ v hf
    exact ⟨pre, line, next, post, [p], p, h1, rfl, by simp, h2, h3, h4⟩

/-! ## The claims -/

/-- C1. In the result of the Aadhaar parse every field has confidence 0 if and
only if its value is the empty string, whatever the OCR text is. -/
theorem C1_aadhaar_zero_confidence_iff_empty_value (ocrText : JSValue) (f : ExtractedField)
    (h : f ∈ (Aadhar.parse ocrText).fields) :
    f.confidence_score = 0 ↔ f.field_value = JSValue.str [] := by
  obtain ⟨s, c, hc, _, hv, hs⟩ := aadhaar_parse_field_shape ocrText f h
  rw [hv, hs]
  cases s with
  | nil => simp [truthyStr]
  | cons x xs =>
    simp only [truthyStr, List.isEmpty_cons, Bool.not_false, if_true]
    constructor
    · intro h0
      exact absurd h0 (ne_of_gt hc)
    · intro h0
      exact absurd h0 (by simp)

/-- C1, on the text `MALE`: the Gender field holds `Male` with confidence 0.95,
and the equivalence holds for it. -/
theorem C1_aadhaar_zero_confidence_iff_empty_value_witness :
    (⟨"Gender", JSValue.str "Male".toList, 0.95⟩ : ExtractedField)
        ∈ (Aadhar.parse (JSValue.str "MALE".toList)).fields
      ∧ ((0.95 : ℚ) = 0 ↔ JSValue.str "Male".toList = JSValue.str []) :=
  have hmem : (⟨"Gender", JSValue.str "Male".toList, 0.95⟩ : ExtractedField)
      ∈ (Aadhar.parse (JSValue.str "MALE".toList)).fields :=
    List.getElem?_mem (show (Aadhar.parse (JSValue.str "MALE".toList)).fields[3]? = some _ from rfl)
  ⟨hmem, C1_aadhaar_zero_confidence_iff_empty_value _ _ hmem⟩

/-- C2. In the result of the passport parse a field scores more than 0 if and
only if its final value is a non-empty string; and each of the eight fixed
fields for which neither the decoded zone nor the free text yields a value
scores exactly 0. -/
theorem C2_passport_positive_confidence_iff_value (ocrText : JSValue) :
    (∀ f ∈ (Passport.parse ocrText).fields,
        (0 < f.confidence_score ↔ nonEmptyValue f = true)
          ∧ (nonEmptyValue f = false → f.confidence_score = 0))
      ∧ List.Forall₂ (fun f found => found = false → f.confidence_score = 0)
          ((Passport.parse ocrText).fields.take 8)
          (Passport.sourcesFound
            (Passport.parseMRZ
              (Passport.extractMRZ (Passport.normalizeText (ocrText.or (.str [])).strD)))
            (Passport.extractText (Passport.normalizeText (ocrText.or (.str [])).strD))) := by
  rw [passport_parse_fields]
  generalize Passport.parseMRZ _ = mrzData
  generalize Passport.extractText _ = t
  constructor
  · intro f hf
    obtain ⟨h1, h2, _⟩ := passport_buildFields_score mrzData t f hf
    rw [nonEmptyValue_eq_truthy]
    refine ⟨h1, fun h0 => ?_⟩
    have hn : ¬ 0 < f.confidence_score := by
      rw [h1, h0]
      simp
    exact le_antisymm (not_lt.mp hn) h2
  · unfold Passport.buildFields Passport.sourcesFound
    simp only [List.cons_append, List.take_succ_cons, List.take_zero, List.forall₂_cons,
      List.Forall₂.nil, and_true, Bool.or_eq_false_iff]
    refine ⟨?_, ?_, ?_, ?_, ?_, ?_, ?_, ?_⟩
    · rintro ⟨h1, h2⟩
      simp [h1, h2]
    · rintro ⟨h1, h2⟩
      simp [h1, h2]
    · rintro ⟨h1, h2⟩
      simp [h1, h2]
    · rintro ⟨h1, h2⟩
      simp [h1, h2]
    · rintro ⟨h1, h2⟩
      simp [h1, h2]
    · rintro ⟨h1, h2⟩
      simp [h1, h2]
    · intro h1
      simp [h1]
    · rintro ⟨h1, h2⟩
      simp [h1, h2]

/-- C2, on the two-line text `Surname` / `SMITH`: the Surname field holds the
text value with confidence 0.85, which is positive, and its value is not empty. -/
theorem C2_passport_positive_confidence_iff_value_witness :
    (⟨"Surname", JSValue.str "SMITH".toList, 0.85⟩ : ExtractedField)
        ∈ (Passport.parse (JSValue.str "Surname\nSMITH".toList)).fields
      ∧ ((0 : ℚ) < 0.85
          ↔ nonEmptyValue ⟨"Surname", JSValue.str "SMITH".toList, 0.85⟩ = true) :=
  have hmem : (⟨"Surname", JSValue.str "SMITH".toList, 0.85⟩ : ExtractedField)
      ∈ (Passport.parse (JSValue.str "Surname\nSMITH".toList)).fields :=
    List.getElem?_mem
      (show (Passport.parse (JSValue.str "Surname\nSMITH".toList)).fields[0]? = some _ from rfl)
  ⟨hmem, ((C2_passport_positive_confidence_iff_value _).1 _ hmem).1⟩

/-- C3. On the two-line text `Surname` / `SMITH`, which holds neither a date nor a
machine readable zone, the entries Date of Birth and Date of Expiry of the
passport parse result hold `undefined` and not the empty string, unlike the
other entries that were not found. -/
theorem C3_passport_dates_not_found_are_undefined :
    (Passport.parse (JSValue.str "Surname\nSMITH".toList)).fields.map
        (fun f => (f.field_name, f.field_value))
      = [("Surname", JSValue.str "SMITH".toList), ("Given Names", JSValue.str []),
         ("Passport Number", JSValue.str []), ("Nationality", JSValue.str []),
         ("Date of Birth", JSValue.undefined), ("Gender", JSValue.str []),
         ("Date of Issue", JSValue.str []), ("Date of Expiry", JSValue.undefined)] := by
  decide

/-- C4, refuted as stated: on the empty text the passport parse result has no
entry named Place of Birth, so its names are not the nine names of the claim. -/
theorem C4_counterexample :
    (Passport.parse (JSValue.str [])).fields.map (fun f => f.field_name)
      ≠ ["Surname", "Given Names", "Passport Number", "Nationality", "Date of Birth",
         "Gender", "Date of Issue", "Date of Expiry", "Place of Birth"] := by
  decide

/-- C4, amended. The passport parse result always starts with one entry for each
of the eight fields Surname, Given Names, Passport Number, Nationality, Date of
Birth, Gender, Date of Issue, Date of Expiry, in this order; one of them that was
not found is still present, with confidence 0 (and, for the six that are not
dates filled from the zone, with the empty string as value).  Place of Birth
follows as a ninth entry, with confidence 0.80, exactly when the text yields a
place of birth; otherwise the result has eight entries. -/
theorem C4_passport_fixed_fields_then_optional_place (ocrText : JSValue) :
    (Passport.parse ocrText).fields.map (fun f => f.field_name)
        = ["Surname", "Given Names", "Passport Number", "Nationality", "Date of Birth",
           "Gender", "Date of Issue", "Date of Expiry"]
          ++ (if Passport.extractPlaceOfBirth
                  (Passport.normalizeText (ocrText.or (.str [])).strD) ≠ []
              then ["Place of Birth"] else [])
      ∧ (∀ f ∈ (Passport.parse ocrText).fields.take 8, nonEmptyValue f = false →
          f.confidence_score = 0
            ∧ (f.field_name ≠ "Date of Birth" → f.field_name ≠ "Date of Expiry" →
                f.field_value = JSValue.str []))
      ∧ (Passport.parse ocrText).fields.drop 8
          = (if Passport.extractPlaceOfBirth
                  (Passport.normalizeText (ocrText.or (.str [])).strD) ≠ []
             then [⟨"Place of Birth",
                    JSValue.str (Passport.extractPlaceOfBirth
                      (Passport.normalizeText (ocrText.or (.str [])).strD)), 0.80⟩]
             else []) := by
  rw [passport_parse_fields]
  generalize Passport.parseMRZ _ = mrzData
  have ht : (Passport.extractText
      (Passport.normalizeText (ocrText.or (.str [])).strD)).textPlaceOfBirth
        = Passport.extractPlaceOfBirth
            (Passport.normalizeText (ocrText.or (.str [])).strD) := rfl
  rw [← ht]
  generalize Passport.extractText _ = t
  refine ⟨?_, ?_, ?_⟩
  · unfold Passport.buildFields
    cases h : t.textPlaceOfBirth <;> simp [truthyStr, h]
  · intro f hf h0
    have hmem : f ∈ Passport.buildFields mrzData t := List.mem_of_mem_take hf
    obtain ⟨h1, h2, _⟩ := passport_buildFields_score mrzData t f hmem
    refine ⟨?_, ?_⟩
    · have hn : ¬ 0 < f.confidence_score := by
        rw [h1, ← nonEmptyValue_eq_truthy, h0]
        simp
      exact le_antisymm (not_lt.mp hn) h2
    · rw [nonEmptyValue_eq_truthy] at h0
      unfold Passport.buildFields at hf
      simp only [List.cons_append, List.take_succ_cons, List.take_zero, List.mem_cons,
        List.mem_singleton, List.not_mem_nil, or_false] at hf
      rcases hf with rfl | rfl | rfl | rfl | rfl | rfl | rfl | rfl
      all_goals first
        | (intro hb; exact absurd rfl hb)
        | (intro _ hb; exact absurd rfl hb)
        | skip
      all_goals
        intro _ _
        simp only [or_truthy, truthy_str, Bool.or_eq_false_iff] at h0
      · rw [or_of_not_truthy _ _ h0.1]
        have := h0.2
        cases hs : t.textSurname <;> simp_all [truthyStr]
      · rw [or_of_not_truthy _ _ h0.1]
        have := h0.2
        cases hs : t.textGivenNames <;> simp_all [truthyStr]
      · rw [or_of_not_truthy _ _ h0.1]
        have := h0.2
        cases hs : t.textPassportNumber <;> simp_all [truthyStr]
      · by_cases hc : (truthyStr t.textNationality
            && (includes t.textNationality "CITIZEN".toList
                || decide (t.textNationality.length > 10))) = true
        · rw [if_pos hc] at h0 ⊢
          rw [truthy_str] at h0
          rw [h0] at hc
          exact absurd hc (by simp)
        · rw [if_neg hc] at h0 ⊢
          rw [or_truthy, Bool.or_eq_false_iff] at h0
          rw [or_of_not_truthy _ _ h0.1]
          have := h0.2
          cases hs : t.textNationality <;> simp_all [truthyStr, JSValue.truthy]
      · rw [or_of_not_truthy _ _ h0.1]
        have := h0.2
        cases hs : t.textGender <;> simp_all [truthyStr]
      · cases hs : t.textDOI <;> simp_all [truthyStr]
  · unfold Passport.buildFields
    cases h : t.textPlaceOfBirth <;> simp [truthyStr, h]

/-- C4, amended, on the two-line text `Place of birth` / `LONDON`: the text yields
a place of birth, and the result has the nine entries. -/
theorem C4_passport_fixed_fields_then_optional_place_witness :
    (Passport.parse (JSValue.str "Place of birth\nLONDON".toList)).fields.map
        (fun f => f.field_name)
      = ["Surname", "Given Names", "Passport Number", "Nationality", "Date of Birth",
         "Gender", "Date of Issue", "Date of Expiry", "Place of Birth"] :=
  (C4_passport_fixed_fields_then_optional_place
    (JSValue.str "Place of birth\nLONDON".toList)).1.trans (by decide)

/-- C5. For every OCR text the overall confidence of the Aadhaar parse and the
overall confidence of the passport parse, computed over the rationals, lie
between 0 and 1. -/
theorem C5_overall_confidence_between_zero_and_one (ocrText : JSValue) :
    (0 ≤ (Aadhar.parse ocrText).confidence_overall
        ∧ (Aadhar.parse ocrText).confidence_overall ≤ 1)
      ∧ (0 ≤ (Passport.parse ocrText).confidence_overall
        ∧ (Passport.parse ocrText).confidence_overall ≤ 1) := by
  constructor
  · rw [aadhaar_parse_overall]
    apply overallConfidence_bounds
    · rw [aadhaar_parse_length]
      decide
    · intro f hf
      obtain ⟨s, c, hc0, hc1, _, hs⟩ := aadhaar_parse_field_shape ocrText f hf
      rw [hs]
      split
      · exact ⟨le_of_lt hc0, hc1⟩
      · exact ⟨le_refl 0, by norm_num⟩
  · rw [passport_parse_overall]
    apply overallConfidence_bounds
    · exact passport_parse_length_ge ocrText
    · intro f hf
      rw [passport_parse_fields] at hf
      exact (passport_buildFields_score _ _ f hf).2

/-- C6. For both parsers the overall confidence is 0 if and only if every
essential field, that is each of the first 5 Aadhaar fields, resp. each of the
first 8 passport fields, has no value (the empty string for Aadhaar; for the
passport the empty string or no string at all); the fields after this prefix
(Address, PIN Code, State, Place of Birth) play no part. -/
theorem C6_overall_zero_iff_no_essential_field (ocrText : JSValue) :
    ((Aadhar.parse ocrText).confidence_overall = 0
        ↔ ∀ f ∈ (Aadhar.parse ocrText).fields.take 5, f.field_value = JSValue.str [])
      ∧ ((Passport.parse ocrText).confidence_overall = 0
        ↔ ∀ f ∈ (Passport.parse ocrText).fields.take 8, nonEmptyValue f = false) := by
  constructor
  · rw [aadhaar_parse_overall, overallConfidence_eq_zero_iff 5 _ (by decide)
      (by rw [aadhaar_parse_length]; decide)]
    · constructor
      · intro h f hf
        obtain ⟨s, c, _, _, hv, _⟩ :=
          aadhaar_parse_field_shape ocrText f (List.mem_of_mem_take hf)
        have h0 := h f hf
        rw [nonEmptyValue, hv] at h0
        rw [hv]
        cases s with
        | nil => rfl
        | cons x xs => simp at h0
      · intro h f hf
        rw [nonEmptyValue, h f hf]
        rfl
    · intro f hf hv
      obtain ⟨s, c, hc0, _, hval, hs⟩ := aadhaar_parse_field_shape ocrText f hf
      rw [nonEmptyValue_eq_truthy, hval, truthy_str] at hv
      rw [hs, if_pos hv]
      exact hc0
  · rw [passport_parse_overall, overallConfidence_eq_zero_iff 8 _ (by decide)
      (passport_parse_length_ge ocrText)]
    intro f hf hv
    rw [passport_parse_fields] at hf
    rw [nonEmptyValue_eq_truthy] at hv
    exact (passport_buildFields_score _ _ f hf).1.mpr hv

/-- C6, on the text `Bhopal, Madhya Pradesh 462001`: the optional fields PIN Code
and State are found, no essential field is, and the overall confidence is 0. -/
theorem C6_overall_zero_iff_no_essential_field_witness :
    (Aadhar.parse (JSValue.str "Bhopal, Madhya Pradesh 462001".toList)).fields.map
        (fun f => f.field_value)
      = [JSValue.str [], JSValue.str [], JSValue.str [], JSValue.str [], JSValue.str [],
         JSValue.str [], JSValue.str "462001".toList, JSValue.str "Madhya Pradesh".toList]
      ∧ (Aadhar.parse (JSValue.str "Bhopal, Madhya Pradesh 462001".toList)).confidence_overall
          = 0 :=
  ⟨by decide,
   (C6_overall_zero_iff_no_essential_field
      (JSValue.str "Bhopal, Madhya Pradesh 462001".toList)).1.mpr (by decide)⟩

/-- C7. For every OCR text the overall confidence is the product of the
specification's `avg_confidence` (the mean score over the fields with a
non-empty value, 0 when there is none) and `extraction_rate` (the number of
non-empty fields among the essential prefix divided by the size of the prefix),
where the prefix is made of the first 5 fields Name, Father Name, Date of Birth,
Gender, Aadhaar Number for Aadhaar, and of the first 8 fields for the passport. -/
theorem C7_overall_is_average_times_extraction_rate (ocrText : JSValue) :
    ((Aadhar.parse ocrText).confidence_overall
        = specAvgConfidence (Aadhar.parse ocrText).fields
            * specExtractionRate 5 (Aadhar.parse ocrText).fields
      ∧ ((Aadhar.parse ocrText).fields.take 5).map (fun f => f.field_name)
          = ["Name", "Father Name", "Date of Birth", "Gender", "Aadhaar Number"])
      ∧ ((Passport.parse ocrText).confidence_overall
        = specAvgConfidence (Passport.parse ocrText).fields
            * specExtractionRate 8 (Passport.parse ocrText).fields
      ∧ ((Passport.parse ocrText).fields.take 8).map (fun f => f.field_name)
          = ["Surname", "Given Names", "Passport Number", "Nationality", "Date of Birth",
             "Gender", "Date of Issue", "Date of Expiry"]) := by
  refine ⟨⟨?_, rfl⟩, ⟨?_, ?_⟩⟩
  · rw [aadhaar_parse_overall]
    exact overallConfidence_eq_spec 5 _ (by rw [aadhaar_parse_length]; decide)
  · rw [passport_parse_overall]
    exact overallConfidence_eq_spec 8 _ (passport_parse_length_ge ocrText)
  · rw [passport_parse_fields]
    unfold Passport.buildFields
    rfl

/-- C8. For every OCR text the Aadhaar parse returns exactly the eight fields
Name, Father Name, Date of Birth, Gender, Aadhaar Number, Address, PIN Code,
State, in this order; the value of each is the output of its extractor on the
normalized text, and its confidence is the constant of the field (0.90, 0.85,
0.90, 0.95, 0.98, 0.80, 0.90, 0.85) when the value is not empty and 0 when it
is; the threshold is 0.70. -/
theorem C8_aadhaar_parse_result (text : Str) :
    (Aadhar.parse (JSValue.str text)).fields
        = [⟨"Name", JSValue.str (Aadhar.extractName (Aadhar.normalizeText text)),
            if Aadhar.extractName (Aadhar.normalizeText text) ≠ [] then 0.90 else 0⟩,
           ⟨"Father Name", JSValue.str (Aadhar.extractFatherName (Aadhar.normalizeText text)),
            if Aadhar.extractFatherName (Aadhar.normalizeText text) ≠ [] then 0.85 else 0⟩,
           ⟨"Date of Birth", JSValue.str (Aadhar.extractDOB (Aadhar.normalizeText text)),
            if Aadhar.extractDOB (Aadhar.normalizeText text) ≠ [] then 0.90 else 0⟩,
           ⟨"Gender", JSValue.str (Aadhar.extractGender (Aadhar.normalizeText text)),
            if Aadhar.extractGender (Aadhar.normalizeText text) ≠ [] then 0.95 else 0⟩,
           ⟨"Aadhaar Number",
            JSValue.str (Aadhar.extractAadhaarNumber (Aadhar.normalizeText text)),
            if Aadhar.extractAadhaarNumber (Aadhar.normalizeText text) ≠ [] then 0.98 else 0⟩,
           ⟨"Address", JSValue.str (Aadhar.extractAddress (Aadhar.normalizeText text)),
            if Aadhar.extractAddress (Aadhar.normalizeText text) ≠ [] then 0.80 else 0⟩,
           ⟨"PIN Code", JSValue.str (Aadhar.extractPIN (Aadhar.normalizeText text)),
            if Aadhar.extractPIN (Aadhar.normalizeText text) ≠ [] then 0.90 else 0⟩,
           ⟨"State", JSValue.str (Aadhar.extractState (Aadhar.normalizeText text)),
            if Aadhar.extractState (Aadhar.normalizeText text) ≠ [] then 0.85 else 0⟩]
      ∧ (Aadhar.parse (JSValue.str text)).threshold = 0.70 := by
  refine ⟨?_, rfl⟩
  unfold Aadhar.parse
  simp only [or_str_strD, ite_truthyStr]

/-- C9, refuted as stated: on the empty text the decoded zone has no surname, the
text extractor finds no surname either, and the Surname field holds that empty
text value with confidence 0, not 0.85. -/
theorem C9_counterexample :
    (Passport.parseMRZ (Passport.extractMRZ (Passport.normalizeText []))).surname
        = JSValue.undefined
      ∧ Passport.extractFromText (Passport.normalizeText []) "surname" = []
      ∧ ∃ f, (Passport.parse (JSValue.str [])).fields[0]? = some f
          ∧ f.field_name = "Surname" ∧ f.field_value = JSValue.str []
          ∧ f.confidence_score = 0 ∧ f.confidence_score ≠ (0.85 : ℚ) :=
  ⟨by decide, by decide, ⟨⟨"Surname", JSValue.str [], 0⟩, rfl, rfl, rfl, rfl, by norm_num⟩⟩

/-- C9, amended. For every OCR text, with `mrz` the decoded zone and `t` the
results of the text extractors: when `mrz` has a non-empty surname (resp. given
names, passport number, gender), the Surname (resp. Given Names, Passport
Number, Gender) field holds that value, whatever the text extractor found, with
confidence 0.95 for Surname and Given Names and 0.98 for Passport Number and
Gender; when the value of `mrz` is missing or empty, the field holds the text
value, with confidence 0.85 when that text value is not empty and 0 when it is. -/
theorem C9_passport_mrz_precedence (ocrText : JSValue) :
    let text := Passport.normalizeText (ocrText.or (.str [])).strD
    let mrz := Passport.parseMRZ (Passport.extractMRZ text)
    let t := Passport.extractText text
    let fields := (Passport.parse ocrText).fields
    ((∀ s, mrz.surname = JSValue.str s → s ≠ [] →
          fields[0]? = some ⟨"Surname", JSValue.str s, 0.95⟩)
        ∧ (mrz.surname.truthy = false →
          fields[0]? = some ⟨"Surname", JSValue.str t.textSurname,
            if t.textSurname ≠ [] then 0.85 else 0⟩))
      ∧ ((∀ s, mrz.givenNames = JSValue.str s → s ≠ [] →
          fields[1]? = some ⟨"Given Names", JSValue.str s, 0.95⟩)
        ∧ (mrz.givenNames.truthy = false →
          fields[1]? = some ⟨"Given Names", JSValue.str t.textGivenNames,
            if t.textGivenNames ≠ [] then 0.85 else 0⟩))
      ∧ ((∀ s, mrz.passportNumber = JSValue.str s → s ≠ [] →
          fields[2]? = some ⟨"Passport Number", JSValue.str s, 0.98⟩)
        ∧ (mrz.passportNumber.truthy = false →
          fields[2]? = some ⟨"Passport Number", JSValue.str t.textPassportNumber,
            if t.textPassportNumber ≠ [] then 0.85 else 0⟩))
      ∧ ((∀ s, mrz.gender = JSValue.str s → s ≠ [] →
          fields[5]? = some ⟨"Gender", JSValue.str s, 0.98⟩)
        ∧ (mrz.gender.truthy = false →
          fields[5]? = some ⟨"Gender", JSValue.str t.textGender,
            if t.textGender ≠ [] then 0.85 else 0⟩)) := by
  intro text mrz t fields
  have h0 : fields[0]? = some ⟨"Surname", mrz.surname.or (.str t.textSurname),
      if mrz.surname.truthy = true then 0.95
      else (if truthyStr t.textSurname = true then 0.85 else 0)⟩ := rfl
  have h1 : fields[1]? = some ⟨"Given Names", mrz.givenNames.or (.str t.textGivenNames),
      if mrz.givenNames.truthy = true then 0.95
      else (if truthyStr t.textGivenNames = true then 0.85 else 0)⟩ := rfl
  have h2 : fields[2]? = some ⟨"Passport Number",
      mrz.passportNumber.or (.str t.textPassportNumber),
      if mrz.passportNumber.truthy = true then 0.98
      else (if truthyStr t.textPassportNumber = true then 0.85 else 0)⟩ := rfl
  have h5 : fields[5]? = some ⟨"Gender", mrz.gender.or (.str t.textGender),
      if mrz.gender.truthy = true then 0.98
      else (if truthyStr t.textGender = true then 0.85 else 0)⟩ := rfl
  rw [h0, h1, h2, h5]
  refine ⟨⟨?_, ?_⟩, ⟨?_, ?_⟩, ⟨?_, ?_⟩, ⟨?_, ?_⟩⟩
  · intro s hm hs
    rw [(mrz_first_field "Surname" mrz.surname t.textSurname 0.95).1 s hm hs]
  · intro hf
    rw [(mrz_first_field "Surname" mrz.surname t.textSurname 0.95).2 hf]
  · intro s hm hs
    rw [(mrz_first_field "Given Names" mrz.givenNames t.textGivenNames 0.95).1 s hm hs]
  · intro hf
    rw [(mrz_first_field "Given Names" mrz.givenNames t.textGivenNames 0.95).2 hf]
  · intro s hm hs
    rw [(mrz_first_field "Passport Number" mrz.passportNumber t.textPassportNumber 0.98).1
      s hm hs]
  · intro hf
    rw [(mrz_first_field "Passport Number" mrz.passportNumber t.textPassportNumber 0.98).2 hf]
  · intro s hm hs
    rw [(mrz_first_field "Gender" mrz.gender t.textGender 0.98).1 s hm hs]
  · intro hf
    rw [(mrz_first_field "Gender" mrz.gender t.textGender 0.98).2 hf]

/-- C9, amended, on a text whose free text gives the surname `SHARMA` and whose
machine readable zone gives the surname `KUMAR`: the Surname field holds the
value of the zone, with confidence 0.95. -/
theorem C9_passport_mrz_precedence_witness :
    Passport.extractFromText (Passport.normalizeText
        "Surname\nSHARMA\nP<INDKUMAR<<RAVI<<<<<<<<<<<<<<<<<<<<<<<<<<<<\nA1234567<8IND8502139M2501017<<<<<<<<<<<<<<04".toList)
        "surname" = "SHARMA".toList
      ∧ (Passport.parse (JSValue.str
        "Surname\nSHARMA\nP<INDKUMAR<<RAVI<<<<<<<<<<<<<<<<<<<<<<<<<<<<\nA1234567<8IND8502139M2501017<<<<<<<<<<<<<<04".toList)).fields[0]?
          = some ⟨"Surname", JSValue.str "KUMAR".toList, 0.95⟩ :=
  ⟨by decide,
   (C9_passport_mrz_precedence (JSValue.str
      "Surname\nSHARMA\nP<INDKUMAR<<RAVI<<<<<<<<<<<<<<<<<<<<<<<<<<<<\nA1234567<8IND8502139M2501017<<<<<<<<<<<<<<04".toList)).1.1
      "KUMAR".toList (by decide) (by decide)⟩

/-- C10. For every text-extracted nationality `t` and every nationality `m` of
the decoded zone (missing, empty or not), the Nationality field holds `t` when
`t` is not empty and either contains `CITIZEN` or is longer than 10 characters;
otherwise it holds `m` when `m` is a non-empty string, and `t` if not.  Whenever
`t` contains `CITIZEN` the confidence is 0.95. -/
theorem C10_nationality_override (mrzData : Passport.MRZRecord)
    (t : Passport.TextExtraction) :
    ∃ f : ExtractedField, (Passport.buildFields mrzData t)[3]? = some f
      ∧ f.field_name = "Nationality"
      ∧ f.field_value =
          (if t.textNationality ≠ []
              ∧ (includes t.textNationality "CITIZEN".toList = true
                  ∨ t.textNationality.length > 10)
           then JSValue.str t.textNationality
           else (if mrzData.nationality.truthy = true then mrzData.nationality
                 else JSValue.str t.textNationality))
      ∧ (includes t.textNationality "CITIZEN".toList = true →
          f.confidence_score = 0.95) := by
  have hf : (Passport.buildFields mrzData t)[3]? = some
      ⟨"Nationality",
       if (truthyStr t.textNationality
            && (includes t.textNationality "CITIZEN".toList
                || decide (t.textNationality.length > 10))) = true
       then JSValue.str t.textNationality
       else mrzData.nationality.or (.str t.textNationality),
       if (truthyStr t.textNationality
            && includes t.textNationality "CITIZEN".toList) = true then 0.95
       else (if mrzData.nationality.truthy = true then 0.95
             else (if truthyStr t.textNationality = true then 0.80 else 0))⟩ := rfl
  refine ⟨_, hf, rfl, ?_, ?_⟩
  · dsimp only
    unfold JSValue.or
    cases h1 : truthyStr t.textNationality <;>
      cases h2 : includes t.textNationality "CITIZEN".toList <;>
      by_cases h3 : t.textNationality.length > 10 <;>
      simp [h1, h2, h3, ← truthyStr_iff]
  · intro hc
    have hne : truthyStr t.textNationality = true :=
      (truthyStr_iff _).mpr (includes_ne_nil _ _ hc (by decide))
    dsimp only
    rw [if_pos (by rw [hne, hc]; rfl)]

/-- C10, on the example of the specification: the text value `BRITISH CITIZEN`
beside the zone value `GBR` gives `BRITISH CITIZEN` with confidence 0.95. -/
theorem C10_nationality_override_witness :
    ∃ f : ExtractedField,
      (Passport.buildFields { nationality := JSValue.str "GBR".toList }
        ⟨[], [], [], "BRITISH CITIZEN".toList, [], [], [], [], []⟩)[3]? = some f
      ∧ f.field_value = JSValue.str "BRITISH CITIZEN".toList
      ∧ f.confidence_score = 0.95 := by
  obtain ⟨f, h1, _, h3, h4⟩ := C10_nationality_override
    { nationality := JSValue.str "GBR".toList }
    ⟨[], [], [], "BRITISH CITIZEN".toList, [], [], [], [], []⟩
  exact ⟨f, h1, h3.trans (by decide), h4 (by decide)⟩

/-- C11. For every OCR text, with `mrz` the decoded zone and `t` the results of the
text extractors: when the text search yields a non-empty date of birth (resp.
date of expiry), the Date of Birth (resp. Date of Expiry) field holds that text
date with confidence 0.90, whatever the zone decodes; when the text yields none
and the zone yields a date, the field holds the date of the zone with confidence
0.85.  The Date of Issue field holds the text value, with confidence 0.85 when it
is found and 0 when it is not. -/
theorem C11_passport_dates_text_first (ocrText : JSValue) :
    let text := Passport.normalizeText (ocrText.or (.str [])).strD
    let mrz := Passport.parseMRZ (Passport.extractMRZ text)
    let t := Passport.extractText text
    let fields := (Passport.parse ocrText).fields
    ((t.textDOB ≠ [] → fields[4]? = some ⟨"Date of Birth", JSValue.str t.textDOB, 0.90⟩)
        ∧ (t.textDOB = [] → ∀ s, mrz.dateOfBirth = JSValue.str s → s ≠ [] →
            fields[4]? = some ⟨"Date of Birth", JSValue.str s, 0.85⟩))
      ∧ ((t.textDOE ≠ [] → fields[7]? = some ⟨"Date of Expiry", JSValue.str t.textDOE, 0.90⟩)
        ∧ (t.textDOE = [] → ∀ s, mrz.dateOfExpiry = JSValue.str s → s ≠ [] →
            fields[7]? = some ⟨"Date of Expiry", JSValue.str s, 0.85⟩))
      ∧ fields[6]? = some ⟨"Date of Issue", JSValue.str t.textDOI,
          if t.textDOI ≠ [] then 0.85 else 0⟩ := by
  intro text mrz t fields
  have h4 : fields[4]? = some ⟨"Date of Birth", (JSValue.str t.textDOB).or mrz.dateOfBirth,
      if truthyStr t.textDOB = true then 0.90
      else (if mrz.dateOfBirth.truthy = true then 0.85 else 0)⟩ := rfl
  have h7 : fields[7]? = some ⟨"Date of Expiry", (JSValue.str t.textDOE).or mrz.dateOfExpiry,
      if truthyStr t.textDOE = true then 0.90
      else (if mrz.dateOfExpiry.truthy = true then 0.85 else 0)⟩ := by
    show (Passport.buildFields mrz t)[7]? = _
    unfold Passport.buildFields
    simp only [List.cons_append, List.getElem?_cons_succ, List.getElem?_cons_zero]
  have h6 : fields[6]? = some ⟨"Date of Issue", JSValue.str t.textDOI,
      if truthyStr t.textDOI = true then 0.85 else 0⟩ := rfl
  rw [h4, h7, h6]
  refine ⟨⟨?_, ?_⟩, ⟨?_, ?_⟩, ?_⟩
  · intro ht
    rw [(text_first_field "Date of Birth" t.textDOB mrz.dateOfBirth).1 ht]
  · intro ht s hm hs
    rw [(text_first_field "Date of Birth" t.textDOB mrz.dateOfBirth).2 ht s hm hs]
  · intro ht
    rw [(text_first_field "Date of Expiry" t.textDOE mrz.dateOfExpiry).1 ht]
  · intro ht s hm hs
    rw [(text_first_field "Date of Expiry" t.textDOE mrz.dateOfExpiry).2 ht s hm hs]
  · rw [ite_truthyStr]

/-- C11, on a text whose free text gives the date of birth 13 FEB 85 and whose
machine readable zone gives 850214: the Date of Birth field holds the text date,
with confidence 0.90. -/
theorem C11_passport_dates_text_first_witness :
    (Passport.parseMRZ (Passport.extractMRZ (Passport.normalizeText
        "Date of birth\n13 FEB 85\nP<INDKUMAR<<RAVI<<<<<<<<<<<<<<<<<<<<<<<<<<<<\nA1234567<8IND8502149M2501017<<<<<<<<<<<<<<04".toList))).dateOfBirth
        = JSValue.str "14/02/1985".toList
      ∧ (Passport.parse (JSValue.str
        "Date of birth\n13 FEB 85\nP<INDKUMAR<<RAVI<<<<<<<<<<<<<<<<<<<<<<<<<<<<\nA1234567<8IND8502149M2501017<<<<<<<<<<<<<<04".toList)).fields[4]?
          = some ⟨"Date of Birth", JSValue.str "13/02/1985".toList, 0.90⟩ :=
  ⟨by decide,
   ((C11_passport_dates_text_first (JSValue.str
      "Date of birth\n13 FEB 85\nP<INDKUMAR<<RAVI<<<<<<<<<<<<<<<<<<<<<<<<<<<<\nA1234567<8IND8502149M2501017<<<<<<<<<<<<<<04".toList)).1.1
      (by decide))⟩

/-- C12, refuted as stated: on a text with a machine readable zone only, the Date
of Birth comes from the zone and scores 0.85; on a text with a labelled date only,
it comes from the free text and scores 0.90, which is more. -/
theorem C12_counterexample :
    (Passport.fieldSources
        (Passport.parseMRZ (Passport.extractMRZ (Passport.normalizeText
          "P<INDKUMAR<<RAVI<<<<<<<<<<<<<<<<<<<<<<<<<<<<\nA1234567<8IND8502139M2501017<<<<<<<<<<<<<<04".toList)))
        (Passport.extractText (Passport.normalizeText
          "P<INDKUMAR<<RAVI<<<<<<<<<<<<<<<<<<<<<<<<<<<<\nA1234567<8IND8502139M2501017<<<<<<<<<<<<<<04".toList)))[4]?
        = some Passport.Source.mrz
      ∧ (Passport.parse (JSValue.str
          "P<INDKUMAR<<RAVI<<<<<<<<<<<<<<<<<<<<<<<<<<<<\nA1234567<8IND8502139M2501017<<<<<<<<<<<<<<04".toList)).fields[4]?
        = some ⟨"Date of Birth", JSValue.str "13/02/1985".toList, 0.85⟩
      ∧ (Passport.fieldSources
        (Passport.parseMRZ (Passport.extractMRZ (Passport.normalizeText
          "Date of birth\n13/02/1985".toList)))
        (Passport.extractText (Passport.normalizeText
          "Date of birth\n13/02/1985".toList)))[4]?
        = some Passport.Source.text
      ∧ (Passport.parse (JSValue.str "Date of birth\n13/02/1985".toList)).fields[4]?
        = some ⟨"Date of Birth", JSValue.str "13/02/1985".toList, 0.90⟩
      ∧ ¬ ((0.90 : ℚ) ≤ 0.85) := by
  refine ⟨by decide, by rfl, by decide, by rfl, by norm_num⟩

/-- C12, amended. For Surname, Given Names, Passport Number, Nationality and
Gender (the entries 0, 1, 2, 3 and 5 of `fields`), the confidence assigned when
the final value comes from the zone is greater than or equal to the confidence
assigned when the final value comes from the free text.  For Date of Birth and
Date of Expiry (the entries 4 and 7) it is the other way round: a date that
comes from the zone scores 0.85 and a date that comes from the free text scores
0.90.  The source of an entry is the one whose value the entry holds. -/
theorem C12_mrz_scores_against_text_scores (m m' : Passport.MRZRecord)
    (t t' : Passport.TextExtraction) :
    (∀ i ∈ [0, 1, 2, 3, 5], ∀ f f' : ExtractedField,
        (Passport.fieldSources m t)[i]? = some .mrz →
        (Passport.fieldSources m' t')[i]? = some .text →
        (Passport.buildFields m t)[i]? = some f →
        (Passport.buildFields m' t')[i]? = some f' →
        f'.confidence_score ≤ f.confidence_score)
      ∧ (∀ i ∈ [4, 7], ∀ f f' : ExtractedField,
        (Passport.fieldSources m t)[i]? = some .mrz →
        (Passport.fieldSources m' t')[i]? = some .text →
        (Passport.buildFields m t)[i]? = some f →
        (Passport.buildFields m' t')[i]? = some f' →
        f.confidence_score = 0.85 ∧ f'.confidence_score = 0.90)
      ∧ List.Forall₂ (fun (fs : ExtractedField × Passport.Source) (vs : JSValue × Str) =>
          (fs.2 = .mrz → fs.1.field_value = vs.1 ∧ vs.1.truthy = true)
            ∧ (fs.2 = .text → fs.1.field_value = .str vs.2 ∧ truthyStr vs.2 = true))
        (((Passport.buildFields m t).take 8).zip (Passport.fieldSources m t))
        ((Passport.mrzValues m).zip (Passport.textValues t)) := by
  refine ⟨?_, ?_, sources_sound m t⟩
  · intro i hi f f' hs hs' hf hf'
    simp only [List.mem_cons, List.mem_singleton, List.not_mem_nil, or_false] at hi
    unfold Passport.buildFields at hf hf'
    unfold Passport.fieldSources at hs hs'
    rcases hi with rfl | rfl | rfl | rfl | rfl
    all_goals
      simp only [List.cons_append, List.getElem?_cons_succ, List.getElem?_cons_zero,
        Option.some.injEq] at hs hs' hf hf'
      subst hf hf'
      dsimp only
    · rw [(mrzFirst_score m.surname t.textSurname 0.95).1 hs,
        (mrzFirst_score m'.surname t'.textSurname 0.95).2 hs']
      norm_num
    · rw [(mrzFirst_score m.givenNames t.textGivenNames 0.95).1 hs,
        (mrzFirst_score m'.givenNames t'.textGivenNames 0.95).2 hs']
      norm_num
    · rw [(mrzFirst_score m.passportNumber t.textPassportNumber 0.98).1 hs,
        (mrzFirst_score m'.passportNumber t'.textPassportNumber 0.98).2 hs']
      norm_num
    · rw [(nationality_score m.nationality t.textNationality).1 hs]
      exact (nationality_score m'.nationality t'.textNationality).2
    · rw [(mrzFirst_score m.gender t.textGender 0.98).1 hs,
        (mrzFirst_score m'.gender t'.textGender 0.98).2 hs']
      norm_num
  · intro i hi f f' hs hs' hf hf'
    simp only [List.mem_cons, List.mem_singleton, List.not_mem_nil, or_false] at hi
    unfold Passport.buildFields at hf hf'
    unfold Passport.fieldSources at hs hs'
    rcases hi with rfl | rfl
    all_goals
      simp only [List.cons_append, List.getElem?_cons_succ, List.getElem?_cons_zero,
        Option.some.injEq] at hs hs' hf hf'
      subst hf hf'
      dsimp only
    · exact ⟨(textFirst_score t.textDOB m.dateOfBirth).2 hs,
        (textFirst_score t'.textDOB m'.dateOfBirth).1 hs'⟩
    · exact ⟨(textFirst_score t.textDOE m.dateOfExpiry).2 hs,
        (textFirst_score t'.textDOE m'.dateOfExpiry).1 hs'⟩

/-- C12, amended, for the Surname: a surname that comes from the zone (`KUMAR`,
beside the text value `SHARMA`) scores 0.95, and a surname that comes from the
free text (`SHARMA`, beside an empty zone) scores 0.85. -/
theorem C12_mrz_scores_against_text_scores_witness :
    (Passport.fieldSources { surname := JSValue.str "KUMAR".toList }
        ⟨"SHARMA".toList, [], [], [], [], [], [], [], []⟩)[0]? = some Passport.Source.mrz
      ∧ (Passport.fieldSources {}
        ⟨"SHARMA".toList, [], [], [], [], [], [], [], []⟩)[0]? = some Passport.Source.text
      ∧ ((0.85 : ℚ) ≤ 0.95) :=
  ⟨by decide, by decide,
   (C12_mrz_scores_against_text_scores
      { surname := JSValue.str "KUMAR".toList } {}
      ⟨"SHARMA".toList, [], [], [], [], [], [], [], []⟩
      ⟨"SHARMA".toList, [], [], [], [], [], [], [], []⟩).1 0 (by decide)
    ⟨"Surname", JSValue.str "KUMAR".toList, 0.95⟩
    ⟨"Surname", JSValue.str "SHARMA".toList, 0.85⟩
    (by decide) (by decide) rfl rfl⟩

/-- C13. For every string of six decimal digits `y1 y2 m1 m2 d1 d2`, the function
`formatMRZDate` returns the ten characters `d1 d2 / m1 m2 / c1 c2 y1 y2`, where the
day, the month and the two digits of the year are echoed unchanged, and the
century `c1 c2` is `19` when the number `y1 y2` is greater than 50 and `20` when it
is at most 50. -/
theorem C13_formatMRZDate_six_digits (y1 y2 m1 m2 d1 d2 : Char)
    (hy1 : isDigit y1 = true) (hy2 : isDigit y2 = true) (_hm1 : isDigit m1 = true)
    (_hm2 : isDigit m2 = true) (_hd1 : isDigit d1 = true) (_hd2 : isDigit d2 = true) :
    Passport.formatMRZDate [y1, y2, m1, m2, d1, d2]
      = [d1, d2, '/', m1, m2, '/']
          ++ (if digitVal y1 * 10 + digitVal y2 > 50 then ['1', '9'] else ['2', '0'])
          ++ [y1, y2]
      ∧ (Passport.formatMRZDate [y1, y2, m1, m2, d1, d2]).length = 10 := by
  have hf : Passport.formatMRZDate [y1, y2, m1, m2, d1, d2]
      = [d1, d2, '/', m1, m2, '/']
          ++ (if digitVal y1 * 10 + digitVal y2 > 50 then ['1', '9'] else ['2', '0'])
          ++ [y1, y2] := by
    unfold Passport.formatMRZDate
    simp only [substring, List.isEmpty_cons, List.length_cons, List.length_nil, Bool.false_or,
      List.drop, List.take, Nat.sub_zero]
    rw [parseInt_two_digits y1 y2 hy1 hy2]
    by_cases h : digitVal y1 * 10 + digitVal y2 > 50
    · simp [h]
      omega
    · simp [h]
      omega
  refine ⟨hf, ?_⟩
  rw [hf]
  split <;> rfl

/-- C13, on the digits `850213` and `250101`: the year 85 gives the century 19 and
the year 25 the century 20. -/
theorem C13_formatMRZDate_six_digits_witness :
    Passport.formatMRZDate "850213".toList = "13/02/1985".toList
      ∧ Passport.formatMRZDate "250101".toList = "01/01/2025".toList :=
  ⟨(C13_formatMRZDate_six_digits '8' '5' '0' '2' '1' '3' (by decide) (by decide) (by decide)
      (by decide) (by decide) (by decide)).1,
   (C13_formatMRZDate_six_digits '2' '5' '0' '1' '0' '1' (by decide) (by decide) (by decide)
      (by decide) (by decide) (by decide)).1⟩

/-- C14. For every text, `extractMRZ` returns, in their order in the text, exactly
the lines that, once all white space is removed and the line is upper-cased,
contain `<<` and have between 40 and 50 characters; each returned line is that
cleaned line with the substitution `O` to `0`, `B` to `8`, `Z` to `2`, `S` to `5`,
`I` to `1`, `L` to `<`, vertical bar to `1` applied character by character (so
with the same length), and contains neither white space nor any of the
characters `O`, `B`, `Z`, `S`, `I`, `L` and the vertical bar. -/
theorem C14_extractMRZ_candidates_corrected (text : Str) :
    Passport.extractMRZ text
        = (((splitLines text).map Passport.cleanLine).filter Passport.isCandidate).map
            (fun l => l.map Passport.substMRZ)
      ∧ ∀ l ∈ Passport.extractMRZ text,
          (∃ line ∈ splitLines text, Passport.isCandidate (Passport.cleanLine line) = true
              ∧ l = (Passport.cleanLine line).map Passport.substMRZ
              ∧ l.length = (Passport.cleanLine line).length)
            ∧ ∀ c ∈ l, isSpace c = false ∧ c ∉ ['O', 'B', 'Z', 'S', 'I', 'L', '|'] := by
  refine ⟨extractMRZ_eq text, ?_⟩
  intro l hl
  refine ⟨?_, (extractMRZ_line_shape text l hl).2.2⟩
  rw [extractMRZ_eq] at hl
  obtain ⟨cl, hcl, rfl⟩ := List.mem_map.mp hl
  obtain ⟨hmem, hcand⟩ := List.mem_filter.mp hcl
  obtain ⟨line, hline, rfl⟩ := List.mem_map.mp hmem
  exact ⟨line, hline, hcand, rfl, List.length_map _ _⟩

/-- C14, on a text of four lines: a label line, a zone line written with spaces
and small letters, a line of 39 characters and a second zone line.  The two zone
lines are returned, cleaned and corrected, in their order.  A line of 39
characters with the letter `ß` is returned too, since upper-casing turns it into
a line of 40 characters with `SS`, which the correction turns into `55`; a line
of 50 characters with that letter is not returned. -/
theorem C14_extractMRZ_candidates_corrected_witness :
    Passport.extractMRZ
        "Surname\n p<gbrsmith<<bob zoe<<<<<<<<<<<<<<<<<<<<<<<<\nP<GBR<<<<<<<<<<<<<<<<<<<<<<<<<<<<<<<<<<\nL1234567<8GBR8502139M2501017<<<<<<<<<<<<<<04".toList
      = ["P<G8R5M1TH<<80820E<<<<<<<<<<<<<<<<<<<<<<<<".toList,
         "<1234567<8G8R8502139M2501017<<<<<<<<<<<<<<04".toList]
    ∧ "P<DEUGROß<<HANS<<<<<<<<<<<<<<<<<<<<<<<<".toList.length = 39
    ∧ Passport.extractMRZ "P<DEUGROß<<HANS<<<<<<<<<<<<<<<<<<<<<<<<".toList
      = ["P<DEUGR055<<HAN5<<<<<<<<<<<<<<<<<<<<<<<<".toList]
    ∧ "P<DEUGROß<<HANS<<<<<<<<<<<<<<<<<<<<<<<<<<<<<<<<<<<".toList.length = 50
    ∧ Passport.extractMRZ "P<DEUGROß<<HANS<<<<<<<<<<<<<<<<<<<<<<<<<<<<<<<<<<<".toList
      = [] :=
  ⟨(C14_extractMRZ_candidates_corrected
    "Surname\n p<gbrsmith<<bob zoe<<<<<<<<<<<<<<<<<<<<<<<<\nP<GBR<<<<<<<<<<<<<<<<<<<<<<<<<<<<<<<<<<\nL1234567<8GBR8502139M2501017<<<<<<<<<<<<<<04".toList).1.trans
    (by decide),
   by decide,
   (C14_extractMRZ_candidates_corrected "P<DEUGROß<<HANS<<<<<<<<<<<<<<<<<<<<<<<<".toList).1.trans (by decide),
   by decide,
   (C14_extractMRZ_candidates_corrected "P<DEUGROß<<HANS<<<<<<<<<<<<<<<<<<<<<<<<<<<<<<<<<<<".toList).1.trans (by decide)⟩

/-- C15, refuted as stated: for the zone lines of a passport of MILLER, JOHN the
correction turns `LL` into `<<`, the remainder of line 1 from position 5 is
`M1<<ER<<J0HN<<<...`, and `givenNames` is `ER`, the part between the first and the
second `<<`, not the decoding `ER  JOHN` of the whole part after the first `<<`. -/
theorem C15_counterexample :
    Passport.extractMRZ
        "P<GBRMILLER<<JOHN<<<<<<<<<<<<<<<<<<<<<<<<<<<\nA1234567<8GBR8502139M2501017<<<<<<<<<<<<<<04".toList
        = ["P<G8RM1<<ER<<J0HN<<<<<<<<<<<<<<<<<<<<<<<<<<<".toList,
           "A1234567<8G8R8502139M2501017<<<<<<<<<<<<<<04".toList]
      ∧ Passport.afterFiller ("P<G8RM1<<ER<<J0HN<<<<<<<<<<<<<<<<<<<<<<<<<<<".toList.drop 5)
        = some "ER<<J0HN<<<<<<<<<<<<<<<<<<<<<<<<<<<".toList
      ∧ trim ("ER<<J0HN<<<<<<<<<<<<<<<<<<<<<<<<<<<".toList.map Passport.decodeChar)
        = "ER  JOHN".toList
      ∧ (Passport.parseMRZ (Passport.extractMRZ
          "P<GBRMILLER<<JOHN<<<<<<<<<<<<<<<<<<<<<<<<<<<\nA1234567<8GBR8502139M2501017<<<<<<<<<<<<<<04".toList)).givenNames
        = .str "ER".toList
      ∧ (Passport.parseMRZ (Passport.extractMRZ
          "P<GBRMILLER<<JOHN<<<<<<<<<<<<<<<<<<<<<<<<<<<\nA1234567<8GBR8502139M2501017<<<<<<<<<<<<<<04".toList)).givenNames
        ≠ .str "ER  JOHN".toList := by
  refine ⟨by decide, by decide, by decide, by decide, by decide⟩

/-- C15, amended. For every pair of lines whose line 1 starts with `P<` or `P0`,
`parseMRZ` splits the remainder of line 1 from position 5 on every `<<`: `surname`
is the part before the first `<<`, and `givenNames` is the part between the first
`<<` and the next one (up to the end of the line when there is no other `<<`;
`givenNames` is unset when the remainder holds no `<<`), each with every `<`
replaced by a space, `0` replaced by `O`, `1` replaced by `I`, and trimmed. -/
theorem C15_parseMRZ_names_split (l1 l2 : Str) (rest : List Str)
    (hP : startsWith l1 ['P', '<'] = true ∨ startsWith l1 ['P', '0'] = true) :
    (Passport.parseMRZ (l1 :: l2 :: rest)).surname
        = .str (trim ((Passport.beforeFiller (l1.drop 5)).map Passport.decodeChar))
      ∧ (Passport.parseMRZ (l1 :: l2 :: rest)).givenNames
        = (match Passport.afterFiller (l1.drop 5) with
           | none => .undefined
           | some after =>
             .str (trim ((Passport.beforeFiller after).map Passport.decodeChar))) := by
  obtain ⟨h1, h2⟩ := parseMRZ_names l1 l2 rest
  obtain ⟨h3, h4⟩ := parseLine1_names l1 hP
  rw [h1, h2, h3, h4]
  constructor
  · rw [decodeName_eq]
  · cases Passport.afterFiller (l1.drop 5) with
    | none => rfl
    | some r =>
      dsimp only
      rw [decodeName_eq]

/-- C15, amended, on the zone lines of a passport of KUMAR, RAVI ANIL. -/
theorem C15_parseMRZ_names_split_witness :
    (Passport.parseMRZ ["P<1NDKUMAR<<RAV1<AN1<<<<<<<<<<<<<<<<<<<<<<<<".toList,
        "A1234567<81ND8502139M2501017<<<<<<<<<<<<<<04".toList]).surname
        = .str "KUMAR".toList
      ∧ (Passport.parseMRZ ["P<1NDKUMAR<<RAV1<AN1<<<<<<<<<<<<<<<<<<<<<<<<".toList,
        "A1234567<81ND8502139M2501017<<<<<<<<<<<<<<04".toList]).givenNames
        = .str "RAVI ANI".toList :=
  ⟨(C15_parseMRZ_names_split "P<1NDKUMAR<<RAV1<AN1<<<<<<<<<<<<<<<<<<<<<<<<".toList
      "A1234567<81ND8502139M2501017<<<<<<<<<<<<<<04".toList [] (Or.inl (by decide))).1.trans
      (by decide),
   (C15_parseMRZ_names_split "P<1NDKUMAR<<RAV1<AN1<<<<<<<<<<<<<<<<<<<<<<<<".toList
      "A1234567<81ND8502139M2501017<<<<<<<<<<<<<<04".toList [] (Or.inl (by decide))).2.trans
      (by decide)⟩

/-- C16, refuted as stated: for the well-formed line 1 of a passport of SMITH,
JOHN the correction followed by the decoding yields the surname `5MITH`, not
`SMITH`. -/
theorem C16_counterexample :
    ("P<GBRSMITH<<JOHN<<<<<<<<<<<<<<<<<<<<<<<<<<<<".toList).length = 44
      ∧ (Passport.parseMRZ
          [Passport.correctMRZ "P<GBRSMITH<<JOHN<<<<<<<<<<<<<<<<<<<<<<<<<<<<".toList,
           "A1234567<8G8R8502139M2501017<<<<<<<<<<<<<<04".toList]).surname
        = .str "5MITH".toList
      ∧ (Passport.parseMRZ
          [Passport.correctMRZ "P<GBRSMITH<<JOHN<<<<<<<<<<<<<<<<<<<<<<<<<<<<".toList,
           "A1234567<8G8R8502139M2501017<<<<<<<<<<<<<<04".toList]).surname
        ≠ .str "SMITH".toList := by
  refine ⟨by decide, by decide, by decide⟩

/-- C16, amended. For every well-formed line 1 of 44 characters, made of `P<`, a
country code of 3 capital letters, SURNAME, `<<`, GIVEN and a padding of `<`, where
SURNAME and GIVEN are non-empty words of capital letters other than `B`, `Z`, `S`
and `L`: the correction of `extractMRZ` followed by the decoding of `parseMRZ`,
beside any line 2, yields `surname` = SURNAME and `givenNames` = GIVEN. -/
theorem C16_names_survive_correction (country surname given : Str) (n : Nat) (l2 : Str)
    (rest : List Str)
    (hcl : country.length = 3) (_hcu : ∀ c ∈ country, isUpper c = true)
    (_hs : surname ≠ []) (hsu : ∀ c ∈ surname, isUpper c = true ∧ c ∉ ['B', 'Z', 'S', 'L'])
    (_hg : given ≠ []) (hgu : ∀ c ∈ given, isUpper c = true ∧ c ∉ ['B', 'Z', 'S', 'L'])
    (_hlen : (['P', '<'] ++ country ++ surname ++ ['<', '<'] ++ given
        ++ List.replicate n '<').length = 44) :
    (Passport.parseMRZ
        (Passport.correctMRZ (['P', '<'] ++ country ++ surname ++ ['<', '<'] ++ given
            ++ List.replicate n '<') :: l2 :: rest)).surname = .str surname
      ∧ (Passport.parseMRZ
        (Passport.correctMRZ (['P', '<'] ++ country ++ surname ++ ['<', '<'] ++ given
            ++ List.replicate n '<') :: l2 :: rest)).givenNames = .str given := by
  obtain ⟨a, b, c, rfl⟩ : ∃ a b c, country = [a, b, c] := by
    match country, hcl with
    | [a, b, c], _ => exact ⟨a, b, c, rfl⟩
  have hline : Passport.correctMRZ (['P', '<'] ++ [a, b, c] ++ surname ++ ['<', '<'] ++ given
        ++ List.replicate n '<')
      = 'P' :: '<' :: Passport.substMRZ a :: Passport.substMRZ b :: Passport.substMRZ c
          :: (surname.map Passport.substMRZ
              ++ '<' :: '<' :: (given.map Passport.substMRZ ++ List.replicate n '<')) := by
    rw [correctMRZ_eq_map]
    have hP : Passport.substMRZ 'P' = 'P' := by decide
    have hF : Passport.substMRZ '<' = '<' := by decide
    simp [hP, hF]
  have hS : ∀ x ∈ surname.map Passport.substMRZ, x ≠ '<' := by
    intro x hx
    obtain ⟨y, hy, rfl⟩ := List.mem_map.mp hx
    exact (letter_roundtrip y (hsu y hy).1 (hsu y hy).2).2.1
  have hG : ∀ x ∈ given.map Passport.substMRZ, x ≠ '<' := by
    intro x hx
    obtain ⟨y, hy, rfl⟩ := List.mem_map.mp hx
    exact (letter_roundtrip y (hgu y hy).1 (hgu y hy).2).2.1
  obtain ⟨h1, h2⟩ := parseMRZ_names (Passport.correctMRZ (['P', '<'] ++ [a, b, c] ++ surname
    ++ ['<', '<'] ++ given ++ List.replicate n '<')) l2 rest
  rw [h1, h2, hline]
  obtain ⟨h3, h4⟩ := parseLine1_names
    ('P' :: '<' :: Passport.substMRZ a :: Passport.substMRZ b :: Passport.substMRZ c
      :: (surname.map Passport.substMRZ
          ++ '<' :: '<' :: (given.map Passport.substMRZ ++ List.replicate n '<')))
    (Or.inl (by simp [startsWith]))
  rw [h3, h4]
  simp only [List.drop_succ_cons, List.drop_zero]
  obtain ⟨hb, ha⟩ := beforeFiller_append (surname.map Passport.substMRZ)
    (given.map Passport.substMRZ ++ List.replicate n '<') hS
  rw [hb, ha]
  dsimp only
  refine ⟨by rw [(decodeName_word surname hsu).1], ?_⟩
  rcases beforeFiller_pad (given.map Passport.substMRZ) n hG with hp | hp
  · rw [hp, (decodeName_word given hgu).1]
  · rw [hp, (decodeName_word given hgu).2]

/-- C16, amended, on the line 1 of a passport of KUMAR, RAVI issued by IND. -/
theorem C16_names_survive_correction_witness :
    (Passport.parseMRZ
        [Passport.correctMRZ "P<INDKUMAR<<RAVI<<<<<<<<<<<<<<<<<<<<<<<<<<<<".toList,
         "A1234567<81ND8502139M2501017<<<<<<<<<<<<<<04".toList]).surname
        = .str "KUMAR".toList
      ∧ (Passport.parseMRZ
        [Passport.correctMRZ "P<INDKUMAR<<RAVI<<<<<<<<<<<<<<<<<<<<<<<<<<<<".toList,
         "A1234567<81ND8502139M2501017<<<<<<<<<<<<<<04".toList]).givenNames
        = .str "RAVI".toList :=
  C16_names_survive_correction "IND".toList "KUMAR".toList "RAVI".toList 28
    "A1234567<81ND8502139M2501017<<<<<<<<<<<<<<04".toList []
    (by decide) (by decide) (by decide) (by decide) (by decide) (by decide) (by decide)

/-- C17. For every pair of lines given to `parseMRZ`: when line 2 has fewer than 44
characters, the record is the one decoded from line 1 alone, and its fields
`passportNumber`, `nationality`, `dateOfBirth`, `gender` and `dateOfExpiry` are
unset; when line 2 has at least 44 characters and no white space (as every line
returned by `extractMRZ`), `passportNumber` is its characters 0 to 8 with every `<`
removed and `nationality` is its characters 10 to 12 with every `<` removed and
every `0` replaced by `O`, whatever line 1 is. -/
theorem C17_parseMRZ_line2_length_gate (l1 l2 : Str) (rest : List Str) :
    (l2.length < 44 →
        Passport.parseMRZ (l1 :: l2 :: rest) = Passport.parseLine1 l1 {}
          ∧ (Passport.parseMRZ (l1 :: l2 :: rest)).passportNumber = .undefined
          ∧ (Passport.parseMRZ (l1 :: l2 :: rest)).nationality = .undefined
          ∧ (Passport.parseMRZ (l1 :: l2 :: rest)).dateOfBirth = .undefined
          ∧ (Passport.parseMRZ (l1 :: l2 :: rest)).gender = .undefined
          ∧ (Passport.parseMRZ (l1 :: l2 :: rest)).dateOfExpiry = .undefined)
      ∧ (44 ≤ l2.length → (∀ c ∈ l2, isSpace c = false) →
        (Passport.parseMRZ (l1 :: l2 :: rest)).passportNumber
            = .str ((substring l2 0 9).filter (fun c => c != '<'))
          ∧ (Passport.parseMRZ (l1 :: l2 :: rest)).nationality
            = .str (((substring l2 10 13).filter (fun c => c != '<')).map
                (fun c => if c = '0' then 'O' else c)))
      ∧ (∀ text : Str, ∀ l ∈ Passport.extractMRZ text, ∀ c ∈ l, isSpace c = false) := by
  refine ⟨?_, ?_, ?_⟩
  · intro h
    rw [parseMRZ_cons_cons, parseLine2_short _ _ h]
    exact ⟨rfl, parseLine1_line2_fields l1⟩
  · intro h hs
    rw [parseMRZ_cons_cons, parseLine2_long _ _ h]
    dsimp only
    constructor
    · rw [replaceChars_nil, trim_of_no_space]
      · rfl
      · intro c hc
        exact no_space_of_substring l2 0 9 hs c (List.mem_of_mem_filter hc)
    · rw [replaceChars_nil, replaceChars_single, trim_of_no_space]
      · congr 1
        apply List.map_congr_left
        intro c _
        simp
      · intro c hc
        obtain ⟨x, hx, rfl⟩ := List.mem_map.mp hc
        by_cases h0 : x = '0'
        · subst h0
          rfl
        · simp only [beq_iff_eq, h0, if_false]
          exact no_space_of_substring l2 10 13 hs x (List.mem_of_mem_filter hx)
  · intro text l hl c hc
    exact ((extractMRZ_line_shape text l hl).2.2 c hc).1

/-- C17, on a line 2 of 43 characters and on a line 2 of 44 characters, beside a
line 1 that is not a `P<` line. -/
theorem C17_parseMRZ_line2_length_gate_witness :
    (Passport.parseMRZ ["XXXXXXXXXXXXXXXXXXXXXXXXXXXXXXXXXXXXXXXXXX<<".toList,
        "A1234567<81ND8502139M2501017<<<<<<<<<<<<<04".toList]).passportNumber = .undefined
      ∧ (Passport.parseMRZ ["XXXXXXXXXXXXXXXXXXXXXXXXXXXXXXXXXXXXXXXXXX<<".toList,
        "A1234567<8<0D8502139M2501017<<<<<<<<<<<<<<04".toList]).passportNumber
          = .str "A1234567".toList
      ∧ (Passport.parseMRZ ["XXXXXXXXXXXXXXXXXXXXXXXXXXXXXXXXXXXXXXXXXX<<".toList,
        "A1234567<8<0D8502139M2501017<<<<<<<<<<<<<<04".toList]).nationality
          = .str "OD".toList :=
  ⟨((C17_parseMRZ_line2_length_gate "XXXXXXXXXXXXXXXXXXXXXXXXXXXXXXXXXXXXXXXXXX<<".toList
      "A1234567<81ND8502139M2501017<<<<<<<<<<<<<04".toList []).1 (by decide)).2.1,
   ((C17_parseMRZ_line2_length_gate "XXXXXXXXXXXXXXXXXXXXXXXXXXXXXXXXXXXXXXXXXX<<".toList
      "A1234567<8<0D8502139M2501017<<<<<<<<<<<<<<04".toList []).2.1 (by decide)
      (by decide)).1,
   ((C17_parseMRZ_line2_length_gate "XXXXXXXXXXXXXXXXXXXXXXXXXXXXXXXXXXXXXXXXXX<<".toList
      "A1234567<8<0D8502139M2501017<<<<<<<<<<<<<<04".toList []).2.1 (by decide)
      (by decide)).2⟩

/-- C18. For every pair of lines whose line 2 has at least 44 characters: the
characters 13 to 18 and the characters 21 to 26 of line 2 are six characters
each; `dateOfBirth` is set if and only if the first six are decimal digits, and
is then `formatMRZDate` of them; `dateOfExpiry` is set if and only if the second
six are decimal digits, and is then `formatMRZDate` of them; and changing the
six characters of one date (into digits or not) changes no other field of the
record. -/
theorem C18_parseMRZ_dates (l1 l2 : Str) (rest : List Str) (h : 44 ≤ l2.length) :
    ((substring l2 13 19).length = 6 ∧ (substring l2 21 27).length = 6)
      ∧ (((Passport.parseMRZ (l1 :: l2 :: rest)).dateOfBirth ≠ .undefined
            ↔ ∀ c ∈ substring l2 13 19, isDigit c = true)
        ∧ ((∀ c ∈ substring l2 13 19, isDigit c = true) →
            (Passport.parseMRZ (l1 :: l2 :: rest)).dateOfBirth
              = .str (Passport.formatMRZDate (substring l2 13 19))))
      ∧ (((Passport.parseMRZ (l1 :: l2 :: rest)).dateOfExpiry ≠ .undefined
            ↔ ∀ c ∈ substring l2 21 27, isDigit c = true)
        ∧ ((∀ c ∈ substring l2 21 27, isDigit c = true) →
            (Passport.parseMRZ (l1 :: l2 :: rest)).dateOfExpiry
              = .str (Passport.formatMRZDate (substring l2 21 27))))
      ∧ (∀ l2' : Str, l2'.take 13 = l2.take 13 → l2'.drop 19 = l2.drop 19 →
          { Passport.parseMRZ (l1 :: l2' :: rest) with dateOfBirth := .undefined }
            = { Passport.parseMRZ (l1 :: l2 :: rest) with dateOfBirth := .undefined })
      ∧ (∀ l2' : Str, l2'.take 21 = l2.take 21 → l2'.drop 27 = l2.drop 27 →
          { Passport.parseMRZ (l1 :: l2' :: rest) with dateOfExpiry := .undefined }
            = { Passport.parseMRZ (l1 :: l2 :: rest) with dateOfExpiry := .undefined }) := by
  have hb : (substring l2 13 19).length = 6 := substring_length l2 13 19 (by omega)
  have he : (substring l2 21 27).length = 6 := substring_length l2 21 27 (by omega)
  have hbt : Passport.reSixDigitsOnly.test (substring l2 13 19) = true
      ↔ ∀ c ∈ substring l2 13 19, isDigit c = true := by
    rw [test_reSixDigitsOnly]
    exact ⟨fun x => x.2, fun x => ⟨hb, x⟩⟩
  have het : Passport.reSixDigitsOnly.test (substring l2 21 27) = true
      ↔ ∀ c ∈ substring l2 21 27, isDigit c = true := by
    rw [test_reSixDigitsOnly]
    exact ⟨fun x => x.2, fun x => ⟨he, x⟩⟩
  have hu := parseLine1_line2_fields l1
  refine ⟨⟨hb, he⟩, ⟨?_, ?_⟩, ⟨?_, ?_⟩, ?_, ?_⟩
  · rw [parseMRZ_cons_cons, parseLine2_long _ _ h, ← hbt]
    dsimp only
    by_cases ht : Passport.reSixDigitsOnly.test (substring l2 13 19) = true
    · simp [ht]
    · simp [ht, hu.2.2.1]
  · intro hd
    rw [parseMRZ_cons_cons, parseLine2_long _ _ h]
    dsimp only
    rw [if_pos (hbt.mpr hd)]
  · rw [parseMRZ_cons_cons, parseLine2_long _ _ h, ← het]
    dsimp only
    by_cases ht : Passport.reSixDigitsOnly.test (substring l2 21 27) = true
    · simp [ht]
    · simp [ht, hu.2.2.2.2]
  · intro hd
    rw [parseMRZ_cons_cons, parseLine2_long _ _ h]
    dsimp only
    rw [if_pos (het.mpr hd)]
  · intro l2' htake hdrop
    have hlen : l2'.length = l2.length := length_of_drop_eq l2 l2' 19 (by omega) hdrop
    rw [parseMRZ_cons_cons, parseMRZ_cons_cons, parseLine2_long _ _ h,
      parseLine2_long _ _ (by omega)]
    rw [substring_congr_take l2 l2' 0 9 13 (by omega) htake,
      substring_congr_take l2 l2' 10 13 13 (by omega) htake,
      substring_congr_drop l2 l2' 1 2 19 hdrop,
      substring_congr_drop l2 l2' 2 8 19 hdrop]
  · intro l2' htake hdrop
    have hlen : l2'.length = l2.length := length_of_drop_eq l2 l2' 27 (by omega) hdrop
    rw [parseMRZ_cons_cons, parseMRZ_cons_cons, parseLine2_long _ _ h,
      parseLine2_long _ _ (by omega)]
    rw [substring_congr_take l2 l2' 0 9 21 (by omega) htake,
      substring_congr_take l2 l2' 10 13 21 (by omega) htake,
      substring_congr_take l2 l2' 13 19 21 (by omega) htake,
      substring_congr_take l2 l2' 20 21 21 (by omega) htake]

/-- C18, on a line 2 whose birth date `85X213` is not made of digits and whose
expiry date `250101` is: only `dateOfBirth` is unset. -/
theorem C18_parseMRZ_dates_witness :
    (Passport.parseMRZ ["P<INDKUMAR<<RAV1<<<<<<<<<<<<<<<<<<<<<<<<<<<<".toList,
        "A1234567<81ND85X2139M2501017<<<<<<<<<<<<<<04".toList]).dateOfExpiry
        = .str "01/01/2025".toList
      ∧ ¬ ((Passport.parseMRZ ["P<INDKUMAR<<RAV1<<<<<<<<<<<<<<<<<<<<<<<<<<<<".toList,
        "A1234567<81ND85X2139M2501017<<<<<<<<<<<<<<04".toList]).dateOfBirth ≠ .undefined) :=
  ⟨((C18_parseMRZ_dates "P<INDKUMAR<<RAV1<<<<<<<<<<<<<<<<<<<<<<<<<<<<".toList
      "A1234567<81ND85X2139M2501017<<<<<<<<<<<<<<04".toList [] (by decide)).2.2.1.2
      (by decide)),
   fun hset => absurd
    (((C18_parseMRZ_dates "P<INDKUMAR<<RAV1<<<<<<<<<<<<<<<<<<<<<<<<<<<<".toList
      "A1234567<81ND85X2139M2501017<<<<<<<<<<<<<<04".toList [] (by decide)).2.1.1).mp hset)
    (by decide)⟩

/-- C19. For every pair of lines whose line 2 has at least 44 characters,
`parseMRZ` sets `gender` to `Male` when the character at index 20 of line 2 is `M`,
to `Female` when it is `F`, and leaves `gender` unset for every other character. -/
theorem C19_parseMRZ_gender (l1 l2 : Str) (rest : List Str) (h : 44 ≤ l2.length) :
    (l2[20]? = some 'M' →
        (Passport.parseMRZ (l1 :: l2 :: rest)).gender = .str "Male".toList)
      ∧ (l2[20]? = some 'F' →
        (Passport.parseMRZ (l1 :: l2 :: rest)).gender = .str "Female".toList)
      ∧ (l2[20]? ≠ some 'M' → l2[20]? ≠ some 'F' →
        (Passport.parseMRZ (l1 :: l2 :: rest)).gender = .undefined) := by
  have h20 : 20 < l2.length := by omega
  have hget : l2[20]? = some l2[20] := List.getElem?_eq_getElem h20
  have hsub : substring l2 20 21 = [l2[20]] := substring_one l2 20 _ hget
  rw [parseMRZ_cons_cons, parseLine2_long _ _ h, hsub, hget]
  dsimp only
  refine ⟨?_, ?_, ?_⟩
  · intro hm
    have : l2[20] = 'M' := Option.some.inj hm
    rw [this]
    rfl
  · intro hf
    have : l2[20] = 'F' := Option.some.inj hf
    rw [this]
    rfl
  · intro hm hf
    have h1 : l2[20] ≠ 'M' := fun e => hm (by rw [e])
    have h2 : l2[20] ≠ 'F' := fun e => hf (by rw [e])
    rw [if_neg (by simpa using h1), if_neg (by simpa using h2)]
    exact (parseLine1_line2_fields l1).2.2.2.1

/-- C19, on three lines 2 whose character at index 20 is `M`, `F` and `<`. -/
theorem C19_parseMRZ_gender_witness :
    (Passport.parseMRZ ["P<INDKUMAR<<RAV1<<<<<<<<<<<<<<<<<<<<<<<<<<<<".toList,
        "A1234567<81ND8502139M2501017<<<<<<<<<<<<<<04".toList]).gender = .str "Male".toList
      ∧ (Passport.parseMRZ ["P<INDKUMAR<<RAV1<<<<<<<<<<<<<<<<<<<<<<<<<<<<".toList,
        "A1234567<81ND8502139F2501017<<<<<<<<<<<<<<04".toList]).gender = .str "Female".toList
      ∧ (Passport.parseMRZ ["P<INDKUMAR<<RAV1<<<<<<<<<<<<<<<<<<<<<<<<<<<<".toList,
        "A1234567<81ND8502139<2501017<<<<<<<<<<<<<<04".toList]).gender = .undefined :=
  ⟨(C19_parseMRZ_gender "P<INDKUMAR<<RAV1<<<<<<<<<<<<<<<<<<<<<<<<<<<<".toList
      "A1234567<81ND8502139M2501017<<<<<<<<<<<<<<04".toList [] (by decide)).1 (by decide),
   (C19_parseMRZ_gender "P<INDKUMAR<<RAV1<<<<<<<<<<<<<<<<<<<<<<<<<<<<".toList
      "A1234567<81ND8502139F2501017<<<<<<<<<<<<<<04".toList [] (by decide)).2.1 (by decide),
   (C19_parseMRZ_gender "P<INDKUMAR<<RAV1<<<<<<<<<<<<<<<<<<<<<<<<<<<<".toList
      "A1234567<81ND8502139<2501017<<<<<<<<<<<<<<04".toList [] (by decide)).2.2 (by decide)
      (by decide)⟩

/-- C20. For a list of fewer than two candidate lines `parseMRZ` returns the empty
record, in which no field is set; for a list of two lines or more the result is
the one for its first two lines, whatever the other lines are. -/
theorem C20_parseMRZ_uses_first_two_lines (mrzLines : List Str) :
    (mrzLines.length < 2 →
        Passport.parseMRZ mrzLines
          = ⟨.undefined, .undefined, .undefined, .undefined, .undefined, .undefined,
             .undefined, .undefined, .undefined⟩)
      ∧ (2 ≤ mrzLines.length → ∀ others : List Str,
          Passport.parseMRZ mrzLines = Passport.parseMRZ (mrzLines.take 2 ++ others)) := by
  constructor
  · intro h
    unfold Passport.parseMRZ
    rw [if_pos h]
  · intro h others
    match mrzLines, h with
    | l1 :: l2 :: rest, _ => rfl

/-- C20, on lists of zero, one and three lines. -/
theorem C20_parseMRZ_uses_first_two_lines_witness :
    Passport.parseMRZ ["P<INDKUMAR<<RAV1<<<<<<<<<<<<<<<<<<<<<<<<<<<<".toList]
        = ⟨.undefined, .undefined, .undefined, .undefined, .undefined, .undefined,
           .undefined, .undefined, .undefined⟩
      ∧ Passport.parseMRZ ["P<INDKUMAR<<RAV1<<<<<<<<<<<<<<<<<<<<<<<<<<<<".toList,
          "A1234567<81ND8502139M2501017<<<<<<<<<<<<<<04".toList,
          "P<GBR5M1TH<<J0HN<<<<<<<<<<<<<<<<<<<<<<<<<<<<".toList]
        = Passport.parseMRZ (["P<INDKUMAR<<RAV1<<<<<<<<<<<<<<<<<<<<<<<<<<<<".toList,
          "A1234567<81ND8502139M2501017<<<<<<<<<<<<<<04".toList] ++ []) :=
  ⟨(C20_parseMRZ_uses_first_two_lines
      ["P<INDKUMAR<<RAV1<<<<<<<<<<<<<<<<<<<<<<<<<<<<".toList]).1 (by decide),
   (C20_parseMRZ_uses_first_two_lines
      ["P<INDKUMAR<<RAV1<<<<<<<<<<<<<<<<<<<<<<<<<<<<".toList,
       "A1234567<81ND8502139M2501017<<<<<<<<<<<<<<04".toList,
       "P<GBR5M1TH<<J0HN<<<<<<<<<<<<<<<<<<<<<<<<<<<<".toList]).2 (by decide) []⟩

/-- C21.  When no line contains three groups of four digits separated by
whitespace but some line contains twelve consecutive digits,
`extractAadhaarNumber` returns the leftmost twelve consecutive digits of the
first line that has any, regrouped as four digits, a space, four digits, a
space, four digits. -/
theorem C21_twelve_digits_regrouped (text : Str)
    (h1 : ∀ l ∈ splitLines text, ¬ Aadhar.ContainsGrouped l)
    (h2 : ∃ l ∈ splitLines text, Aadhar.ContainsTwelve l) :
    ∃ pre line post a ds b, splitLines text = pre ++ line :: post
      ∧ (∀ l ∈ pre, ¬ Aadhar.ContainsTwelve l)
      ∧ line = a ++ ds ++ b ∧ Aadhar.TwelveDigits ds
      ∧ (∀ a2 ds2 b2, line = a2 ++ ds2 ++ b2 → Aadhar.TwelveDigits ds2 → a.length ≤ a2.length)
      ∧ Aadhar.extractAadhaarNumber text
          = ds.take 4 ++ [' '] ++ (ds.drop 4).take 4 ++ [' '] ++ (ds.drop 8).take 4 := by
  rcases extractAadhaarNumber_cases text with
    ⟨pre, line, post, a, w, b, hsplit, _, hl, hg, _, _⟩ | ⟨_, h⟩ | ⟨_, hno, _⟩
  · exact absurd ⟨a, w, b, hl, hg⟩ (h1 line (by rw [hsplit]; simp))
  · exact h
  · obtain ⟨l, hl, hc⟩ := h2
    exact absurd hc (hno l hl)

/-- C21 on the text `ID 123456789012`: the number is `1234 5678 9012`. -/
theorem C21_twelve_digits_regrouped_witness :
    (∀ l ∈ splitLines "ID 123456789012".toList, ¬ Aadhar.ContainsGrouped l)
    ∧ (∃ l ∈ splitLines "ID 123456789012".toList, Aadhar.ContainsTwelve l)
    ∧ (∃ pre line post a ds b, splitLines "ID 123456789012".toList = pre ++ line :: post
      ∧ (∀ l ∈ pre, ¬ Aadhar.ContainsTwelve l)
      ∧ line = a ++ ds ++ b ∧ Aadhar.TwelveDigits ds
      ∧ (∀ a2 ds2 b2, line = a2 ++ ds2 ++ b2 → Aadhar.TwelveDigits ds2 → a.length ≤ a2.length)
      ∧ Aadhar.extractAadhaarNumber "ID 123456789012".toList
          = ds.take 4 ++ [' '] ++ (ds.drop 4).take 4 ++ [' '] ++ (ds.drop 8).take 4)
    ∧ Aadhar.extractAadhaarNumber "ID 123456789012".toList = "1234 5678 9012".toList := by
  have hlines : splitLines "ID 123456789012".toList = ["ID 123456789012".toList] := by decide
  have h1 : ∀ l ∈ splitLines "ID 123456789012".toList, ¬ Aadhar.ContainsGrouped l := by
    intro l hl
    rw [hlines, List.mem_singleton] at hl
    subst hl
    rw [← test_reGrouped_iff]
    decide
  have h2 : ∃ l ∈ splitLines "ID 123456789012".toList, Aadhar.ContainsTwelve l :=
    ⟨"ID 123456789012".toList, by rw [hlines]; simp, (test_reTwelve_iff _).mp (by decide)⟩
  exact ⟨h1, h2, C21_twelve_digits_regrouped _ h1 h2, by decide⟩

/-- C22.  When some line contains three groups of four digits separated by
whitespace, `extractAadhaarNumber` returns the grouped number that starts at the
leftmost place of the first such line, as it stands in the text, whatever runs of
twelve digits the text has elsewhere. -/
theorem C22_grouped_number_first (text : Str)
    (h : ∃ l ∈ splitLines text, Aadhar.ContainsGrouped l) :
    ∃ pre line post a w b, splitLines text = pre ++ line :: post
      ∧ (∀ l ∈ pre, ¬ Aadhar.ContainsGrouped l)
      ∧ line = a ++ w ++ b ∧ Aadhar.GroupedNumber w
      ∧ (∀ a2 w2 b2, line = a2 ++ w2 ++ b2 → Aadhar.GroupedNumber w2 → a.length ≤ a2.length)
      ∧ (∀ w2 b2, line = a ++ w2 ++ b2 → Aadhar.GroupedNumber w2 → w2 = w)
      ∧ Aadhar.extractAadhaarNumber text = w := by
  rcases extractAadhaarNumber_cases text with
    ⟨pre, line, post, a, w, b, hsplit, hpre, hl, hg, hleft, hres⟩ | ⟨hno, _⟩ | ⟨hno, _⟩
  · refine ⟨pre, line, post, a, w, b, hsplit, hpre, hl, hg, hleft, ?_, hres⟩
    intro w2 b2 hl2 hg2
    apply groupedNumber_start_unique w2 w b2 b hg2 hg
    have h3 : a ++ (w2 ++ b2) = a ++ (w ++ b) := by
      rw [← List.append_assoc, ← List.append_assoc, ← hl, ← hl2]
    exact List.append_cancel_left h3
  · obtain ⟨l, hl, hc⟩ := h
    exact absurd hc (hno l hl)
  · obtain ⟨l, hl, hc⟩ := h
    exact absurd hc (hno l hl)

/-- C22 on a text whose first line has twelve consecutive digits and whose
second line has a grouped number: the grouped number is returned. -/
theorem C22_grouped_number_first_witness :
    (∃ l ∈ splitLines "999988887777\nNo 1234 5678 9012".toList, Aadhar.ContainsGrouped l)
    ∧ (∃ pre line post a w b,
        splitLines "999988887777\nNo 1234 5678 9012".toList = pre ++ line :: post
      ∧ (∀ l ∈ pre, ¬ Aadhar.ContainsGrouped l)
      ∧ line = a ++ w ++ b ∧ Aadhar.GroupedNumber w
      ∧ (∀ a2 w2 b2, line = a2 ++ w2 ++ b2 → Aadhar.GroupedNumber w2 → a.length ≤ a2.length)
      ∧ (∀ w2 b2, line = a ++ w2 ++ b2 → Aadhar.GroupedNumber w2 → w2 = w)
      ∧ Aadhar.extractAadhaarNumber "999988887777\nNo 1234 5678 9012".toList = w)
    ∧ Aadhar.extractAadhaarNumber "999988887777\nNo 1234 5678 9012".toList
        = "1234 5678 9012".toList := by
  have h : ∃ l ∈ splitLines "999988887777\nNo 1234 5678 9012".toList,
      Aadhar.ContainsGrouped l :=
    ⟨"No 1234 5678 9012".toList, by decide, (test_reGrouped_iff _).mp (by decide)⟩
  exact ⟨h, C22_grouped_number_first _ h, by decide⟩

/-- C23, refuted as stated: on the text `1234  5678 9012`, with two spaces
after the first group, the result is the matched text itself, which has 15
characters. -/
theorem C23_counterexample :
    Aadhar.extractAadhaarNumber "1234  5678 9012".toList = "1234  5678 9012".toList
    ∧ (Aadhar.extractAadhaarNumber "1234  5678 9012".toList).length = 15
    ∧ (Aadhar.extractAadhaarNumber "1234\t5678 9012".toList)[4]? = some '\t' := by
  decide

/-- C23, amended.  A non-empty result of `extractAadhaarNumber` is three
groups of four digits separated by non-empty runs of whitespace; when no line
contains such a grouped number, the result has the shape `XXXX XXXX XXXX` with
single spaces and 14 characters. -/
theorem C23_result_is_grouped_number (text : Str)
    (h : Aadhar.extractAadhaarNumber text ≠ []) :
    Aadhar.GroupedNumber (Aadhar.extractAadhaarNumber text)
    ∧ ((∀ l ∈ splitLines text, ¬ Aadhar.ContainsGrouped l) →
        Aadhar.CanonicalNumber (Aadhar.extractAadhaarNumber text)
        ∧ (Aadhar.extractAadhaarNumber text).length = 14) := by
  rcases extractAadhaarNumber_cases text with
    ⟨pre, line, post, a, w, b, hsplit, _, hl, hg, _, hres⟩
    | ⟨_, pre, line, post, a, w, b, _, _, _, hg, _, hres⟩ | ⟨_, _, hres⟩
  · refine ⟨by rw [hres]; exact hg, ?_⟩
    intro hno
    exact absurd ⟨a, w, b, hl, hg⟩ (hno line (by rw [hsplit]; simp))
  · have hc := regroup_canonical w hg
    rw [hres]
    exact ⟨canonical_grouped _ hc, fun _ => ⟨hc, canonical_length _ hc⟩⟩
  · exact absurd hres h

/-- C23 as amended, on the text `1234  5678 9012`. -/
theorem C23_result_is_grouped_number_witness :
    Aadhar.extractAadhaarNumber "1234  5678 9012".toList ≠ []
    ∧ Aadhar.GroupedNumber (Aadhar.extractAadhaarNumber "1234  5678 9012".toList)
    ∧ ((∀ l ∈ splitLines "1234  5678 9012".toList, ¬ Aadhar.ContainsGrouped l) →
        Aadhar.CanonicalNumber (Aadhar.extractAadhaarNumber "1234  5678 9012".toList)
        ∧ (Aadhar.extractAadhaarNumber "1234  5678 9012".toList).length = 14) :=
  ⟨by decide, C23_result_is_grouped_number _ (by decide)⟩

/-- C24. On a `Gender` label line followed by the line `FEMALE`, a text in which
the letter M occurs only inside the word FEMALE, `extractGender` returns `Male`:
the test of the line after the label asks `includes('MALE')` before it asks for
`FEMALE`.  The same holds after a `SEX` label. -/
theorem C24_female_after_label_yields_male :
    Aadhar.extractGender "Gender\nFEMALE".toList = "Male".toList
    ∧ Aadhar.extractGender "SEX\nFemale".toList = "Male".toList := by
  decide

/-- C25, refuted as stated: the first line `लिंग M FEMALE` contains FEMALE as a
whole word and neither SEX nor GENDER, and `extractGender` returns `Male`: the
line carries the label `लिंग`, the third alternative of the label pattern, and
the test of a label line for ` M` comes first. -/
theorem C25_counterexample :
    Aadhar.extractGender "लिंग M FEMALE".toList = "Male".toList
    ∧ Aadhar.reFemaleWord.test (toUpperCase (trim "लिंग M FEMALE".toList)) = true
    ∧ includes (toUpperCase (trim "लिंग M FEMALE".toList)) "SEX".toList = false
    ∧ includes (toUpperCase (trim "लिंग M FEMALE".toList)) "GENDER".toList = false := by
  decide

/-- C25, amended. When the first line of a text, trimmed and upper-cased,
contains FEMALE as a whole word and contains none of the labels SEX, GENDER and
`लिंग`, `extractGender` returns `Female`, whatever else the line holds (the word
MALE included). -/
theorem C25_female_word_on_first_line (text first : Str)
    (hfirst : (splitLines text).head? = some first)
    (hword : IsWholeWord "FEMALE".toList (toUpperCase (trim first)))
    (hsex : ¬ IsSubstring "SEX".toList (toUpperCase (trim first)))
    (hgender : ¬ IsSubstring "GENDER".toList (toUpperCase (trim first)))
    (hlinga : ¬ IsSubstring "लिंग".toList (toUpperCase (trim first))) :
    Aadhar.extractGender text = "Female".toList := by
  obtain ⟨rest, hlines⟩ : ∃ rest, splitLines text = first :: rest := by
    cases hs : splitLines text with
    | nil => rw [hs] at hfirst; simp at hfirst
    | cons x xs =>
      rw [hs] at hfirst
      simp only [List.head?_cons, Option.some.injEq] at hfirst
      exact ⟨xs, by rw [hfirst]⟩
  have hlab : Aadhar.reGenderLabel.test (toUpperCase (trim first)) = false := by
    rw [← Bool.not_eq_true, test_reGenderLabel _ (foldCase_toUpperCase _)]
    rintro (h | h | h)
    · exact hsex h
    · exact hgender h
    · exact hlinga h
  have hfw := test_reFemaleWord _ hword
  obtain ⟨a, b, hl, _, _⟩ := hword
  have hf : (Re.lit "FEMALE").test (toUpperCase (trim first)) = true :=
    (test_lit _ _).mpr ⟨a, b, hl⟩
  have hlen : 6 ≤ (toUpperCase (trim first)).length := by
    rw [hl]
    simp
    omega
  have hm1 : (toUpperCase (trim first) == "MALE".toList) = false := by
    rw [beq_eq_false_iff_ne]
    intro h
    rw [h] at hlen
    simp at hlen
  have hm2 : (toUpperCase (trim first) == "M".toList) = false := by
    rw [beq_eq_false_iff_ne]
    intro h
    rw [h] at hlen
    simp at hlen
  unfold Aadhar.extractGender
  rw [hlines]
  unfold Aadhar.extractGenderFrom
  simp only [hlab, hm1, hm2, hf, hfw]
  simp

/-- C25 as amended, on the text `FEMALE MALE`.  On the line `ſex m female`, whose
first letter is the long s, the hypothesis on SEX fails, since the line
upper-cases to `SEX M FEMALE`, and the result is `Male`. -/
theorem C25_female_word_on_first_line_witness :
    (splitLines "FEMALE MALE".toList).head? = some "FEMALE MALE".toList
    ∧ IsWholeWord "FEMALE".toList (toUpperCase (trim "FEMALE MALE".toList))
    ∧ Aadhar.extractGender "FEMALE MALE".toList = "Female".toList
    ∧ toUpperCase (trim "ſex m female".toList) = "SEX M FEMALE".toList
    ∧ Aadhar.extractGender "ſex m female".toList = "Male".toList := by
  have hw : IsWholeWord "FEMALE".toList (toUpperCase (trim "FEMALE MALE".toList)) :=
    ⟨[], " MALE".toList, by decide, by simp, by decide⟩
  exact ⟨by decide, hw,
    C25_female_word_on_first_line "FEMALE MALE".toList "FEMALE MALE".toList (by decide) hw
      (fun h => absurd ((includes_iff _ _).mpr h) (by decide))
      (fun h => absurd ((includes_iff _ _).mpr h) (by decide))
      (fun h => absurd ((includes_iff _ _).mpr h) (by decide)),
    by decide, by decide⟩

/-- C26, refuted as stated: on an OCR input whose text is `null` both `parse`
functions return a result, the one of the empty text, with eight entries that
all have confidence 0. -/
theorem C26_counterexample :
    (Aadhar.parse JSValue.null).fields.map (fun f => (f.field_name, f.confidence_score))
      = [("Name", 0), ("Father Name", 0), ("Date of Birth", 0), ("Gender", 0),
         ("Aadhaar Number", 0), ("Address", 0), ("PIN Code", 0), ("State", 0)]
    ∧ (Passport.parse JSValue.null).fields.map (fun f => (f.field_name, f.confidence_score))
      = [("Surname", 0), ("Given Names", 0), ("Passport Number", 0), ("Nationality", 0),
         ("Date of Birth", 0), ("Gender", 0), ("Date of Issue", 0), ("Date of Expiry", 0)] := by
  decide

/-- C26, amended. An OCR input whose text is `null` or `undefined` is read as the
empty text by both `parse` functions: the result is the one of the empty text,
in which no entry has a value, every confidence is 0 and the overall confidence
is 0. -/
theorem C26_missing_text_is_empty_text (v : JSValue) (h : v = .null ∨ v = .undefined) :
    Aadhar.parse v = Aadhar.parse (.str [])
    ∧ Passport.parse v = Passport.parse (.str [])
    ∧ (∀ f ∈ (Aadhar.parse v).fields, hasValue f = false ∧ f.confidence_score = 0)
    ∧ (∀ f ∈ (Passport.parse v).fields, hasValue f = false ∧ f.confidence_score = 0)
    ∧ (Aadhar.parse v).confidence_overall = 0
    ∧ (Passport.parse v).confidence_overall = 0 := by
  rcases h with rfl | rfl <;>
    exact ⟨rfl, rfl, by decide, by decide, aadhaar_parse_empty_overall,
      passport_parse_empty_overall⟩

/-- C26 as amended, at `null`. -/
theorem C26_missing_text_is_empty_text_witness :
    Aadhar.parse .null = Aadhar.parse (.str [])
    ∧ Passport.parse .null = Passport.parse (.str [])
    ∧ (∀ f ∈ (Aadhar.parse .null).fields, hasValue f = false ∧ f.confidence_score = 0)
    ∧ (∀ f ∈ (Passport.parse .null).fields, hasValue f = false ∧ f.confidence_score = 0)
    ∧ (Aadhar.parse .null).confidence_overall = 0
    ∧ (Passport.parse .null).confidence_overall = 0 :=
  C26_missing_text_is_empty_text .null (Or.inl rfl)

/-- C27. `normalizeText` returns its input with every vertical bar replaced by
`I`, every backtick and apostrophe removed, and then trimmed; the result holds no
vertical bar, backtick or apostrophe and neither starts nor ends with
whitespace; it is empty for the empty input; applying `normalizeText` twice gives
what applying it once gives; and the copy of the passport parser is the same
function. -/
theorem C27_normalizeText (s : Str) :
    Aadhar.normalizeText s = specNormalizeText s
    ∧ (∀ c ∈ Aadhar.normalizeText s, c ≠ '|' ∧ c ≠ BACKTICK ∧ c ≠ APOSTROPHE)
    ∧ (∀ c ∈ (Aadhar.normalizeText s).head?, isSpace c = false)
    ∧ (∀ c ∈ (Aadhar.normalizeText s).getLast?, isSpace c = false)
    ∧ Aadhar.normalizeText [] = []
    ∧ Aadhar.normalizeText (Aadhar.normalizeText s) = Aadhar.normalizeText s
    ∧ Passport.normalizeText = Aadhar.normalizeText := by
  refine ⟨normalizeText_eq_spec s, ?_, ?_, ?_, rfl, ?_, rfl⟩
  · rw [normalizeText_eq_spec]
    exact mem_specNormalizeText s
  · rw [normalizeText_eq_spec]
    exact trim_head _
  · rw [normalizeText_eq_spec]
    exact trim_last _
  · rw [normalizeText_eq_spec, normalizeText_eq_spec, specNormalizeText_idem]

/-- C27 on a text with an apostrophe, a vertical bar, a backtick and blanks at
both ends. -/
theorem C27_normalizeText_witness :
    Aadhar.normalizeText ("  it".toList ++ APOSTROPHE :: "s a |D` card \n".toList)
        = "its a ID card".toList
    ∧ Aadhar.normalizeText
          (Aadhar.normalizeText ("  it".toList ++ APOSTROPHE :: "s a |D` card \n".toList))
        = Aadhar.normalizeText ("  it".toList ++ APOSTROPHE :: "s a |D` card \n".toList) :=
  ⟨by decide,
    (C27_normalizeText ("  it".toList ++ APOSTROPHE :: "s a |D` card \n".toList)).2.2.2.2.2.1⟩

/-- C28. A line made of exactly three tokens of 2 to 4 lowercase letters
separated by single spaces (so without a digit) that contains none of the words
ward, nagar, ganj, road, street, village, district, city, town is flagged by
`isGarbageLine`, and neither the loop after an address label nor the backward
scan from a PIN line adds it to the collected address lines. -/
theorem C28_three_short_tokens_are_garbage (t1 t2 t3 : Str) (h1 : Aadhar.ShortToken t1)
    (h2 : Aadhar.ShortToken t2) (h3 : Aadhar.ShortToken t3)
    (hind : ∀ p ∈ Aadhar.addressIndicators,
      ¬ IsSubstring p.toList (t1 ++ [' '] ++ t2 ++ [' '] ++ t3)) :
    (∀ c ∈ t1 ++ [' '] ++ t2 ++ [' '] ++ t3, isDigit c = false)
    ∧ Aadhar.isGarbageLine (t1 ++ [' '] ++ t2 ++ [' '] ++ t3) = true
    ∧ (∀ ls, (t1 ++ [' '] ++ t2 ++ [' '] ++ t3) ∉ Aadhar.collectAfterLabel ls)
    ∧ (∀ ls, (t1 ++ [' '] ++ t2 ++ [' '] ++ t3) ∉ Aadhar.collectBackward ls) := by
  have hchars : ∀ c ∈ t1 ++ [' '] ++ t2 ++ [' '] ++ t3, isLower c = true ∨ c = ' ' := by
    intro c hc
    simp only [List.mem_append, List.mem_singleton] at hc
    rcases hc with (((hc | hc) | hc) | hc) | hc
    · exact Or.inl (h1.2.2 c hc)
    · exact Or.inr hc
    · exact Or.inl (h2.2.2 c hc)
    · exact Or.inr hc
    · exact Or.inl (h3.2.2 c hc)
  have hg := isGarbageLine_of_tests _ (test_reThreeShortWords t1 t2 t3 h1 h2 h3)
    (test_reAddressIndicator_false _ hchars hind)
  refine ⟨?_, hg, ?_, ?_⟩
  · intro c hc
    rcases hchars c hc with h | rfl
    · exact isLower_not_digit c h
    · decide
  · intro ls hmem
    rw [collectAfterLabel_not_garbage ls _ hmem] at hg
    exact absurd hg (by decide)
  · intro ls hmem
    rw [collectBackward_not_garbage ls _ hmem] at hg
    exact absurd hg (by decide)

/-- C28 on the line `ars suas arem`, which is dropped from the block after an
address label. -/
theorem C28_three_short_tokens_are_garbage_witness :
    Aadhar.isGarbageLine "ars suas arem".toList = true
    ∧ Aadhar.collectAfterLabel ["ars suas arem".toList, "12 Shivaji Nagar".toList]
        = ["12 Shivaji Nagar".toList]
    ∧ (∀ ls, "ars suas arem".toList ∉ Aadhar.collectAfterLabel ls)
    ∧ (∀ ls, "ars suas arem".toList ∉ Aadhar.collectBackward ls) := by
  have h := C28_three_short_tokens_are_garbage "ars".toList "suas".toList "arem".toList
    ⟨by decide, by decide, by decide⟩ ⟨by decide, by decide, by decide⟩
    ⟨by decide, by decide, by decide⟩
    (by
      intro p hp hsub
      have hinc := (includes_iff _ _).mpr hsub
      have hnone : ∀ q ∈ Aadhar.addressIndicators,
          includes ("ars".toList ++ [' '] ++ "suas".toList ++ [' '] ++ "arem".toList) q.toList
            = false := by decide
      rw [hnone p hp] at hinc
      exact absurd hinc (by decide))
  exact ⟨h.2.1, by decide, h.2.2.1, h.2.2.2⟩

/-- C29. `extractState` returns the first state of the list `statePatterns` whose
upper-cased name is a substring of the upper-cased text, wherever the names stand
in the text, and it returns the empty string exactly when no name of the list is
such a substring. -/
theorem C29_extractState_first_in_list_order (text : Str) :
    ((∃ pre state post, Aadhar.statePatterns = pre ++ state :: post
          ∧ Aadhar.NamesState text state ∧ (∀ s ∈ pre, ¬ Aadhar.NamesState text s)
          ∧ Aadhar.extractState text = state.toList)
      ∨ ((∀ s ∈ Aadhar.statePatterns, ¬ Aadhar.NamesState text s)
          ∧ Aadhar.extractState text = []))
    ∧ (Aadhar.extractState text = [] ↔ ∀ s ∈ Aadhar.statePatterns, ¬ Aadhar.NamesState text s) := by
  have hne : ∀ s ∈ Aadhar.statePatterns, s.toList ≠ [] := by decide
  unfold Aadhar.extractState
  simp only
  cases hf : Aadhar.statePatterns.find?
      (fun state => includes (toUpperCase text) (toUpperCase state.toList)) with
  | none =>
    have hno : ∀ s ∈ Aadhar.statePatterns, ¬ Aadhar.NamesState text s := by
      intro s hs
      rw [← namesState_iff]
      exact List.find?_eq_none.mp hf s hs
    exact ⟨Or.inr ⟨hno, rfl⟩, ⟨fun _ => hno, fun _ => rfl⟩⟩
  | some state =>
    obtain ⟨pre, post, h1, h2, h3⟩ := find?_decomp _ _ _ hf
    have hst : Aadhar.NamesState text state := (namesState_iff _ _).mp h2
    have hmem : state ∈ Aadhar.statePatterns := by rw [h1]; simp
    refine ⟨Or.inl ⟨pre, state, post, h1, hst, ?_, rfl⟩, ?_⟩
    · intro s hs
      rw [← namesState_iff, h3 s hs]
      simp
    · constructor
      · intro h
        exact absurd h (hne state hmem)
      · intro h
        exact absurd hst (h state hmem)

/-- C29 on a text that names Gujarat before Bihar: Bihar, which stands earlier in
the list, is returned.  Upper-casing is that of `toUpperCase`: the text `aßam`
upper-cases to `ASSAM` and names Assam, and `bıhar`, written with the dotless i,
names Bihar. -/
theorem C29_extractState_first_in_list_order_witness :
    Aadhar.extractState "Surat, Gujarat near Bihar".toList = "Bihar".toList
    ∧ ¬ (∀ s ∈ Aadhar.statePatterns, ¬ Aadhar.NamesState "Surat, Gujarat near Bihar".toList s)
    ∧ Aadhar.extractState "aßam".toList = "Assam".toList
    ∧ ¬ (∀ s ∈ Aadhar.statePatterns, ¬ Aadhar.NamesState "aßam".toList s)
    ∧ Aadhar.extractState "bıhar".toList = "Bihar".toList :=
  ⟨by decide, fun h =>
    absurd ((C29_extractState_first_in_list_order "Surat, Gujarat near Bihar".toList).2.mpr h)
      (by decide),
   by decide, fun h =>
    absurd ((C29_extractState_first_in_list_order "aßam".toList).2.mpr h) (by decide),
   by decide⟩

/-- C30. When the lines of the text yield at least one accepted candidate,
`extractFatherName` returns a candidate of maximal length, the earliest
collected one among those of that length; the line after a `father` line is
returned only when no candidate was accepted. -/
theorem C30_extractFatherName_longest_candidate (text : Str) :
    (((splitLines text).map trim).flatMap Aadhar.fatherCandidates ≠ [] →
      ∃ pre best post,
        ((splitLines text).map trim).flatMap Aadhar.fatherCandidates = pre ++ best :: post
        ∧ (∀ c ∈ pre, c.length < best.length) ∧ (∀ c ∈ post, c.length ≤ best.length)
        ∧ Aadhar.extractFatherName text = best)
    ∧ (((splitLines text).map trim).flatMap Aadhar.fatherCandidates = [] →
        Aadhar.extractFatherName text
          = Aadhar.fatherAfterKeyword ((splitLines text).map trim)) := by
  constructor
  · intro hne
    obtain ⟨pre, best, post, h1, h2, h3, t, ht⟩ := sortByLengthDesc_head _ hne
    refine ⟨pre, best, post, h1, h2, h3, ?_⟩
    unfold Aadhar.extractFatherName
    simp only [ht]
  · intro he
    unfold Aadhar.extractFatherName
    simp only [he]
    rfl

/-- C30 on a text with two relation lines of equal length and a `father` line:
the candidates are `Ram Kumar` and `Sita Devi`, and the first one is returned. -/
theorem C30_extractFatherName_longest_candidate_witness :
    ((splitLines "S/O: Ram Kumar\nD/O: Sita Devi\nfather\nRAMESH KUMAR".toList).map trim).flatMap
        Aadhar.fatherCandidates = ["Ram Kumar".toList, "Sita Devi".toList]
    ∧ Aadhar.extractFatherName "S/O: Ram Kumar\nD/O: Sita Devi\nfather\nRAMESH KUMAR".toList
        = "Ram Kumar".toList
    ∧ ∃ pre best post,
        ((splitLines "S/O: Ram Kumar\nD/O: Sita Devi\nfather\nRAMESH KUMAR".toList).map
          trim).flatMap Aadhar.fatherCandidates = pre ++ best :: post
        ∧ (∀ c ∈ pre, c.length < best.length) ∧ (∀ c ∈ post, c.length ≤ best.length)
        ∧ Aadhar.extractFatherName "S/O: Ram Kumar\nD/O: Sita Devi\nfather\nRAMESH KUMAR".toList
            = best :=
  ⟨by decide, by decide,
    (C30_extractFatherName_longest_candidate
      "S/O: Ram Kumar\nD/O: Sita Devi\nfather\nRAMESH KUMAR".toList).1 (by decide)⟩

/-- C31. A non-empty result of `extractName` is a trimmed line of the text that
is followed by another line, that mentions none of the header words, and whose
next line is a line in capitals with the shape of a name and without digits, or
mentions male, female, dob, birth or year, or contains a date `DD/MM/YYYY`; a
text of one line yields the empty string. -/
theorem C31_name_needs_corroborating_next_line (text : Str) :
    (Aadhar.extractName text ≠ [] →
      ∃ pre next post,
        (splitLines text).map trim = pre ++ Aadhar.extractName text :: next :: post
        ∧ (∀ p ∈ Aadhar.headerKeywords, ¬ MentionsI p (Aadhar.extractName text))
        ∧ Aadhar.Corroborates next)
    ∧ ((splitLines text).length = 1 → Aadhar.extractName text = []) := by
  have main : Aadhar.extractName text ≠ [] →
      ∃ pre next post,
        (splitLines text).map trim = pre ++ Aadhar.extractName text :: next :: post
        ∧ (∀ p ∈ Aadhar.headerKeywords, ¬ MentionsI p (Aadhar.extractName text))
        ∧ Aadhar.Corroborates next := by
    intro h
    obtain ⟨pre, line, next, post, hl, hres, hsk, _, hc⟩ := extractNameFrom_some _ h
    have hres2 : Aadhar.extractName text = line := hres
    rw [hres2]
    refine ⟨pre, next, post, hl, ?_, ?_⟩
    · intro p hp hm
      have := (test_reSkipHeader line).mpr ⟨p, hp, hm⟩
      rw [hsk] at this
      exact absurd this (by decide)
    · rcases hc with ⟨h1, h2⟩ | h1 | h1
      · exact Or.inl ⟨(test_reCapsName next).mp h1, (test_digit_false_iff next).mp h2⟩
      · exact Or.inr (Or.inl ((test_reAfterName next).mp h1))
      · exact Or.inr (Or.inr ((test_reSlashDate next).mp h1))
  refine ⟨main, ?_⟩
  intro hone
  by_contra hne
  obtain ⟨pre, next, post, hl, _⟩ := main hne
  have hlen := congrArg List.length hl
  rw [List.length_map, hone] at hlen
  simp at hlen
  omega

/-- C31 on a name line followed by a line with the date of birth. -/
theorem C31_name_needs_corroborating_next_line_witness :
    Aadhar.extractName "RAHUL KUMAR\nDOB: 01/01/1990".toList = "RAHUL KUMAR".toList
    ∧ Aadhar.extractName "RAHUL KUMAR".toList = []
    ∧ ∃ pre next post,
        (splitLines "RAHUL KUMAR\nDOB: 01/01/1990".toList).map trim
          = pre ++ Aadhar.extractName "RAHUL KUMAR\nDOB: 01/01/1990".toList :: next :: post
        ∧ (∀ p ∈ Aadhar.headerKeywords,
            ¬ MentionsI p (Aadhar.extractName "RAHUL KUMAR\nDOB: 01/01/1990".toList))
        ∧ Aadhar.Corroborates next :=
  ⟨by decide,
    (C31_name_needs_corroborating_next_line "RAHUL KUMAR".toList).2 (by decide),
    (C31_name_needs_corroborating_next_line "RAHUL KUMAR\nDOB: 01/01/1990".toList).1 (by decide)⟩

set_option maxRecDepth 100000 in
/-- C32, refuted as stated: a line of 41 capital letters followed by the line
`MALE` is returned as the name, and it has 41 characters. -/
theorem C32_counterexample :
    Aadhar.extractName "ABCDEFGHIJKLMNOPQRSTUVWXYZABCDEFGHIJKLMNO\nMALE".toList
      = "ABCDEFGHIJKLMNOPQRSTUVWXYZABCDEFGHIJKLMNO".toList
    ∧ (Aadhar.extractName "ABCDEFGHIJKLMNOPQRSTUVWXYZABCDEFGHIJKLMNO\nMALE".toList).length
      = 41 := by
  decide

/-- C32, amended. A non-empty result of `extractName` starts with a letter
`A-Z`, consists of letters `A-Z` and whitespace only, and has at least 3 and at
most 41 characters. -/
theorem C32_name_is_caps_token (text : Str) (h : Aadhar.extractName text ≠ []) :
    (∀ c ∈ (Aadhar.extractName text).head?, isUpper c = true)
    ∧ (∀ c ∈ Aadhar.extractName text, isUpper c = true ∨ isSpace c = true)
    ∧ 3 ≤ (Aadhar.extractName text).length ∧ (Aadhar.extractName text).length ≤ 41 := by
  obtain ⟨pre, line, next, post, _, hres, _, hcaps, _⟩ := extractNameFrom_some _ h
  have hres2 : Aadhar.extractName text = line := hres
  rw [hres2]
  obtain ⟨c, cs, rfl, hc, h2, h40, hall⟩ := (test_reCapsName line).mp hcaps
  refine ⟨?_, ?_, ?_, ?_⟩
  · intro x hx
    simp only [List.head?_cons, Option.mem_def, Option.some.injEq] at hx
    subst hx
    exact hc
  · intro x hx
    rcases List.mem_cons.mp hx with rfl | hx
    · exact Or.inl hc
    · exact hall x hx
  · simp only [List.length_cons]
    omega
  · simp only [List.length_cons]
    omega

set_option maxRecDepth 100000 in
/-- C32 as amended, on the line of 41 capital letters. -/
theorem C32_name_is_caps_token_witness :
    Aadhar.extractName "ABCDEFGHIJKLMNOPQRSTUVWXYZABCDEFGHIJKLMNO\nMALE".toList ≠ []
    ∧ 3 ≤ (Aadhar.extractName "ABCDEFGHIJKLMNOPQRSTUVWXYZABCDEFGHIJKLMNO\nMALE".toList).length
    ∧ (Aadhar.extractName "ABCDEFGHIJKLMNOPQRSTUVWXYZABCDEFGHIJKLMNO\nMALE".toList).length
        ≤ 41 :=
  ⟨by decide,
    (C32_name_is_caps_token "ABCDEFGHIJKLMNOPQRSTUVWXYZABCDEFGHIJKLMNO\nMALE".toList
      (by decide)).2.2⟩

/-- C33, refuted as stated: the heuristics are tried line by line, so a
`YOB` line before the line with the labelled date wins, and so does a label line
whose next line holds a date. -/
theorem C33_counterexample :
    Aadhar.extractDOB "YOB: 1990\nDOB: 01/01/1990".toList = "1990".toList
    ∧ Aadhar.extractDOB "Date of Birth\n05/06/1990\nDOB: 01/01/1991".toList
        = "05/06/1990".toList := by
  decide

/-- C33, amended. When a line holds a label of the date of birth (`DOB`,
`Date of Birth`, `Birth`, in any letter case) directly followed, after optional
colons and whitespace, by a date of two digits, two digits and four digits
separated by `/` or `-`, when that line does not mention `जन्म`, and when no
earlier line mentions `DOB`, `Birth`, `जन्म` or `YOB`, `extractDOB` returns the
date of the leftmost such labelled date of that line. -/
theorem C33_labelled_date_wins_on_first_label_line (text : Str) (pre : List Str)
    (line : Str) (post : List Str) (hsplit : splitLines text = pre ++ line :: post)
    (hline : ∃ a w d b, line = a ++ w ++ b ∧ Aadhar.LabelledDate w d)
    (hhindi : ¬ MentionsI "जन्म" line)
    (hpre : ∀ l ∈ pre, ¬ MentionsI "DOB" l ∧ ¬ MentionsI "Birth" l ∧ ¬ MentionsI "जन्म" l
      ∧ ¬ MentionsI "YOB" l) :
    ∃ a w b, line = a ++ w ++ b ∧ Aadhar.LabelledDate w (Aadhar.extractDOB text)
      ∧ ∀ a2 w2 d2 b2, line = a2 ++ w2 ++ b2 → Aadhar.LabelledDate w2 d2 →
          a.length ≤ a2.length := by
  obtain ⟨a, w, d, b, hl, hld⟩ := hline
  cases he : Aadhar.reLabelledDate.exec line with
  | none =>
    exact absurd (accepts_reLabelledDate a.reverse w d b hld)
      ((exec_none_iff _ _).mp he a w b hl)
  | some m =>
    have hres : Aadhar.extractDOB text = (m.get 1).strD := by
      unfold Aadhar.extractDOB
      simp only
      rw [hsplit, dobLabelled_skip_all pre _ hpre, Aadhar.dobLabelled, he]
    rw [hres]
    exact exec_reLabelledDate line m he hhindi

/-- C33 as amended, on a text whose second line holds the labelled date. -/
theorem C33_labelled_date_wins_on_first_label_line_witness :
    Aadhar.extractDOB "RAHUL KUMAR\nDOB: 01/01/1990\nYOB 1991".toList = "01/01/1990".toList
    ∧ ∃ a w b, "DOB: 01/01/1990".toList = a ++ w ++ b
      ∧ Aadhar.LabelledDate w
          (Aadhar.extractDOB "RAHUL KUMAR\nDOB: 01/01/1990\nYOB 1991".toList)
      ∧ ∀ a2 w2 d2 b2, "DOB: 01/01/1990".toList = a2 ++ w2 ++ b2 →
          Aadhar.LabelledDate w2 d2 → a.length ≤ a2.length := by
  refine ⟨by decide, C33_labelled_date_wins_on_first_label_line
    "RAHUL KUMAR\nDOB: 01/01/1990\nYOB 1991".toList ["RAHUL KUMAR".toList]
    "DOB: 01/01/1990".toList ["YOB 1991".toList] (by decide) ?_ ?_ ?_⟩
  · exact ⟨[], "DOB: 01/01/1990".toList, "01/01/1990".toList, [], by decide,
      "DOB".toList, ": ".toList, by decide, Or.inl (by decide), by decide,
      "01".toList, '/', "01".toList, '/', "1990".toList, by decide,
      ⟨by decide, by decide⟩, by decide, ⟨by decide, by decide⟩, by decide,
      ⟨by decide, by decide⟩⟩
  · exact fun h => absurd ((includes_iff _ _).mpr h) (by decide)
  · intro l hl
    simp only [List.mem_singleton] at hl
    subst hl
    exact ⟨fun h => absurd ((includes_iff _ _).mpr h) (by decide),
      fun h => absurd ((includes_iff _ _).mpr h) (by decide),
      fun h => absurd ((includes_iff _ _).mpr h) (by decide),
      fun h => absurd ((includes_iff _ _).mpr h) (by decide)⟩

/-- C34, refuted as stated: after the label `PIN` the first six digits of a run
of seven are returned, and after an `Address` line the first six digits of a
run of twelve. -/
theorem C34_counterexample :
    Aadhar.extractPIN "PIN 1234567".toList = "123456".toList
    ∧ Aadhar.extractPIN "Address\n123456789012".toList = "123456".toList := by
  decide

/-- C34, amended. A non-empty result of `extractPIN` is six decimal digits that
stand consecutively in some line of the text; when no line mentions `PIN`,
`address` or `पता`, they stand there as a whole word, with no digit (and no
other word character) right before or right after them. -/
theorem C34_pin_is_six_digits_of_a_line (text : Str) (h : Aadhar.extractPIN text ≠ []) :
    DigitRun 6 (Aadhar.extractPIN text)
    ∧ (∃ l ∈ splitLines text, IsSubstring (Aadhar.extractPIN text) l)
    ∧ ((∀ l ∈ splitLines text,
          ¬ MentionsI "PIN" l ∧ ¬ MentionsI "address" l ∧ ¬ MentionsI "पता" l) →
        ∃ l ∈ splitLines text, IsWholeWord (Aadhar.extractPIN text) l) := by
  unfold Aadhar.extractPIN at h ⊢
  simp only at h ⊢
  split at h
  · rename_i m hf
    obtain ⟨pre, line, post, hsplit, hm, _⟩ := List.findSome?_eq_some_iff.mp hf
    have hmem : line ∈ splitLines text := by rw [hsplit]; simp
    obtain ⟨a, b, hl, hd, hpin⟩ := exec_reLabelledPin line m hm
    exact ⟨hd, ⟨line, hmem, a, b, hl⟩, fun hno => absurd hpin (hno line hmem).1⟩
  · rename_i hf
    split at h
    · rename_i m hf2
      obtain ⟨pre, line, post, hsplit, hm, _⟩ := List.findSome?_eq_some_iff.mp hf2
      have hmem : line ∈ splitLines text := by rw [hsplit]; simp
      split_ifs at hm
      obtain ⟨hd, hw⟩ := exec_reSixDigitToken line m hm
      obtain ⟨a, b, hl, _, _⟩ := id hw
      exact ⟨hd, ⟨line, hmem, a, b, hl⟩, fun _ => ⟨line, hmem, hw⟩⟩
    · rename_i hf2
      cases hp : Aadhar.pinNearAddress (splitLines text) with
      | none => rw [hp] at h; exact absurd rfl h
      | some r =>
        obtain ⟨⟨l1, hl1, haddr⟩, l2, hl2, a, b, hl, hd⟩ := pinNearAddress_some _ r hp
        simp only [Option.getD_some]
        refine ⟨hd, ⟨l2, hl2, a, b, hl⟩, ?_⟩
        intro hno
        rcases haddr with h1 | h1
        · exact absurd h1 (hno l1 hl1).2.1
        · exact absurd h1 (hno l1 hl1).2.2

/-- C34 as amended, on a text whose PIN stands alone on the second line. -/
theorem C34_pin_is_six_digits_of_a_line_witness :
    Aadhar.extractPIN "Bhopal, Madhya Pradesh\n462001".toList = "462001".toList
    ∧ DigitRun 6 (Aadhar.extractPIN "Bhopal, Madhya Pradesh\n462001".toList)
    ∧ (∃ l ∈ splitLines "Bhopal, Madhya Pradesh\n462001".toList,
        IsSubstring (Aadhar.extractPIN "Bhopal, Madhya Pradesh\n462001".toList) l) :=
  ⟨by decide,
    (C34_pin_is_six_digits_of_a_line "Bhopal, Madhya Pradesh\n462001".toList (by decide)).1,
    (C34_pin_is_six_digits_of_a_line "Bhopal, Madhya Pradesh\n462001".toList (by decide)).2.1⟩

/-- C35. For a day `d` of one or two digits, a month abbreviation `mo` (the
`i`-th of JAN..DEC, in any letter case) and a year `yy` of two digits, separated
by whitespace, with or without a second-language suffix (`/` and three letters,
with optional whitespace) after the month, `standardizeDate` returns `d` padded
to two digits, `/`, the month number `i + 1` in two digits, `/`, `19` or `20`
(`19` when `yy` is more than 50) and `yy`; and for two digits, two digits and
four digits separated by `/` or `-` it returns the same digits separated by `/`. -/
theorem C35_standardizeDate (d S1 mo sfx S4 yy dd mm yyyy : Str) (i : Nat) (s1 s2 : Char)
    (hd : DigitRun 1 d ∨ DigitRun 2 d) (hS1 : Aadhar.Blank S1) (hi : i < 12)
    (hmo : foldCase mo = (Passport.monthNames.getD i "").toList)
    (hsfx : sfx = [] ∨ Passport.MonthSuffix sfx) (hS4 : Aadhar.Blank S4)
    (hyy : DigitRun 2 yy) (hdd : DigitRun 2 dd) (hmm : DigitRun 2 mm)
    (hyyyy : DigitRun 4 yyyy) (h1 : s1 = '/' ∨ s1 = '-') (h2 : s2 = '/' ∨ s2 = '-') :
    Passport.standardizeDate (d ++ S1 ++ mo ++ sfx ++ S4 ++ yy)
        = padStart0 2 d ++ ['/'] ++ twoDigits (i + 1) ++ ['/']
            ++ ((if 50 < digitsValue yy then ['1', '9'] else ['2', '0']) ++ yy)
    ∧ Passport.standardizeDate (dd ++ [s1] ++ mm ++ [s2] ++ yyyy)
        = dd ++ ['/'] ++ mm ++ ['/'] ++ yyyy := by
  constructor
  · apply standardizeDate_month d S1 mo sfx S4 yy i ?_ hS1 hi hmo hsfx hS4 hyy
    rcases hd with h | h
    · exact ⟨⟨by rw [h.1], by rw [h.1]; decide⟩, h.2⟩
    · exact ⟨⟨by rw [h.1]; decide, by rw [h.1]⟩, h.2⟩
  · apply standardizeDate_numeric dd mm yyyy s1 s2 hdd hmm hyyyy
    · rcases h1 with rfl | rfl <;> decide
    · rcases h2 with rfl | rfl <;> decide

/-- C35 on `13 Feb /FEV 99` and `01-02-1990`. -/
theorem C35_standardizeDate_witness :
    Passport.standardizeDate "13 Feb /FEV 99".toList = "13/02/1999".toList
    ∧ Passport.standardizeDate "01-02-1990".toList = "01/02/1990".toList := by
  have h := C35_standardizeDate "13".toList " ".toList "Feb".toList " /FEV".toList " ".toList
    "99".toList "01".toList "02".toList "1990".toList 1 '-' '-'
    (Or.inr ⟨by decide, by decide⟩) ⟨by decide, by decide⟩ (by decide) (by decide)
    (Or.inr ⟨" ".toList, [], "FEV".toList, by decide, by decide, by decide, by decide,
      by decide⟩)
    ⟨by decide, by decide⟩ ⟨by decide, by decide⟩ ⟨by decide, by decide⟩
    ⟨by decide, by decide⟩ ⟨by decide, by decide⟩ (Or.inr rfl) (Or.inr rfl)
  exact h

/-- C36. On the text `Date of Birth 13 FEB 199` the date of birth read from the
text is `13/02/199`, of 9 characters: the pattern takes a year of two to four
digits and only a year of two digits gets its century.  For every text and every
field name the result is empty or has two digits, a slash, two digits, a slash
and three or four digits. -/
theorem C36_three_digit_year_passes_through :
    Passport.extractDateFromText "Date of Birth 13 FEB 199".toList "dateOfBirth"
        = "13/02/199".toList
    ∧ (Passport.extractDateFromText "Date of Birth 13 FEB 199".toList "dateOfBirth").length = 9
    ∧ ∀ (text : Str) (fieldName : String),
        Passport.extractDateFromText text fieldName = []
          ∨ Passport.DateShape (Passport.extractDateFromText text fieldName) := by
  refine ⟨by decide, by decide, ?_⟩
  intro text fieldName
  unfold Passport.extractDateFromText
  cases Passport.fieldTerms fieldName with
  | none => exact Or.inl rfl
  | some t => exact dateAfterLabel_shape t _

/-- C37. On the text `Surname` / `Smith` the text fallback for the surname
returns `Smith`, which is not an all-caps token: when the test for capitals fails
on the line after the label, the code goes on to the test written for the other
fields and returns any line of 1 to 29 characters.  For every text the result is
empty, or it is the trimmed line after a line in which the label pattern is
found, and it is an all-caps token or has 1 to 29 characters. -/
theorem C37_surname_fallback_returns_any_short_line :
    Passport.extractFromText "Surname\nSmith".toList "surname" = "Smith".toList
    ∧ ¬ Passport.CapsToken "Smith".toList
    ∧ Passport.fromNextLine "surname" "Smith".toList = some "Smith".toList
    ∧ Passport.reCapsWords.test "Smith".toList = false
    ∧ ∀ text : Str, Passport.extractFromText text "surname" = []
        ∨ ∃ pre line next post pats pattern, splitLines text = pre ++ line :: next :: post
          ∧ Passport.patterns "surname" = some pats ∧ pattern ∈ pats
          ∧ pattern.test (trim line) = true
          ∧ Passport.extractFromText text "surname" = trim next
          ∧ (Passport.CapsToken (trim next)
            ∨ (0 < (trim next).length ∧ (trim next).length < 30)) := by
  refine ⟨by decide, ?_, by decide, by decide, ?_⟩
  · intro h
    have := h.1 'm' (by decide)
    revert this
    decide
  · intro text
    by_cases h : Passport.extractFromText text "surname" = []
    · exact Or.inl h
    · obtain ⟨pre, line, next, post, pats, pattern, h1, h2, h3, h4, h5, h6⟩ :=
        extractFromText_surname text h
      refine Or.inr ⟨pre, line, next, post, pats, pattern, h1, h2, h3, h4, h5, ?_⟩
      rcases h6 with ⟨ht, hl1, hl2⟩ | h6
      · exact Or.inl ⟨test_reCapsWords _ ht, hl1, hl2⟩
      · exact Or.inr h6

/-- C38. `extractAadhaarNumber` is the function that applies pattern 1 and
pattern 2 only, and it returns the empty string exactly when no line contains a
grouped number or twelve consecutive digits. -/
theorem C38_keyword_strategy_never_contributes (text : Str) :
    Aadhar.extractAadhaarNumber text = Aadhar.numberFromTwoPatterns text
    ∧ (Aadhar.extractAadhaarNumber text = [] ↔
        ∀ l ∈ splitLines text, ¬ Aadhar.ContainsGrouped l ∧ ¬ Aadhar.ContainsTwelve l) := by
  constructor
  · unfold Aadhar.extractAadhaarNumber Aadhar.numberFromTwoPatterns
    simp only
    cases h1 : (splitLines text).findSome? (fun line => Aadhar.reGrouped.exec line) with
    | some m => rfl
    | none =>
      cases h2 : (splitLines text).findSome? (fun line => Aadhar.reTwelve.exec line) with
      | some m => rfl
      | none =>
        have hno : ∀ l ∈ splitLines text,
            ¬ Aadhar.ContainsGrouped l ∧ ¬ Aadhar.ContainsTwelve l := fun l hl =>
          ⟨(exec_reGrouped_none_iff l).mp (List.findSome?_eq_none_iff.mp h1 l hl),
            (exec_reTwelve_none_iff l).mp (List.findSome?_eq_none_iff.mp h2 l hl)⟩
        simp only [aadhaarNearKeyword_none _ hno]
        rfl
  · rcases extractAadhaarNumber_cases text with
      ⟨pre, line, post, a, w, b, hsplit, _, hl, hg, _, hres⟩
      | ⟨_, pre, line, post, a, w, b, hsplit, _, hl, hg, _, hres⟩ | ⟨h1, h2, hres⟩
    · have hne : w ≠ [] := by
        intro h0
        obtain ⟨d1, s1, d2, s2, d3, hw, hd1, _⟩ := hg
        rw [h0] at hw
        have hlen := congrArg List.length hw
        simp [hd1.1] at hlen
        omega
      constructor
      · intro h
        rw [hres] at h
        exact absurd h hne
      · intro h
        exact absurd ⟨a, w, b, hl, hg⟩ (h line (by rw [hsplit]; simp)).1
    · constructor
      · intro h
        have hlen := canonical_length _ (regroup_canonical w hg)
        rw [← hres, h] at hlen
        simp at hlen
      · intro h
        exact absurd ⟨a, w, b, hl, hg⟩ (h line (by rw [hsplit]; simp)).2
    · exact ⟨fun _ l hl => ⟨h1 l hl, h2 l hl⟩, fun _ => hres⟩

/-- C38 on a text with the keyword `UID` and a number in four groups of three,
which neither pattern 1 nor pattern 2 accepts: the result is empty. -/
theorem C38_keyword_strategy_never_contributes_witness :
    Aadhar.extractAadhaarNumber "UID 123 456 789 012".toList = []
    ∧ Aadhar.extractAadhaarNumber "UID 123 456 789 012".toList
        = Aadhar.numberFromTwoPatterns "UID 123 456 789 012".toList :=
  ⟨by decide, (C38_keyword_strategy_never_contributes "UID 123 456 789 012".toList).1⟩

/-- C39. For every text, the surname and the given names of the record decoded
from the zone hold none of the characters `B`, `Z`, `S`, `L`, `0`, `1` and `<`. -/
theorem C39_mrz_names_without_corrected_letters (text : Str) (c : Char)
    (hc : c ∈ ['B', 'Z', 'S', 'L', '0', '1', '<']) :
    c ∉ (Passport.parseMRZ (Passport.extractMRZ text)).surname.strD
    ∧ c ∉ (Passport.parseMRZ (Passport.extractMRZ text)).givenNames.strD := by
  cases he : Passport.extractMRZ text with
  | nil => exact ⟨by simp [Passport.parseMRZ, JSValue.strD], by simp [Passport.parseMRZ, JSValue.strD]⟩
  | cons l1 t =>
    cases t with
    | nil => exact ⟨by simp [Passport.parseMRZ, JSValue.strD], by simp [Passport.parseMRZ, JSValue.strD]⟩
    | cons l2 rest =>
      have hl1 : ∀ x ∈ l1, x ∉ ['O', 'B', 'Z', 'S', 'I', 'L', '|'] := fun x hx =>
        ((extractMRZ_line_shape text l1 (by rw [he]; simp)).2.2 x hx).2
      obtain ⟨hs, hg⟩ := parseMRZ_names l1 l2 rest
      rw [hs, hg]
      cases hP : (startsWith l1 ['P', '<'] || startsWith l1 ['P', '0']) with
      | false =>
        rw [parseLine1_other l1 hP]
        exact ⟨by simp [JSValue.strD], by simp [JSValue.strD]⟩
      | true =>
        have hP2 : startsWith l1 ['P', '<'] = true ∨ startsWith l1 ['P', '0'] = true := by
          simpa using hP
        obtain ⟨h1, h2⟩ := parseLine1_names l1 hP2
        rw [h1, h2]
        have hdrop : ∀ x ∈ l1.drop 5, x ∉ ['O', 'B', 'Z', 'S', 'I', 'L', '|'] :=
          fun x hx => hl1 x (List.mem_of_mem_drop hx)
        constructor
        · exact decodeName_clean _ (fun x hx => hdrop x (mem_beforeFiller _ x hx)) c hc
        · cases ha : Passport.afterFiller (l1.drop 5) with
          | none => simp [JSValue.strD]
          | some r =>
            exact decodeName_clean _
              (fun x hx => hdrop x (mem_afterFiller _ r ha x (mem_beforeFiller _ x hx))) c hc

set_option maxRecDepth 100000 in
/-- C39 on a text whose zone spells the surname `SMITH` and the given name
`JOHN`: the corrected zone reads `5M1TH` and `J0HN`, the decoded names are
`5MITH` and `JOHN`, and neither holds an `S`. -/
theorem C39_mrz_names_without_corrected_letters_witness :
    (Passport.parseMRZ (Passport.extractMRZ
        "P<INDSMITH<<JOHN<<<<<<<<<<<<<<<<<<<<<<<<<<<<\nA1234567<8IND9001011M3001018<<<<<<<<<<<<<<02".toList)).surname
      = .str "5MITH".toList
    ∧ 'S' ∉ (Passport.parseMRZ (Passport.extractMRZ
        "P<INDSMITH<<JOHN<<<<<<<<<<<<<<<<<<<<<<<<<<<<\nA1234567<8IND9001011M3001018<<<<<<<<<<<<<<02".toList)).surname.strD
    ∧ 'S' ∉ (Passport.parseMRZ (Passport.extractMRZ
        "P<INDSMITH<<JOHN<<<<<<<<<<<<<<<<<<<<<<<<<<<<\nA1234567<8IND9001011M3001018<<<<<<<<<<<<<<02".toList)).givenNames.strD :=
  ⟨by decide, C39_mrz_names_without_corrected_letters _ 'S' (by decide)⟩

/-- C40. When the overall confidence of the Aadhaar parse is at least 0.70, at
least 4 of its 5 essential entries have a value; when the overall confidence of
the passport parse is at least 0.70, at least 6 of its 8 essential entries have
a value. -/
theorem C40_threshold_implies_coverage (ocrText : JSValue) :
    (0.70 ≤ (Aadhar.parse ocrText).confidence_overall →
        4 ≤ (((Aadhar.parse ocrText).fields.take 5).filter nonEmptyValue).length)
    ∧ (0.70 ≤ (Passport.parse ocrText).confidence_overall →
        6 ≤ (((Passport.parse ocrText).fields.take 8).filter nonEmptyValue).length) := by
  constructor
  · intro h
    rw [aadhaar_parse_overall] at h
    exact overallConfidence_coverage 5 3 _ (by decide) (by rw [aadhaar_parse_length]; decide)
      (aadhaar_parse_le ocrText) (by norm_num) h
  · intro h
    rw [passport_parse_overall] at h
    exact overallConfidence_coverage 8 5 _ (by decide) (passport_parse_length_ge ocrText)
      (fun f hf => passport_buildFields_le _ _ f (by rw [← passport_parse_fields]; exact hf))
      (by norm_num) h

set_option maxRecDepth 100000 in
/-- C40 on an Aadhaar text with a name, a date of birth, a gender, a father
name and a number, and on a passport text that is a zone of two lines: the
overall confidence is at least 0.70 on both, five of the five essential entries
of the first and seven of the eight of the second have a value. -/
theorem C40_threshold_implies_coverage_witness :
    (0.70 ≤ (Aadhar.parse (.str
        "RAHUL KUMAR\nDOB: 01/01/1990\nMALE\nS/O: Ram Kumar\n1234 5678 9012".toList)).confidence_overall
      ∧ 4 ≤ (((Aadhar.parse (.str
        "RAHUL KUMAR\nDOB: 01/01/1990\nMALE\nS/O: Ram Kumar\n1234 5678 9012".toList)).fields.take 5).filter
          nonEmptyValue).length)
    ∧ (0.70 ≤ (Passport.parse (.str
        "P<INDSHARMA<<RAHUL<<<<<<<<<<<<<<<<<<<<<<<<<<\nA1234567<8IND9001011M3001018<<<<<<<<<<<<<<02".toList)).confidence_overall
      ∧ 6 ≤ (((Passport.parse (.str
        "P<INDSHARMA<<RAHUL<<<<<<<<<<<<<<<<<<<<<<<<<<\nA1234567<8IND9001011M3001018<<<<<<<<<<<<<<02".toList)).fields.take 8).filter
          nonEmptyValue).length) := by
  have hf : (Aadhar.parse (.str
        "RAHUL KUMAR\nDOB: 01/01/1990\nMALE\nS/O: Ram Kumar\n1234 5678 9012".toList)).fields
      = [⟨"Name", .str "RAHUL KUMAR".toList, 0.90⟩, ⟨"Father Name", .str "Ram Kumar".toList, 0.85⟩,
         ⟨"Date of Birth", .str "01/01/1990".toList, 0.90⟩, ⟨"Gender", .str "Male".toList, 0.95⟩,
         ⟨"Aadhaar Number", .str "1234 5678 9012".toList, 0.98⟩, ⟨"Address", .str [], 0⟩,
         ⟨"PIN Code", .str [], 0⟩, ⟨"State", .str [], 0⟩] := by rfl
  have h : 0.70 ≤ (Aadhar.parse (.str
        "RAHUL KUMAR\nDOB: 01/01/1990\nMALE\nS/O: Ram Kumar\n1234 5678 9012".toList)).confidence_overall := by
    rw [aadhaar_parse_overall, hf]
    simp [overallConfidence, hasValue]
    norm_num
  have hg : (Passport.parse (.str
        "P<INDSHARMA<<RAHUL<<<<<<<<<<<<<<<<<<<<<<<<<<\nA1234567<8IND9001011M3001018<<<<<<<<<<<<<<02".toList)).fields
      = [⟨"Surname", .str "5HARMA".toList, 0.95⟩, ⟨"Given Names", .str "RAHU".toList, 0.95⟩,
         ⟨"Passport Number", .str "A1234567".toList, 0.98⟩, ⟨"Nationality", .str "1ND".toList, 0.95⟩,
         ⟨"Date of Birth", .str "01/01/1990".toList, 0.85⟩, ⟨"Gender", .str "Male".toList, 0.98⟩,
         ⟨"Date of Issue", .str [], 0⟩, ⟨"Date of Expiry", .str "01/01/2030".toList, 0.85⟩] := by rfl
  have h2 : 0.70 ≤ (Passport.parse (.str
        "P<INDSHARMA<<RAHUL<<<<<<<<<<<<<<<<<<<<<<<<<<\nA1234567<8IND9001011M3001018<<<<<<<<<<<<<<02".toList)).confidence_overall := by
    rw [passport_parse_overall, hg]
    simp [overallConfidence, hasValue]
    norm_num
  exact ⟨⟨h, (C40_threshold_implies_coverage _).1 h⟩, h2, (C40_threshold_implies_coverage _).2 h2⟩

end IDP
